import Mathlib

/-!
# Karl interpreter: a verification development

A shallow embedding of the runtime core of the Karl interpreter
(`interpreter/*.go`) together with theorems about it.

Conventions of the embedding:

* `int64` payloads are `Int`s (an in-range hypothesis is stated where a
  theorem quantifies over "every Integer"); `wrap64` is the two's-complement
  reduction.
* Go's `float64` is the type `F64`, an executable model of IEEE-754 binary64
  with round-to-nearest-even arithmetic.
* Go's `int` is taken to be 64 bits wide, so `int(idx.Value)` is the identity.
* Pointers are addresses into a `Heap`; a `Value` of a reference kind carries
  the address of its allocation.
* A call `e.Eval(node, env)` of a sub-expression is represented by its result
  triple, passed in as an `EvalResult`.
-/

namespace Karl

/-! ## IEEE-754 binary64 -/

/-- A binary64 datum. `fin neg m e` denotes `(-1)^neg * m * 2^e`; canonical
data have `m < 2^53`, `-1074 ≤ e ≤ 971`, and `2^52 ≤ m` unless `e = -1074`;
the two zeros are `fin neg 0 0`. -/
inductive F64 where
  | nan
  | inf (neg : Bool)
  | fin (neg : Bool) (m : Nat) (e : Int)
  deriving DecidableEq, Repr

namespace F64

/-- Positive zero. -/
def zero : F64 := fin false 0 0

/-- Bit length minus one of `n`, by halving at most `fuel` times. -/
def log2Aux : Nat → Nat → Nat
  | 0, _ => 0
  | fuel + 1, n => if n < 2 then 0 else log2Aux fuel (n / 2) + 1

/-- The integer `⌊log₂ n⌋` for `0 < n` (and `0` for `n = 0`). -/
def ilog2 (n : Nat) : Nat := log2Aux n n

/-- The numerator of `m * 2^e` over the denominator `2^(-e)` (or `1`). -/
def scale (m : Nat) (e : Int) : Nat := m * 2 ^ e.toNat

/-- The signed integer `(-1)^neg * m * 2^e`, for `0 ≤ e`. -/
def signed (neg : Bool) (m : Nat) (e : Int) : Int :=
  if neg then -(scale m e : Int) else (scale m e : Int)

/-- The exponent of the last place of the binary64 nearest to `n / d`: with
`2^e0 ≤ n / d < 2^(e0 + 1)` it is `e0 - 52`, and `-1074` in the subnormal range. -/
def ulpExp (n d : Nat) : Int :=
  let l : Int := (ilog2 n : Int) - (ilog2 d : Int)
  let e0 : Int := if scale d l ≤ scale n (-l) then l else l - 1
  max (e0 - 52) (-1074)

/-- The integer nearest to `n / (d * 2^e)`, ties to even. -/
def nearestEven (n d : Nat) (e : Int) : Nat :=
  let num : Nat := scale n (-e)
  let den : Nat := scale d e
  let q : Nat := num / den
  let r : Nat := num % den
  if den < 2 * r ∨ (2 * r = den ∧ q % 2 = 1) then q + 1 else q

/-- The datum with significand `m ≤ 2^53` in units of `2^e`: a significand of
`0` is a zero, one of `2^53` is renormalised, and an exponent above `971`
overflows to infinity. -/
def pack (neg : Bool) (m : Nat) (e : Int) : F64 :=
  if m = 0 then fin neg 0 0
  else if m = 2 ^ 53 then (if 971 < e + 1 then inf neg else fin neg (2 ^ 52) (e + 1))
  else if 971 < e then inf neg else fin neg m e

/-- Round the non-negative rational `n / d` (with `0 < d`) to the nearest
binary64 magnitude, ties to even, and attach the sign `neg`. Magnitudes that
round to `2^1024` or more become infinite. -/
def round (neg : Bool) (n d : Nat) : F64 :=
  if n = 0 then fin neg 0 0
  else pack neg (nearestEven n d (ulpExp n d)) (ulpExp n d)

/-- Go's `float64(i)` for an integer `i`: the nearest binary64. -/
def ofInt (z : Int) : F64 := round (decide (z < 0)) z.natAbs 1

/-- Unary minus. -/
def neg : F64 → F64
  | nan => nan
  | inf s => inf (!s)
  | fin s m e => fin (!s) m e

/-- Go's `x + y` on `float64`. -/
def add : F64 → F64 → F64
  | nan, _ => nan
  | _, nan => nan
  | inf a, inf b => if a = b then inf a else nan
  | inf a, fin _ _ _ => inf a
  | fin _ _ _, inf b => inf b
  | fin s1 m1 e1, fin s2 m2 e2 =>
    let e : Int := min e1 e2
    let z : Int := signed s1 m1 (e1 - e) + signed s2 m2 (e2 - e)
    if z = 0 then fin (s1 && s2) 0 0
    else round (decide (z < 0)) (scale z.natAbs e) (scale 1 (-e))

/-- Go's `x - y` on `float64`. -/
def sub (x y : F64) : F64 := add x (neg y)

/-- Go's `x * y` on `float64`. -/
def mul : F64 → F64 → F64
  | nan, _ => nan
  | _, nan => nan
  | inf a, inf b => inf (xor a b)
  | inf a, fin s m _ => if m = 0 then nan else inf (xor a s)
  | fin s m _, inf b => if m = 0 then nan else inf (xor s b)
  | fin s1 m1 e1, fin s2 m2 e2 =>
    round (xor s1 s2) (scale (m1 * m2) (e1 + e2)) (scale 1 (-(e1 + e2)))

/-- Go's `x / y` on `float64` variables (never a run-time panic). -/
def div : F64 → F64 → F64
  | nan, _ => nan
  | _, nan => nan
  | inf _, inf _ => nan
  | inf a, fin s _ _ => inf (xor a s)
  | fin s _ _, inf b => fin (xor s b) 0 0
  | fin s1 m1 e1, fin s2 m2 e2 =>
    if m2 = 0 then (if m1 = 0 then nan else inf (xor s1 s2))
    else round (xor s1 s2) (scale m1 (e1 - e2)) (scale m2 (e2 - e1))

/-- Go's `x == y` on `float64`: no NaN equals anything, the two zeros are equal. -/
def eq : F64 → F64 → Bool
  | nan, _ => false
  | _, nan => false
  | inf a, inf b => a == b
  | inf _, fin _ _ _ => false
  | fin _ _ _, inf _ => false
  | fin s1 m1 e1, fin s2 m2 e2 =>
    signed s1 m1 (e1 - min e1 e2) == signed s2 m2 (e2 - min e1 e2)

/-- Go's `x < y` on `float64`. -/
def lt : F64 → F64 → Bool
  | nan, _ => false
  | _, nan => false
  | inf a, inf b => a && !b
  | inf a, fin _ _ _ => a
  | fin _ _ _, inf b => !b
  | fin s1 m1 e1, fin s2 m2 e2 =>
    decide (signed s1 m1 (e1 - min e1 e2) < signed s2 m2 (e2 - min e1 e2))

/-- Go's `x <= y` on `float64`. -/
def le : F64 → F64 → Bool
  | nan, _ => false
  | _, nan => false
  | inf a, inf b => a || !b
  | inf a, fin _ _ _ => a
  | fin _ _ _, inf b => !b
  | fin s1 m1 e1, fin s2 m2 e2 =>
    decide (signed s1 m1 (e1 - min e1 e2) ≤ signed s2 m2 (e2 - min e1 e2))

/-- The datum is a NaN. -/
def isNaN : F64 → Bool
  | nan => true
  | _ => false

/-- The integer obtained by discarding the fraction of a finite datum. -/
def trunc (s : Bool) (m : Nat) (e : Int) : Int :=
  let a : Nat := scale m e / scale 1 (-e)
  if s then -(a : Int) else (a : Int)

end F64

/-- Two's-complement reduction of an integer to the `int64` range. -/
def wrap64 (z : Int) : Int := (z + 2 ^ 63) % 2 ^ 64 - 2 ^ 63

/-- The integer is representable as an `int64`. -/
def isInt64 (z : Int) : Prop := -(2 ^ 63) ≤ z ∧ z < 2 ^ 63

instance (z : Int) : Decidable (isInt64 z) := by unfold isInt64; infer_instance

/-- Go's `int64(f)` for a `float64` `f`: the fraction is discarded; when the
truncated value is not representable (or `f` is a NaN or infinite) the Go
specification leaves the result implementation-dependent, here `oor f`
reduced to the `int64` range. -/
def toInt64 (oor : F64 → Int) : F64 → Int
  | F64.fin s m e =>
    if -(2 ^ 63) ≤ F64.trunc s m e ∧ F64.trunc s m e < 2 ^ 63 then F64.trunc s m e
    else wrap64 (oor (F64.fin s m e))
  | f => wrap64 (oor f)

/-! ## Values, heap and results (`value.go`, `errors.go`) -/

/-- The `ValueType` constants of `value.go`. -/
inductive ValueType where
  | INTEGER | FLOAT | BOOLEAN | STRING | CHAR | NULL | UNIT | ARRAY
  | OBJECT | MAP | SET | FUNC | BUILTIN | TASK | CHANNEL | PARTIAL
  deriving DecidableEq, Repr

/-- The struct `MapKey` (its field `Type` is spelled `Typ`). -/
structure MapKey where
  Typ : ValueType
  Value : String
  deriving DecidableEq, Repr

/-- A Go value of interface type `Value`. `nil` is the nil interface; every
other constructor is a non-nil pointer to the struct of the same name. The
structs with immutable payloads carry the payload; the others carry the
address of their allocation, whose contents live in the `Heap`. -/
inductive Value where
  | nil
  | Integer (Value : Int)
  | Float (Value : F64)
  | Boolean (Value : Bool)
  | String (Value : String)
  | Char (Value : String)
  | Null
  | Unit
  | Array (ptr : Nat)
  | Object (ptr : Nat)
  | ModuleObject (ptr : Nat)
  | Map (ptr : Nat)
  | Set (ptr : Nat)
  | Function (ptr : Nat)
  | Builtin (ptr : Nat)
  | Task (ptr : Nat)
  | Channel (ptr : Nat)
  | Partial (ptr : Nat)
  deriving DecidableEq, Repr

/-- The method `Type()` of each value struct; it has no result on the nil
interface (a call would dereference nil). -/
def valueType : Value → Option ValueType
  | .nil => none
  | .Integer _ => some .INTEGER
  | .Float _ => some .FLOAT
  | .Boolean _ => some .BOOLEAN
  | .String _ => some .STRING
  | .Char _ => some .CHAR
  | .Null => some .NULL
  | .Unit => some .UNIT
  | .Array _ => some .ARRAY
  | .Object _ => some .OBJECT
  | .ModuleObject _ => some .OBJECT
  | .Map _ => some .MAP
  | .Set _ => some .SET
  | .Function _ => some .FUNC
  | .Builtin _ => some .BUILTIN
  | .Task _ => some .TASK
  | .Channel _ => some .CHANNEL
  | .Partial _ => some .PARTIAL

/-- A Go channel `chan Value` as one task sees it while no other task is
blocked on it: the values in its buffer, oldest first, its capacity, and
whether `close` was called on it. -/
structure Chan where
  queue : List Value
  cap : Nat
  closed : Bool
  deriving DecidableEq, Repr

/-- Modelled from the spec: the struct `Task`, whose declaration is not among
the evaluator files ("a Task has fields: `parent` (optional), `detached`
(bool), `observed` (bool) — becomes true on `await`, `then`, `race`, or
explicit marking, `cancelCh` (broadcast on cancellation)"), reduced to these
fields; `cancelCh` tells whether that channel has been closed. -/
structure TaskState where
  parent : Option Nat
  detached : Bool
  observed : Bool
  cancelCh : Bool
  deriving DecidableEq, Repr

/-- The contents of one allocation. Go maps are association lists with
pairwise distinct keys. `Environment` is a scope: its bindings and the address
of the enclosing scope. `Partial` holds the fields `Target` and `Args` that
`evalCallExpression` fills in. `Channel` holds the fields `Ch` and `Closed`
that the channel builtins read, and `Task` the fields of a task. `other`
stands for the structs whose declarations are outside the evaluator files
(functions, builtins). -/
inductive Cell where
  | Array (Elements : List Value)
  | Object (Pairs : List (String × Value))
  | ModuleObject (Env : Option Nat)
  | Map (Pairs : List (MapKey × Value))
  | Set (Elements : List MapKey)
  | Environment (store : List (String × Value)) (outer : Option Nat)
  | Partial (Target : Value) (Args : List Value)
  | Channel (Ch : Chan) (Closed : Bool)
  | Task (t : TaskState)
  | other
  deriving DecidableEq, Repr

/-- The heap: the allocation at address `p` is the `p`-th cell. -/
abbrev Heap := List Cell

/-- Allocate a new cell; its address is the first unused one. -/
def Heap.alloc (h : Heap) (c : Cell) : Heap × Nat := (h ++ [c], h.length)

/-- The slice `Elements` of the array allocated at `p`. -/
def Heap.elements (h : Heap) (p : Nat) : List Value :=
  match h[p]? with
  | some (Cell.Array es) => es
  | _ => []

/-- The map `Pairs` of the object allocated at `p`. -/
def Heap.objectPairs (h : Heap) (p : Nat) : List (String × Value) :=
  match h[p]? with
  | some (Cell.Object ps) => ps
  | _ => []

/-- The map `Pairs` of the `Map` allocated at `p`. -/
def Heap.mapPairs (h : Heap) (p : Nat) : List (MapKey × Value) :=
  match h[p]? with
  | some (Cell.Map ps) => ps
  | _ => []

/-- The map `Elements` of the `Set` allocated at `p`. -/
def Heap.setElements (h : Heap) (p : Nat) : List MapKey :=
  match h[p]? with
  | some (Cell.Set ks) => ks
  | _ => []

/-- The field `Env` of the `ModuleObject` allocated at `p` (`none` is nil). -/
def Heap.moduleEnv (h : Heap) (p : Nat) : Option Nat :=
  match h[p]? with
  | some (Cell.ModuleObject env) => env
  | _ => none

/-- Go's `m[k] = v` on a map held as an association list. -/
def mapStore {κ : Type} [DecidableEq κ] (k : κ) (v : Value) :
    List (κ × Value) → List (κ × Value)
  | [] => [(k, v)]
  | (k1, v1) :: rest => if k1 = k then (k, v) :: rest else (k1, v1) :: mapStore k v rest

/-- The struct `token.Token`, reduced to the fields the evaluator reads. -/
structure Token where
  Line : Int
  Column : Int
  deriving DecidableEq, Repr

/-- A non-nil Go `error` of the interpreter: a pointer to one of the error
structs of `errors.go`, or any other error value (`other`, with its text). -/
inductive Error where
  | RuntimeError (Message : String) (Token : Option Token)
  | RecoverableError (Message : String) (Kind : String) (Token : Option Token)
  | ExitError (Message : String)
  | UnhandledTaskError (Messages : List String)
  | other (text : String)
  deriving DecidableEq, Repr

/-- The constants `SignalBreak` and `SignalContinue`. -/
inductive SignalType where
  | SignalBreak
  | SignalContinue
  deriving DecidableEq, Repr

/-- The struct `Signal` (its field `Type` is spelled `Typ`). -/
structure Signal where
  Typ : SignalType
  Value : Value
  deriving DecidableEq, Repr

/-- The result triple `(Value, *Signal, error)` of the evaluator's functions;
`none` is a nil signal or a nil error. -/
structure EvalResult where
  val : Value
  sig : Option Signal
  err : Option Error
  deriving DecidableEq, Repr

/-- The triple `(v, nil, nil)`. -/
def EvalResult.ok (v : Value) : EvalResult := ⟨v, none, none⟩

/-- The triple `(nil, nil, &RuntimeError{Message: msg})`. -/
def EvalResult.fail (msg : String) : EvalResult :=
  ⟨Value.nil, none, some (Error.RuntimeError msg none)⟩

/-- How a Go call ends: it returns, or the goroutine panics. -/
inductive Outcome (α : Type) where
  | returns (r : α)
  | panics (msg : String)
  deriving DecidableEq, Repr

/-! ## Truthiness and equality (`eval_truthy.go`, `equality.go`) -/

/-- The function `isTruthy`. -/
def isTruthy (h : Heap) (val : Value) : Bool :=
  match val with
  | .Null => false
  | .Boolean v => v
  | .Integer v => decide (v ≠ 0)
  | .Float v => !(F64.eq v F64.zero)
  | .String v => decide (v ≠ "")
  | .Array p => decide ((h.elements p).length > 0)
  | .Object p => decide ((h.objectPairs p).length > 0)
  | .Map p => decide ((h.mapPairs p).length > 0)
  | .Set p => decide ((h.setElements p).length > 0)
  | _ => true

/-- The function `StrictEqual`. In the last two arms `left == right` compares
two interface values holding pointers: equal dynamic types and equal
addresses. -/
def StrictEqual (left right : Value) : Bool :=
  if left = Value.nil ∨ right = Value.nil then decide (left = right)
  else if valueType left ≠ valueType right then false
  else
    match left, right with
    | .Integer l, .Integer r => decide (l = r)
    | .Float l, .Float r => F64.eq l r
    | .Boolean l, .Boolean r => decide (l = r)
    | .String l, .String r => decide (l = r)
    | .Char l, .Char r => decide (l = r)
    | .Null, _ => true
    | .Unit, _ => true
    | l, r => decide (l = r)

/-! ## Prefix and infix operators (`eval.go`) -/

/-- The function `evalPrefixExpression`; `right` is the result of
`e.Eval(node.Right, env)` and `op` is `node.Operator`. -/
def evalPrefixExpression (h : Heap) (op : String) (right : EvalResult) : EvalResult :=
  if right.err.isSome ∨ right.sig.isSome then right
  else if op = "!" then EvalResult.ok (Value.Boolean (!isTruthy h right.val))
  else if op = "-" then
    match right.val with
    | .Integer v => EvalResult.ok (Value.Integer (wrap64 (-v)))
    | .Float v => EvalResult.ok (Value.Float (F64.neg v))
    | _ => EvalResult.fail "operator - expects number"
  else EvalResult.fail ("unknown prefix operator: " ++ op)

/-- The function `numberValue`. -/
def numberValue (oor : F64 → Int) (val : F64) (intResult : Bool) : Value :=
  if intResult then Value.Integer (toInt64 oor val) else Value.Float val

/-- The function `evalNumericInfix`. Go's integer `%` panics on a zero
divisor and otherwise yields the remainder of the truncated division. -/
def evalNumericInfix (oor : F64 → Int) (op : String) (left right : F64)
    (intResult : Bool) : Outcome EvalResult :=
  if op = "+" then .returns (EvalResult.ok (numberValue oor (F64.add left right) intResult))
  else if op = "-" then .returns (EvalResult.ok (numberValue oor (F64.sub left right) intResult))
  else if op = "*" then .returns (EvalResult.ok (numberValue oor (F64.mul left right) intResult))
  else if op = "/" then .returns (EvalResult.ok (Value.Float (F64.div left right)))
  else if op = "%" then
    if intResult then
      if toInt64 oor right = 0 then .panics "runtime error: integer divide by zero"
      else .returns (EvalResult.ok
        (Value.Integer (Int.tmod (toInt64 oor left) (toInt64 oor right))))
    else .returns (EvalResult.fail "modulo requires integers")
  else if op = "<" then .returns (EvalResult.ok (Value.Boolean (F64.lt left right)))
  else if op = "<=" then .returns (EvalResult.ok (Value.Boolean (F64.le left right)))
  else if op = ">" then .returns (EvalResult.ok (Value.Boolean (F64.lt right left)))
  else if op = ">=" then .returns (EvalResult.ok (Value.Boolean (F64.le right left)))
  else .returns (EvalResult.fail ("unsupported numeric operator: " ++ op))

/-- The function `evalIntegerInfix`; `left` is the payload of the left
`*Integer`. -/
def evalIntegerInfix (oor : F64 → Int) (op : String) (left : Int) (right : Value) :
    Outcome EvalResult :=
  match right with
  | .Integer r => evalNumericInfix oor op (F64.ofInt left) (F64.ofInt r) true
  | .Float r => evalNumericInfix oor op (F64.ofInt left) r false
  | _ => .returns (EvalResult.fail "type mismatch in integer operation")

/-- The function `evalFloatInfix`; `left` is the payload of the left `*Float`. -/
def evalFloatInfix (oor : F64 → Int) (op : String) (left : F64) (right : Value) :
    Outcome EvalResult :=
  match right with
  | .Integer r => evalNumericInfix oor op left (F64.ofInt r) false
  | .Float r => evalNumericInfix oor op left r false
  | _ => .returns (EvalResult.fail "type mismatch in float operation")

/-- The function `evalStringInfix`; `left` is the payload of the left
`*String`. Go compares strings bytewise, which on UTF-8 text is the order of
the code points. -/
def evalStringInfix (op : String) (left : String) (right : Value) : EvalResult :=
  match right with
  | .String r | .Char r =>
    if op = "+" then EvalResult.ok (Value.String (left ++ r))
    else if op = "==" then EvalResult.ok (Value.Boolean (decide (left = r)))
    else if op = "!=" then EvalResult.ok (Value.Boolean (decide (left ≠ r)))
    else if op = "<" then EvalResult.ok (Value.Boolean (decide (left < r)))
    else if op = "<=" then EvalResult.ok (Value.Boolean (decide (left ≤ r)))
    else if op = ">" then EvalResult.ok (Value.Boolean (decide (left > r)))
    else if op = ">=" then EvalResult.ok (Value.Boolean (decide (left ≥ r)))
    else EvalResult.fail ("unsupported string operator: " ++ op)
  | _ => EvalResult.fail "string operations require strings"

/-- The function `evalArrayInfix`; `left` is the address of the left `*Array`.
The result array is a new allocation. -/
def evalArrayInfix (h : Heap) (op : String) (left : Nat) (right : Value) :
    Heap × EvalResult :=
  match right with
  | .Array r =>
    if op = "+" then
      let out := h.elements left ++ h.elements r
      ((h.alloc (Cell.Array out)).1, EvalResult.ok (Value.Array (h.alloc (Cell.Array out)).2))
    else (h, EvalResult.fail ("unsupported array operator: " ++ op))
  | _ => (h, EvalResult.fail "array operation requires array")

/-- The function `evalInfixExpression`; `left` and `right` are the results of
evaluating the two operands on the heap `h` (the right one is consulted only
where the source evaluates it), `equivalent` is the function `Equivalent`. -/
def evalInfixExpression (oor : F64 → Int) (equivalent : Heap → Value → Value → Bool)
    (h : Heap) (op : String) (left right : EvalResult) : Heap × Outcome EvalResult :=
  if left.err.isSome ∨ left.sig.isSome then (h, .returns left)
  else if op = "&&" ∨ op = "||" then
    if op = "&&" ∧ isTruthy h left.val = false then
      (h, .returns (EvalResult.ok (Value.Boolean false)))
    else if op = "||" ∧ isTruthy h left.val = true then
      (h, .returns (EvalResult.ok (Value.Boolean true)))
    else if right.err.isSome ∨ right.sig.isSome then (h, .returns right)
    else (h, .returns (EvalResult.ok (Value.Boolean (isTruthy h right.val))))
  else if right.err.isSome ∨ right.sig.isSome then (h, .returns right)
  else if op = "==" then
    (h, .returns (EvalResult.ok (Value.Boolean (StrictEqual left.val right.val))))
  else if op = "!=" then
    (h, .returns (EvalResult.ok (Value.Boolean (!StrictEqual left.val right.val))))
  else if op = "eqv" then
    (h, .returns (EvalResult.ok (Value.Boolean (equivalent h left.val right.val))))
  else
    match left.val with
    | .Integer l => (h, evalIntegerInfix oor op l right.val)
    | .Float l => (h, evalFloatInfix oor op l right.val)
    | .String l => (h, .returns (evalStringInfix op l right.val))
    | .Char l => (h, .returns (evalStringInfix op l right.val))
    | .Array l => ((evalArrayInfix h op l right.val).1, .returns (evalArrayInfix h op l right.val).2)
    | _ => (h, .returns (EvalResult.fail ("unsupported infix operator: " ++ op)))

/-- The function `applyBinary` of `eval_ops.go`, which returns `(Value, error)`:
the value and the error of the operator's result triple. -/
def applyBinary (oor : F64 → Int) (h : Heap) (op : String) (left right : Value) :
    Heap × Outcome (Value × Option Error) :=
  let pair : Outcome EvalResult → Outcome (Value × Option Error) := fun o =>
    match o with
    | .returns r => .returns (r.val, r.err)
    | .panics msg => .panics msg
  if op = "+" then
    match left with
    | .Integer l => (h, pair (evalIntegerInfix oor op l right))
    | .Float l => (h, pair (evalFloatInfix oor op l right))
    | .String l => (h, pair (.returns (evalStringInfix op l right)))
    | .Array l => ((evalArrayInfix h op l right).1, pair (.returns (evalArrayInfix h op l right).2))
    | _ => (h, .returns (Value.nil, some (Error.RuntimeError "unsupported +=" none)))
  else if op = "-" ∨ op = "*" ∨ op = "/" ∨ op = "%" then
    match left with
    | .Integer l => (h, pair (evalIntegerInfix oor op l right))
    | .Float l => (h, pair (evalFloatInfix oor op l right))
    | _ => (h, .returns (Value.nil, some (Error.RuntimeError "unsupported assignment operator" none)))
  else (h, .returns (Value.nil, some (Error.RuntimeError "unknown assignment operator" none)))

/-! ## Environments -/

/-- Modelled from the spec: the method `GetLocal` of `Environment`, whose
declaration is not among the evaluator files ("a chain of scopes; each scope is
an ordered mapping name→Value plus a parent pointer; `GetLocal` restricts to
the current scope"). -/
def Environment.GetLocal (h : Heap) (env : Nat) (k : String) : Option Value :=
  match h[env]? with
  | some (Cell.Environment store _) => store.lookup k
  | _ => none

/-- Modelled from the spec: the method `Define` of `Environment` ("`Define(k,v)`
creates or replaces in the innermost scope"). -/
def Environment.Define (h : Heap) (env : Nat) (k : String) (v : Value) : Heap :=
  match h[env]? with
  | some (Cell.Environment store outer) =>
    h.set env (Cell.Environment (mapStore k v store) outer)
  | _ => h

/-- Modelled from the spec: the search of `Environment.Get` ("`Get(k)` searches
outward"), following at most `fuel` parent pointers. -/
def Environment.getAux : Nat → Heap → Nat → String → Option Value
  | 0, _, _, _ => none
  | fuel + 1, h, env, k =>
    match h[env]? with
    | some (Cell.Environment store outer) =>
      match store.lookup k with
      | some v => some v
      | none =>
        match outer with
        | some o => Environment.getAux fuel h o k
        | none => none
    | _ => none

/-- Modelled from the spec: the method `Get` of `Environment`; a chain of
scopes without a cycle is no longer than the heap. -/
def Environment.Get (h : Heap) (env : Nat) (k : String) : Option Value :=
  Environment.getAux (h.length + 1) h env k

/-- Modelled from the spec: the walk of `Environment.Set` ("`Set(k,v)` rebinds
the nearest existing binding"), following at most `fuel` parent pointers; the
heap is unchanged when no scope binds the name. -/
def Environment.setAux : Nat → Heap → Nat → String → Value → Heap
  | 0, h, _, _, _ => h
  | fuel + 1, h, env, k, v =>
    match h[env]? with
    | some (Cell.Environment store outer) =>
      match store.lookup k with
      | some _ => h.set env (Cell.Environment (mapStore k v store) outer)
      | none =>
        match outer with
        | some o => Environment.setAux fuel h o k v
        | none => h
    | _ => h

/-- Modelled from the spec: the method `Set` of `Environment`. -/
def Environment.Set (h : Heap) (env : Nat) (k : String) (v : Value) : Heap :=
  Environment.setAux (h.length + 1) h env k v

/-! ## Indexing and slicing (`eval_index_slice.go`) -/

/-- The function `objectIndexKey` of `eval_ops.go`. -/
def objectIndexKey (index : Value) : String × Bool :=
  match index with
  | .String v => (v, true)
  | .Char v => (v, true)
  | _ => ("", false)

/-- The function `normalizeIndex`, on 64-bit `int`s. -/
def normalizeIndex (idx : Int) (length : Int) : Int :=
  if idx < 0 then wrap64 (length + idx) else idx

/-- The function `evalIndexExpression`; `left` and `index` are the results of
evaluating `node.Left` and `node.Index`, and `h` is the heap after that. -/
def evalIndexExpression (h : Heap) (left index : EvalResult) : EvalResult :=
  if left.err.isSome ∨ left.sig.isSome then left
  else if index.err.isSome ∨ index.sig.isSome then index
  else
    match left.val with
    | .Array p =>
      match index.val with
      | .Integer i =>
        if i < 0 ∨ i ≥ ((h.elements p).length : Int) then
          EvalResult.fail "index out of bounds"
        else EvalResult.ok ((h.elements p).getD i.toNat Value.nil)
      | _ => EvalResult.fail "index must be integer"
    | .Object p =>
      if (objectIndexKey index.val).2 = false then
        EvalResult.fail "object index must be string or char"
      else
        match (h.objectPairs p).lookup (objectIndexKey index.val).1 with
        | some val => EvalResult.ok val
        | none => EvalResult.fail ("missing property: " ++ (objectIndexKey index.val).1)
    | .ModuleObject p =>
      match h.moduleEnv p with
      | none => EvalResult.fail "indexing requires array or object"
      | some env =>
        if (objectIndexKey index.val).2 = false then
          EvalResult.fail "object index must be string or char"
        else
          match Environment.GetLocal h env (objectIndexKey index.val).1 with
          | some val => EvalResult.ok val
          | none => EvalResult.fail ("missing property: " ++ (objectIndexKey index.val).1)
    | _ => EvalResult.fail "indexing requires array or object"

/-- One bound of a slice (the blocks `if node.Start != nil` and
`if node.End != nil` of `evalSliceExpression`): `none` is an absent bound
expression, which leaves the default `dflt`; a present one is given by the
result `r` of evaluating it. The left summand is an early return. -/
def sliceBound (what : String) (length dflt : Int) : Option EvalResult → EvalResult ⊕ Int
  | none => .inr dflt
  | some r =>
    if r.err.isSome ∨ r.sig.isSome then .inl r
    else
      match r.val with
      | .Integer idx => .inr (normalizeIndex idx length)
      | _ => .inl (EvalResult.fail what)

/-- The function `evalSliceExpression`; `left` is the result of evaluating
`node.Left`, `startRes` and `endRes` those of `node.Start` and `node.End`
where present. The result array is a new allocation. -/
def evalSliceExpression (h : Heap) (left : EvalResult)
    (startRes endRes : Option EvalResult) : Heap × EvalResult :=
  if left.err.isSome ∨ left.sig.isSome then (h, left)
  else
    match left.val with
    | .Array p =>
      let len : Int := ((h.elements p).length : Int)
      match sliceBound "slice start must be integer" len 0 startRes with
      | .inl r => (h, r)
      | .inr start =>
        match sliceBound "slice end must be integer" len len endRes with
        | .inl r => (h, r)
        | .inr stop =>
          if start < 0 ∨ start > len ∨ stop < 0 ∨ stop > len then
            (h, EvalResult.fail "slice bounds out of range")
          else if start ≥ stop then
            ((h.alloc (Cell.Array [])).1, EvalResult.ok (Value.Array (h.alloc (Cell.Array [])).2))
          else
            let out := ((h.elements p).take stop.toNat).drop start.toNat
            ((h.alloc (Cell.Array out)).1, EvalResult.ok (Value.Array (h.alloc (Cell.Array out)).2))
    | _ => (h, EvalResult.fail "slice requires array")

/-! ## Assignment (`eval_ops.go`) -/

/-- The closures that `resolveAssignable` returns as setters, by the variables
they capture. -/
inductive Setter where
  | envSet (env : Nat) (name : String)
  | objectPairs (obj : Nat) (key : String)
  | envDefine (env : Nat) (key : String)
  | arrayElements (arr : Nat) (i : Nat)
  deriving DecidableEq, Repr

/-- Calling a setter closure with the value `v`: `env.Set(name, v)`,
`obj.Pairs[key] = v`, `obj.Env.Define(key, v)` or `indexed.Elements[i] = v`
(an index expression that panics when `i` is out of range at that time). -/
def Setter.call (h : Heap) (v : Value) : Setter → Outcome Heap
  | .envSet env name => .returns (Environment.Set h env name v)
  | .objectPairs obj key =>
    .returns (h.set obj (Cell.Object (mapStore key v (h.objectPairs obj))))
  | .envDefine env key => .returns (Environment.Define h env key v)
  | .arrayElements arr i =>
    if i < (h.elements arr).length then
      .returns (h.set arr (Cell.Array ((h.elements arr).set i v)))
    else .panics "runtime error: index out of range"

/-- The assignment target `node` of `resolveAssignable`, by its dynamic type,
with the results of evaluating its sub-expressions. -/
inductive AssignNode where
  | Identifier (Value : String)
  | MemberExpression (Object : EvalResult) (Property : String)
  | IndexExpression (Left Index : EvalResult)
  | other
  deriving DecidableEq, Repr

/-- The function `resolveAssignable`: the target value, the setter (`none` is a
nil func) and the error; `env` is the address of the environment. -/
def resolveAssignable (h : Heap) (env : Nat) (node : AssignNode) :
    Value × Option Setter × Option Error :=
  match node with
  | .Identifier name =>
    match Environment.Get h env name with
    | none => (Value.nil, none, some (Error.RuntimeError ("undefined identifier: " ++ name) none))
    | some val => (val, some (Setter.envSet env name), none)
  | .MemberExpression object property =>
    if object.err.isSome ∨ object.sig.isSome then (Value.nil, none, object.err)
    else
      match object.val with
      | .Object p =>
        (((h.objectPairs p).lookup property).getD Value.nil,
          some (Setter.objectPairs p property), none)
      | .ModuleObject p =>
        match h.moduleEnv p with
        | none =>
          (Value.nil, none, some (Error.RuntimeError "member assignment requires object" none))
        | some menv =>
          ((Environment.GetLocal h menv property).getD Value.nil,
            some (Setter.envDefine menv property), none)
      | _ => (Value.nil, none, some (Error.RuntimeError "member assignment requires object" none))
  | .IndexExpression left index =>
    if left.err.isSome ∨ left.sig.isSome then (Value.nil, none, left.err)
    else if index.err.isSome ∨ index.sig.isSome then (Value.nil, none, index.err)
    else
      match left.val with
      | .Array p =>
        match index.val with
        | .Integer i =>
          if i < 0 ∨ i ≥ ((h.elements p).length : Int) then
            (Value.nil, none, some (Error.RuntimeError "index out of bounds" none))
          else
            ((h.elements p).getD i.toNat Value.nil, some (Setter.arrayElements p i.toNat), none)
        | _ => (Value.nil, none, some (Error.RuntimeError "index must be integer" none))
      | .Object p =>
        if (objectIndexKey index.val).2 = false then
          (Value.nil, none, some (Error.RuntimeError "object index must be string or char" none))
        else
          (((h.objectPairs p).lookup (objectIndexKey index.val).1).getD Value.nil,
            some (Setter.objectPairs p (objectIndexKey index.val).1), none)
      | .ModuleObject p =>
        match h.moduleEnv p with
        | none =>
          (Value.nil, none,
            some (Error.RuntimeError "index assignment requires array or object" none))
        | some menv =>
          if (objectIndexKey index.val).2 = false then
            (Value.nil, none,
              some (Error.RuntimeError "object index must be string or char" none))
          else
            ((Environment.GetLocal h menv (objectIndexKey index.val).1).getD Value.nil,
              some (Setter.envDefine menv (objectIndexKey index.val).1), none)
      | _ =>
        (Value.nil, none,
          some (Error.RuntimeError "index assignment requires array or object" none))
  | .other => (Value.nil, none, some (Error.RuntimeError "invalid assignment target" none))

/-- The function `evalAssignExpression`; `h` is the heap on which the target
is resolved, `right` the result of evaluating `node.Right` and `hr` the heap
after that evaluation. Calling a nil setter panics. -/
def evalAssignExpression (oor : F64 → Int) (h : Heap) (env : Nat) (node : AssignNode)
    (op : String) (right : EvalResult) (hr : Heap) : Heap × Outcome EvalResult :=
  match resolveAssignable h env node with
  | (_, _, some err) => (h, .returns ⟨Value.nil, none, some err⟩)
  | (target, setter, none) =>
    if right.err.isSome ∨ right.sig.isSome then (hr, .returns right)
    else
      let binop : Option String :=
        if op = "+=" then some "+" else if op = "-=" then some "-"
        else if op = "*=" then some "*" else if op = "/=" then some "/"
        else if op = "%=" then some "%" else none
      let computed : Option (Heap × Outcome (Value × Option Error)) :=
        if op = "=" then some (hr, .returns (right.val, none))
        else binop.map (fun b => applyBinary oor hr b target right.val)
      match computed with
      | none => (hr, .returns (EvalResult.fail ("unknown assignment operator: " ++ op)))
      | some (h1, .panics msg) => (h1, .panics msg)
      | some (h1, .returns (_, some err)) => (h1, .returns ⟨Value.nil, none, some err⟩)
      | some (h1, .returns (newVal, none)) =>
        match setter with
        | none => (h1, .panics "runtime error: invalid memory address or nil pointer dereference")
        | some st =>
          match st.call h1 newVal with
          | .returns h2 => (h2, .returns (EvalResult.ok newVal))
          | .panics msg => (h1, .panics msg)

/-- The function `evalPostfixExpression`; `int64(delta)` is `1` or `-1`, and the
Integer arm adds in `int64`. Calling a nil setter panics. -/
def evalPostfixExpression (oor : F64 → Int) (h : Heap) (env : Nat) (node : AssignNode)
    (op : String) : Heap × Outcome EvalResult :=
  if op = "++" ∨ op = "--" then
    match resolveAssignable h env node with
    | (_, _, some err) => (h, .returns ⟨Value.nil, none, some err⟩)
    | (target, setter, none) =>
      let delta : F64 := if op = "--" then F64.ofInt (-1) else F64.ofInt 1
      let store : Value → Heap × Outcome EvalResult := fun newVal =>
        match setter with
        | none => (h, .panics "runtime error: invalid memory address or nil pointer dereference")
        | some st =>
          match st.call h newVal with
          | .returns h2 => (h2, .returns (EvalResult.ok newVal))
          | .panics msg => (h, .panics msg)
      match target with
      | .Integer v => store (Value.Integer (wrap64 (v + toInt64 oor delta)))
      | .Float v => store (Value.Float (F64.add v delta))
      | _ => (h, .returns (EvalResult.fail "increment/decrement requires number"))
  else (h, .returns (EvalResult.fail ("unknown postfix operator: " ++ op)))

/-! ## Member access (`eval_member.go`) -/

/-- The text of a `ValueType` constant. -/
def ValueType.text : ValueType → String
  | .INTEGER => "INTEGER" | .FLOAT => "FLOAT" | .BOOLEAN => "BOOLEAN"
  | .STRING => "STRING" | .CHAR => "CHAR" | .NULL => "NULL" | .UNIT => "UNIT"
  | .ARRAY => "ARRAY" | .OBJECT => "OBJECT" | .MAP => "MAP" | .SET => "SET"
  | .FUNC => "FUNCTION" | .BUILTIN => "BUILTIN" | .TASK => "TASK"
  | .CHANNEL => "CHANNEL" | .PARTIAL => "PARTIAL"

/-- The function `evalMemberExpression`; `object` is the result of evaluating
`node.Object`, `property` is `node.Property.Value`, and `method` stands for the
method tables `arrayMethod`, `stringMethod`, `mapMethod`, `setMethod`,
`channelMethod` and `taskMethod`, which are defined outside the evaluator
files. -/
def evalMemberExpression (method : Heap → Value → String → Heap × EvalResult) (h : Heap)
    (object : EvalResult) (property : String) : Heap × EvalResult :=
  if object.err.isSome ∨ object.sig.isSome then (h, object)
  else
    match object.val with
    | .Object p =>
      match (h.objectPairs p).lookup property with
      | some val => (h, EvalResult.ok val)
      | none => (h, EvalResult.fail ("missing property: " ++ property))
    | .ModuleObject p =>
      match h.moduleEnv p with
      | none => (h, EvalResult.fail "member access on invalid module object")
      | some env =>
        match Environment.GetLocal h env property with
        | some val => (h, EvalResult.ok val)
        | none => (h, EvalResult.fail ("missing property: " ++ property))
    | .Array p =>
      if property = "length" then
        (h, EvalResult.ok (Value.Integer ((h.elements p).length : Int)))
      else method h (Value.Array p) property
    | .String s =>
      if property = "length" then (h, EvalResult.ok (Value.Integer (s.length : Int)))
      else method h (Value.String s) property
    | .Map p => method h (Value.Map p) property
    | .Set p =>
      if property = "size" then
        (h, EvalResult.ok (Value.Integer ((h.setElements p).length : Int)))
      else method h (Value.Set p) property
    | .Channel p => method h (Value.Channel p) property
    | .Task p => method h (Value.Task p) property
    | .nil => (h, EvalResult.fail "member access on non-object (got <nil>)")
    | v =>
      (h, EvalResult.fail ("member access on non-object ("
        ++ ((valueType v).map ValueType.text).getD "" ++ "." ++ property ++ ")"))

/-! ## Calls (`eval_call.go`) -/

/-- The loop of `evalCallExpression` over `node.Arguments`. An argument is
`none` when it is a syntactic placeholder and otherwise the result of
evaluating it; `args` and `hasPlaceholder` are the loop variables. The left
summand is an early return. -/
def evalArguments : List (Option EvalResult) → List Value → Bool →
    EvalResult ⊕ (List Value × Bool)
  | [], args, hasPlaceholder => .inr (args, hasPlaceholder)
  | none :: rest, args, _ => evalArguments rest (args ++ [Value.nil]) true
  | some r :: rest, args, hasPlaceholder =>
    if r.err.isSome ∨ r.sig.isSome then .inl r
    else evalArguments rest (args ++ [r.val]) hasPlaceholder

/-- The function `evalCallExpression`; `function` is the result of evaluating
`node.Function`, `arguments` describes `node.Arguments` as in `evalArguments`,
and `applyFunction` is the method of that name, defined outside the evaluator
files. The `Partial` is a new allocation. -/
def evalCallExpression (applyFunction : Heap → Value → List Value → Heap × EvalResult)
    (h : Heap) (function : EvalResult) (arguments : List (Option EvalResult)) :
    Heap × EvalResult :=
  if function.err.isSome ∨ function.sig.isSome then (h, function)
  else
    match evalArguments arguments [] false with
    | .inl r => (h, r)
    | .inr (args, hasPlaceholder) =>
      if hasPlaceholder then
        ((h.alloc (Cell.Partial function.val args)).1,
          EvalResult.ok (Value.Partial (h.alloc (Cell.Partial function.val args)).2))
      else applyFunction h function.val args

/-! ## Recover (`eval_recover.go`) -/

/-- Modelled from the spec: the function `NewEnclosedEnvironment`, whose
declaration is not among the evaluator files ("a `NewEnclosedEnvironment(parent)`
produces a child"): a new scope without bindings whose parent is `outer`. -/
def NewEnclosedEnvironment (h : Heap) (outer : Nat) : Heap × Nat :=
  h.alloc (Cell.Environment [] (some outer))

/-- The function `evalRecoverExpression`; `target` is the result of evaluating
`node.Target`, `fallback h env` that of evaluating `node.Fallback` on the heap
`h` in the environment `env`, and `errorValue` is the function of that name,
defined outside the evaluator files. -/
def evalRecoverExpression (errorValue : Heap → Error → Heap × Value)
    (fallback : Heap → Nat → Heap × EvalResult) (h : Heap) (env : Nat)
    (target : EvalResult) : Heap × EvalResult :=
  if target.err.isNone ∧ target.sig.isNone then (h, ⟨target.val, none, none⟩)
  else if target.sig.isSome then (h, target)
  else
    match target.err with
    | some (Error.RecoverableError msg kind tok) =>
      let ev := errorValue h (Error.RecoverableError msg kind tok)
      let ne := NewEnclosedEnvironment ev.1 env
      fallback (Environment.Define ne.1 ne.2 "error" ev.2) ne.2
    | some (Error.RuntimeError msg tok) =>
      let ev := errorValue h (Error.RuntimeError msg tok)
      let ne := NewEnclosedEnvironment ev.1 env
      fallback (Environment.Define ne.1 ne.2 "error" ev.2) ne.2
    | err => (h, ⟨Value.nil, none, err⟩)

/-! ## For loops (`eval_for.go`) -/

/-- The function `evalThen`; `thenRes` is `none` when `node.Then` is nil and
otherwise the result of evaluating it in the loop environment. -/
def evalThen (thenRes : Option EvalResult) : EvalResult :=
  match thenRes with
  | none => EvalResult.ok Value.Unit
  | some r => r

/-- The function `evalBreakExpression`; `value` is `none` when `node.Value` is
nil and otherwise the result of evaluating it. -/
def evalBreakExpression (value : Option EvalResult) : EvalResult :=
  match value with
  | none => ⟨Value.Unit, some ⟨SignalType.SignalBreak, Value.nil⟩, none⟩
  | some r =>
    if r.err.isSome ∨ r.sig.isSome then r
    else ⟨r.val, some ⟨SignalType.SignalBreak, r.val⟩, none⟩

/-- The first loop of `evalForExpression`, over `node.Bindings`: each binding
is given by the result of evaluating its value and by the result `(ok, err)`
of `bindPattern`, which is defined outside the evaluator files. `none` means
that every binding succeeded; `some r` is an early return. -/
def evalForBindings : List (EvalResult × Bool × Option Error) → Option EvalResult
  | [] => none
  | (val, ok, err) :: rest =>
    if val.err.isSome ∨ val.sig.isSome then some val
    else if err.isSome then some ⟨Value.nil, none, err⟩
    else if ok = false then some (EvalResult.fail "for binding pattern did not match")
    else evalForBindings rest

/-- The second loop of `evalForExpression`, from its `k`-th iteration on and
for at most `fuel` iterations (`none` when they do not suffice). `cond k` and
`body k` are the results of the `k`-th evaluation of `node.Condition` and of
`node.Body`, `heaps k` is the heap on which the `k`-th condition value is
tested, and `thenRes` is as in `evalThen`. -/
def evalForLoop (heaps : Nat → Heap) (cond body : Nat → EvalResult)
    (thenRes : Option EvalResult) : Nat → Nat → Option EvalResult
  | 0, _ => none
  | fuel + 1, k =>
    if (cond k).err.isSome ∨ (cond k).sig.isSome then some (cond k)
    else if isTruthy (heaps k) (cond k).val = false then some (evalThen thenRes)
    else if (body k).err.isSome then some ⟨Value.nil, none, (body k).err⟩
    else
      match (body k).sig with
      | none => evalForLoop heaps cond body thenRes fuel (k + 1)
      | some sig =>
        match sig.Typ with
        | .SignalContinue => evalForLoop heaps cond body thenRes fuel (k + 1)
        | .SignalBreak =>
          if sig.Value ≠ Value.nil then some (EvalResult.ok sig.Value)
          else some (evalThen thenRes)

/-- The function `evalForExpression`, for at most `fuel` iterations. -/
def evalForExpression (bindings : List (EvalResult × Bool × Option Error))
    (heaps : Nat → Heap) (cond body : Nat → EvalResult) (thenRes : Option EvalResult)
    (fuel : Nat) : Option EvalResult :=
  match evalForBindings bindings with
  | some r => some r
  | none => evalForLoop heaps cond body thenRes fuel 0

/-- The entry of `Args` that the specification gives for one argument: a hole
(nil) for a placeholder, the evaluated value otherwise. -/
def specArg : Option EvalResult → Value
  | none => Value.nil
  | some r => r.val

/-- The argument is a placeholder or evaluates to a value, with no error and
no signal. -/
def argumentOk : Option EvalResult → Prop
  | none => True
  | some r => r.err = none ∧ r.sig = none

/-- The error kinds that the type switch of `evalRecoverExpression` hands to
the fallback: `*RecoverableError` and `*RuntimeError`. -/
def isRecoverableKind : Error → Bool
  | .RecoverableError _ _ _ => true
  | .RuntimeError _ _ => true
  | _ => false

/-- The `k`-th iteration of a for loop goes on to the next condition check:
the condition evaluates, with no error and no signal, to a truthy value, and
the body ends with no error and either no signal or a Continue. -/
def loopsOn (heaps : Nat → Heap) (cond body : Nat → EvalResult) (k : Nat) : Prop :=
  (cond k).err = none ∧ (cond k).sig = none ∧ isTruthy (heaps k) (cond k).val = true ∧
    (body k).err = none ∧
    ((body k).sig = none ∨ ∃ v, (body k).sig = some ⟨SignalType.SignalContinue, v⟩)

/-! ## Queries (`eval_query.go`) -/

/-- The struct `queryRow`. -/
structure queryRow where
  item : Value
  key : Value
  deriving DecidableEq, Repr

/-- The function `compareForSort`; a failed type assertion `right.(*T)` panics. -/
def compareForSort (left right : Value) : Outcome Bool :=
  match left with
  | .Integer l =>
    match right with
    | .Integer r => .returns (decide (l < r))
    | _ => .panics "interface conversion: interpreter.Value is not *interpreter.Integer"
  | .Float l =>
    match right with
    | .Float r => .returns (F64.lt l r)
    | _ => .panics "interface conversion: interpreter.Value is not *interpreter.Float"
  | .String l =>
    match right with
    | .String r => .returns (decide (l < r))
    | _ => .panics "interface conversion: interpreter.Value is not *interpreter.String"
  | _ => .returns false

/-- The inner loop of the insertion sort of Go's package `sort`
(`for j := i; j > a && less(j, j-1); j--` with a swap): the element `x` moves
left past each element that it is less than. `before` holds the sorted
elements to the left of `x`, nearest first. -/
def insertBefore {α : Type} (less : α → α → Outcome Bool) (x : α) :
    List α → Outcome (List α)
  | [] => .returns [x]
  | y :: ys =>
    match less x y with
    | .panics msg => .panics msg
    | .returns false => .returns (x :: y :: ys)
    | .returns true =>
      match insertBefore less x ys with
      | .panics msg => .panics msg
      | .returns zs => .returns (y :: zs)

/-- The outer loop of that insertion sort: `todo` are the elements not yet
inserted, `before` the sorted ones, last first. -/
def insertAll {α : Type} (less : α → α → Outcome Bool) :
    List α → List α → Outcome (List α)
  | [], before => .returns before.reverse
  | x :: todo, before =>
    match insertBefore less x before with
    | .panics msg => .panics msg
    | .returns before1 => insertAll less todo before1

/-- Go's `sort.SliceStable(rows, less)`, as the insertion sort that the package
applies to blocks of up to 20 elements; the stable merges that it applies to
longer slices yield the same order whenever `less` is a strict weak order, as
it is on Integer keys and on String keys. On Float keys one of which is a NaN
`less` is none, and for more than 20 rows the order of the package can then
differ from the one of this insertion sort. -/
def sliceStable {α : Type} (less : α → α → Outcome Bool) (rows : List α) :
    Outcome (List α) :=
  insertAll less rows []

/-- The keys that the type switch of `sortRows` accepts. -/
def isSortKey : Value → Bool
  | .Integer _ | .Float _ | .String _ => true
  | _ => false

/-- The function `sortRows`: the rows after the call and the error returned. -/
def sortRows (rows : List queryRow) : Outcome (List queryRow × Option Error) :=
  match rows with
  | [] => .returns (rows, none)
  | first :: _ =>
    if rows.any (fun row => decide (row.key = Value.nil)) then
      .returns (rows, some (Error.RuntimeError "orderby requires comparable key" none))
    else if isSortKey first.key = false then
      .returns (rows, some (Error.RuntimeError "orderby key must be int, float, or string" none))
    else if rows.any (fun row => decide (valueType row.key ≠ valueType first.key)) then
      .returns (rows, some (Error.RuntimeError "orderby keys must be the same type" none))
    else
      match sliceStable (fun a b => compareForSort a.key b.key) rows with
      | .panics msg => .panics msg
      | .returns sorted => .returns (sorted, none)

/-- The parts of an `ast.QueryExpression` that `evalQueryExpression` evaluates:
`w i item` for `w` in `Where`, `ob i item` for `OrderBy = some ob` and
`Select i item` are the results of evaluating that expression in the row
environment that binds the query variable to `item`, `i` being the position of
the row (in the source for `Where` and `OrderBy`, in the sorted rows for
`Select`). -/
structure QueryNode where
  Where : List (Nat → Value → EvalResult)
  OrderBy : Option (Nat → Value → EvalResult)
  Select : Nat → Value → EvalResult

/-- The loop `for _, whereExpr := range node.Where` on the results of the
where-expressions for one row: `inr keep`, or `inl` for an early return of
`evalQueryExpression`. -/
def queryWhere : List EvalResult → EvalResult ⊕ Bool
  | [] => .inr true
  | r :: rest =>
    if r.err.isSome ∨ r.sig.isSome then .inl r
    else
      match r.val with
      | .Boolean b => if b = false then .inr false else queryWhere rest
      | _ => .inl (EvalResult.fail "query where must be bool")

/-- The loop `for _, item := range source.Elements` of `evalQueryExpression`,
from the `i`-th source element on: the rows collected, or an early return. -/
def queryRows (node : QueryNode) : Nat → List Value → EvalResult ⊕ List queryRow
  | _, [] => .inr []
  | i, item :: rest =>
    match queryWhere (node.Where.map (fun w => w i item)) with
    | .inl r => .inl r
    | .inr false => queryRows node (i + 1) rest
    | .inr true =>
      match node.OrderBy with
      | none =>
        match queryRows node (i + 1) rest with
        | .inl r => .inl r
        | .inr rows => .inr (⟨item, Value.nil⟩ :: rows)
      | some ob =>
        if (ob i item).err.isSome ∨ (ob i item).sig.isSome then .inl (ob i item)
        else
          match queryRows node (i + 1) rest with
          | .inl r => .inl r
          | .inr rows => .inr (⟨item, (ob i item).val⟩ :: rows)

/-- The loop `for _, r := range rows` of `evalQueryExpression`, from the
`j`-th row on: the values selected, or an early return. -/
def querySelect (node : QueryNode) : Nat → List queryRow → EvalResult ⊕ List Value
  | _, [] => .inr []
  | j, r :: rest =>
    if (node.Select j r.item).err.isSome ∨ (node.Select j r.item).sig.isSome then
      .inl (node.Select j r.item)
    else
      match querySelect node (j + 1) rest with
      | .inl e => .inl e
      | .inr vals => .inr ((node.Select j r.item).val :: vals)

/-- The function `evalQueryExpression`; `source` is the result of evaluating
`node.Source` and `h` the heap on which the result array is allocated. -/
def evalQueryExpression (node : QueryNode) (h : Heap) (source : EvalResult) :
    Heap × Outcome EvalResult :=
  if source.err.isSome ∨ source.sig.isSome then (h, .returns source)
  else
    match source.val with
    | .Array p =>
      match queryRows node 0 (h.elements p) with
      | .inl r => (h, .returns r)
      | .inr rows =>
        let sorted : Outcome (List queryRow × Option Error) :=
          if node.OrderBy.isSome then sortRows rows else .returns (rows, none)
        match sorted with
        | .panics msg => (h, .panics msg)
        | .returns (_, some err) => (h, .returns ⟨Value.nil, none, some err⟩)
        | .returns (rows1, none) =>
          match querySelect node 0 rows1 with
          | .inl r => (h, .returns r)
          | .inr results =>
            ((h.alloc (Cell.Array results)).1,
              .returns (EvalResult.ok (Value.Array (h.alloc (Cell.Array results)).2)))
    | _ => (h, .returns (EvalResult.fail "query source must be array"))

/-- The key attached to the `i`-th source element: nil without an `orderby`,
the value of the orderby expression otherwise. -/
def rowKey (node : QueryNode) (i : Nat) (item : Value) : Value :=
  match node.OrderBy with
  | none => Value.nil
  | some ob => (ob i item).val

/-- The rows that a query keeps, as the amended specification words it: the
source elements, from the `i`-th on and in source order, for which every
where-expression evaluates to the Boolean true. -/
def specKeptRows (node : QueryNode) : Nat → List Value → List queryRow
  | _, [] => []
  | i, item :: rest =>
    if node.Where.all (fun w => decide ((w i item).val = Value.Boolean true)) then
      ⟨item, rowKey node i item⟩ :: specKeptRows node (i + 1) rest
    else specKeptRows node (i + 1) rest

/-- The payload of an Integer key (and `0` for any other value). -/
def integerKey (row : queryRow) : Int :=
  match row.key with
  | .Integer n => n
  | _ => 0

/-- The payload of a String key (and the empty string for any other value). -/
def stringKey (row : queryRow) : String :=
  match row.key with
  | .String s => s
  | _ => ""

/-- Every where-expression of the query evaluates, for each element of `l`
(the `j`-th of which is the `(i + j)`-th source element), to a Boolean with no
error and no signal, and so does the orderby expression, when there is one, to
some value. -/
def rowsEvaluate (node : QueryNode) (i : Nat) (l : List Value) : Prop :=
  ∀ (j : Nat) (item : Value), l[j]? = some item →
    (∀ w ∈ node.Where, ∃ b : Bool, w (i + j) item = EvalResult.ok (Value.Boolean b)) ∧
    (∀ ob, node.OrderBy = some ob →
      (ob (i + j) item).err = none ∧ (ob (i + j) item).sig = none)

/-- The where-expressions that are reached decide the row of `item`, the
`i`-th source element: either every where-expression evaluates to the Boolean
true and the orderby expression, when there is one, evaluates to some value;
or the where-expressions before some position evaluate to the Boolean true and
the one at that position to the Boolean false. Nothing is asked of a
where-expression that stands after the first false one, nor of the orderby
expression of such a row: the loop does not evaluate them. -/
def rowDecided (node : QueryNode) (i : Nat) (item : Value) : Prop :=
  ((∀ w ∈ node.Where, w i item = EvalResult.ok (Value.Boolean true)) ∧
    (∀ ob, node.OrderBy = some ob → (ob i item).err = none ∧ (ob i item).sig = none)) ∨
  (∃ (ws1 : List (Nat → Value → EvalResult)) (w : Nat → Value → EvalResult)
      (ws2 : List (Nat → Value → EvalResult)),
    node.Where = ws1 ++ w :: ws2 ∧
    (∀ w1 ∈ ws1, w1 i item = EvalResult.ok (Value.Boolean true)) ∧
    w i item = EvalResult.ok (Value.Boolean false))

/-- The reached where-expressions decide every element of `l`, the `j`-th of
which is the `(i + j)`-th source element. -/
def rowsDecided (node : QueryNode) (i : Nat) (l : List Value) : Prop :=
  ∀ (j : Nat) (item : Value), l[j]? = some item → rowDecided node (i + j) item

/-! ## Imports (`imports.go`, `imports_loader.go`, `imports_resolver.go`,
`imports_eval.go`) -/

/-- Go's `m[k] = v` on a map with string keys, held as an association list. -/
def assocStore {ν : Type} (k : String) (v : ν) : List (String × ν) → List (String × ν)
  | [] => [(k, v)]
  | (k1, v1) :: rest => if k1 = k then (k, v) :: rest else (k1, v1) :: assocStore k v rest

/-- Go's `delete(m, k)` on a map with string keys. -/
def assocDelete {ν : Type} (k : String) (m : List (String × ν)) : List (String × ν) :=
  m.filter (fun p => decide (p.1 ≠ k))

/-- Modelled from the spec: a statement of a program ("an ordered sequence of
statement nodes"), as far as modules are concerned: an import expression with
a literal path, left as it is or applied to no arguments, or any statement
that imports nothing. The AST is declared outside the evaluator files. -/
inductive ModuleStmt where
  | Import (path : String) (call : Bool)
  | other
  deriving DecidableEq, Repr

/-- Modelled from the spec: the type `ast.Program`. -/
abbrev Program := List ModuleStmt

/-- The struct `moduleDefinition`. -/
structure moduleDefinition where
  program : Program
  source : String
  filename : String
  deriving DecidableEq, Repr

/-- The struct `moduleState`, without its mutex. -/
structure moduleState where
  loaded : List (String × moduleDefinition)
  loading : List (String × Bool)
  deriving DecidableEq, Repr

/-- The function `newModuleState`. -/
def newModuleState : moduleState := ⟨[], []⟩

/-- The functions of the Go library, of the operating system and of the
parser that the loader calls: `filepath.Clean`, `filepath.Abs`,
`filepath.IsAbs`, `filepath.Join`, `filepath.Dir`, `os.Getwd`, `os.ReadFile`
(a failure is given by the text of its error), the parser (the program and
its detailed errors) and `parser.FormatParseErrors`. -/
structure Host where
  Clean : String → String
  Abs : String → Except String String
  IsAbs : String → Bool
  Join : String → String → String
  Dir : String → String
  Getwd : Except String String
  ReadFile : String → Except String String
  ParseProgram : String → Program × List String
  FormatParseErrors : List String → String → String → String

/-- The fields of the struct `Evaluator` that the loader reads, except
`modules`, a pointer that is passed on as it is: the module state is threaded
through the functions below. -/
structure Evaluator where
  source : String
  filename : String
  projectRoot : String
  deriving DecidableEq, Repr

/-- The function `parseImportProgram`: the program (`none` is nil) and the
error. -/
def parseImportProgram (host : Host) (data filename : String) :
    Option Program × Option Error :=
  if (host.ParseProgram data).2.length > 0 then
    (none, some (Error.other (host.FormatParseErrors (host.ParseProgram data).2 data filename)))
  else (some (host.ParseProgram data).1, none)

/-- The first lines of `loadModule`: the cleaned, absolute path. -/
def resolvedPath (host : Host) (path : String) : String :=
  match host.Abs (host.Clean path) with
  | .ok abs => abs
  | .error _ => host.Clean path

/-- How the first critical section of `loadModule` ends. -/
inductive LoadBegin where
  | cached (module : moduleDefinition)
  | circular (err : Error)
  | marked
  deriving DecidableEq, Repr

/-- The first critical section of `loadModule`: the lookup in `loaded`, the
test of `loading`, and the mark in `loading`. -/
def loadModuleBegin (st : moduleState) (resolved : String) : moduleState × LoadBegin :=
  match st.loaded.lookup resolved with
  | some module => (st, .cached module)
  | none =>
    if (st.loading.lookup resolved).getD false = true then
      (st, .circular (Error.RuntimeError ("circular import: " ++ resolved) none))
    else ({ st with loading := assocStore resolved true st.loading }, .marked)

/-- The rest of `loadModule`, after the mark: reading, parsing and storing the
definition; the deferred function deletes the mark on every return. -/
def loadModuleFinish (host : Host) (st : moduleState) (resolved : String) :
    moduleState × Option moduleDefinition × Option Error :=
  match host.ReadFile resolved with
  | .error e =>
    ({ st with loading := assocDelete resolved st.loading }, none,
      some (Error.RuntimeError ("import read error: " ++ e) none))
  | .ok data =>
    match parseImportProgram host data resolved with
    | (some program, none) =>
      ({ loaded := assocStore resolved ⟨program, data, resolved⟩ st.loaded,
         loading := assocDelete resolved st.loading },
        some ⟨program, data, resolved⟩, none)
    | (_, err) => ({ st with loading := assocDelete resolved st.loading }, none, err)

/-- The function `loadModule` run by one task with no other task interleaved;
`modules` is `e.modules` (`none` is nil). It returns the module state, the
definition (`none` is nil) and the error. -/
def loadModule (host : Host) (modules : Option moduleState) (path : String) :
    moduleState × Option moduleDefinition × Option Error :=
  match loadModuleBegin (modules.getD newModuleState) (resolvedPath host path) with
  | (st, .cached module) => (st, some module, none)
  | (st, .circular err) => (st, none, some err)
  | (st, .marked) => loadModuleFinish host st (resolvedPath host path)

/-- Go's `strings.HasPrefix`, on the characters of the two strings. -/
def HasPrefix (s pre : String) : Bool := pre.toList.isPrefixOf s.toList

/-- The function `resolveImportPath`. -/
def resolveImportPath (host : Host) (e : Evaluator) (path : String) : Except String String :=
  if host.IsAbs path = true then .ok path
  else if (HasPrefix path "./" = true ∨ HasPrefix path "../" = true) ∧
      e.filename ≠ "" ∧ e.filename ≠ "<stdin>" then
    .ok (host.Join (host.Dir e.filename) path)
  else if e.projectRoot = "" then
    match host.Getwd with
    | .error err => .error err
    | .ok cwd => .ok (host.Join cwd path)
  else .ok (host.Join e.projectRoot path)

/-- The variables that the closure `Fn` of the module factory captures. -/
structure moduleFactory where
  module : moduleDefinition
  e : Evaluator
  deriving DecidableEq, Repr

/-- The function `evalImportExpression`; `path` is `node.Path` (`none` is nil).
It returns `e.modules`, the factory, a `*Builtin` given by its closure (`none`
is a nil value), and the error. -/
def evalImportExpression (host : Host) (e : Evaluator) (modules : Option moduleState)
    (path : Option String) : Option moduleState × Option moduleFactory × Option Error :=
  match path with
  | none => (modules, none, some (Error.RuntimeError "import expects a string literal path" none))
  | some p =>
    match resolveImportPath host e p with
    | .error err => (modules, none, some (Error.RuntimeError ("import path error: " ++ err) none))
    | .ok resolved =>
      match loadModule host modules resolved with
      | (st, some module, none) => (some st, some ⟨module, e⟩, none)
      | (st, _, err) => (some st, none, err)

/-- The state that importing acts on: the module state `e.modules` and the
heap. -/
structure World where
  modules : Option moduleState
  heap : Heap
  deriving DecidableEq, Repr

/-- Modelled from the spec: the function `NewBaseEnvironment`, whose
declaration is not among the evaluator files ("the base environment holds all
registered built-ins"): a new scope without a parent that binds the builtins
`base`. -/
def NewBaseEnvironment (base : List (String × Value)) (h : Heap) : Heap × Nat :=
  h.alloc (Cell.Environment base none)

/-- The closure `Fn` of the module factory that `evalImportExpression` builds.
`eval e program env w` is `moduleEval.Eval(module.program, moduleEnv)` for the
evaluator `e` on the state `w` (`none` when it does not return), and `format`
is the function `FormatRuntimeError`. The result is the state, the value and
the error. -/
def moduleFactoryFn (format : Error → String → String → String)
    (base : List (String × Value))
    (eval : Evaluator → Program → Nat → World → Option (World × EvalResult))
    (f : moduleFactory) (args : List Value) (w : World) :
    Option (World × Value × Option Error) :=
  if args.length ≠ 0 then
    some (w, Value.nil, some (Error.RuntimeError "module factory expects no arguments" none))
  else
    let baseEnv := NewBaseEnvironment base w.heap
    let moduleEnv := NewEnclosedEnvironment baseEnv.1 baseEnv.2
    let moduleEval : Evaluator :=
      { source := f.module.source, filename := f.module.filename,
        projectRoot := f.e.projectRoot }
    match eval moduleEval f.module.program moduleEnv.2 { w with heap := moduleEnv.1 } with
    | none => none
    | some (w1, r) =>
      match r.err with
      | some err =>
        some (w1, Value.nil,
          some (Error.other (format err moduleEval.source moduleEval.filename)))
      | none =>
        if r.sig.isSome then
          some (w1, Value.nil, some (Error.RuntimeError "break/continue outside loop" none))
        else
          some ({ w1 with heap := (w1.heap.alloc (Cell.ModuleObject (some moduleEnv.2))).1 },
            Value.ModuleObject (w1.heap.alloc (Cell.ModuleObject (some moduleEnv.2))).2, none)

/-- Modelled from the spec: the evaluation `Eval(program, env)` of a program in
one task, of which the dispatcher is outside the evaluator files, for the
statements of `ModuleStmt`: the statements are evaluated in order, an import
expression by `evalImportExpression`, its application by the closure of the
factory, and an error ends the evaluation. At most `fuel` nested statements
are evaluated (`none` when they do not suffice). -/
def evalProgram (host : Host) (format : Error → String → String → String)
    (base : List (String × Value)) :
    Nat → Evaluator → Program → Nat → World → Option (World × EvalResult)
  | 0, _, _, _, _ => none
  | _ + 1, _, [], _, w => some (w, EvalResult.ok Value.Unit)
  | fuel + 1, e, ModuleStmt.other :: rest, env, w =>
    evalProgram host format base fuel e rest env w
  | fuel + 1, e, ModuleStmt.Import path call :: rest, env, w =>
    match evalImportExpression host e w.modules (some path) with
    | (ms, some factory, none) =>
      if call = true then
        match moduleFactoryFn format base (evalProgram host format base fuel) factory []
            { w with modules := ms } with
        | none => none
        | some (w1, _, some err) => some (w1, ⟨Value.nil, none, some err⟩)
        | some (w1, _, none) => evalProgram host format base fuel e rest env w1
      else evalProgram host format base fuel e rest env { w with modules := ms }
    | (ms, _, err) => some ({ w with modules := ms }, ⟨Value.nil, none, err⟩)

/-- A host for the examples: every path is absolute and clean, and every file
reads as `src` and parses without errors to `program`. -/
def exampleHost (program : Program) : Host where
  Clean := id
  Abs := fun p => .ok p
  IsAbs := fun _ => true
  Join := fun a b => a ++ "/" ++ b
  Dir := fun p => p
  Getwd := .ok "/"
  ReadFile := fun _ => .ok "src"
  ParseProgram := fun _ => (program, [])
  FormatParseErrors := fun _ _ _ => ""

/-! ## Error texts (`errors.go`) -/

/-- The method `Error` of `*UnhandledTaskError`; `none` is the nil receiver. -/
def UnhandledTaskError_Error (e : Option (List String)) : String :=
  match e with
  | none => "unhandled task failure"
  | some Messages =>
    if Messages.length = 0 then "unhandled task failure"
    else "unhandled task failures:\n\n" ++ String.intercalate "\n\n" Messages

/-- The method `Error` of `*ExitError`. -/
def ExitError_Error (Message : String) : String :=
  if Message = "" then "exit" else "exit: " ++ Message

/-- The method `Error()` of the interface `error` on the errors of the
interpreter. -/
def errorString : Error → String
  | .RuntimeError Message _ => Message
  | .RecoverableError Message _ _ => Message
  | .ExitError Message => ExitError_Error Message
  | .UnhandledTaskError Messages => UnhandledTaskError_Error (some Messages)
  | .other text => text

/-- Go's `strings.Split(s, "\n")` on the characters of `s`: the pieces between
the line feeds, one more than there are line feeds. -/
def splitNewline : List Char → List (List Char)
  | [] => [[]]
  | c :: cs =>
    if c = '\n' then [] :: splitNewline cs
    else
      match splitNewline cs with
      | [] => [[c]]
      | l :: ls => (c :: l) :: ls

/-- Go's `strings.TrimRight(s, "\r")`: `s` without its trailing carriage
returns. -/
def trimRightCR (s : List Char) : List Char :=
  (s.reverse.dropWhile (fun c => c = '\r')).reverse

/-- Go's `strings.Repeat(" ", n)`; a negative count panics. -/
def repeatSpace (n : Nat) : String := String.mk (List.replicate n ' ')

/-- The function `formatRuntimeError`. `len(lineText)` counts bytes, and `%d`
prints an `int` in decimal. -/
def formatRuntimeError (message : String) (tok : Option Token) (source filename : String) :
    String :=
  match tok with
  | none => "runtime error: " ++ message
  | some tok =>
    if tok.Line = 0 ∨ source = "" then "runtime error: " ++ message
    else
      let lines := splitNewline source.toList
      if tok.Line < 1 ∨ tok.Line > (lines.length : Int) then "runtime error: " ++ message
      else
        let lineText := String.mk (trimRightCR (lines.getD (tok.Line - 1).toNat []))
        let col : Int := if tok.Column < 1 then 1 else tok.Column
        let col : Int :=
          if col > (lineText.utf8ByteSize : Int) + 1 then (lineText.utf8ByteSize : Int) + 1
          else col
        let caret := repeatSpace (col - 1).toNat ++ "^"
        let location := toString tok.Line ++ ":" ++ toString tok.Column
        let location := if filename ≠ "" then filename ++ ":" ++ location else location
        "runtime error: " ++ message ++ "\n  at " ++ location ++ "\n  " ++ toString tok.Line
          ++ " | " ++ lineText ++ "\n    | " ++ caret

/-- The function `FormatRuntimeError`. -/
def FormatRuntimeError (err : Error) (source filename : String) : String :=
  match err with
  | .RuntimeError Message Token => formatRuntimeError Message Token source filename
  | .RecoverableError Message _ Token => formatRuntimeError Message Token source filename
  | e => errorString e

/-- The number of lines of a source text: one more than its line feeds. -/
def sourceLines (source : String) : Nat := source.toList.count '\n' + 1

/-- The line `L` (counted from 1) of a source text, without the carriage
returns at its end. -/
def sourceLine (source : String) (L : Int) : String :=
  String.mk (trimRightCR ((splitNewline source.toList).getD (L - 1).toNat []))

/-- The rows of a printed text: the pieces between its line feeds. -/
def rows (out : String) : List (List Char) := splitNewline out.toList

/-- The column (counted from 0) of the first caret in the last row of a
printed text. -/
def caretColumn (out : String) : Nat := ((rows out).getLast?.getD []).indexOf '^'

/-- The column (counted from 0), in the row before the last of a printed text,
of the character number `c` (counted from 1) of the line `lineText` that ends
this row. -/
def sourceColumn (out : String) (lineText : String) (c : Nat) : Nat :=
  ((rows out).dropLast.getLast?.getD []).length - lineText.length + (c - 1)

/-! ## Runs of the loader and hosts for the examples -/

/-- A run of later calls of `loadModule` by one task, each on the file system
and parser of its time: the module state after the last of them. -/
def loadModules (st : moduleState) : List (Host × String) → moduleState
  | [] => st
  | (host, path) :: rest => loadModules (loadModule host (some st) path).1 rest

/-- Go's `strings.Split(s, "/")` on the characters of `s`: the pieces between
the slashes, one more than there are slashes. -/
def splitSlash : List Char → List (List Char)
  | [] => [[]]
  | c :: cs =>
    if c = '/' then [] :: splitSlash cs
    else
      match splitSlash cs with
      | [] => [[c]]
      | l :: ls => (c :: l) :: ls

/-- The path name elements that Go's `filepath.Clean` keeps, by the rules of
its documentation: an empty element (between two slashes) and an element `.`
are dropped; an element `..` removes the element before it when that is not
`..`; at the beginning of a rooted path it is dropped, and at the beginning of
a path that is not rooted it is kept. `out` holds the elements kept so far,
the last one first. -/
def cleanElements (rooted : Bool) : List (List Char) → List (List Char) → List (List Char)
  | out, [] => out.reverse
  | out, el :: rest =>
    if el = [] ∨ el = ['.'] then cleanElements rooted out rest
    else if el = ['.', '.'] then
      match out with
      | top :: below =>
        if top = ['.', '.'] then cleanElements rooted (el :: out) rest
        else cleanElements rooted below rest
      | [] => if rooted then cleanElements rooted [] rest else cleanElements rooted [el] rest
    else cleanElements rooted (el :: out) rest

/-- Go's `filepath.Clean` on a Unix path: the shortest path name equivalent to
`path` by purely lexical processing; the result ends in a slash only if it is
the root, and an empty result is `.`. -/
def filepathClean (path : String) : String :=
  if path = "" then "."
  else
    let rooted := HasPrefix path "/"
    let els := (cleanElements rooted [] (splitSlash path.toList)).map String.mk
    if rooted then "/" ++ String.intercalate "/" els
    else if els = [] then "."
    else String.intercalate "/" els

/-- Go's `filepath.Join` of two elements on Unix: the elements that are not
empty, joined by a slash and cleaned; the empty string when both are empty. -/
def filepathJoin (a b : String) : String :=
  if a = "" then (if b = "" then "" else filepathClean b)
  else if b = "" then filepathClean a
  else filepathClean (a ++ "/" ++ b)

/-- Go's `filepath.Dir` on a Unix path: what precedes the last element of the
path, up to and with the last slash, cleaned. -/
def filepathDir (path : String) : String :=
  filepathClean (String.mk (path.toList.reverse.dropWhile (fun c => c ≠ '/')).reverse)

/-- A Unix host for the examples, with the functions of `path/filepath` as Go
defines them for Unix paths (`filepath.Abs` joins a path that is not absolute
to the working directory): the working directory is `cwd`, the files are those
of `files`, a list of paths with their contents, and every text parses without
errors to `program`. -/
def unixHost (cwd : String) (files : List (String × String)) (program : Program) : Host where
  Clean := filepathClean
  Abs := fun p => if HasPrefix p "/" = true then .ok (filepathClean p) else .ok (filepathJoin cwd p)
  IsAbs := fun p => HasPrefix p "/"
  Join := filepathJoin
  Dir := filepathDir
  Getwd := .ok cwd
  ReadFile := fun p =>
    match files.lookup p with
    | some data => .ok data
    | none => .error ("open " ++ p ++ ": no such file or directory")
  ParseProgram := fun _ => (program, [])
  FormatParseErrors := fun _ _ _ => ""

/-- A host for the examples with relative paths: the Unix host whose working
directory is `/work` and on which no file can be read. -/
def relativeHost : Host := unixHost "/work" [] []

/-- An evaluation for the examples: every program binds `counter` to the
Integer 0 in its environment and yields Unit. -/
def counterModule : Evaluator → Program → Nat → World → Option (World × EvalResult) :=
  fun _ _ env w =>
    some ({ w with heap := Environment.Define w.heap env "counter" (Value.Integer 0) },
      EvalResult.ok Value.Unit)

/-! ## Channels and tasks (`builtins_runtime_channels.go`,
`builtins_async_channels.go`, `builtins_async.go`, `builtins_runtime_core.go`) -/

/-- The fields `Ch` and `Closed` of the `Channel` allocated at `p`. -/
def Heap.channel (h : Heap) (p : Nat) : Chan × Bool :=
  match h[p]? with
  | some (Cell.Channel Ch Closed) => (Ch, Closed)
  | _ => (⟨[], 0, false⟩, false)

/-- The fields of the `Task` allocated at `p`. -/
def Heap.task (h : Heap) (p : Nat) : Option TaskState :=
  match h[p]? with
  | some (Cell.Task t) => some t
  | _ => none

/-- Go's send statement `c <- v` can proceed: the buffer has room, or the
channel is closed (the statement then panics). -/
def Chan.canSend (c : Chan) : Bool := c.closed || decide (c.queue.length < c.cap)

/-- Go's send statement `c <- v` when it proceeds. -/
def Chan.send (c : Chan) (v : Value) : Outcome Chan :=
  if c.closed then .panics "send on closed channel"
  else .returns { c with queue := c.queue ++ [v] }

/-- Go's receive `<-c` can proceed: the buffer holds a value, or the channel is
closed. -/
def Chan.canRecv (c : Chan) : Bool := !c.queue.isEmpty || c.closed

/-- Go's receive `val, ok = <-c` when it proceeds: the oldest value of the
buffer, or the zero value and `false` on a closed channel without values. -/
def Chan.recv (c : Chan) : Chan × Value × Bool :=
  match c.queue with
  | v :: rest => ({ c with queue := rest }, v, true)
  | [] => (c, Value.nil, false)

/-- The cases of the `select` statements of `builtinSend` and `builtinRecv`:
the operation on the channel, the receive from `cancelCh` and that from
`fatalCh`. -/
inductive SelectCase where
  | comm
  | cancel
  | fatal
  deriving DecidableEq, Repr

/-- Go's `select` over these three cases. A receive from a nil channel (`none`)
never proceeds and a receive from a closed one (`some true`) always does; of
the cases that can proceed one is picked, here by `choice`, which stands for
Go's pseudo-random pick; the statement blocks (`none`) when no case can
proceed. -/
def selectCase (choice : Nat) (comm : Bool) (cancelCh fatalCh : Option Bool) :
    Option SelectCase :=
  let ready : List SelectCase :=
    (if comm then [SelectCase.comm] else [])
      ++ (if cancelCh = some true then [SelectCase.cancel] else [])
      ++ (if fatalCh = some true then [SelectCase.fatal] else [])
  ready[choice % ready.length]?

/-- Modelled from the spec: the runtime of the tasks as the blocking builtins
read it ("the runtime latches the first such failure as the fatal task failure
and broadcasts the fatalSignal"): whether the channel `fatalSignal()` has been
closed, and `getFatalTaskFailure()`. -/
structure taskRuntime where
  fatalSignal : Bool
  fatalTaskFailure : Option Error
  deriving DecidableEq, Repr

/-- The fields `runtime` and `currentTask` of the struct `Evaluator` (`none` is
nil), which the builtins of tasks and channels read; the fields that the loader
reads are in `Evaluator`. -/
structure taskEvaluator where
  runtime : Option taskRuntime
  currentTask : Option Nat
  deriving DecidableEq, Repr

/-- The function `runtimeFatalSignal`: `none` is a nil channel, `some b` a
channel that is closed when `b` is true. -/
def runtimeFatalSignal (e : Option taskEvaluator) : Option Bool :=
  match e with
  | none => none
  | some e =>
    match e.runtime with
    | none => none
    | some rt => some rt.fatalSignal

/-- The function `runtimeCancelSignal`: the channel `cancelCh` of the current
task. -/
def runtimeCancelSignal (h : Heap) (e : Option taskEvaluator) : Option Bool :=
  match e with
  | none => none
  | some e =>
    match e.currentTask with
    | none => none
    | some t => (h.task t).map (fun ts => ts.cancelCh)

/-- The function `runtimeFatalError`. -/
def runtimeFatalError (e : Option taskEvaluator) : Error :=
  match e with
  | none => Error.RuntimeError "runtime terminated" none
  | some e =>
    match e.runtime with
    | none => Error.RuntimeError "runtime terminated" none
    | some rt =>
      match rt.fatalTaskFailure with
      | some err => err
      | none => Error.RuntimeError "runtime terminated" none

/-- The values that the builtins return: the heap, the value and the error. -/
abbrev BuiltinResult := Heap × Value × Option Error

/-- The function `builtinSend`, run while no other task is blocked on the
channel: `none` when the call blocks for ever, and a panic when Go's send
panics. `canceledError` is the result of the function of that name, defined
outside the evaluator files, and `choice` the pick of `select`. -/
def builtinSend (canceledError : Error) (choice : Nat) (e : Option taskEvaluator) (h : Heap)
    (args : List Value) : Option (Outcome BuiltinResult) :=
  if args.length ≠ 2 then
    some (.returns (h, Value.nil, some (Error.RuntimeError "send expects channel and value" none)))
  else
    match args[0]? with
    | some (Value.Channel p) =>
      if (h.channel p).2 = true then
        some (.returns (h, Value.nil, some (Error.RuntimeError "send on closed channel" none)))
      else
        let fatalCh := runtimeFatalSignal e
        let cancelCh := runtimeCancelSignal h e
        let sent : Outcome BuiltinResult :=
          match (h.channel p).1.send (args.getD 1 Value.nil) with
          | .returns c => .returns (h.set p (Cell.Channel c (h.channel p).2), Value.Unit, none)
          | .panics msg => .panics msg
        if cancelCh = none ∧ fatalCh = none then
          if (h.channel p).1.canSend = true then some sent else none
        else
          match selectCase choice (h.channel p).1.canSend cancelCh fatalCh with
          | none => none
          | some .comm => some sent
          | some .cancel => some (.returns (h, Value.nil, some canceledError))
          | some .fatal => some (.returns (h, Value.nil, some (runtimeFatalError e)))
    | _ => some (.returns (h, Value.nil, some (Error.RuntimeError "send expects channel" none)))

/-- The function `builtinRecv`, run while no other task is blocked on the
channel: `none` when the call blocks for ever. The result array is a new
allocation. -/
def builtinRecv (canceledError : Error) (choice : Nat) (e : Option taskEvaluator) (h : Heap)
    (args : List Value) : Option BuiltinResult :=
  if args.length ≠ 1 then
    some (h, Value.nil, some (Error.RuntimeError "recv expects channel" none))
  else
    match args[0]? with
    | some (Value.Channel p) =>
      let fatalCh := runtimeFatalSignal e
      let cancelCh := runtimeCancelSignal h e
      let received : BuiltinResult :=
        let r := (h.channel p).1.recv
        let h1 : Heap := h.set p (Cell.Channel r.1 (h.channel p).2)
        if r.2.2 = false then
          ((h1.alloc (Cell.Array [Value.Null, Value.Boolean true])).1,
            Value.Array (h1.alloc (Cell.Array [Value.Null, Value.Boolean true])).2, none)
        else
          ((h1.alloc (Cell.Array [r.2.1, Value.Boolean false])).1,
            Value.Array (h1.alloc (Cell.Array [r.2.1, Value.Boolean false])).2, none)
      if cancelCh = none ∧ fatalCh = none then
        if (h.channel p).1.canRecv = true then some received else none
      else
        match selectCase choice (h.channel p).1.canRecv cancelCh fatalCh with
        | none => none
        | some .comm => some received
        | some .cancel => some (h, Value.nil, some canceledError)
        | some .fatal => some (h, Value.nil, some (runtimeFatalError e))
    | _ => some (h, Value.nil, some (Error.RuntimeError "recv expects channel" none))

/-- Modelled from the spec: the method `Close` of `Channel`, whose declaration
is not among the evaluator files ("a Channel once closed cannot be reopened";
"`done(done(ch))` does not raise"): the first call sets `Closed` and closes
`Ch`, a later call does nothing. -/
def Channel.Close (h : Heap) (p : Nat) : Heap :=
  if (h.channel p).2 = true then h
  else h.set p (Cell.Channel { (h.channel p).1 with closed := true } true)

/-- The function `builtinDone`. -/
def builtinDone (h : Heap) (args : List Value) : BuiltinResult :=
  if args.length ≠ 1 then (h, Value.nil, some (Error.RuntimeError "done expects channel" none))
  else
    match args[0]? with
    | some (Value.Channel p) => (Channel.Close h p, Value.Unit, none)
    | _ => (h, Value.nil, some (Error.RuntimeError "done expects channel" none))

/-- The function `builtinChannel`: a new channel without buffer. -/
def builtinChannel (h : Heap) (_args : List Value) : BuiltinResult :=
  ((h.alloc (Cell.Channel ⟨[], 0, false⟩ false)).1,
    Value.Channel (h.alloc (Cell.Channel ⟨[], 0, false⟩ false)).2, none)

/-- The function `builtinBufferedChannel`. -/
def builtinBufferedChannel (h : Heap) (args : List Value) : BuiltinResult :=
  if args.length ≠ 1 then
    (h, Value.nil, some (Error.RuntimeError "buffered expects 1 argument (buffer size)" none))
  else
    match args[0]? with
    | some (Value.Integer size) =>
      if size < 0 then
        (h, Value.nil,
          some (Error.RuntimeError "buffered expects non-negative buffer size" none))
      else if size > 1000000 then
        (h, Value.nil,
          some (Error.RuntimeError "buffered buffer size too large (max 1000000)" none))
      else
        ((h.alloc (Cell.Channel ⟨[], size.toNat, false⟩ false)).1,
          Value.Channel (h.alloc (Cell.Channel ⟨[], size.toNat, false⟩ false)).2, none)
    | _ =>
      (h, Value.nil, some (Error.RuntimeError "buffered expects integer buffer size" none))

/-- The goroutine that `builtinThen` starts, by the variables that its closure
captures. -/
structure thenWorker where
  task : Nat
  thenTask : Nat
  thenEval : taskEvaluator
  fn : Value
  deriving DecidableEq, Repr

/-- The state that `then` acts on and that the other goroutines share: the
heap, and the goroutines started so far. -/
structure TaskWorld where
  heap : Heap
  workers : List thenWorker
  deriving DecidableEq, Repr

/-- Modelled from the spec: the method `markObserved` of `Task`, whose
declaration is not among the evaluator files ("`observed` (bool) — becomes
true on `await`, `then`, `race`, or explicit marking"). -/
def markObserved (h : Heap) (t : Nat) : Heap :=
  match h.task t with
  | some ts => h.set t (Cell.Task { ts with observed := true })
  | none => h

/-- Modelled from the spec: the method `newTask` of the evaluator ("creates a
new Task with the current task as parent"; "a freshly spawned task is
unobserved until first awaited or chained"). -/
def newTask (h : Heap) (parent : Option Nat) (detached : Bool) : Heap × Nat :=
  h.alloc (Cell.Task ⟨parent, detached, false, false⟩)

/-- Modelled from the spec: the method `cloneForTask` of the evaluator ("the
runtime is responsible for keeping per-task evaluator state (`Evaluator`
clones) isolated"): a copy of the evaluator whose current task is `t`. -/
def cloneForTask (e : taskEvaluator) (t : Nat) : taskEvaluator :=
  { e with currentTask := some t }

/-- The points of the body of `builtinThen` at which the calling goroutine can
stand, another goroutine running meanwhile: at the entry, when the call has
begun and nothing is done yet; after the two checks of the arguments; after
`task.markObserved()`; after `e.newTask`; after `e.cloneForTask`; after the
`go` statement; and after the return or a panic. -/
inductive thenPoint where
  | entry
  | checked (task : Nat)
  | marked (task : Nat)
  | created (task thenTask : Nat)
  | cloned (task thenTask : Nat) (thenEval : taskEvaluator)
  | launched (task thenTask : Nat)
  | returned (val : Value) (err : Option Error)
  | panicked (msg : String)
  deriving DecidableEq, Repr

/-- One step of the function `builtinThen`, from one point of its body to the
next, on the state that the goroutines share: the checks of the arguments (in
one step: they read the arguments only), `task.markObserved()`,
`e.newTask(e.currentTask, false)` (on a nil evaluator the call panics),
`e.cloneForTask(thenTask)`, the `go` statement, and the return. `none` when
the call has ended. -/
def builtinThenStep (e : Option taskEvaluator) (args : List Value) :
    thenPoint × TaskWorld → Option (thenPoint × TaskWorld)
  | (.entry, w) =>
    if args.length ≠ 2 then
      some (.returned Value.nil (some (Error.RuntimeError "then expects task and function" none)),
        w)
    else
      match args[0]? with
      | some (Value.Task task) => some (.checked task, w)
      | _ =>
        some (.returned Value.nil
          (some (Error.RuntimeError "then expects task as receiver" none)), w)
  | (.checked task, w) => some (.marked task, { w with heap := markObserved w.heap task })
  | (.marked task, w) =>
    match e with
    | none => some (.panicked "runtime error: invalid memory address or nil pointer dereference", w)
    | some ev =>
      some (.created task (newTask w.heap ev.currentTask false).2,
        { w with heap := (newTask w.heap ev.currentTask false).1 })
  | (.created task thenTask, w) =>
    match e with
    | none => some (.panicked "runtime error: invalid memory address or nil pointer dereference", w)
    | some ev => some (.cloned task thenTask (cloneForTask ev thenTask), w)
  | (.cloned task thenTask thenEval, w) =>
    some (.launched task thenTask,
      { w with workers := w.workers ++ [⟨task, thenTask, thenEval, args.getD 1 Value.nil⟩] })
  | (.launched _ thenTask, w) => some (.returned (Value.Task thenTask) none, w)
  | (.returned _ _, _) => none
  | (.panicked _, _) => none

/-- The steps of `builtinThen` taken one after the other with no other
goroutine in between, at most `fuel` of them: the point and the state reached
when the call has ended (`none` when `fuel` steps do not suffice). -/
def builtinThenRun (e : Option taskEvaluator) (args : List Value) :
    Nat → thenPoint × TaskWorld → Option (thenPoint × TaskWorld)
  | 0, _ => none
  | fuel + 1, c =>
    match builtinThenStep e args c with
    | none => some c
    | some c1 => builtinThenRun e args fuel c1

/-- The function `builtinThen`, called in the state `w` and run with no other
goroutine in between: the state after the call, and how the call ends. The
body has no loop: seven steps reach its end. -/
def builtinThen (e : Option taskEvaluator) (w : TaskWorld) (args : List Value) :
    Option (TaskWorld × Outcome (Value × Option Error)) :=
  match builtinThenRun e args 7 (.entry, w) with
  | some (.returned val err, w1) => some (w1, .returns (val, err))
  | some (.panicked msg, w1) => some (w1, .panics msg)
  | _ => none

/-- The runs of a call of `builtinThen` among other goroutines: from one
configuration (the point of the call and the shared state) another is reached
by steps of the call and, between any two of them, steps of the other
goroutines, which `other` relates. -/
inductive thenReaches (other : TaskWorld → TaskWorld → Prop) (e : Option taskEvaluator)
    (args : List Value) : thenPoint × TaskWorld → thenPoint × TaskWorld → Prop where
  | start (c : thenPoint × TaskWorld) : thenReaches other e args c c
  | call (c c1 c2 : thenPoint × TaskWorld) :
    thenReaches other e args c c1 → builtinThenStep e args c1 = some c2 →
    thenReaches other e args c c2
  | others (c : thenPoint × TaskWorld) (pt : thenPoint) (w1 w2 : TaskWorld) :
    thenReaches other e args c (pt, w1) → other w1 w2 → thenReaches other e args c (pt, w2)

/-- What a scan sees of the task at `t`: whether it is marked observed. -/
def isObserved (h : Heap) (t : Nat) : Bool :=
  match h.task t with
  | some ts => ts.observed
  | none => false

/-- The call of `builtinThen` has not yet reached `task.markObserved()`: it
stands at the entry or after the checks of the arguments. -/
def thenPoint.beforeMark : thenPoint → Bool
  | .entry => true
  | .checked _ => true
  | _ => false

/-- The task that the call of `builtinThen` holds in its variable `task`, from
the checks of the arguments to the return. -/
def thenPoint.task : thenPoint → Option Nat
  | .checked task => some task
  | .marked task => some task
  | .created task _ => some task
  | .cloned task _ _ => some task
  | .launched task _ => some task
  | _ => none

/-- No cancellation and no fatal signal is pending for the evaluator: neither
`cancelCh` nor `fatalSignal()` is a closed channel. -/
def noSignalPending (h : Heap) (e : Option taskEvaluator) : Prop :=
  runtimeCancelSignal h e ≠ some true ∧ runtimeFatalSignal e ≠ some true

/-! ## Numeric and utility builtins (`builtins_runtime_random.go`,
`builtins_numeric_helpers.go`, `builtins_runtime_util.go`,
`builtins_runtime_log.go`) -/

/-- Go's `rand.Int63n(n)`: it panics when `n <= 0`, and otherwise returns a
number `r` with `0 <= r < n` that the random source determines; here `r` is the
remainder of `random`, any natural number. -/
def Int63n (random : Nat) (n : Int) : Outcome Int :=
  if n ≤ 0 then .panics "invalid argument to Int63n" else .returns ((random : Int) % n)

/-- The function `builtinRandInt`; the subtraction and the additions are those
of `int64`, and `math.MaxInt64` is `2^63 - 1`. -/
def builtinRandInt (random : Nat) (args : List Value) : Outcome (Value × Option Error) :=
  if args.length ≠ 2 then
    .returns (Value.nil, some (Error.RuntimeError "randInt expects min and max" none))
  else
    match args[0]? with
    | some (Value.Integer min) =>
      match args[1]? with
      | some (Value.Integer max) =>
        if max < min then
          .returns (Value.nil, some (Error.RuntimeError "randInt expects min <= max" none))
        else if max = min then .returns (Value.Integer min, none)
        else
          let diff := wrap64 (max - min)
          if diff < 0 ∨ diff = 2 ^ 63 - 1 then
            .returns (Value.nil, some (Error.RuntimeError "randInt range too large" none))
          else
            match Int63n random (wrap64 (diff + 1)) with
            | .panics msg => .panics msg
            | .returns r => .returns (Value.Integer (wrap64 (r + min)), none)
      | _ => .returns (Value.nil, some (Error.RuntimeError "randInt expects integer max" none))
    | _ => .returns (Value.nil, some (Error.RuntimeError "randInt expects integer min" none))

/-- The function `numberArg`. -/
def numberArg (val : Value) : F64 × Bool × Bool :=
  match val with
  | .Integer v => (F64.ofInt v, true, true)
  | .Float v => (v, false, true)
  | _ => (F64.zero, false, false)

/-- The function `integralMath`; `float64(math.MaxInt64)` and
`float64(math.MinInt64)` are the constants `2^63 - 1` and `-2^63` converted to
`float64`. -/
def integralMath (oor : F64 → Int) (args : List Value) (name : String) (fn : F64 → F64) :
    Value × Option Error :=
  if args.length ≠ 1 then
    (Value.nil, some (Error.RuntimeError (name ++ " expects 1 argument") none))
  else if (numberArg (args.getD 0 Value.nil)).2.2 = false then
    (Value.nil, some (Error.RuntimeError (name ++ " expects number") none))
  else
    let result := fn (numberArg (args.getD 0 Value.nil)).1
    if F64.lt (F64.ofInt (2 ^ 63 - 1)) result = true
        ∨ F64.lt result (F64.ofInt (-(2 ^ 63))) = true then
      (Value.nil, some (Error.RuntimeError (name ++ " overflow") none))
    else (Value.Integer (toInt64 oor result), none)

/-- Go's `math.Floor`: the greatest integral value not above `x`; zeros, NaN
and the infinities are returned as they are. -/
def F64.floor : F64 → F64
  | .nan => .nan
  | .inf s => .inf s
  | .fin s m e =>
    if 0 ≤ e then .fin s m e
    else if m = 0 then .fin s 0 0
    else
      let q : Nat := m / 2 ^ (-e).toNat
      let r : Nat := m % 2 ^ (-e).toNat
      if s then F64.ofInt (-((if r = 0 then q else q + 1 : Nat) : Int))
      else if q = 0 then .fin false 0 0
      else F64.ofInt (q : Int)

/-- Go's `strconv.ParseUint(s, 10, 64)` on the characters of `s`, as far as
`ParseInt` uses it: `none` for a syntax error (no characters, or a character
that is not a decimal digit), else the number that the digits denote, which is
out of range when it is `2^64` or more. -/
def parseDecimal : List Char → Option Nat
  | [] => none
  | c :: cs =>
    (c :: cs).foldl
      (fun acc d =>
        match acc with
        | none => none
        | some n => if '0' ≤ d ∧ d ≤ '9' then some (n * 10 + (d.toNat - '0'.toNat)) else none)
      (some 0)

/-- Go's `strconv.ParseInt(s, 10, 64)`: an optional sign and decimal digits;
`none` is a syntax error or a range error (the number is not an `int64`). -/
def ParseInt (s : String) : Option Int :=
  match s.toList with
  | [] => none
  | c :: cs =>
    let neg : Bool := decide (c = '-')
    let digits : List Char := if c = '+' ∨ c = '-' then cs else c :: cs
    match parseDecimal digits with
    | none => none
    | some un =>
      if un ≥ 2 ^ 64 then none
      else if neg = false ∧ un ≥ 2 ^ 63 then none
      else if neg = true ∧ un > 2 ^ 63 then none
      else some (if neg then -(un : Int) else (un : Int))

/-- The function `builtinParseInt`. -/
def builtinParseInt (args : List Value) : Value × Option Error :=
  if args.length ≠ 1 then
    (Value.nil, some (Error.RuntimeError "parseInt expects 1 argument" none))
  else
    match args[0]? with
    | some (Value.String s) =>
      match ParseInt s with
      | none => (Value.nil, some (Error.RuntimeError ("invalid integer: " ++ s) none))
      | some n => (Value.Integer n, none)
    | _ => (Value.nil, some (Error.RuntimeError "parseInt expects string" none))

/-! ## Printing values (`value.go`, `value_inspect.go`, `value_pretty.go`,
`builtins_runtime_log.go`) -/

/-- What printing takes from outside the evaluator files: Go's verbs `%g` and
`%q` of `fmt.Sprintf`, the function `formatMapKey`, the `Inspect` methods of
the functions, builtins, tasks, channels and partials, and the order in which
Go's `range` visits the entries of a map (a permutation of them that the
language leaves unspecified), for each of the three map types. -/
structure Printer where
  g : F64 → String
  q : String → String
  formatMapKey : MapKey → String
  inspectOther : Value → String
  rangePairs : List (String × Value) → List (String × Value)
  rangeMap : List (MapKey × Value) → List (MapKey × Value)
  rangeSet : List MapKey → List MapKey

/-- Why a call gives no text: the embedding ran out of fuel (the nesting is
deeper than the fuel, as it is for a container that contains itself, on which
Go recurses without end), or Go panics. -/
inductive Halt where
  | outOfFuel
  | panic (msg : String)
  deriving DecidableEq, Repr

/-- How a printing call ends: with its result, or with none. -/
inductive Run (α : Type) where
  | ok (r : α)
  | error (why : Halt)
  deriving DecidableEq, Repr

/-- The text that a printing method returns, or why it returns none. -/
abbrev Printed := Run String

/-- The texts of the elements of a list, in order, up to the first that gives
none. -/
def printAll {α : Type} (f : α → Printed) : List α → Run (List String)
  | [] => .ok []
  | x :: xs =>
    match f x with
    | .error e => .error e
    | .ok s =>
      match printAll f xs with
      | .error e => .error e
      | .ok ss => .ok (s :: ss)

/-- The function `isIdentifierKey`. -/
def isIdentifierKey (key : String) : Bool :=
  match key.toList with
  | [] => false
  | r :: rest =>
    ((('a' ≤ r ∧ r ≤ 'z') ∨ ('A' ≤ r ∧ r ≤ 'Z')) ∨ r = '_') &&
      rest.all (fun r =>
        decide ((('a' ≤ r ∧ r ≤ 'z') ∨ ('A' ≤ r ∧ r ≤ 'Z')) ∨ ('0' ≤ r ∧ r ≤ '9') ∨ r = '_'))

/-- The function `inspectObjectKey`. -/
def inspectObjectKey (pr : Printer) (key : String) : String :=
  if isIdentifierKey key then key else pr.q key

/-- The function `inspectObjectPairs`; `inspect` is the method `Inspect` of the
values, and the entries are visited in the order of `range`. -/
def inspectObjectPairs (pr : Printer) (inspect : Value → Printed)
    (pairs : List (String × Value)) : Printed :=
  match printAll (fun kv : String × Value =>
      match inspect kv.2 with
      | .error e => .error e
      | .ok s => .ok (inspectObjectKey pr kv.1 ++ ": " ++ s)) (pr.rangePairs pairs) with
  | .error e => .error e
  | .ok parts => .ok ("\x7b" ++ String.intercalate ", " parts ++ "\x7d")

/-- Modelled from the spec: the method `Snapshot` of `Environment`, whose
declaration is not among the evaluator files ("`Snapshot` returns an immutable
copy of the current scope"); the callers receive a `map[string]Value`. -/
def Environment.Snapshot (h : Heap) (env : Nat) : List (String × Value) :=
  match h[env]? with
  | some (Cell.Environment store _) => store
  | _ => []

/-- The methods `Inspect` of the values, with at most `fuel` nested calls. A
call on the nil interface panics. -/
def Inspect (pr : Printer) (h : Heap) : Nat → Value → Printed
  | 0, _ => .error Halt.outOfFuel
  | fuel + 1, v =>
    match v with
    | .nil => .error (Halt.panic "runtime error: invalid memory address or nil pointer dereference")
    | .Integer i => .ok (toString i)
    | .Float f => .ok (pr.g f)
    | .Boolean b => .ok (if b then "true" else "false")
    | .String s => .ok (pr.q s)
    | .Char c => .ok ("'" ++ c ++ "'")
    | .Null => .ok "null"
    | .Unit => .ok "()"
    | .Array p =>
      match printAll (Inspect pr h fuel) (h.elements p) with
      | .error e => .error e
      | .ok parts => .ok ("[" ++ String.intercalate ", " parts ++ "]")
    | .Object p => inspectObjectPairs pr (Inspect pr h fuel) (h.objectPairs p)
    | .ModuleObject p =>
      match h.moduleEnv p with
      | none => .ok "\x7b\x7d"
      | some env => inspectObjectPairs pr (Inspect pr h fuel) (Environment.Snapshot h env)
    | .Map p =>
      match printAll (fun kv : MapKey × Value =>
          match Inspect pr h fuel kv.2 with
          | .error e => .error e
          | .ok s => .ok (pr.formatMapKey kv.1 ++ ": " ++ s)) (pr.rangeMap (h.mapPairs p)) with
      | .error e => .error e
      | .ok parts => .ok ("map\x7b" ++ String.intercalate ", " parts ++ "\x7d")
    | .Set p =>
      .ok ("set\x7b" ++ String.intercalate ", " ((pr.rangeSet (h.setElements p)).map pr.formatMapKey)
        ++ "\x7d")
    | v => .ok (pr.inspectOther v)

/-- The function `formatLogValue`. -/
def formatLogValue (pr : Printer) (h : Heap) (fuel : Nat) (val : Value) : Printed :=
  match val with
  | .String v => .ok v
  | .Char v => .ok v
  | .Null => .ok "null"
  | .Unit => .ok "()"
  | v => Inspect pr h fuel v

/-- The function `builtinStr`: the value and the error, or why it does not
return. -/
def builtinStr (pr : Printer) (h : Heap) (fuel : Nat) (args : List Value) :
    Run (Value × Option Error) :=
  if args.length ≠ 1 then
    .ok (Value.nil, some (Error.RuntimeError "str expects 1 argument" none))
  else
    match formatLogValue pr h fuel (args.getD 0 Value.nil) with
    | .error e => .error e
    | .ok s => .ok (Value.String s, none)

/-- Go's `strings.Repeat("  ", n)`. -/
def repeatIndent (n : Nat) : String := repeatSpace (2 * n)

/-- The loop of the `Pretty` methods over the entries, each given by its text:
the indentation, the entry, a comma unless it is the last, and a line feed. -/
def prettyEntries (indentStr : String) : List String → String
  | [] => ""
  | [entry] => indentStr ++ entry ++ "\n"
  | entry :: rest => indentStr ++ entry ++ "," ++ "\n" ++ prettyEntries indentStr rest

/-- Go's `sort.Strings`: the strings in ascending order (Go compares strings
bytewise, which on UTF-8 text is the order of the code points). -/
def sortStrings (keys : List String) : List String := keys.insertionSort (fun a b => a ≤ b)

/-- The method `Pretty` of `*Array`; `render v` is the text of the element `v`
at the depth `indent + 1`: `Pretty(indent + 1)` when it is a `PrettyPrinter`,
else `Inspect()`. -/
def prettyArray (render : Value → Printed) (Elements : List Value) (indent : Nat) : Printed :=
  if Elements.length = 0 then .ok "[]"
  else
    match printAll render Elements with
    | .error e => .error e
    | .ok entries =>
      .ok ("[\n" ++ prettyEntries (repeatIndent (indent + 1)) entries ++ repeatIndent indent ++ "]")

/-- The method `Pretty` of `*Object`: the keys are collected in the order of
`range`, sorted, and each is looked up in `Pairs`. -/
def prettyObject (pr : Printer) (render : Value → Printed) (Pairs : List (String × Value))
    (indent : Nat) : Printed :=
  if Pairs.length = 0 then .ok "\x7b\x7d"
  else
    match printAll (fun k : String =>
        match render ((Pairs.lookup k).getD Value.nil) with
        | .error e => .error e
        | .ok s => .ok (k ++ ": " ++ s)) (sortStrings ((pr.rangePairs Pairs).map Prod.fst)) with
    | .error e => .error e
    | .ok entries =>
      .ok ("\x7b\n" ++ prettyEntries (repeatIndent (indent + 1)) entries ++ repeatIndent indent ++ "\x7d")

/-- The method `Pretty` of `*Map`: the entries are collected in the order of
`range` and sorted by the text of their keys with `sort.Slice`, which leaves
the order of entries with equal texts unspecified (here they keep their
order). -/
def prettyMap (pr : Printer) (render : Value → Printed) (Pairs : List (MapKey × Value))
    (indent : Nat) : Printed :=
  if Pairs.length = 0 then .ok "map\x7b\x7d"
  else
    match printAll (fun kv : MapKey × Value =>
        match render kv.2 with
        | .error e => .error e
        | .ok s => .ok (pr.formatMapKey kv.1 ++ ": " ++ s))
        ((pr.rangeMap Pairs).insertionSort
          (fun a b => pr.formatMapKey a.1 ≤ pr.formatMapKey b.1)) with
    | .error e => .error e
    | .ok entries =>
      .ok ("map\x7b\n" ++ prettyEntries (repeatIndent (indent + 1)) entries ++ repeatIndent indent
        ++ "\x7d")

/-- The method `Pretty` of `*Set`. -/
def prettySet (pr : Printer) (Elements : List MapKey) (indent : Nat) : Printed :=
  if Elements.length = 0 then .ok "set\x7b\x7d"
  else
    .ok ("set\x7b\n"
      ++ prettyEntries (repeatIndent (indent + 1))
          (sortStrings ((pr.rangeSet Elements).map pr.formatMapKey))
      ++ repeatIndent indent ++ "\x7d")

/-- The text of a value inside a `Pretty` method, with at most `fuel` nested
calls: `pp.Pretty(indent)` when the value is a `PrettyPrinter` (an Array,
Object, Map or Set), else `Inspect()`. -/
def prettyValue (pr : Printer) (h : Heap) : Nat → Value → Nat → Printed
  | 0, _, _ => .error Halt.outOfFuel
  | fuel + 1, v, indent =>
    match v with
    | .Array p =>
      prettyArray (fun el => prettyValue pr h fuel el (indent + 1)) (h.elements p) indent
    | .Object p =>
      prettyObject pr (fun el => prettyValue pr h fuel el (indent + 1)) (h.objectPairs p) indent
    | .Map p =>
      prettyMap pr (fun el => prettyValue pr h fuel el (indent + 1)) (h.mapPairs p) indent
    | .Set p => prettySet pr (h.setElements p) indent
    | v => Inspect pr h (fuel + 1) v

/-- A printer for the examples: `range` visits the entries in the order in
which they are stored. -/
def examplePrinter : Printer where
  g := fun _ => "<float>"
  q := fun s => "\"" ++ s ++ "\""
  formatMapKey := fun k => k.Value
  inspectOther := fun _ => "<value>"
  rangePairs := id
  rangeMap := id
  rangeSet := id

/-- The same printer when `range` visits the entries in the opposite order. -/
def reversePrinter : Printer :=
  { examplePrinter with
    rangePairs := List.reverse
    rangeMap := List.reverse
    rangeSet := List.reverse }

/-! ## Notebook conversion (`notebook/convert.go`) -/

/-- A Go string: the sequence of its bytes, which need not be valid UTF-8. -/
abbrev GoString := List Nat

/-- Go's `strings.SplitAfter(s, "\n")` on the bytes of `s` (the line feed is
the byte 10): the pieces that end after each line feed, and the rest after the
last one. -/
def splitAfterNewline : GoString → List GoString
  | [] => [[]]
  | c :: cs =>
    if c = 10 then [c] :: splitAfterNewline cs
    else
      match splitAfterNewline cs with
      | [] => [[c]]
      | l :: ls => (c :: l) :: ls

/-- The function `splitLinesForJupyter`. -/
def splitLinesForJupyter (source : GoString) : List GoString :=
  if source = [] then []
  else
    let lines := splitAfterNewline source
    if lines.length > 0 ∧ lines.getLast? = some [] then lines.dropLast else lines

/-- A value of type `interface{}` as `encoding/json` decodes it, by the cases
that `jupyterSourceToString` tells apart: a string, an array, or anything
else. -/
inductive JSONValue where
  | string (v : GoString)
  | array (v : List JSONValue)
  | other

/-- The function `jupyterSourceToString`. -/
def jupyterSourceToString (src : JSONValue) : GoString × Bool :=
  match src with
  | .string v => (v, true)
  | .array v =>
    ((v.filterMap (fun part =>
      match part with
      | .string s => some s
      | _ => none)).flatten, true)
  | .other => ([], false)

/-- Go's table `first` with `acceptRanges` of the package `unicode/utf8`: for a
byte that can lead a UTF-8 encoding, the number of bytes of the encoding and
the range of its second byte (the bytes after the second are in `0x80..0xBF`;
a byte below `0x80` is an encoding by itself and the range is not used);
`none` for a byte that cannot lead. -/
def utf8First (b0 : Nat) : Option (Nat × Nat × Nat) :=
  if b0 < 0x80 then some (1, 0x80, 0xBF)
  else if 0xC2 ≤ b0 ∧ b0 ≤ 0xDF then some (2, 0x80, 0xBF)
  else if b0 = 0xE0 then some (3, 0xA0, 0xBF)
  else if (0xE1 ≤ b0 ∧ b0 ≤ 0xEC) ∨ b0 = 0xEE ∨ b0 = 0xEF then some (3, 0x80, 0xBF)
  else if b0 = 0xED then some (3, 0x80, 0x9F)
  else if b0 = 0xF0 then some (4, 0x90, 0xBF)
  else if 0xF1 ≤ b0 ∧ b0 ≤ 0xF3 then some (4, 0x80, 0xBF)
  else if b0 = 0xF4 then some (4, 0x80, 0x8F)
  else none

/-- The `n` bytes that follow a leading byte are there and in range: the first
of them in `lo..hi`, the others in `0x80..0xBF`. -/
def utf8Tail : Nat → Nat → Nat → GoString → Bool
  | 0, _, _, _ => true
  | _ + 1, _, _, [] => false
  | n + 1, lo, hi, b :: rest => decide (lo ≤ b ∧ b ≤ hi) && utf8Tail n 0x80 0xBF rest

/-- Go's `utf8.DecodeRuneInString`, by the width it returns: the number of
bytes of the UTF-8 encoding that the string starts with, and `0` where Go
returns `(RuneError, 1)` for a string that starts with no valid encoding, or
`(RuneError, 0)` for the empty string. -/
def utf8Size : GoString → Nat
  | [] => 0
  | b0 :: rest =>
    match utf8First b0 with
    | none => 0
    | some (n, lo, hi) => if utf8Tail (n - 1) lo hi rest = true then n else 0

/-- Go's `utf8.ValidString`, with the number `k` of bytes of the current
encoding that are still to be passed. -/
def ValidString : Nat → GoString → Bool
  | _, [] => true
  | k + 1, _ :: rest => ValidString k rest
  | 0, b :: rest =>
    match utf8Size (b :: rest) with
    | 0 => false
    | n + 1 => ValidString n rest

/-- A string as `json.Unmarshal` decodes it from what `json.MarshalIndent`
wrote for it. The encoder copies or escapes every valid UTF-8 encoding, and
the decoder gives the same bytes back; for a byte that starts no valid
encoding the encoder writes the escape of U+FFFD and goes on with the next
byte, and the decoder gives the bytes `EF BF BD` of U+FFFD back. `k` is the
number of bytes of the current encoding that are still to be copied. -/
def jsonString : Nat → GoString → GoString
  | _, [] => []
  | k + 1, b :: rest => b :: jsonString k rest
  | 0, b :: rest =>
    match utf8Size (b :: rest) with
    | 0 => 0xEF :: 0xBF :: 0xBD :: jsonString 0 rest
    | n + 1 => b :: jsonString n rest

/-- The constants `CodeCell` and `MarkdownCell` of the notebook's cell types,
and any other type. -/
inductive CellType where
  | CodeCell
  | MarkdownCell
  | other
  deriving DecidableEq, Repr

/-- The fields `Type` and `Source` of the notebook's struct `Cell`, as
`saveIPYNB` and `loadIPYNB` use them (`Type` is spelled `Typ`). -/
structure NotebookCell where
  Typ : CellType
  Source : GoString
  deriving DecidableEq, Repr

/-- The entries `cell_type` and `source` of the map that `saveIPYNB` builds
for a cell. -/
structure SavedCell where
  cell_type : String
  source : List GoString
  deriving DecidableEq, Repr

/-- The fields `cell_type` and `source` of the struct `JupyterCell`, into
which `loadIPYNB` decodes a cell of a `.ipynb` file. -/
structure JupyterCell where
  CellType : String
  Source : JSONValue

/-- The loop of `saveIPYNB` over the cells: a map for each code cell and each
markdown cell. -/
def saveCells : List NotebookCell → List SavedCell
  | [] => []
  | cell :: rest =>
    match cell.Typ with
    | .CodeCell => ⟨"code", splitLinesForJupyter cell.Source⟩ :: saveCells rest
    | .MarkdownCell => ⟨"markdown", splitLinesForJupyter cell.Source⟩ :: saveCells rest
    | .other => saveCells rest

/-- The cells as `json.Unmarshal` in `loadIPYNB` decodes them from the file
that `json.MarshalIndent` in `saveIPYNB` wrote: the `cell_type` comes back as
it is (`code` and `markdown` are ASCII), and the `source`, a `[]string`, as an
array of the strings that the encoding and decoding make of its strings. -/
def jsonCells (cells : List SavedCell) : List JupyterCell :=
  cells.map (fun c =>
    ⟨c.cell_type, JSONValue.array (c.source.map (fun l => JSONValue.string (jsonString 0 l)))⟩)

/-- The loop of `loadIPYNB` over the decoded cells. -/
def loadCells : List JupyterCell → List NotebookCell
  | [] => []
  | jCell :: rest =>
    if (jupyterSourceToString jCell.Source).2 = false then loadCells rest
    else if jCell.CellType = "code" then
      ⟨CellType.CodeCell, (jupyterSourceToString jCell.Source).1⟩ :: loadCells rest
    else if jCell.CellType = "markdown" then
      ⟨CellType.MarkdownCell, (jupyterSourceToString jCell.Source).1⟩ :: loadCells rest
    else loadCells rest

/-! ## Classes of values used in the statements -/

/-- The primitive kinds: Integer, Float, Boolean, String, Char, Null, Unit. -/
def isPrimitive : Value → Bool
  | .Integer _ | .Float _ | .Boolean _ | .String _ | .Char _ | .Null | .Unit => true
  | _ => false

/-- The kinds compared by identity: every non-nil value that is not primitive. -/
def isReference : Value → Bool
  | .Array _ | .Object _ | .ModuleObject _ | .Map _ | .Set _ | .Function _
  | .Builtin _ | .Task _ | .Channel _ | .Partial _ => true
  | _ => false

/-- The numeric kinds: Integer and Float. -/
def isNumeric : Value → Bool
  | .Integer _ | .Float _ => true
  | _ => false

/-- The value is a Float. -/
def isFloat : Value → Bool
  | .Float _ => true
  | _ => false

/-- A canonical binary64 datum: a NaN, an infinity, a zero `fin s 0 0`, or a
non-zero `fin s m e` that is normalised or subnormal. -/
def F64.canonical : F64 → Prop
  | .nan => True
  | .inf _ => True
  | .fin _ m e =>
    (m = 0 ∧ e = 0) ∨
      (0 < m ∧ m < 2 ^ 53 ∧ -1074 ≤ e ∧ e ≤ 971 ∧ (2 ^ 52 ≤ m ∨ e = -1074))

/-- Every Float payload inside the value is canonical. -/
def canonicalValue : Value → Prop
  | .Float f => F64.canonical f
  | _ => True

/-- A slice bound as the specification words it: an omitted bound counts as
`dflt`, and a negative bound `i` is replaced by `n + i`. -/
def specBound (n dflt : Int) : Option Int → Int
  | none => dflt
  | some i => if i < 0 then n + i else i

/-- The result of evaluating a bound expression that yields the Integer `i`. -/
def integerResult (i : Int) : EvalResult := EvalResult.ok (Value.Integer i)

/-! ## Theorems -/

section Arithmetic

theorem toInt64_of_inRange (oor : F64 → Int) (s : Bool) (m : Nat) (e : Int)
    (h : -(2 ^ 63) ≤ F64.trunc s m e ∧ F64.trunc s m e < 2 ^ 63) :
    toInt64 oor (F64.fin s m e) = F64.trunc s m e := by
  simp only [toInt64]
  rw [if_pos h]

theorem ofInt_zero : F64.ofInt 0 = F64.fin false 0 0 := by decide

theorem wrap64_isInt64 (z : Int) : isInt64 (wrap64 z) := by
  unfold wrap64 isInt64
  omega

theorem toInt64_isInt64 (oor : F64 → Int) (f : F64) : isInt64 (toInt64 oor f) := by
  cases f with
  | nan => exact wrap64_isInt64 _
  | inf s => exact wrap64_isInt64 _
  | fin s m e =>
    simp only [toInt64]
    split
    · assumption
    · exact wrap64_isInt64 _

/-- On two Integers each of `+`, `-` and `*` returns an Integer in the `int64`
range, with no error and no signal. -/
theorem evalIntegerInfix_returns_integer (oor : F64 → Int) (op : String) (a b : Int)
    (hop : op = "+" ∨ op = "-" ∨ op = "*") :
    ∃ n : Int, isInt64 n ∧
      evalIntegerInfix oor op a (Value.Integer b) = .returns (EvalResult.ok (Value.Integer n)) := by
  rcases hop with rfl | rfl | rfl
  · exact ⟨toInt64 oor (F64.add (F64.ofInt a) (F64.ofInt b)), toInt64_isInt64 oor _,
      by simp [evalIntegerInfix, evalNumericInfix, numberValue]⟩
  · exact ⟨toInt64 oor (F64.sub (F64.ofInt a) (F64.ofInt b)), toInt64_isInt64 oor _,
      by simp [evalIntegerInfix, evalNumericInfix, numberValue]⟩
  · exact ⟨toInt64 oor (F64.mul (F64.ofInt a) (F64.ofInt b)), toInt64_isInt64 oor _,
      by simp [evalIntegerInfix, evalNumericInfix, numberValue]⟩

set_option maxRecDepth 8000 in
/-- C1: at the Integer operands `2^53 + 1` and `0` the operator `+` returns the
Integer `2^53`, not the exact sum `2^53 + 1`, because the operands are
converted to `float64` before they are added; likewise `2^53 + 1` evaluates to
`2^53`, whereas the postfix `++` on an element holding `2^53`, which adds in
`int64`, stores and returns `2^53 + 1`. -/
theorem C1_add_zero_not_exact (oor : F64 → Int) :
    isInt64 9007199254740993 ∧
    evalIntegerInfix oor "+" 9007199254740993 (Value.Integer 0)
      = .returns (EvalResult.ok (Value.Integer 9007199254740992)) ∧
    wrap64 (9007199254740993 + 0) ≠ 9007199254740992 ∧
    evalIntegerInfix oor "+" 9007199254740992 (Value.Integer 1)
      = .returns (EvalResult.ok (Value.Integer 9007199254740992)) ∧
    evalPostfixExpression oor [Cell.Array [Value.Integer 9007199254740992]] 0
        (.IndexExpression (EvalResult.ok (Value.Array 0)) (integerResult 0)) "++"
      = ([Cell.Array [Value.Integer 9007199254740993]],
          .returns (EvalResult.ok (Value.Integer 9007199254740993))) := by
  have hadd : F64.add (F64.ofInt 9007199254740993) (F64.ofInt 0)
      = F64.fin false 4503599627370496 1 := by decide
  have hadd1 : F64.add (F64.ofInt 9007199254740992) (F64.ofInt 1)
      = F64.fin false 4503599627370496 1 := by decide
  have htr : F64.trunc false 4503599627370496 1 = 9007199254740992 := by decide
  have hone : F64.ofInt 1 = F64.fin false 4503599627370496 (-52) := by decide
  have htr1 : F64.trunc false 4503599627370496 (-52) = 1 := by decide
  have hres : resolveAssignable [Cell.Array [Value.Integer 9007199254740992]] 0
      (.IndexExpression (EvalResult.ok (Value.Array 0)) (integerResult 0))
      = (Value.Integer 9007199254740992, some (Setter.arrayElements 0 0), none) := by
    rfl
  refine ⟨by decide, ?_, by decide, ?_, ?_⟩
  · simp only [evalIntegerInfix, evalNumericInfix, numberValue, if_true, hadd]
    rw [toInt64_of_inRange oor _ _ _ (by rw [htr]; decide), htr]
  · simp only [evalIntegerInfix, evalNumericInfix, numberValue, if_true, hadd1]
    rw [toInt64_of_inRange oor _ _ _ (by rw [htr]; decide), htr]
  · have hne : ¬ ("++" = "--") := by decide
    unfold evalPostfixExpression
    rw [hres]
    simp only [hne, if_false, hone, toInt64_of_inRange oor _ _ _ (by rw [htr1]; decide), htr1]
    decide

/-- C2 (as stated, refuted): `isTruthy` does not return false for both the
Null value and the Unit value, since it returns true for Unit. -/
theorem C2_unit_is_truthy :
    ¬ (isTruthy [] Value.Null = false ∧ isTruthy [] Value.Unit = false) := by
  decide

/-- C2 (amended): on every heap `isTruthy` returns false for the Null value and
true for the Unit value, which falls into the default arm of the type switch. -/
theorem C2_isTruthy_null_unit (h : Heap) :
    isTruthy h Value.Null = false ∧ isTruthy h Value.Unit = true :=
  ⟨rfl, rfl⟩

theorem F64.eq_self (f : F64) (hf : f ≠ F64.nan) : F64.eq f f = true := by
  cases f with
  | nan => exact absurd rfl hf
  | inf s => simp [F64.eq]
  | fin s m e => simp [F64.eq]

theorem F64.scale_zero (m : Nat) : F64.scale m 0 = m := by
  simp [F64.scale]

/-- Two canonical finite data of equal value, the first with the smaller
exponent, are the same datum or are both zeros. -/
theorem F64.canonical_unique_aux (s1 s2 : Bool) (m1 m2 : Nat) (e1 e2 : Int)
    (c1 : F64.canonical (F64.fin s1 m1 e1)) (c2 : F64.canonical (F64.fin s2 m2 e2))
    (hle : e1 ≤ e2)
    (h : F64.signed s1 m1 0 = F64.signed s2 m2 (e2 - e1)) :
    (s1 = s2 ∧ m1 = m2 ∧ e1 = e2) ∨ (m1 = 0 ∧ e1 = 0 ∧ m2 = 0 ∧ e2 = 0) := by
  simp only [F64.canonical] at c1 c2
  simp only [F64.signed, F64.scale_zero] at h
  have hP : 1 ≤ 2 ^ (e2 - e1).toNat := Nat.one_le_two_pow
  have hP2 : e1 < e2 → 2 ≤ 2 ^ (e2 - e1).toNat := by
    intro hlt
    have : 1 ≤ (e2 - e1).toNat := by omega
    calc 2 = 2 ^ 1 := rfl
      _ ≤ 2 ^ (e2 - e1).toNat := Nat.pow_le_pow_right (by decide) this
  obtain ⟨X, hX⟩ : ∃ X : Nat, X = m2 * 2 ^ (e2 - e1).toNat := ⟨_, rfl⟩
  have hXs : F64.scale m2 (e2 - e1) = X := by rw [hX]; rfl
  rw [hXs] at h
  have hmag : m1 = X := by
    cases s1 <;> cases s2 <;> simp at h <;> omega
  have hsign : m1 ≠ 0 → s1 = s2 := by
    intro hm
    cases s1 <;> cases s2 <;> simp at h ⊢ <;> omega
  rw [hX] at hmag
  by_cases hm2 : m2 = 0
  · subst hm2
    have hm1 : m1 = 0 := by simpa using hmag
    right
    omega
  · have hm1 : m1 ≠ 0 := by
      intro h0
      rw [h0] at hmag
      have := Nat.mul_pos (Nat.pos_of_ne_zero hm2) hP
      omega
    left
    rcases lt_or_eq_of_le hle with hlt | heq
    · exfalso
      have h2 := hP2 hlt
      have : m2 * 2 ≤ m2 * 2 ^ (e2 - e1).toNat := Nat.mul_le_mul_left m2 h2
      omega
    · have : (e2 - e1).toNat = 0 := by omega
      rw [this] at hmag
      exact ⟨hsign hm1, by simpa using hmag, heq⟩

theorem F64.canonical_unique (s1 s2 : Bool) (m1 m2 : Nat) (e1 e2 : Int)
    (c1 : F64.canonical (F64.fin s1 m1 e1)) (c2 : F64.canonical (F64.fin s2 m2 e2))
    (h : F64.eq (F64.fin s1 m1 e1) (F64.fin s2 m2 e2) = true) :
    (s1 = s2 ∧ m1 = m2 ∧ e1 = e2) ∨ (m1 = 0 ∧ e1 = 0 ∧ m2 = 0 ∧ e2 = 0) := by
  simp only [F64.eq, beq_iff_eq] at h
  rcases le_total e1 e2 with hle | hle
  · rw [min_eq_left hle, sub_self] at h
    exact F64.canonical_unique_aux s1 s2 m1 m2 e1 e2 c1 c2 hle h
  · rw [min_eq_right hle, sub_self] at h
    rcases F64.canonical_unique_aux s2 s1 m2 m1 e2 e1 c2 c1 hle h.symm with h1 | h1
    · left; exact ⟨h1.1.symm, h1.2.1.symm, h1.2.2.symm⟩
    · right; exact ⟨h1.2.2.1, h1.2.2.2, h1.1, h1.2.1⟩

/-- On canonical data Go's `==` holds exactly between a non-NaN datum and
itself and between two zeros. -/
theorem F64.eq_iff_of_canonical (f g : F64) (cf : F64.canonical f) (cg : F64.canonical g) :
    F64.eq f g = true ↔
      (f = g ∧ f ≠ F64.nan) ∨ (∃ s t, f = F64.fin s 0 0 ∧ g = F64.fin t 0 0) := by
  constructor
  · intro h
    cases f with
    | nan => simp [F64.eq] at h
    | inf a =>
      cases g with
      | nan => simp [F64.eq] at h
      | inf b =>
        left
        simp only [F64.eq, beq_iff_eq] at h
        exact ⟨by rw [h], by simp⟩
      | fin t n k => simp [F64.eq] at h
    | fin s m e =>
      cases g with
      | nan => simp [F64.eq] at h
      | inf b => simp [F64.eq] at h
      | fin t n k =>
        rcases F64.canonical_unique s t m n e k cf cg h with h1 | h1
        · left
          obtain ⟨rfl, rfl, rfl⟩ := h1
          exact ⟨rfl, by simp⟩
        · right
          obtain ⟨rfl, rfl, rfl, rfl⟩ := h1
          exact ⟨s, t, rfl, rfl⟩
  · rintro (⟨rfl, hne⟩ | ⟨s, t, rfl, rfl⟩)
    · exact F64.eq_self f hne
    · cases s <;> cases t <;> decide

/-- C3 (as stated, refuted): the Float NaN, which `0 / 0` evaluates to, is a
primitive value that is not strictly equal to itself. -/
theorem C3_nan_not_equal_to_itself :
    evalIntegerInfix (fun _ => 0) "/" 0 (Value.Integer 0)
        = .returns (EvalResult.ok (Value.Float F64.nan)) ∧
      isPrimitive (Value.Float F64.nan) = true ∧
      StrictEqual (Value.Float F64.nan) (Value.Float F64.nan) = false := by
  decide

/-- C3 (amended): for primitive values `x` and `y`, `StrictEqual x y` holds
exactly when `x` and `y` are the same kind with the same payload, except that
Floats are compared by IEEE-754 `==`: a NaN equals nothing, itself included,
and the two zeros are equal to each other. Values of different kinds are
never strictly equal. -/
theorem C3_strictEqual_primitive (x y : Value)
    (hx : isPrimitive x = true) (hy : isPrimitive y = true)
    (cx : canonicalValue x) (cy : canonicalValue y) :
    (StrictEqual x y = true ↔
      (x = y ∧ x ≠ Value.Float F64.nan) ∨
        (∃ s t, x = Value.Float (F64.fin s 0 0) ∧ y = Value.Float (F64.fin t 0 0))) ∧
      (valueType x ≠ valueType y → StrictEqual x y = false) := by
  cases x <;> cases y <;>
    simp [isPrimitive, StrictEqual, valueType, canonicalValue] at hx hy cx cy ⊢
  case Float.Float f g =>
    simpa using F64.eq_iff_of_canonical f g cx cy

/-- C3, at concrete inputs: Integer 1 and Float 1.0 are primitive values of
different kinds, and they are not strictly equal. -/
theorem C3_strictEqual_primitive_witness :
    isPrimitive (Value.Integer 1) = true ∧
      isPrimitive (Value.Float (F64.fin false 4503599627370496 (-52))) = true ∧
      StrictEqual (Value.Integer 1) (Value.Float (F64.fin false 4503599627370496 (-52)))
        = false :=
  ⟨rfl, rfl,
    (C3_strictEqual_primitive (Value.Integer 1)
      (Value.Float (F64.fin false 4503599627370496 (-52))) rfl rfl trivial
      (by simp [canonicalValue, F64.canonical])).2 (by decide)⟩

/-- C4: for values `c` and `d` of the kinds compared by identity (arrays,
objects, maps, sets, functions, tasks, channels, ...), `StrictEqual c d` holds
if and only if `c` and `d` are the same allocation; in particular two arrays
at distinct addresses are not strictly equal even when the heap holds
identical contents at both, and every such value is strictly equal to itself. -/
theorem C4_strictEqual_identity (c d : Value)
    (hc : isReference c = true) (hd : isReference d = true) :
    (StrictEqual c d = true ↔ c = d) ∧ StrictEqual c c = true ∧
      (∀ (h : Heap) (p q : Nat), p ≠ q → h[p]? = h[q]? →
        StrictEqual (Value.Array p) (Value.Array q) = false ∧
        StrictEqual (Value.Object p) (Value.Object q) = false ∧
        StrictEqual (Value.Map p) (Value.Map q) = false ∧
        StrictEqual (Value.Set p) (Value.Set q) = false) := by
  refine ⟨?_, ?_, ?_⟩
  · cases c <;> cases d <;> simp [isReference, StrictEqual, valueType] at hc hd ⊢
  · cases c <;> simp [isReference, StrictEqual, valueType] at hc ⊢
  · intro h p q hpq _
    simp [StrictEqual, valueType, hpq]

/-- C4, at concrete inputs: on a heap with two empty arrays, the arrays at
addresses 0 and 1 are not strictly equal, and the one at 0 equals itself. -/
theorem C4_strictEqual_identity_witness :
    Heap.elements [Cell.Array [], Cell.Array []] 0
        = Heap.elements [Cell.Array [], Cell.Array []] 1 ∧
      StrictEqual (Value.Array 0) (Value.Array 1) = false ∧
      StrictEqual (Value.Array 0) (Value.Array 0) = true :=
  ⟨rfl,
    ((C4_strictEqual_identity (Value.Array 0) (Value.Array 1) rfl rfl).2.2
      [Cell.Array [], Cell.Array []] 0 1 (by decide) rfl).1,
    (C4_strictEqual_identity (Value.Array 0) (Value.Array 1) rfl rfl).2.1⟩

/-- C5: for every value `v` (and on every heap) the prefix operator `!` applied
to the evaluated operand `v` returns, with no error and no signal, a Boolean
`b` such that `isTruthy b` is the negation of `isTruthy v`. -/
theorem C5_not_negates_truthiness (h : Heap) (v : Value) :
    ∃ b : Bool,
      evalPrefixExpression h "!" (EvalResult.ok v) = EvalResult.ok (Value.Boolean b) ∧
        isTruthy h (Value.Boolean b) = !isTruthy h v :=
  ⟨!isTruthy h v, by simp [evalPrefixExpression, EvalResult.ok], rfl⟩

/-- C6: for numeric operands `x` and `y` (Integer or Float on either side) the
operator `/`, and `applyBinary "/"` on which the compound `/=` is built, return
a Float `f` with no error, and an assignment `target /= y` whose target holds
`x` stores and returns that Float; in particular `4 / 2` is the Float `2` and
`1 / 2` is the Float `0.5`, although both operands are Integers. -/
theorem C6_division_yields_float (oor : F64 → Int)
    (equivalent : Heap → Value → Value → Bool) (h : Heap) (x y : Value)
    (hx : isNumeric x = true) (hy : isNumeric y = true) :
    (∃ f : F64,
      evalInfixExpression oor equivalent h "/" (EvalResult.ok x) (EvalResult.ok y)
          = (h, .returns (EvalResult.ok (Value.Float f))) ∧
        applyBinary oor h "/" x y = (h, .returns (Value.Float f, none)) ∧
        (∀ (env : Nat) (node : AssignNode) (st : Setter) (hr h2 : Heap),
          resolveAssignable h env node = (x, some st, none) →
          st.call hr (Value.Float f) = .returns h2 →
          evalAssignExpression oor h env node "/=" (EvalResult.ok y) hr
            = (h2, .returns (EvalResult.ok (Value.Float f))))) ∧
      evalInfixExpression oor equivalent h "/" (EvalResult.ok (Value.Integer 4))
          (EvalResult.ok (Value.Integer 2))
        = (h, .returns (EvalResult.ok (Value.Float (F64.fin false 4503599627370496 (-51))))) ∧
      evalInfixExpression oor equivalent h "/" (EvalResult.ok (Value.Integer 1))
          (EvalResult.ok (Value.Integer 2))
        = (h, .returns (EvalResult.ok (Value.Float (F64.fin false 4503599627370496 (-53))))) := by
  have h42 : F64.div (F64.ofInt 4) (F64.ofInt 2) = F64.fin false 4503599627370496 (-51) := by
    decide
  have h12 : F64.div (F64.ofInt 1) (F64.ofInt 2) = F64.fin false 4503599627370496 (-53) := by
    decide
  have hassign : ∀ (f : F64) (env : Nat) (node : AssignNode) (st : Setter) (hr h2 : Heap),
      (∀ hr : Heap, applyBinary oor hr "/" x y = (hr, .returns (Value.Float f, none))) →
      resolveAssignable h env node = (x, some st, none) →
      st.call hr (Value.Float f) = .returns h2 →
      evalAssignExpression oor h env node "/=" (EvalResult.ok y) hr
        = (h2, .returns (EvalResult.ok (Value.Float f))) := by
    intro f env node st hr h2 hbin hres hcall
    unfold evalAssignExpression
    rw [hres]
    simp [EvalResult.ok, hbin, hcall]
  refine ⟨?_, ?_, ?_⟩
  · cases x <;> cases y <;> simp [isNumeric] at hx hy
    case Integer.Integer a b =>
      refine ⟨F64.div (F64.ofInt a) (F64.ofInt b), ?_, ?_, ?_⟩
      · simp [evalInfixExpression, evalIntegerInfix, evalNumericInfix, EvalResult.ok]
      · simp [applyBinary, evalIntegerInfix, evalNumericInfix, EvalResult.ok]
      · intro env node st hr h2
        exact hassign _ env node st hr h2 (by
          intro hr
          simp [applyBinary, evalIntegerInfix, evalNumericInfix, EvalResult.ok])
    case Integer.Float a b =>
      refine ⟨F64.div (F64.ofInt a) b, ?_, ?_, ?_⟩
      · simp [evalInfixExpression, evalIntegerInfix, evalNumericInfix, EvalResult.ok]
      · simp [applyBinary, evalIntegerInfix, evalNumericInfix, EvalResult.ok]
      · intro env node st hr h2
        exact hassign _ env node st hr h2 (by
          intro hr
          simp [applyBinary, evalIntegerInfix, evalNumericInfix, EvalResult.ok])
    case Float.Integer a b =>
      refine ⟨F64.div a (F64.ofInt b), ?_, ?_, ?_⟩
      · simp [evalInfixExpression, evalFloatInfix, evalNumericInfix, EvalResult.ok]
      · simp [applyBinary, evalFloatInfix, evalNumericInfix, EvalResult.ok]
      · intro env node st hr h2
        exact hassign _ env node st hr h2 (by
          intro hr
          simp [applyBinary, evalFloatInfix, evalNumericInfix, EvalResult.ok])
    case Float.Float a b =>
      refine ⟨F64.div a b, ?_, ?_, ?_⟩
      · simp [evalInfixExpression, evalFloatInfix, evalNumericInfix, EvalResult.ok]
      · simp [applyBinary, evalFloatInfix, evalNumericInfix, EvalResult.ok]
      · intro env node st hr h2
        exact hassign _ env node st hr h2 (by
          intro hr
          simp [applyBinary, evalFloatInfix, evalNumericInfix, EvalResult.ok])
  · simp [evalInfixExpression, evalIntegerInfix, evalNumericInfix, EvalResult.ok, h42]
  · simp [evalInfixExpression, evalIntegerInfix, evalNumericInfix, EvalResult.ok, h12]

/-- C6, at concrete inputs: `7 / 2.0` (an Integer by a Float) returns a Float,
and on the array `[4]` the assignment `arr[0] /= 2` stores and returns the
Float `2`. -/
theorem C6_division_yields_float_witness :
    isNumeric (Value.Integer 7) = true ∧
      isNumeric (Value.Float (F64.fin false 4503599627370496 (-51))) = true ∧
      (∃ f : F64,
        evalInfixExpression (fun _ => 0) (fun _ _ _ => false) [] "/"
            (EvalResult.ok (Value.Integer 7))
            (EvalResult.ok (Value.Float (F64.fin false 4503599627370496 (-51))))
          = ([], .returns (EvalResult.ok (Value.Float f)))) ∧
      evalAssignExpression (fun _ => 0) [Cell.Array [Value.Integer 4]] 0
          (.IndexExpression (EvalResult.ok (Value.Array 0)) (integerResult 0)) "/="
          (EvalResult.ok (Value.Integer 2)) [Cell.Array [Value.Integer 4]]
        = ([Cell.Array [Value.Float (F64.fin false 4503599627370496 (-51))]],
            .returns (EvalResult.ok (Value.Float (F64.fin false 4503599627370496 (-51))))) := by
  obtain ⟨f, hf, _, _⟩ :=
    (C6_division_yields_float (fun _ => 0) (fun _ _ _ => false) [] (Value.Integer 7)
      (Value.Float (F64.fin false 4503599627370496 (-51))) rfl rfl).1
  exact ⟨rfl, rfl, ⟨f, hf⟩, by decide⟩

theorem F64.log2Aux_le (fuel : Nat) : ∀ n : Nat, 0 < n → n ≤ fuel →
    2 ^ F64.log2Aux fuel n ≤ n := by
  induction fuel with
  | zero => intro n h0 h1; omega
  | succ k ih =>
    intro n h0 h1
    unfold F64.log2Aux
    split
    · simpa using h0
    · have hn2 : 2 ≤ n := by omega
      have hhalf : 0 < n / 2 := Nat.div_pos hn2 (by decide)
      have := ih (n / 2) hhalf (by omega)
      rw [Nat.pow_succ]
      omega

theorem F64.ilog2_le (n : Nat) (h0 : 0 < n) : 2 ^ F64.ilog2 n ≤ n :=
  F64.log2Aux_le n n h0 (Nat.le_refl n)

/-- The significand that `round` forms for a positive integer is positive. -/
theorem F64.nearestEven_int_pos (n : Nat) (h0 : 0 < n) :
    0 < F64.nearestEven n 1 (F64.ulpExp n 1) := by
  have hl1 : F64.ilog2 1 = 0 := by decide
  have hle : ∃ e0 : Int, e0 ≤ (F64.ilog2 n : Int) ∧
      F64.ulpExp n 1 = max (e0 - 52) (-1074) := by
    simp only [F64.ulpExp, hl1]
    split
    · exact ⟨_, by omega, rfl⟩
    · exact ⟨_, by omega, rfl⟩
  obtain ⟨e0, he0, he⟩ := hle
  rw [he]
  have hq : 0 < F64.scale n (-(max (e0 - 52) (-1074))) / F64.scale 1 (max (e0 - 52) (-1074)) := by
    rcases le_or_lt (max (e0 - 52) (-1074)) 0 with hle | hlt
    · have h1 : (max (e0 - 52) (-1074)).toNat = 0 := by omega
      have hpos : 0 < n * 2 ^ (-(max (e0 - 52) (-1074))).toNat :=
        Nat.mul_pos h0 (Nat.pow_pos (by decide))
      simpa [F64.scale, h1] using hpos
    · have h1 : (-(max (e0 - 52) (-1074))).toNat = 0 := by omega
      have h2 : (max (e0 - 52) (-1074)).toNat ≤ F64.ilog2 n := by omega
      have h3 : 2 ^ (max (e0 - 52) (-1074)).toNat ≤ n :=
        le_trans (Nat.pow_le_pow_right (by decide) h2) (F64.ilog2_le n h0)
      simp only [F64.scale, h1, pow_zero, mul_one, one_mul]
      exact Nat.div_pos h3 (Nat.pow_pos (by decide))
  unfold F64.nearestEven
  simp only []
  split <;> omega

theorem F64.pack_cases (neg : Bool) (m : Nat) (e : Int) (hm : m ≠ 0) :
    F64.pack neg m e = F64.inf neg ∨
      ∃ m1 e1, m1 ≠ 0 ∧ F64.pack neg m e = F64.fin neg m1 e1 := by
  unfold F64.pack
  rw [if_neg hm]
  split_ifs
  · left; rfl
  · right; exact ⟨_, _, by decide, rfl⟩
  · left; rfl
  · right; exact ⟨_, _, hm, rfl⟩

/-- The conversion of a non-zero integer is infinite or has a non-zero
significand, and carries the sign of the integer. -/
theorem F64.round_int_cases (neg : Bool) (n : Nat) (hn : n ≠ 0) :
    F64.round neg n 1 = F64.inf neg ∨
      ∃ m e, m ≠ 0 ∧ F64.round neg n 1 = F64.fin neg m e := by
  have h0 : 0 < n := Nat.pos_of_ne_zero hn
  simp only [F64.round, hn, if_false]
  exact F64.pack_cases neg _ _ (Nat.pos_iff_ne_zero.mp (F64.nearestEven_int_pos n h0))

/-- The quotient of the conversion of an integer `a` by the conversion of `0`:
a NaN for `a = 0`, and the infinity with the sign of `a` otherwise. -/
theorem F64.div_ofInt_zero (a : Int) :
    (a = 0 → F64.div (F64.ofInt a) (F64.ofInt 0) = F64.nan) ∧
      (0 < a → F64.div (F64.ofInt a) (F64.ofInt 0) = F64.inf false) ∧
      (a < 0 → F64.div (F64.ofInt a) (F64.ofInt 0) = F64.inf true) := by
  have key : ∀ neg : Bool, a ≠ 0 → decide (a < 0) = neg →
      F64.div (F64.ofInt a) (F64.ofInt 0) = F64.inf neg := by
    intro neg ha hneg
    have hn : a.natAbs ≠ 0 := by omega
    rw [ofInt_zero]
    unfold F64.ofInt
    rw [hneg]
    rcases F64.round_int_cases neg a.natAbs hn with h1 | ⟨m, e, hm, h1⟩
    · rw [h1]; simp [F64.div]
    · rw [h1]; simp [F64.div, hm]
  refine ⟨?_, ?_, ?_⟩
  · intro h0
    subst h0
    decide
  · intro hpos
    exact key false (by omega) (by simpa using le_of_lt hpos)
  · intro hneg
    exact key true (by omega) (by simpa using hneg)

/-- C7 (as stated, refuted): evaluating `1 / 0` on Integers returns the Float
`+Inf` with no error. -/
theorem C7_one_div_zero_is_inf :
    evalInfixExpression (fun _ => 0) (fun _ _ _ => false) [] "/"
        (EvalResult.ok (Value.Integer 1)) (EvalResult.ok (Value.Integer 0))
      = ([], .returns (EvalResult.ok (Value.Float (F64.inf false)))) := by
  decide

/-- C7 (amended): for every Integer `a`, evaluating `a / 0` returns a Float and
no error: the NaN for `a = 0`, `+Inf` for `0 < a` and `-Inf` for `a < 0`. -/
theorem C7_integer_division_by_zero (oor : F64 → Int)
    (equivalent : Heap → Value → Value → Bool) (h : Heap) (a : Int) :
    ∃ f : F64,
      evalInfixExpression oor equivalent h "/" (EvalResult.ok (Value.Integer a))
          (EvalResult.ok (Value.Integer 0))
        = (h, .returns (EvalResult.ok (Value.Float f))) ∧
      (a = 0 → f = F64.nan) ∧ (0 < a → f = F64.inf false) ∧ (a < 0 → f = F64.inf true) :=
  ⟨F64.div (F64.ofInt a) (F64.ofInt 0),
    by simp [evalInfixExpression, evalIntegerInfix, evalNumericInfix, EvalResult.ok],
    F64.div_ofInt_zero a⟩

/-- C8: for numeric operands of which at least one is a Float, the operator
`%`, `applyBinary "%"` and the assignment `target %= y` built on it return no
value and fail with the RuntimeError "modulo requires integers" (the
assignment without calling the setter). -/
theorem C8_modulo_requires_integers (oor : F64 → Int)
    (equivalent : Heap → Value → Value → Bool) (h : Heap) (x y : Value)
    (hx : isNumeric x = true) (hy : isNumeric y = true)
    (hf : isFloat x = true ∨ isFloat y = true) :
    evalInfixExpression oor equivalent h "%" (EvalResult.ok x) (EvalResult.ok y)
        = (h, .returns ⟨Value.nil, none,
            some (Error.RuntimeError "modulo requires integers" none)⟩) ∧
      applyBinary oor h "%" x y
        = (h, .returns (Value.nil,
            some (Error.RuntimeError "modulo requires integers" none))) ∧
      (∀ (env : Nat) (node : AssignNode) (st : Option Setter) (hr : Heap),
        resolveAssignable h env node = (x, st, none) →
        evalAssignExpression oor h env node "%=" (EvalResult.ok y) hr
          = (hr, .returns ⟨Value.nil, none,
              some (Error.RuntimeError "modulo requires integers" none)⟩)) := by
  have hbin : ∀ hr : Heap, applyBinary oor hr "%" x y
      = (hr, .returns (Value.nil,
          some (Error.RuntimeError "modulo requires integers" none))) := by
    intro hr
    cases x <;> cases y <;>
      simp [isNumeric, isFloat, applyBinary, evalIntegerInfix,
        evalFloatInfix, evalNumericInfix, EvalResult.fail] at hx hy hf ⊢
  refine ⟨?_, hbin h, ?_⟩
  · cases x <;> cases y <;>
      simp [isNumeric, isFloat, evalInfixExpression, evalIntegerInfix,
        evalFloatInfix, evalNumericInfix, EvalResult.ok, EvalResult.fail] at hx hy hf ⊢
  · intro env node st hr hres
    unfold evalAssignExpression
    rw [hres]
    simp [EvalResult.ok, hbin]

/-- C8, at concrete inputs: `7.0 % 2` fails with "modulo requires integers". -/
theorem C8_modulo_requires_integers_witness :
    isNumeric (Value.Float (F64.fin false 7881299347898368 (-50))) = true ∧
      isNumeric (Value.Integer 2) = true ∧
      evalInfixExpression (fun _ => 0) (fun _ _ _ => false) [] "%"
          (EvalResult.ok (Value.Float (F64.fin false 7881299347898368 (-50))))
          (EvalResult.ok (Value.Integer 2))
        = ([], .returns ⟨Value.nil, none,
            some (Error.RuntimeError "modulo requires integers" none)⟩) :=
  ⟨rfl, rfl,
    (C8_modulo_requires_integers (fun _ => 0) (fun _ _ _ => false) []
      (Value.Float (F64.fin false 7881299347898368 (-50))) (Value.Integer 2) rfl rfl
      (Or.inl rfl)).1⟩

end Arithmetic

section Indexing

theorem wrap64_of_isInt64 (z : Int) (hz : isInt64 z) : wrap64 z = z := by
  unfold wrap64
  unfold isInt64 at hz
  omega

theorem Heap.elements_of_get (h : Heap) (p : Nat) (elems : List Value)
    (hp : h[p]? = some (Cell.Array elems)) : h.elements p = elems := by
  simp [Heap.elements, hp]

theorem Heap.lt_length_of_get (h : Heap) (p : Nat) (c : Cell)
    (hp : h[p]? = some c) : p < h.length := by
  by_contra hlt
  have : h[p]? = none := List.getElem?_eq_none (by omega)
  rw [this] at hp
  exact absurd hp (by simp)

/-- On an Integer bound inside the `int64` range `sliceBound` computes the
bound of the specification. -/
theorem sliceBound_integer (what : String) (n dflt : Int) (a : Option Int)
    (h0 : 0 ≤ n) (hn : n < 2 ^ 63) (ha : ∀ i, a = some i → isInt64 i) :
    sliceBound what n dflt (a.map integerResult) = .inr (specBound n dflt a) := by
  cases a with
  | none => rfl
  | some i =>
    have hi := ha i rfl
    unfold isInt64 at hi
    simp only [Option.map, sliceBound, integerResult, EvalResult.ok, specBound, normalizeIndex]
    simp only [Option.isSome_none, Bool.false_eq_true, or_self, if_false]
    split
    · rw [wrap64_of_isInt64 _ (by unfold isInt64; omega)]
    · rfl

theorem List.length_take_drop_slice (elems : List Value) (s e : Nat)
    (he : e ≤ elems.length) : ((elems.take e).drop s).length = e - s := by
  simp [List.length_drop, List.length_take, Nat.min_eq_left he]

theorem List.getElem?_take_drop_slice (elems : List Value) (s e k : Nat)
    (hk : s + k < e) : ((elems.take e).drop s)[k]? = elems[s + k]? := by
  rw [List.getElem?_drop, List.getElem?_take_of_lt hk]

/-- C9: for an array of length `n` allocated at `p` and Integer bounds `a` and
`b` (an omitted start counts as `0`, an omitted end as `n`), let `s` and `e` be
the bounds with a negative `i` replaced by `n + i`. If `0 ≤ s ≤ n` and
`0 ≤ e ≤ n` the slice returns an array at a new address that holds exactly the
elements at positions `s .. e-1` in order (none when `s ≥ e`); otherwise it
fails with "slice bounds out of range". The source array is unchanged in both
cases. -/
theorem C9_slice (h : Heap) (p : Nat) (elems : List Value) (a b : Option Int)
    (hp : h[p]? = some (Cell.Array elems))
    (hn : (elems.length : Int) < 2 ^ 63)
    (ha : ∀ i, a = some i → isInt64 i) (hb : ∀ i, b = some i → isInt64 i) :
    ((0 ≤ specBound elems.length 0 a ∧ specBound elems.length 0 a ≤ elems.length ∧
        0 ≤ specBound elems.length elems.length b ∧
        specBound elems.length elems.length b ≤ elems.length) →
      ∃ out : List Value,
        evalSliceExpression h (EvalResult.ok (Value.Array p))
            (a.map integerResult) (b.map integerResult)
          = (h ++ [Cell.Array out], EvalResult.ok (Value.Array h.length)) ∧
        h.length ≠ p ∧
        out.length
          = (specBound elems.length elems.length b - specBound elems.length 0 a).toNat ∧
        (∀ k, k < out.length →
          out[k]? = elems[(specBound elems.length 0 a).toNat + k]?) ∧
        (h ++ [Cell.Array out])[p]? = some (Cell.Array elems)) ∧
      (¬ (0 ≤ specBound elems.length 0 a ∧ specBound elems.length 0 a ≤ elems.length ∧
          0 ≤ specBound elems.length elems.length b ∧
          specBound elems.length elems.length b ≤ elems.length) →
        evalSliceExpression h (EvalResult.ok (Value.Array p))
            (a.map integerResult) (b.map integerResult)
          = (h, EvalResult.fail "slice bounds out of range")) := by
  have hel := Heap.elements_of_get h p elems hp
  have hplt := Heap.lt_length_of_get h p _ hp
  have h0 : (0 : Int) ≤ (elems.length : Int) := Int.ofNat_nonneg _
  have hsa := sliceBound_integer "slice start must be integer" elems.length 0 a h0 hn ha
  have hsb := sliceBound_integer "slice end must be integer" elems.length elems.length b h0 hn hb
  have hsrc : ∀ out : List Value, (h ++ [Cell.Array out])[p]? = some (Cell.Array elems) := by
    intro out
    rw [List.getElem?_append_left hplt]
    exact hp
  generalize specBound elems.length 0 a = s at hsa ⊢
  generalize specBound elems.length elems.length b = e at hsb ⊢
  constructor
  · rintro ⟨hs0, hsn, he0, hen⟩
    have hcond : ¬ (s < 0 ∨ s > (elems.length : Int) ∨ e < 0 ∨ e > (elems.length : Int)) := by
      omega
    by_cases hse : s ≥ e
    · refine ⟨[], ?_, by omega, ?_, ?_, hsrc []⟩
      · simp only [evalSliceExpression, EvalResult.ok, Option.isSome_none, Bool.false_eq_true,
          or_self, if_false, hel, hsa, hsb, hcond, hse, if_true, Heap.alloc]
      · simp only [List.length_nil]; omega
      · intro k hk; simp at hk
    · refine ⟨(elems.take e.toNat).drop s.toNat, ?_, by omega, ?_, ?_, hsrc _⟩
      · simp only [evalSliceExpression, EvalResult.ok, Option.isSome_none, Bool.false_eq_true,
          or_self, if_false, hel, hsa, hsb, hcond, hse, Heap.alloc]
      · rw [List.length_take_drop_slice elems _ _ (by omega)]; omega
      · intro k hk
        rw [List.length_take_drop_slice elems _ _ (by omega)] at hk
        exact List.getElem?_take_drop_slice elems _ _ k (by omega)
  · intro hbad
    have hcond : s < 0 ∨ s > (elems.length : Int) ∨ e < 0 ∨ e > (elems.length : Int) := by
      omega
    simp only [evalSliceExpression, EvalResult.ok, Option.isSome_none, Bool.false_eq_true,
      or_self, if_false, hel, hsa, hsb, hcond, if_true]

/-- C9, at concrete inputs: on the array `[10, 11, 12, 13]` the slice from `1`
to `-1` yields a new array holding `11, 12`. -/
theorem C9_slice_witness :
    ∃ out : List Value,
      evalSliceExpression
          [Cell.Array [Value.Integer 10, Value.Integer 11, Value.Integer 12, Value.Integer 13]]
          (EvalResult.ok (Value.Array 0)) (some (integerResult 1)) (some (integerResult (-1)))
        = ([Cell.Array [Value.Integer 10, Value.Integer 11, Value.Integer 12, Value.Integer 13]]
            ++ [Cell.Array out], EvalResult.ok (Value.Array 1)) ∧
      out.length = 2 ∧
      (∀ k, k < out.length →
        out[k]? = [Value.Integer 10, Value.Integer 11, Value.Integer 12, Value.Integer 13][1 + k]?) := by
  obtain ⟨out, h1, _, h3, h4, _⟩ :=
    (C9_slice
      [Cell.Array [Value.Integer 10, Value.Integer 11, Value.Integer 12, Value.Integer 13]]
      0 [Value.Integer 10, Value.Integer 11, Value.Integer 12, Value.Integer 13]
      (some 1) (some (-1)) rfl (by decide)
      (by intro i hi; cases hi; decide) (by intro i hi; cases hi; decide)).1 (by decide)
  exact ⟨out, h1, h3, h4⟩

/-- C10: for an array of length `n` allocated at `p` and an Integer index `i`,
indexing succeeds with element `i` if and only if `0 ≤ i < n`, both for a read
(`evalIndexExpression`) and as an assignment target (`resolveAssignable`, and
`evalAssignExpression`, whose `=` then overwrites element `i` and keeps the
length); otherwise each of them fails with "index out of bounds" and the heap,
hence the array, is unchanged. A negative index is never normalized. -/
theorem C10_array_index (oor : F64 → Int) (h : Heap) (env p : Nat) (elems : List Value)
    (i : Int) (v : Value) (hp : h[p]? = some (Cell.Array elems)) :
    ((0 ≤ i ∧ i < elems.length) →
      ∃ x, elems[i.toNat]? = some x ∧
        evalIndexExpression h (EvalResult.ok (Value.Array p)) (integerResult i)
          = EvalResult.ok x ∧
        resolveAssignable h env
            (.IndexExpression (EvalResult.ok (Value.Array p)) (integerResult i))
          = (x, some (Setter.arrayElements p i.toNat), none) ∧
        evalAssignExpression oor h env
            (.IndexExpression (EvalResult.ok (Value.Array p)) (integerResult i))
            "=" (EvalResult.ok v) h
          = (h.set p (Cell.Array (elems.set i.toNat v)), .returns (EvalResult.ok v)) ∧
        (elems.set i.toNat v).length = elems.length ∧
        (elems.set i.toNat v)[i.toNat]? = some v) ∧
      (¬ (0 ≤ i ∧ i < elems.length) →
        evalIndexExpression h (EvalResult.ok (Value.Array p)) (integerResult i)
          = EvalResult.fail "index out of bounds" ∧
        resolveAssignable h env
            (.IndexExpression (EvalResult.ok (Value.Array p)) (integerResult i))
          = (Value.nil, none, some (Error.RuntimeError "index out of bounds" none)) ∧
        ∀ (op : String) (right : EvalResult) (hr : Heap),
          evalAssignExpression oor h env
              (.IndexExpression (EvalResult.ok (Value.Array p)) (integerResult i))
              op right hr
            = (h, .returns (EvalResult.fail "index out of bounds"))) := by
  have hel := Heap.elements_of_get h p elems hp
  constructor
  · rintro ⟨hi0, hin⟩
    have hlt : i.toNat < elems.length := by omega
    have hcond : ¬ (i < 0 ∨ i ≥ (elems.length : Int)) := by omega
    have hres : resolveAssignable h env
        (.IndexExpression (EvalResult.ok (Value.Array p)) (integerResult i))
        = (elems[i.toNat], some (Setter.arrayElements p i.toNat), none) := by
      simp only [resolveAssignable, integerResult, EvalResult.ok, Option.isSome_none,
        Bool.false_eq_true, or_self, if_false, hel, hcond]
      rw [List.getD_eq_getElem _ _ hlt]
    refine ⟨elems[i.toNat], List.getElem?_eq_getElem hlt, ?_, hres, ?_, ?_, ?_⟩
    · simp only [evalIndexExpression, integerResult, EvalResult.ok, Option.isSome_none,
        Bool.false_eq_true, or_self, if_false, hel, hcond]
      rw [List.getD_eq_getElem _ _ hlt]
    · unfold evalAssignExpression
      rw [hres]
      simp only [EvalResult.ok, Option.isSome_none, Bool.false_eq_true, or_self, if_false,
        if_true, Setter.call, hel, hlt]
    · simp
    · simp [List.getElem?_set, hlt]
  · intro hbad
    have hcond : i < 0 ∨ i ≥ (elems.length : Int) := by omega
    have hres : resolveAssignable h env
        (.IndexExpression (EvalResult.ok (Value.Array p)) (integerResult i))
        = (Value.nil, none, some (Error.RuntimeError "index out of bounds" none)) := by
      simp only [resolveAssignable, integerResult, EvalResult.ok, Option.isSome_none,
        Bool.false_eq_true, or_self, if_false, hel, hcond, if_true]
    refine ⟨?_, hres, ?_⟩
    · simp only [evalIndexExpression, integerResult, EvalResult.ok, Option.isSome_none,
        Bool.false_eq_true, or_self, if_false, hel, hcond, if_true]
    · intro op right hr
      unfold evalAssignExpression
      rw [hres]
      rfl

/-- C10, at concrete inputs: on the array `[10, 11]` the index `-1` is out of
bounds for a read and for an assignment, which leaves the heap as it was. -/
theorem C10_array_index_witness :
    evalIndexExpression [Cell.Array [Value.Integer 10, Value.Integer 11]]
        (EvalResult.ok (Value.Array 0)) (integerResult (-1))
      = EvalResult.fail "index out of bounds" ∧
    evalAssignExpression (fun _ => 0) [Cell.Array [Value.Integer 10, Value.Integer 11]] 0
        (.IndexExpression (EvalResult.ok (Value.Array 0)) (integerResult (-1)))
        "=" (EvalResult.ok (Value.Integer 5)) [Cell.Array [Value.Integer 10, Value.Integer 11]]
      = ([Cell.Array [Value.Integer 10, Value.Integer 11]],
          .returns (EvalResult.fail "index out of bounds")) :=
  ⟨((C10_array_index (fun _ => 0) [Cell.Array [Value.Integer 10, Value.Integer 11]] 0 0
      [Value.Integer 10, Value.Integer 11] (-1) (Value.Integer 5) rfl).2 (by decide)).1,
    ((C10_array_index (fun _ => 0) [Cell.Array [Value.Integer 10, Value.Integer 11]] 0 0
      [Value.Integer 10, Value.Integer 11] (-1) (Value.Integer 5) rfl).2 (by decide)).2.2
      "=" (EvalResult.ok (Value.Integer 5)) [Cell.Array [Value.Integer 10, Value.Integer 11]]⟩

end Indexing

section Members

/-- C11: for an Object allocated at `p` and a property name `k`, member access
`o.k` and index access `o[k]` (with the name given as a String or as a Char)
return the stored value when `k` is a key of the object, and otherwise fail
with the RuntimeError "missing property: " followed by `k`. The heap is left
as it was. -/
theorem C11_object_property (method : Heap → Value → String → Heap × EvalResult)
    (h : Heap) (p : Nat) (pairs : List (String × Value)) (k : String)
    (hp : h[p]? = some (Cell.Object pairs)) :
    (∀ v, pairs.lookup k = some v →
      evalMemberExpression method h (EvalResult.ok (Value.Object p)) k
          = (h, EvalResult.ok v) ∧
        evalIndexExpression h (EvalResult.ok (Value.Object p))
          (EvalResult.ok (Value.String k)) = EvalResult.ok v ∧
        evalIndexExpression h (EvalResult.ok (Value.Object p))
          (EvalResult.ok (Value.Char k)) = EvalResult.ok v) ∧
      (pairs.lookup k = none →
        evalMemberExpression method h (EvalResult.ok (Value.Object p)) k
          = (h, ⟨Value.nil, none,
              some (Error.RuntimeError ("missing property: " ++ k) none)⟩) ∧
        evalIndexExpression h (EvalResult.ok (Value.Object p))
            (EvalResult.ok (Value.String k))
          = ⟨Value.nil, none, some (Error.RuntimeError ("missing property: " ++ k) none)⟩ ∧
        evalIndexExpression h (EvalResult.ok (Value.Object p))
            (EvalResult.ok (Value.Char k))
          = ⟨Value.nil, none, some (Error.RuntimeError ("missing property: " ++ k) none)⟩) := by
  have hpairs : h.objectPairs p = pairs := by simp [Heap.objectPairs, hp]
  constructor
  · intro v hv
    simp [evalMemberExpression, evalIndexExpression, EvalResult.ok, objectIndexKey, hpairs, hv]
  · intro hv
    simp [evalMemberExpression, evalIndexExpression, EvalResult.ok, EvalResult.fail,
      objectIndexKey, hpairs, hv]

/-- C11, at concrete inputs: on the object `{a: 1}` the member `a` is `1` and
the member `b` fails with "missing property: b". -/
theorem C11_object_property_witness :
    evalMemberExpression (fun h _ _ => (h, EvalResult.fail "no method"))
        [Cell.Object [("a", Value.Integer 1)]] (EvalResult.ok (Value.Object 0)) "a"
      = ([Cell.Object [("a", Value.Integer 1)]], EvalResult.ok (Value.Integer 1)) ∧
    evalIndexExpression [Cell.Object [("a", Value.Integer 1)]] (EvalResult.ok (Value.Object 0))
        (EvalResult.ok (Value.String "b"))
      = ⟨Value.nil, none, some (Error.RuntimeError "missing property: b" none)⟩ :=
  ⟨((C11_object_property (fun h _ _ => (h, EvalResult.fail "no method"))
      [Cell.Object [("a", Value.Integer 1)]] 0 [("a", Value.Integer 1)] "a" rfl).1
      (Value.Integer 1) (by decide)).1,
    ((C11_object_property (fun h _ _ => (h, EvalResult.fail "no method"))
      [Cell.Object [("a", Value.Integer 1)]] 0 [("a", Value.Integer 1)] "b" rfl).2
      (by decide)).2.1⟩

/-- C12: for arrays allocated at `l` and `r` (which may be the same array),
`evalArrayInfix` on `l + r` returns an array at a new address whose elements
are those of `l` followed by those of `r`, and the cells of `l` and `r` are as
before; any other operator, and any right operand that is not an array,
yields a RuntimeError and leaves the heap as it was. Every infix operator with
an array on the left reaches `evalArrayInfix`, except `&&`, `||`, `==`, `!=`
and `eqv`, which `evalInfixExpression` decides before it looks at the kind of
the left operand. -/
theorem C12_array_concat (h : Heap) (l r : Nat) (ls rs : List Value)
    (hl : h[l]? = some (Cell.Array ls)) (hr : h[r]? = some (Cell.Array rs)) :
    (evalArrayInfix h "+" l (Value.Array r)
        = (h ++ [Cell.Array (ls ++ rs)], EvalResult.ok (Value.Array h.length)) ∧
      h.length ≠ l ∧ h.length ≠ r ∧
      (ls ++ rs).length = ls.length + rs.length ∧
      (h ++ [Cell.Array (ls ++ rs)])[l]? = some (Cell.Array ls) ∧
      (h ++ [Cell.Array (ls ++ rs)])[r]? = some (Cell.Array rs)) ∧
    (∀ op : String, op ≠ "+" →
      evalArrayInfix h op l (Value.Array r)
        = (h, ⟨Value.nil, none,
            some (Error.RuntimeError ("unsupported array operator: " ++ op) none)⟩)) ∧
    (∀ (op : String) (v : Value), (∀ q, v ≠ Value.Array q) →
      evalArrayInfix h op l v
        = (h, ⟨Value.nil, none,
            some (Error.RuntimeError "array operation requires array" none)⟩)) ∧
    (∀ (oor : F64 → Int) (equivalent : Heap → Value → Value → Bool) (op : String) (v : Value),
      op ≠ "&&" → op ≠ "||" → op ≠ "==" → op ≠ "!=" → op ≠ "eqv" →
      evalInfixExpression oor equivalent h op (EvalResult.ok (Value.Array l)) (EvalResult.ok v)
        = ((evalArrayInfix h op l v).1, .returns (evalArrayInfix h op l v).2)) := by
  have hls := Heap.elements_of_get h l ls hl
  have hrs := Heap.elements_of_get h r rs hr
  have hllt := Heap.lt_length_of_get h l _ hl
  have hrlt := Heap.lt_length_of_get h r _ hr
  refine ⟨⟨?_, by omega, by omega, by simp, ?_, ?_⟩, ?_, ?_, ?_⟩
  rotate_right
  · intro oor equivalent op v h1 h2 h3 h4 h5
    simp [evalInfixExpression, EvalResult.ok, h1, h2, h3, h4, h5]
  · simp [evalArrayInfix, Heap.alloc, hls, hrs]
  · rw [List.getElem?_append_left hllt]; exact hl
  · rw [List.getElem?_append_left hrlt]; exact hr
  · intro op hop
    simp [evalArrayInfix, hop, EvalResult.fail]
  · intro op v hv
    cases v <;> simp [evalArrayInfix, EvalResult.fail] at hv ⊢

/-- C12, at concrete inputs: `[1] + [2, 3]` is a new array `[1, 2, 3]`, and
`[1] - [2, 3]` is a RuntimeError. -/
theorem C12_array_concat_witness :
    evalArrayInfix [Cell.Array [Value.Integer 1], Cell.Array [Value.Integer 2, Value.Integer 3]]
        "+" 0 (Value.Array 1)
      = ([Cell.Array [Value.Integer 1], Cell.Array [Value.Integer 2, Value.Integer 3]]
          ++ [Cell.Array ([Value.Integer 1] ++ [Value.Integer 2, Value.Integer 3])],
          EvalResult.ok (Value.Array 2)) ∧
    evalArrayInfix [Cell.Array [Value.Integer 1], Cell.Array [Value.Integer 2, Value.Integer 3]]
        "-" 0 (Value.Array 1)
      = ([Cell.Array [Value.Integer 1], Cell.Array [Value.Integer 2, Value.Integer 3]],
          ⟨Value.nil, none,
            some (Error.RuntimeError ("unsupported array operator: " ++ "-") none)⟩) :=
  ⟨(C12_array_concat
      [Cell.Array [Value.Integer 1], Cell.Array [Value.Integer 2, Value.Integer 3]] 0 1
      [Value.Integer 1] [Value.Integer 2, Value.Integer 3] rfl rfl).1.1,
    (C12_array_concat
      [Cell.Array [Value.Integer 1], Cell.Array [Value.Integer 2, Value.Integer 3]] 0 1
      [Value.Integer 1] [Value.Integer 2, Value.Integer 3] rfl rfl).2.1 "-" (by decide)⟩

end Members

section Calls

theorem evalArguments_ok (arguments : List (Option EvalResult)) :
    ∀ (args : List Value) (hasPlaceholder : Bool),
      (∀ a ∈ arguments, argumentOk a) →
      evalArguments arguments args hasPlaceholder
        = .inr (args ++ arguments.map specArg,
            hasPlaceholder || decide (none ∈ arguments)) := by
  induction arguments with
  | nil => intro args hp _; simp [evalArguments]
  | cons a rest ih =>
    intro args hp hok
    have hrest : ∀ b ∈ rest, argumentOk b := fun b hb => hok b (List.mem_cons_of_mem _ hb)
    cases a with
    | none =>
      rw [evalArguments, ih _ _ hrest]
      simp [specArg]
    | some r =>
      have hr := hok (some r) (List.mem_cons_self _ _)
      simp only [argumentOk] at hr
      rw [evalArguments]
      simp only [hr.1, hr.2, Option.isSome_none, Bool.false_eq_true, or_self, if_false]
      rw [ih _ _ hrest]
      simp [specArg]

/-- C18: for a call whose callee evaluates to `f` and whose non-placeholder
arguments all evaluate to values: if some argument is a placeholder,
`evalCallExpression` returns, whatever `applyFunction` is, a newly allocated
Partial whose Target is `f` and whose Args has one entry per argument in source
order, nil (a hole) at each placeholder and the evaluated value elsewhere - so
that, the evaluated values being non-nil, the holes are exactly the placeholder
positions; with no placeholder the result is that of `applyFunction` on `f`
and the values of the arguments in source order. -/
theorem C18_call_placeholders (applyFunction : Heap → Value → List Value → Heap × EvalResult)
    (h : Heap) (f : Value) (arguments : List (Option EvalResult))
    (hok : ∀ a ∈ arguments, argumentOk a) :
    (none ∈ arguments →
      evalCallExpression applyFunction h (EvalResult.ok f) arguments
          = (h ++ [Cell.Partial f (arguments.map specArg)],
              EvalResult.ok (Value.Partial h.length)) ∧
        (arguments.map specArg).length = arguments.length ∧
        (∀ i : Nat, arguments[i]? = some none →
          (arguments.map specArg)[i]? = some Value.nil) ∧
        (∀ (i : Nat) (r : EvalResult), arguments[i]? = some (some r) →
          (arguments.map specArg)[i]? = some r.val) ∧
        ((∀ r, some r ∈ arguments → r.val ≠ Value.nil) →
          ∀ i : Nat,
            (arguments.map specArg)[i]? = some Value.nil ↔ arguments[i]? = some none)) ∧
      (none ∉ arguments →
        evalCallExpression applyFunction h (EvalResult.ok f) arguments
          = applyFunction h f (arguments.map specArg)) := by
  have hargs := evalArguments_ok arguments [] false hok
  have hget : ∀ i : Nat, (arguments.map specArg)[i]? = (arguments[i]?).map specArg := by
    intro i; simp
  constructor
  · intro hmem
    refine ⟨?_, by simp, ?_, ?_, ?_⟩
    · simp [evalCallExpression, EvalResult.ok, hargs, hmem, Heap.alloc]
    · intro i hi; rw [hget, hi]; rfl
    · intro i r hi; rw [hget, hi]; rfl
    · intro hval i
      rw [hget]
      constructor
      · intro hnil
        cases hi : arguments[i]? with
        | none => rw [hi] at hnil; simp at hnil
        | some a =>
          cases a with
          | none => rfl
          | some r =>
            rw [hi] at hnil
            simp only [Option.map, specArg, Option.some.injEq] at hnil
            exact absurd hnil (hval r (List.getElem?_mem hi))
      · intro hi; rw [hi]; rfl
  · intro hmem
    simp [evalCallExpression, EvalResult.ok, hargs, hmem]

/-- C18, at concrete inputs: the call `f(1, _)` yields a Partial with the
arguments `[1, hole]`, without applying `f`. -/
theorem C18_call_placeholders_witness :
    evalCallExpression (fun h _ _ => (h, EvalResult.fail "applied")) [Cell.other]
        (EvalResult.ok (Value.Function 0)) [some (EvalResult.ok (Value.Integer 1)), none]
      = ([Cell.other] ++ [Cell.Partial (Value.Function 0) [Value.Integer 1, Value.nil]],
          EvalResult.ok (Value.Partial 1)) :=
  ((C18_call_placeholders (fun h _ _ => (h, EvalResult.fail "applied")) [Cell.other]
    (Value.Function 0) [some (EvalResult.ok (Value.Integer 1)), none]
    (by
      intro a ha
      simp only [List.mem_cons, List.mem_singleton, List.not_mem_nil, or_false] at ha
      rcases ha with rfl | rfl
      · exact ⟨rfl, rfl⟩
      · trivial)).1 (by simp)).1

end Calls

section Recover

theorem List.set_append_length (l : List Cell) (c d : Cell) :
    (l ++ [c]).set l.length d = l ++ [d] := by
  induction l with
  | nil => rfl
  | cons x xs ih => simp [List.set, ih]

/-- Binding a name in a newly created child scope: the heap gains one cell,
the scope with that single binding and the given parent. -/
theorem define_in_new_environment (h : Heap) (outer : Nat) (k : String) (v : Value) :
    Environment.Define (NewEnclosedEnvironment h outer).1 h.length k v
      = h ++ [Cell.Environment [(k, v)] (some outer)] := by
  simp [NewEnclosedEnvironment, Heap.alloc, Environment.Define, mapStore,
    List.set_append_length]

/-- C17: for a recover expression whose target evaluates to `target`: with no
error and no signal the result is the target's value and the fallback is not
evaluated; with a RuntimeError or RecoverableError (and no signal) the result
is that of the fallback, evaluated in a newly allocated child scope of `env`
whose only binding is the name `error`; with an error of any other kind the
error is returned unchanged and the fallback is not evaluated; and a target
that raises a signal is passed through unchanged. -/
theorem C17_recover (errorValue : Heap → Error → Heap × Value)
    (fallback : Heap → Nat → Heap × EvalResult) (h : Heap) (env : Nat)
    (target : EvalResult) :
    (target.err = none → target.sig = none →
      evalRecoverExpression errorValue fallback h env target
        = (h, ⟨target.val, none, none⟩)) ∧
    (∀ err, target.err = some err → target.sig = none → isRecoverableKind err = true →
      evalRecoverExpression errorValue fallback h env target
          = fallback ((errorValue h err).1
              ++ [Cell.Environment [("error", (errorValue h err).2)] (some env)])
            (errorValue h err).1.length ∧
        Environment.GetLocal ((errorValue h err).1
            ++ [Cell.Environment [("error", (errorValue h err).2)] (some env)])
          (errorValue h err).1.length "error" = some (errorValue h err).2) ∧
    (∀ err, target.err = some err → target.sig = none → isRecoverableKind err = false →
      evalRecoverExpression errorValue fallback h env target
        = (h, ⟨Value.nil, none, some err⟩)) ∧
    (∀ s, target.sig = some s →
      evalRecoverExpression errorValue fallback h env target = (h, target)) := by
  refine ⟨?_, ?_, ?_, ?_⟩
  · intro he hs
    simp [evalRecoverExpression, he, hs]
  · intro err he hs hk
    constructor
    · have hlen : ∀ (g : Heap) (o : Nat), (NewEnclosedEnvironment g o).2 = g.length :=
        fun _ _ => rfl
      cases err <;> simp [isRecoverableKind] at hk <;>
        simp [evalRecoverExpression, he, hs, define_in_new_environment, hlen]
    · simp [Environment.GetLocal, List.lookup]
  · intro err he hs hk
    cases err <;> simp [isRecoverableKind] at hk <;>
      simp [evalRecoverExpression, he, hs]
  · intro s hs
    simp [evalRecoverExpression, hs]

/-- C17, at concrete inputs: a target failing with an ExitError is returned
as it is, although the fallback would yield a value. -/
theorem C17_recover_witness :
    evalRecoverExpression (fun h _ => (h, Value.Null))
        (fun h _ => (h, EvalResult.ok (Value.Integer 1))) [] 0
        ⟨Value.nil, none, some (Error.ExitError "bye")⟩
      = ([], ⟨Value.nil, none, some (Error.ExitError "bye")⟩) :=
  (C17_recover (fun h _ => (h, Value.Null)) (fun h _ => (h, EvalResult.ok (Value.Integer 1)))
    [] 0 ⟨Value.nil, none, some (Error.ExitError "bye")⟩).2.2.1
    (Error.ExitError "bye") rfl rfl rfl

end Recover

section ForLoops

/-- One iteration that goes on costs one unit of fuel and leads to the next
condition check. -/
theorem evalForLoop_step (heaps : Nat → Heap) (cond body : Nat → EvalResult)
    (thenRes : Option EvalResult) (fuel k : Nat) (hk : loopsOn heaps cond body k) :
    evalForLoop heaps cond body thenRes (fuel + 1) k
      = evalForLoop heaps cond body thenRes fuel (k + 1) := by
  obtain ⟨h1, h2, h3, h4, h5⟩ := hk
  rw [evalForLoop]
  simp only [h1, h2, h3, h4, Option.isSome_none, Bool.false_eq_true, or_self, if_false,
    Bool.true_eq_false]
  rcases h5 with h5 | ⟨v, h5⟩ <;> simp [h5]

theorem evalForLoop_skip (heaps : Nat → Heap) (cond body : Nat → EvalResult)
    (thenRes : Option EvalResult) (fuel : Nat) :
    ∀ n j : Nat, (∀ k, j ≤ k → k < j + n → loopsOn heaps cond body k) →
      evalForLoop heaps cond body thenRes (n + fuel) j
        = evalForLoop heaps cond body thenRes fuel (j + n) := by
  intro n
  induction n with
  | zero => intro j _; simp
  | succ m ih =>
    intro j hall
    have hj : loopsOn heaps cond body j := hall j (Nat.le_refl j) (by omega)
    have hrest : ∀ k, j + 1 ≤ k → k < j + 1 + m → loopsOn heaps cond body k :=
      fun k h1 h2 => hall k (by omega) (by omega)
    have hfuel : m + 1 + fuel = (m + fuel) + 1 := by omega
    rw [hfuel, evalForLoop_step heaps cond body thenRes (m + fuel) j hj, ih (j + 1) hrest]
    congr 1
    omega

/-- C16: for a for-expression whose bindings succeed and whose iterations
before the `n`-th all go on to the next condition check (a Continue from the
body does), given enough fuel (more than `n` iterations): if in the `n`-th
iteration the body raises Break carrying a value `v`, the result is `v`,
whatever the Then tail is; if the body raises Break without a value, or the
`n`-th condition value is falsy, the result is the result of the Then tail,
or Unit when there is none; and when the condition is falsy the result does
not depend on the body of that iteration - with `n = 0`, on no body at all. -/
theorem C16_for_loop (bindings : List (EvalResult × Bool × Option Error))
    (heaps : Nat → Heap) (cond body : Nat → EvalResult) (thenRes : Option EvalResult)
    (n fuel : Nat) (hb : evalForBindings bindings = none)
    (hbefore : ∀ k, k < n → loopsOn heaps cond body k) (hfuel : n < fuel)
    (hc1 : (cond n).err = none) (hc2 : (cond n).sig = none) :
    (isTruthy (heaps n) (cond n).val = true → (body n).err = none →
      ∀ v, (body n).sig = some ⟨SignalType.SignalBreak, v⟩ →
        (v ≠ Value.nil →
          evalForExpression bindings heaps cond body thenRes fuel = some (EvalResult.ok v)) ∧
        (v = Value.nil →
          evalForExpression bindings heaps cond body thenRes fuel = some (evalThen thenRes))) ∧
    (isTruthy (heaps n) (cond n).val = false →
      evalForExpression bindings heaps cond body thenRes fuel = some (evalThen thenRes)) ∧
    evalThen none = EvalResult.ok Value.Unit ∧
    (∀ r, evalThen (some r) = r) := by
  obtain ⟨rest, hrest⟩ : ∃ rest, fuel = n + (rest + 1) := ⟨fuel - n - 1, by omega⟩
  have hskip : evalForExpression bindings heaps cond body thenRes fuel
      = evalForLoop heaps cond body thenRes (rest + 1) n := by
    unfold evalForExpression
    rw [hb, hrest]
    have := evalForLoop_skip heaps cond body thenRes (rest + 1) n 0
      (fun k _ hk => hbefore k (by omega))
    simpa using this
  refine ⟨?_, ?_, rfl, fun _ => rfl⟩
  · intro ht hbe v hsig
    constructor
    · intro hv
      rw [hskip, evalForLoop]
      simp [hc1, hc2, ht, hbe, hsig, hv]
    · intro hv
      rw [hskip, evalForLoop]
      simp [hc1, hc2, ht, hbe, hsig, hv]
  · intro hf
    rw [hskip, evalForLoop]
    simp [hc1, hc2, hf]

/-- C16, at concrete inputs: a loop whose condition is true and whose body
first continues and then breaks with the value `7` results in `7`, and the
Then tail (here `0`) is not its result. -/
theorem C16_for_loop_witness :
    evalForExpression [] (fun _ => []) (fun _ => EvalResult.ok (Value.Boolean true))
        (fun k =>
          if k = 0 then ⟨Value.Unit, some ⟨SignalType.SignalContinue, Value.nil⟩, none⟩
          else ⟨Value.Integer 7, some ⟨SignalType.SignalBreak, Value.Integer 7⟩, none⟩)
        (some (EvalResult.ok (Value.Integer 0))) 2
      = some (EvalResult.ok (Value.Integer 7)) :=
  ((C16_for_loop [] (fun _ => []) (fun _ => EvalResult.ok (Value.Boolean true))
      (fun k =>
        if k = 0 then ⟨Value.Unit, some ⟨SignalType.SignalContinue, Value.nil⟩, none⟩
        else ⟨Value.Integer 7, some ⟨SignalType.SignalBreak, Value.Integer 7⟩, none⟩)
      (some (EvalResult.ok (Value.Integer 0))) 1 2 rfl
      (by
        intro k hk
        have hk0 : k = 0 := by omega
        subst hk0
        exact ⟨rfl, rfl, rfl, rfl, Or.inr ⟨Value.nil, rfl⟩⟩)
      (by decide) rfl rfl).1 rfl rfl (Value.Integer 7) rfl).1 (by decide)

end ForLoops

section Sorting

variable {α κ : Type} [LinearOrder κ]

/-- When `less` compares the keys of `x` and of the elements before it,
`insertBefore` returns: the result is a permutation of `x :: before`, it keeps
a descending list descending, and it does not change the relative order of
the elements of any single key. -/
theorem insertBefore_spec (less : α → α → Outcome Bool) (key : α → κ) (x : α) :
    ∀ before : List α,
      (∀ y ∈ before, less x y = .returns (decide (key x < key y))) →
      ∃ zs, insertBefore less x before = .returns zs ∧ zs.Perm (x :: before) ∧
        (before.Pairwise (fun a b => key b ≤ key a) → zs.Pairwise (fun a b => key b ≤ key a)) ∧
        ∀ k, zs.filter (fun a => decide (key a = k))
          = (x :: before).filter (fun a => decide (key a = k)) := by
  intro before
  induction before with
  | nil =>
    intro _
    exact ⟨[x], rfl, List.Perm.refl _, fun _ => List.pairwise_singleton _ _, fun _ => rfl⟩
  | cons y ys ih =>
    intro hless
    have hy := hless y (List.mem_cons_self _ _)
    have hys : ∀ z ∈ ys, less x z = .returns (decide (key x < key z)) :=
      fun z hz => hless z (List.mem_cons_of_mem _ hz)
    by_cases hlt : key x < key y
    · obtain ⟨zs, hzs, hperm, hsorted, hfilter⟩ := ih hys
      refine ⟨y :: zs, ?_, ?_, ?_, ?_⟩
      · rw [insertBefore, hy]
        simp [hlt, hzs]
      · exact (List.Perm.cons y hperm).trans (List.Perm.swap x y ys)
      · intro hp
        rw [List.pairwise_cons] at hp
        rw [List.pairwise_cons]
        refine ⟨?_, hsorted hp.2⟩
        intro z hz
        rcases List.mem_cons.mp (hperm.subset hz) with rfl | hz
        · exact le_of_lt hlt
        · exact hp.1 z hz
      · intro k
        have hne : key x ≠ key y := ne_of_lt hlt
        simp only [List.filter_cons, hfilter k]
        by_cases hxk : key x = k
        · have hyk : ¬ key y = k := fun h => hne (hxk.trans h.symm)
          simp [hxk, hyk]
        · by_cases hyk : key y = k <;> simp [hxk, hyk]
    · refine ⟨x :: y :: ys, ?_, List.Perm.refl _, ?_, fun _ => rfl⟩
      · rw [insertBefore, hy]
        simp [hlt]
      · intro hp
        rw [List.pairwise_cons]
        refine ⟨?_, hp⟩
        intro z hz
        rcases List.mem_cons.mp hz with rfl | hz
        · exact not_lt.mp hlt
        · rw [List.pairwise_cons] at hp
          exact le_trans (hp.1 z hz) (not_lt.mp hlt)

/-- The outer loop, under the same condition on `less`: it returns a
permutation of the elements, in ascending order of the keys, in which the
elements of any single key keep their relative order. -/
theorem insertAll_spec (less : α → α → Outcome Bool) (key : α → κ) :
    ∀ (todo before : List α),
      (∀ a ∈ todo ++ before, ∀ b ∈ todo ++ before,
        less a b = .returns (decide (key a < key b))) →
      before.Pairwise (fun a b => key b ≤ key a) →
      ∃ out, insertAll less todo before = .returns out ∧
        out.Perm (before.reverse ++ todo) ∧
        out.Pairwise (fun a b => key a ≤ key b) ∧
        ∀ k, out.filter (fun a => decide (key a = k))
          = (before.reverse ++ todo).filter (fun a => decide (key a = k)) := by
  intro todo
  induction todo with
  | nil =>
    intro before _ hsorted
    refine ⟨before.reverse, rfl, by simp, ?_, by simp⟩
    exact List.pairwise_reverse.mpr hsorted
  | cons x todo ih =>
    intro before hless hsorted
    obtain ⟨zs, hzs, hperm, hs, hfilter⟩ := insertBefore_spec less key x before
      (fun y hy => hless x (by simp) y (by simp [hy]))
    have hless1 : ∀ a ∈ todo ++ zs, ∀ b ∈ todo ++ zs,
        less a b = .returns (decide (key a < key b)) := by
      intro a ha b hb
      have hmem : ∀ c, c ∈ todo ++ zs → c ∈ x :: todo ++ before := by
        intro c hc
        rcases List.mem_append.mp hc with hc | hc
        · simp [hc]
        · rcases List.mem_cons.mp (hperm.subset hc) with rfl | hc
          · simp
          · simp [hc]
      exact hless a (hmem a ha) b (hmem b hb)
    obtain ⟨out, hout, hperm1, hs1, hfilter1⟩ := ih zs hless1 (hs hsorted)
    refine ⟨out, ?_, ?_, hs1, ?_⟩
    · rw [insertAll, hzs]
      exact hout
    · refine hperm1.trans ?_
      have h1 : zs.reverse.Perm (before.reverse ++ [x]) := by
        refine (List.reverse_perm zs).trans (hperm.trans ?_)
        exact ((List.perm_append_singleton x before).symm).trans
          (List.Perm.append_right [x] (List.reverse_perm before).symm)
      simpa using List.Perm.append_right todo h1
    · intro k
      rw [hfilter1 k]
      have h2 : (zs.reverse).filter (fun a => decide (key a = k))
          = (before.reverse ++ [x]).filter (fun a => decide (key a = k)) := by
        rw [List.filter_reverse, hfilter k, List.filter_append, List.filter_reverse]
        by_cases hxk : key x = k <;> simp [List.filter_cons, hxk]
      rw [List.filter_append, h2, List.filter_append, List.filter_append]
      by_cases hxk : key x = k <;> simp [List.filter_cons, hxk]

/-- The stable sort returns whenever `less` returns on every pair of elements. -/
theorem sliceStable_spec (less : α → α → Outcome Bool) (key : α → κ) (rows : List α)
    (hless : ∀ a ∈ rows, ∀ b ∈ rows, less a b = .returns (decide (key a < key b))) :
    ∃ out, sliceStable less rows = .returns out ∧ out.Perm rows ∧
      out.Pairwise (fun a b => key a ≤ key b) ∧
      ∀ k, out.filter (fun a => decide (key a = k))
        = rows.filter (fun a => decide (key a = k)) := by
  obtain ⟨out, h1, h2, h3, h4⟩ := insertAll_spec less key rows []
    (by simpa using hless) List.Pairwise.nil
  exact ⟨out, h1, by simpa using h2, h3, by simpa using h4⟩

end Sorting

section Queries

theorem queryWhere_booleans : ∀ rs : List EvalResult,
    (∀ r ∈ rs, ∃ b : Bool, r = EvalResult.ok (Value.Boolean b)) →
    queryWhere rs = .inr (rs.all (fun r => decide (r.val = Value.Boolean true)))
  | [], _ => rfl
  | r :: rest, hall => by
    obtain ⟨b, rfl⟩ := hall r (List.mem_cons_self _ _)
    have ih := queryWhere_booleans rest (fun s hs => hall s (List.mem_cons_of_mem _ hs))
    cases b <;> simp [queryWhere, EvalResult.ok, ih]

theorem queryWhere_not_boolean (v : Value) (hv : ∀ b, v ≠ Value.Boolean b) :
    ∀ (pre post : List EvalResult),
      (∀ r ∈ pre, r = EvalResult.ok (Value.Boolean true)) →
      queryWhere (pre ++ EvalResult.ok v :: post)
        = .inl (EvalResult.fail "query where must be bool")
  | [], post, _ => by
    cases v <;> simp [queryWhere, EvalResult.ok] at hv ⊢
  | r :: pre, post, hall => by
    have hr := hall r (List.mem_cons_self _ _)
    subst hr
    have ih := queryWhere_not_boolean v hv pre post
      (fun s hs => hall s (List.mem_cons_of_mem _ hs))
    simpa [queryWhere, EvalResult.ok] using ih

theorem rowsEvaluate_tail (node : QueryNode) (i : Nat) (item : Value) (rest : List Value)
    (h : rowsEvaluate node i (item :: rest)) : rowsEvaluate node (i + 1) rest := by
  intro j x hx
  have := h (j + 1) x (by simpa using hx)
  have hij : i + (j + 1) = i + 1 + j := by omega
  rw [hij] at this
  exact this

theorem all_map_where (ws : List (Nat → Value → EvalResult)) (i : Nat) (item : Value) :
    ((ws.map (fun w => w i item)).all fun r => decide (r.val = Value.Boolean true))
      = (ws.all fun w => decide ((w i item).val = Value.Boolean true)) := by
  induction ws with
  | nil => rfl
  | cons w ws ih => simp only [List.map_cons, List.all_cons, ih]

theorem queryWhere_of_rowsEvaluate (node : QueryNode) (i : Nat) (item : Value)
    (rest : List Value) (h : rowsEvaluate node i (item :: rest)) :
    queryWhere (node.Where.map (fun w => w i item))
      = .inr (node.Where.all (fun w => decide ((w i item).val = Value.Boolean true))) := by
  have h0 := (h 0 item (by simp)).1
  rw [queryWhere_booleans]
  · rw [all_map_where]
  · intro r hr
    obtain ⟨w, hw, rfl⟩ := List.mem_map.mp hr
    simpa using h0 w hw

/-- The first loop of a query whose where-expressions all yield Booleans
collects exactly the rows that the amended specification keeps. -/
theorem queryRows_eq_spec (node : QueryNode) : ∀ (l : List Value) (i : Nat),
    rowsEvaluate node i l → queryRows node i l = .inr (specKeptRows node i l)
  | [], _, _ => rfl
  | item :: rest, i, h => by
    have ih := queryRows_eq_spec node rest (i + 1) (rowsEvaluate_tail node i item rest h)
    have hw := queryWhere_of_rowsEvaluate node i item rest h
    have hob := (h 0 item (by simp)).2
    rw [queryRows, hw, specKeptRows]
    cases hkeep : node.Where.all (fun w => decide ((w i item).val = Value.Boolean true))
    · simp [ih]
    · cases hO : node.OrderBy with
      | none => simp [ih, rowKey, hO]
      | some ob =>
        have := hob ob hO
        simp only [Nat.add_zero] at this
        simp [ih, rowKey, hO, this.1, this.2]

/-- A row whose where-expression fails ends the first loop with that failure,
when the rows before it evaluate. -/
theorem queryRows_fails (node : QueryNode) (item : Value) (post : List Value)
    (e : EvalResult) : ∀ (pre : List Value) (i : Nat),
    rowsEvaluate node i pre →
    queryWhere (node.Where.map (fun w => w (i + pre.length) item)) = .inl e →
    queryRows node i (pre ++ item :: post) = .inl e
  | [], i, _, hfail => by
    simp only [List.length_nil, Nat.add_zero] at hfail
    simp [queryRows, hfail]
  | x :: pre, i, h, hfail => by
    have hlen : i + (x :: pre).length = i + 1 + pre.length := by simp; omega
    rw [hlen] at hfail
    have ih := queryRows_fails node item post e pre (i + 1)
      (rowsEvaluate_tail node i x pre h) hfail
    have hw := queryWhere_of_rowsEvaluate node i x pre h
    have hob := (h 0 x (by simp)).2
    rw [List.cons_append, queryRows, hw]
    cases hkeep : node.Where.all (fun w => decide ((w i x).val = Value.Boolean true))
    · simp [ih]
    · cases hO : node.OrderBy with
      | none => simp [ih]
      | some ob =>
        have := hob ob hO
        simp only [Nat.add_zero] at this
        simp [ih, this.1, this.2]

theorem queryWhere_all_true : ∀ rs : List EvalResult,
    (∀ r ∈ rs, r = EvalResult.ok (Value.Boolean true)) → queryWhere rs = .inr true
  | [], _ => rfl
  | r :: rest, hall => by
    have hr := hall r (List.mem_cons_self _ _)
    subst hr
    have ih := queryWhere_all_true rest (fun s hs => hall s (List.mem_cons_of_mem _ hs))
    simpa [queryWhere, EvalResult.ok] using ih

theorem queryWhere_first_false : ∀ (pre post : List EvalResult),
    (∀ r ∈ pre, r = EvalResult.ok (Value.Boolean true)) →
    queryWhere (pre ++ EvalResult.ok (Value.Boolean false) :: post) = .inr false
  | [], post, _ => by simp [queryWhere, EvalResult.ok]
  | r :: pre, post, hall => by
    have hr := hall r (List.mem_cons_self _ _)
    subst hr
    have ih := queryWhere_first_false pre post (fun s hs => hall s (List.mem_cons_of_mem _ hs))
    simpa [queryWhere, EvalResult.ok] using ih

theorem rowsDecided_tail (node : QueryNode) (i : Nat) (item : Value) (rest : List Value)
    (h : rowsDecided node i (item :: rest)) : rowsDecided node (i + 1) rest := by
  intro j x hx
  have := h (j + 1) x (by simpa using hx)
  have hij : i + (j + 1) = i + 1 + j := by omega
  rw [hij] at this
  exact this

/-- One turn of the first loop of a query on a row that the reached
where-expressions decide: the row is collected exactly when every
where-expression evaluates to the Boolean true. -/
theorem queryRows_cons_decided (node : QueryNode) (i : Nat) (item : Value) (rest : List Value)
    (h0 : rowDecided node i item) :
    queryRows node i (item :: rest)
      = match queryRows node (i + 1) rest with
        | .inl r => .inl r
        | .inr rows =>
          .inr (if node.Where.all (fun w => decide ((w i item).val = Value.Boolean true)) then
              ⟨item, rowKey node i item⟩ :: rows
            else rows) := by
  rw [queryRows]
  rcases h0 with ⟨hall, hob⟩ | ⟨ws1, w, ws2, hW, hpre, hw⟩
  · have hq : queryWhere (node.Where.map (fun w => w i item)) = .inr true := by
      apply queryWhere_all_true
      intro r hr
      obtain ⟨w, hw, rfl⟩ := List.mem_map.mp hr
      exact hall w hw
    have hk : node.Where.all (fun w => decide ((w i item).val = Value.Boolean true)) = true := by
      rw [List.all_eq_true]
      intro w hw
      rw [hall w hw]
      simp [EvalResult.ok]
    rw [hq, hk]
    cases hO : node.OrderBy with
    | none => cases queryRows node (i + 1) rest <;> simp [rowKey, hO]
    | some ob =>
      have := hob ob hO
      cases queryRows node (i + 1) rest <;> simp [rowKey, hO, this.1, this.2]
  · have hq : queryWhere (node.Where.map (fun w => w i item)) = .inr false := by
      rw [hW, List.map_append, List.map_cons, hw]
      apply queryWhere_first_false
      intro r hr
      obtain ⟨w1, hw1, rfl⟩ := List.mem_map.mp hr
      exact hpre w1 hw1
    have hk : node.Where.all (fun w => decide ((w i item).val = Value.Boolean true)) = false := by
      rw [List.all_eq_false]
      refine ⟨w, by rw [hW]; simp, ?_⟩
      rw [hw]
      simp [EvalResult.ok]
    rw [hq, hk]
    cases queryRows node (i + 1) rest <;> simp

/-- The first loop of a query on rows that the reached where-expressions
decide: it collects exactly the rows for which every where-expression
evaluates to the Boolean true. -/
theorem queryRows_decided (node : QueryNode) : ∀ (l : List Value) (i : Nat),
    rowsDecided node i l → queryRows node i l = .inr (specKeptRows node i l)
  | [], _, _ => rfl
  | item :: rest, i, h => by
    have ih := queryRows_decided node rest (i + 1) (rowsDecided_tail node i item rest h)
    have h0 := h 0 item (by simp)
    simp only [Nat.add_zero] at h0
    rw [queryRows_cons_decided node i item rest h0, ih, specKeptRows]

/-- A row whose where-expressions fail ends the first loop with that failure,
when the rows before it are decided. -/
theorem queryRows_fails_decided (node : QueryNode) (item : Value) (post : List Value)
    (e : EvalResult) : ∀ (pre : List Value) (i : Nat),
    rowsDecided node i pre →
    queryWhere (node.Where.map (fun w => w (i + pre.length) item)) = .inl e →
    queryRows node i (pre ++ item :: post) = .inl e
  | [], i, _, hfail => by
    simp only [List.length_nil, Nat.add_zero] at hfail
    simp [queryRows, hfail]
  | x :: pre, i, h, hfail => by
    have hlen : i + (x :: pre).length = i + 1 + pre.length := by simp; omega
    rw [hlen] at hfail
    have ih := queryRows_fails_decided node item post e pre (i + 1)
      (rowsDecided_tail node i x pre h) hfail
    have h0 := h 0 x (by simp)
    simp only [Nat.add_zero] at h0
    rw [List.cons_append, queryRows_cons_decided node i x _ h0, ih]

/-- Rows whose where-expressions all yield Booleans, reached or not, are
decided. -/
theorem rowsDecided_of_rowsEvaluate (node : QueryNode) (i : Nat) (l : List Value)
    (h : rowsEvaluate node i l) : rowsDecided node i l := by
  intro j item hj
  obtain ⟨hw, hob⟩ := h j item hj
  unfold rowDecided
  generalize node.Where = ws at hw
  have hs : (∀ w ∈ ws, w (i + j) item = EvalResult.ok (Value.Boolean true)) ∨
      ∃ ws1 w ws2, ws = ws1 ++ w :: ws2 ∧
        (∀ w1 ∈ ws1, w1 (i + j) item = EvalResult.ok (Value.Boolean true)) ∧
        w (i + j) item = EvalResult.ok (Value.Boolean false) := by
    induction ws with
    | nil => left; simp
    | cons w ws ih =>
      obtain ⟨b, hb⟩ := hw w (List.mem_cons_self _ _)
      cases b with
      | false => exact Or.inr ⟨[], w, ws, rfl, by simp, hb⟩
      | true =>
        rcases ih (fun w1 h1 => hw w1 (List.mem_cons_of_mem _ h1)) with hall | ⟨a, x, c, h1, h2, h3⟩
        · left
          intro w1 h1
          rcases List.mem_cons.mp h1 with rfl | h1
          · exact hb
          · exact hall w1 h1
        · right
          refine ⟨w :: a, x, c, by rw [h1]; rfl, ?_, h3⟩
          intro w1 hw1
          rcases List.mem_cons.mp hw1 with rfl | hw1
          · exact hb
          · exact h2 w1 hw1
  rcases hs with hall | hex
  · exact Or.inl ⟨hall, hob⟩
  · exact Or.inr hex

set_option maxRecDepth 4000 in
/-- C13 (as stated, refuted): on the source `[5]`, a where-expression that
yields the truthy Integer `1` does not keep the row: the query fails with
"query where must be bool". -/
theorem C13_truthy_where_fails :
    isTruthy [Cell.Array [Value.Integer 5]] (Value.Integer 1) = true ∧
    evalQueryExpression
        ⟨[fun _ _ => EvalResult.ok (Value.Integer 1)], none, fun _ v => EvalResult.ok v⟩
        [Cell.Array [Value.Integer 5]] (EvalResult.ok (Value.Array 0))
      = ([Cell.Array [Value.Integer 5]],
          .returns ⟨Value.nil, none,
            some (Error.RuntimeError "query where must be bool" none)⟩) := by
  decide

/-- C13 (amended). Only the where-expressions that are reached count: they are
evaluated in order up to the first one that is not the Boolean true. On a
source whose rows they decide (`rowsDecided`: all true, or true up to a first
false, whatever the later ones would yield), the rows collected are exactly
the source elements for which every where-expression evaluates to the Boolean
true (`specKeptRows`), and a row with a false where-expression is dropped
without evaluating the where-expressions after it. A where-expression that is
reached (the earlier ones being true) and yields a value that is not a Boolean
- truthy or not - makes the whole query fail with "query where must be bool",
whatever the later where-expressions and the later rows are. -/
theorem C13_query_where (node : QueryNode) (h : Heap) (p : Nat) (elems : List Value)
    (hp : h[p]? = some (Cell.Array elems)) :
    (rowsDecided node 0 elems →
      queryRows node 0 elems = .inr (specKeptRows node 0 elems)) ∧
    (∀ (i : Nat) (item : Value) (rest : List Value)
        (ws1 ws2 : List (Nat → Value → EvalResult)) (w : Nat → Value → EvalResult),
      node.Where = ws1 ++ w :: ws2 →
      (∀ w1 ∈ ws1, w1 i item = EvalResult.ok (Value.Boolean true)) →
      w i item = EvalResult.ok (Value.Boolean false) →
      queryRows node i (item :: rest) = queryRows node (i + 1) rest) ∧
    (∀ (pre post : List Value) (item v : Value)
        (ws1 ws2 : List (Nat → Value → EvalResult)) (w : Nat → Value → EvalResult),
      elems = pre ++ item :: post → node.Where = ws1 ++ w :: ws2 →
      rowsDecided node 0 pre →
      (∀ w1 ∈ ws1, w1 pre.length item = EvalResult.ok (Value.Boolean true)) →
      w pre.length item = EvalResult.ok v → (∀ b, v ≠ Value.Boolean b) →
      evalQueryExpression node h (EvalResult.ok (Value.Array p))
        = (h, .returns ⟨Value.nil, none,
            some (Error.RuntimeError "query where must be bool" none)⟩)) := by
  have hel := Heap.elements_of_get h p elems hp
  refine ⟨queryRows_decided node elems 0, ?_, ?_⟩
  · intro i item rest ws1 ws2 w hW hpre hw
    have hq : queryWhere (node.Where.map (fun w => w i item)) = .inr false := by
      rw [hW, List.map_append, List.map_cons, hw]
      apply queryWhere_first_false
      intro r hr
      obtain ⟨w1, hw1, rfl⟩ := List.mem_map.mp hr
      exact hpre w1 hw1
    rw [queryRows, hq]
  · intro pre post item v ws1 ws2 w he hw hpre hws1 hwv hv
    have hfail : queryWhere (node.Where.map (fun w => w (0 + pre.length) item))
        = .inl (EvalResult.fail "query where must be bool") := by
      rw [hw, List.map_append, List.map_cons, Nat.zero_add, hwv]
      apply queryWhere_not_boolean v hv
      intro r hr
      obtain ⟨w1, hw1, rfl⟩ := List.mem_map.mp hr
      exact hws1 w1 hw1
    have hrows := queryRows_fails_decided node item post _ pre 0 hpre hfail
    simp [evalQueryExpression, EvalResult.ok, hel, he, hrows, EvalResult.fail]

/-- C13, at concrete inputs. With the where-expressions `x != 5` and one that
yields the Integer 1 on `5` (and true elsewhere), the source `[7, 5]` keeps the
row `7` only: on `5` the first where-expression is false and the second is not
evaluated. With the where-expressions `true` and `1`, the source `[5]` makes
the query fail. -/
theorem C13_query_where_witness :
    queryRows
        ⟨[fun _ v => EvalResult.ok (Value.Boolean (decide (v ≠ Value.Integer 5))),
            fun _ v => if v = Value.Integer 5 then EvalResult.ok (Value.Integer 1)
              else EvalResult.ok (Value.Boolean true)], none,
          fun _ v => EvalResult.ok v⟩ 0 [Value.Integer 7, Value.Integer 5]
      = .inr [⟨Value.Integer 7, Value.nil⟩] ∧
    evalQueryExpression
        ⟨[fun _ _ => EvalResult.ok (Value.Boolean true),
            fun _ _ => EvalResult.ok (Value.Integer 1)], none, fun _ v => EvalResult.ok v⟩
        [Cell.Array [Value.Integer 5]] (EvalResult.ok (Value.Array 0))
      = ([Cell.Array [Value.Integer 5]],
          .returns ⟨Value.nil, none,
            some (Error.RuntimeError "query where must be bool" none)⟩) :=
  ⟨(C13_query_where
      ⟨[fun _ v => EvalResult.ok (Value.Boolean (decide (v ≠ Value.Integer 5))),
          fun _ v => if v = Value.Integer 5 then EvalResult.ok (Value.Integer 1)
            else EvalResult.ok (Value.Boolean true)], none,
        fun _ v => EvalResult.ok v⟩
      [Cell.Array [Value.Integer 7, Value.Integer 5]] 0 [Value.Integer 7, Value.Integer 5]
      rfl).1
      (by
        intro j item hj
        match j, hj with
        | 0, hj =>
          simp only [List.getElem?_cons_zero, Option.some.injEq] at hj
          subst hj
          refine Or.inl ⟨?_, ?_⟩
          · intro w hw
            simp only [List.mem_cons, List.mem_singleton, List.not_mem_nil, or_false] at hw
            rcases hw with rfl | rfl <;> rfl
          · intro ob hob
            simp at hob
        | 1, hj =>
          simp only [List.getElem?_cons_succ, List.getElem?_cons_zero, Option.some.injEq] at hj
          subst hj
          exact Or.inr ⟨[], _, _, rfl, by simp, rfl⟩
        | j + 2, hj => simp at hj),
    (C13_query_where
      ⟨[fun _ _ => EvalResult.ok (Value.Boolean true),
          fun _ _ => EvalResult.ok (Value.Integer 1)], none, fun _ v => EvalResult.ok v⟩
      [Cell.Array [Value.Integer 5]] 0 [Value.Integer 5] rfl).2.2
      [] [] (Value.Integer 5) (Value.Integer 1)
      [fun _ _ => EvalResult.ok (Value.Boolean true)] []
      (fun _ _ => EvalResult.ok (Value.Integer 1)) rfl rfl
      (by intro j item hj; simp at hj)
      (by intro w1 hw1; simp only [List.mem_singleton] at hw1; subst hw1; rfl)
      rfl (by intro b; simp)⟩

end Queries

section SortRows

theorem insertBefore_returns {α : Type} (less : α → α → Outcome Bool) (x : α) :
    ∀ before : List α, (∀ y ∈ before, ∃ c, less x y = .returns c) →
      ∃ zs, insertBefore less x before = .returns zs ∧ zs.Perm (x :: before) := by
  intro before
  induction before with
  | nil => intro _; exact ⟨[x], rfl, List.Perm.refl _⟩
  | cons y ys ih =>
    intro hless
    obtain ⟨c, hc⟩ := hless y (List.mem_cons_self _ _)
    obtain ⟨zs, hzs, hperm⟩ := ih (fun z hz => hless z (List.mem_cons_of_mem _ hz))
    cases c with
    | false => exact ⟨x :: y :: ys, by rw [insertBefore, hc], List.Perm.refl _⟩
    | true =>
      refine ⟨y :: zs, by rw [insertBefore, hc]; simp [hzs], ?_⟩
      exact (List.Perm.cons y hperm).trans (List.Perm.swap x y ys)

theorem insertAll_returns {α : Type} (less : α → α → Outcome Bool) :
    ∀ (todo before : List α),
      (∀ a ∈ todo ++ before, ∀ b ∈ todo ++ before, ∃ c, less a b = .returns c) →
      ∃ out, insertAll less todo before = .returns out ∧
        out.Perm (before.reverse ++ todo) := by
  intro todo
  induction todo with
  | nil => intro before _; exact ⟨before.reverse, rfl, by simp⟩
  | cons x todo ih =>
    intro before hless
    obtain ⟨zs, hzs, hperm⟩ := insertBefore_returns less x before
      (fun y hy => hless x (by simp) y (by simp [hy]))
    have hless1 : ∀ a ∈ todo ++ zs, ∀ b ∈ todo ++ zs, ∃ c, less a b = .returns c := by
      intro a ha b hb
      have hmem : ∀ c, c ∈ todo ++ zs → c ∈ x :: todo ++ before := by
        intro c hc
        rcases List.mem_append.mp hc with hc | hc
        · simp [hc]
        · rcases List.mem_cons.mp (hperm.subset hc) with rfl | hc
          · simp
          · simp [hc]
      exact hless a (hmem a ha) b (hmem b hb)
    obtain ⟨out, hout, hperm1⟩ := ih zs hless1
    refine ⟨out, by rw [insertAll, hzs]; exact hout, hperm1.trans ?_⟩
    have h1 : zs.reverse.Perm (before.reverse ++ [x]) := by
      refine (List.reverse_perm zs).trans (hperm.trans ?_)
      exact ((List.perm_append_singleton x before).symm).trans
        (List.Perm.append_right [x] (List.reverse_perm before).symm)
    simpa using List.Perm.append_right todo h1

/-- On two keys of the same kind among Integer, Float and String,
`compareForSort` returns. -/
theorem compareForSort_returns (a b : Value) (ha : isSortKey a = true)
    (hab : valueType b = valueType a) : ∃ c, compareForSort a b = .returns c := by
  cases a <;> simp [isSortKey] at ha <;> cases b <;>
    simp [valueType, compareForSort] at hab ⊢

/-- The three checks of `sortRows`, as the specification words them: some row
has no key, or the first key is not an Integer, Float or String, or the kind of
some row's key differs from the kind of the first key. -/
theorem sortRows_checks (first : queryRow) (rest : List queryRow)
    (hok : ¬ ((∃ r ∈ first :: rest, r.key = Value.nil) ∨ isSortKey first.key = false ∨
        (∃ r ∈ first :: rest, valueType r.key ≠ valueType first.key))) :
    sortRows (first :: rest)
      = (match sliceStable (fun a b => compareForSort a.key b.key) (first :: rest) with
        | .panics msg => .panics msg
        | .returns sorted => .returns (sorted, none)) := by
  have h1 : (first :: rest).any (fun row => decide (row.key = Value.nil)) = false := by
    rw [List.any_eq_false]
    intro r hr
    simp only [decide_eq_true_eq]
    intro hnil
    exact hok (Or.inl ⟨r, hr, hnil⟩)
  have h2 : isSortKey first.key = true := by
    cases hk : isSortKey first.key
    · exact absurd (Or.inr (Or.inl hk)) hok
    · rfl
  have h3 : (first :: rest).any
      (fun row => decide (valueType row.key ≠ valueType first.key)) = false := by
    rw [List.any_eq_false]
    intro r hr
    simp only [decide_eq_true_eq]
    intro hne
    exact hok (Or.inr (Or.inr ⟨r, hr, hne⟩))
  rw [sortRows]
  simp only [h1, h2, h3, Bool.false_eq_true, if_false, Bool.true_eq_false]

/-- C15: on a non-empty list of rows `sortRows` returns an error, with the
rows in their original order, if and only if some row has no key, or the first
key is not an Integer, Float or String, or the kind of some row's key differs
from the kind of the first key; whenever it returns an error the rows are not
reordered; in the remaining case it returns no error and a permutation of the
rows; and on the empty list it returns no error. -/
theorem C15_sortRows_errors (first : queryRow) (rest : List queryRow) :
    ((∃ err, sortRows (first :: rest) = .returns (first :: rest, some err)) ↔
      ((∃ r ∈ first :: rest, r.key = Value.nil) ∨ isSortKey first.key = false ∨
        (∃ r ∈ first :: rest, valueType r.key ≠ valueType first.key))) ∧
    (∀ out err, sortRows (first :: rest) = .returns (out, some err) → out = first :: rest) ∧
    (¬ ((∃ r ∈ first :: rest, r.key = Value.nil) ∨ isSortKey first.key = false ∨
        (∃ r ∈ first :: rest, valueType r.key ≠ valueType first.key)) →
      ∃ sorted, sortRows (first :: rest) = .returns (sorted, none) ∧
        sorted.Perm (first :: rest)) ∧
    sortRows [] = .returns ([], none) := by
  have hgood : ¬ ((∃ r ∈ first :: rest, r.key = Value.nil) ∨ isSortKey first.key = false ∨
        (∃ r ∈ first :: rest, valueType r.key ≠ valueType first.key)) →
      ∃ sorted, sortRows (first :: rest) = .returns (sorted, none) ∧
        sorted.Perm (first :: rest) := by
    intro hok
    have hkey : isSortKey first.key = true := by
      cases hk : isSortKey first.key
      · exact absurd (Or.inr (Or.inl hk)) hok
      · rfl
    have hty : ∀ r ∈ first :: rest, valueType r.key = valueType first.key := by
      intro r hr
      by_contra hne
      exact hok (Or.inr (Or.inr ⟨r, hr, hne⟩))
    have hsk : ∀ r ∈ first :: rest, isSortKey r.key = true := by
      intro r hr
      have := hty r hr
      revert hkey this
      cases first.key <;> cases r.key <;> simp [isSortKey, valueType]
    obtain ⟨out, hout, hperm⟩ := insertAll_returns
      (fun a b : queryRow => compareForSort a.key b.key) (first :: rest) []
      (by
        intro a ha b hb
        rw [List.append_nil] at ha hb
        exact compareForSort_returns a.key b.key (hsk a ha)
          ((hty b hb).trans (hty a ha).symm))
    refine ⟨out, ?_, by simpa using hperm⟩
    rw [sortRows_checks first rest hok, sliceStable, hout]
  have hbad : ∀ out err, sortRows (first :: rest) = .returns (out, some err) →
      out = first :: rest ∧
        ((∃ r ∈ first :: rest, r.key = Value.nil) ∨ isSortKey first.key = false ∨
          (∃ r ∈ first :: rest, valueType r.key ≠ valueType first.key)) := by
    intro out err hret
    by_cases hok : ((∃ r ∈ first :: rest, r.key = Value.nil) ∨ isSortKey first.key = false ∨
        (∃ r ∈ first :: rest, valueType r.key ≠ valueType first.key))
    · refine ⟨?_, hok⟩
      rw [sortRows] at hret
      split_ifs at hret
      · simp only [Outcome.returns.injEq, Prod.mk.injEq] at hret; exact hret.1.symm
      · simp only [Outcome.returns.injEq, Prod.mk.injEq] at hret; exact hret.1.symm
      · simp only [Outcome.returns.injEq, Prod.mk.injEq] at hret; exact hret.1.symm
      · split at hret
        · exact absurd hret (by simp)
        · simp at hret
    · obtain ⟨sorted, hs, _⟩ := hgood hok
      rw [hs] at hret
      simp at hret
  refine ⟨⟨?_, ?_⟩, fun out err h => (hbad out err h).1, hgood, rfl⟩
  · rintro ⟨err, herr⟩
    exact (hbad _ err herr).2
  · intro hcond
    rw [sortRows]
    rcases hcond with ⟨r, hr, hnil⟩ | hcond
    · have h1 : (first :: rest).any (fun row => decide (row.key = Value.nil)) = true :=
        List.any_eq_true.mpr ⟨r, hr, by simpa using hnil⟩
      rw [if_pos h1]
      exact ⟨_, rfl⟩
    · split_ifs
      · exact ⟨_, rfl⟩
      · exact ⟨_, rfl⟩
      · exact ⟨_, rfl⟩
      · rename_i h1 h2 h3
        rcases hcond with hk | ⟨r, hr, hne⟩
        · exact absurd hk h2
        · exact absurd (List.any_eq_true.mpr ⟨r, hr, by simpa using hne⟩) h3

end SortRows

section OrderBy

/-- With keys that `compareForSort` orders by a linearly ordered payload,
`sortRows` returns no error and the rows in ascending order of that payload,
as a permutation in which rows of equal payload keep their order. -/
theorem sortRows_sorted {κ : Type} [LinearOrder κ] (key : queryRow → κ)
    (rows : List queryRow)
    (hkind : ∀ a ∈ rows, isSortKey a.key = true ∧
      ∀ b ∈ rows, valueType b.key = valueType a.key)
    (hless : ∀ a ∈ rows, ∀ b ∈ rows,
      compareForSort a.key b.key = .returns (decide (key a < key b))) :
    ∃ sorted, sortRows rows = .returns (sorted, none) ∧ sorted.Perm rows ∧
      sorted.Pairwise (fun a b => key a ≤ key b) ∧
      ∀ k, sorted.filter (fun a => decide (key a = k))
        = rows.filter (fun a => decide (key a = k)) := by
  cases rows with
  | nil => exact ⟨[], rfl, List.Perm.refl _, List.Pairwise.nil, fun _ => rfl⟩
  | cons first rest =>
    have hok : ¬ ((∃ r ∈ first :: rest, r.key = Value.nil) ∨ isSortKey first.key = false ∨
        (∃ r ∈ first :: rest, valueType r.key ≠ valueType first.key)) := by
      rintro (⟨r, hr, hnil⟩ | hk | ⟨r, hr, hne⟩)
      · have := (hkind r hr).1
        rw [hnil] at this
        simp [isSortKey] at this
      · have := (hkind first (List.mem_cons_self _ _)).1
        rw [hk] at this
        simp at this
      · exact hne ((hkind first (List.mem_cons_self _ _)).2 r hr)
    obtain ⟨out, hout, hperm, hsorted, hfilter⟩ :=
      sliceStable_spec (fun a b : queryRow => compareForSort a.key b.key) key
        (first :: rest) hless
    exact ⟨out, by rw [sortRows_checks first rest hok, hout], hperm, hsorted, hfilter⟩

theorem sortRows_integer_keys (rows : List queryRow)
    (hkeys : ∀ r ∈ rows, ∃ n, r.key = Value.Integer n) :
    ∃ sorted, sortRows rows = .returns (sorted, none) ∧ sorted.Perm rows ∧
      sorted.Pairwise (fun a b => integerKey a ≤ integerKey b) ∧
      ∀ k, sorted.filter (fun a => decide (integerKey a = k))
        = rows.filter (fun a => decide (integerKey a = k)) := by
  apply sortRows_sorted integerKey rows
  · intro a ha
    obtain ⟨n, hn⟩ := hkeys a ha
    refine ⟨by rw [hn]; rfl, ?_⟩
    intro b hb
    obtain ⟨m, hm⟩ := hkeys b hb
    rw [hn, hm]
    rfl
  · intro a ha b hb
    obtain ⟨n, hn⟩ := hkeys a ha
    obtain ⟨m, hm⟩ := hkeys b hb
    simp [compareForSort, integerKey, hn, hm]

theorem sortRows_string_keys (rows : List queryRow)
    (hkeys : ∀ r ∈ rows, ∃ s, r.key = Value.String s) :
    ∃ sorted, sortRows rows = .returns (sorted, none) ∧ sorted.Perm rows ∧
      sorted.Pairwise (fun a b => stringKey a ≤ stringKey b) ∧
      ∀ k, sorted.filter (fun a => decide (stringKey a = k))
        = rows.filter (fun a => decide (stringKey a = k)) := by
  obtain ⟨sorted, h1, h2, h3, h4⟩ := sortRows_sorted stringKey rows
    (by
      intro a ha
      obtain ⟨n, hn⟩ := hkeys a ha
      refine ⟨by rw [hn]; rfl, ?_⟩
      intro b hb
      obtain ⟨m, hm⟩ := hkeys b hb
      rw [hn, hm]
      rfl)
    (by
      intro a ha b hb
      obtain ⟨n, hn⟩ := hkeys a ha
      obtain ⟨m, hm⟩ := hkeys b hb
      simp [compareForSort, stringKey, hn, hm])
  refine ⟨sorted, h1, h2, h3, ?_⟩
  intro k
  have hfun : ∀ l : List queryRow, l.filter (fun a => decide (stringKey a = k))
      = l.filter (fun a => @decide (stringKey a = k) (instDecidableEq_mathlib _ _)) := by
    intro l
    congr 1
    funext a
    exact decide_eq_decide.mpr Iff.rfl
  rw [hfun sorted, hfun rows]
  exact h4 k

/-- The last loop of a query whose select expression evaluates for every row
returns one value per row, in the order of the rows. -/
theorem querySelect_values (node : QueryNode)
    (hsel : ∀ j item, (node.Select j item).err = none ∧ (node.Select j item).sig = none) :
    ∀ (rows : List queryRow) (j : Nat),
      ∃ results, querySelect node j rows = .inr results ∧ results.length = rows.length ∧
        ∀ (n : Nat) (r : queryRow), rows[n]? = some r →
          results[n]? = some (node.Select (j + n) r.item).val := by
  intro rows
  induction rows with
  | nil => intro j; exact ⟨[], rfl, rfl, by simp⟩
  | cons r rest ih =>
    intro j
    obtain ⟨results, hres, hlen, hget⟩ := ih (j + 1)
    refine ⟨(node.Select j r.item).val :: results, ?_, by simp [hlen], ?_⟩
    · rw [querySelect]
      simp [(hsel j r.item).1, (hsel j r.item).2, hres]
    · intro n x hx
      cases n with
      | zero =>
        simp only [List.getElem?_cons_zero, Option.some.injEq] at hx
        subst hx
        simp
      | succ m =>
        simp only [List.getElem?_cons_succ] at hx
        have := hget m x hx
        simp only [List.getElem?_cons_succ, this]
        congr 3
        omega

/-- C14: in a query on the array at `p` with an orderby, whose where, orderby
and select expressions evaluate (`rowsEvaluate`, `hsel`) and in which every
kept row's key is an Integer, or every kept row's key is a String, `sortRows`
returns no error and the rows `sorted`, the select expression is evaluated on
the rows of `sorted` in that order, and `sorted` is a permutation of the kept
rows in non-decreasing key order in which the rows of any one key keep the
order they have among the kept rows, that is, in the source array. -/
theorem C14_orderby_stable (node : QueryNode) (h : Heap) (p : Nat) (elems : List Value)
    (ob : Nat → Value → EvalResult)
    (hp : h[p]? = some (Cell.Array elems)) (hob : node.OrderBy = some ob)
    (hrows : rowsEvaluate node 0 elems)
    (hsel : ∀ j item, (node.Select j item).err = none ∧ (node.Select j item).sig = none)
    (hkeys : (∀ r ∈ specKeptRows node 0 elems, ∃ n, r.key = Value.Integer n) ∨
      (∀ r ∈ specKeptRows node 0 elems, ∃ s, r.key = Value.String s)) :
    ∃ (sorted : List queryRow) (results : List Value),
      sortRows (specKeptRows node 0 elems) = .returns (sorted, none) ∧
      sorted.Perm (specKeptRows node 0 elems) ∧
      ((∀ r ∈ specKeptRows node 0 elems, ∃ n, r.key = Value.Integer n) →
        sorted.Pairwise (fun a b => integerKey a ≤ integerKey b) ∧
        ∀ k, sorted.filter (fun a => decide (integerKey a = k))
          = (specKeptRows node 0 elems).filter (fun a => decide (integerKey a = k))) ∧
      ((∀ r ∈ specKeptRows node 0 elems, ∃ s, r.key = Value.String s) →
        sorted.Pairwise (fun a b => stringKey a ≤ stringKey b) ∧
        ∀ k, sorted.filter (fun a => decide (stringKey a = k))
          = (specKeptRows node 0 elems).filter (fun a => decide (stringKey a = k))) ∧
      results.length = sorted.length ∧
      (∀ (j : Nat) (r : queryRow), sorted[j]? = some r →
        results[j]? = some (node.Select j r.item).val) ∧
      evalQueryExpression node h (EvalResult.ok (Value.Array p))
        = (h ++ [Cell.Array results], .returns (EvalResult.ok (Value.Array h.length))) := by
  have hel := Heap.elements_of_get h p elems hp
  have hq := queryRows_eq_spec node elems 0 hrows
  have hsorted : ∃ sorted, sortRows (specKeptRows node 0 elems) = .returns (sorted, none) ∧
      sorted.Perm (specKeptRows node 0 elems) := by
    rcases hkeys with hk | hk
    · obtain ⟨s, h1, h2, _⟩ := sortRows_integer_keys _ hk
      exact ⟨s, h1, h2⟩
    · obtain ⟨s, h1, h2, _⟩ := sortRows_string_keys _ hk
      exact ⟨s, h1, h2⟩
  obtain ⟨sorted, hs, hperm⟩ := hsorted
  obtain ⟨results, hres, hlen, hget⟩ := querySelect_values node hsel sorted 0
  refine ⟨sorted, results, hs, hperm, ?_, ?_, hlen, ?_, ?_⟩
  · intro hk
    obtain ⟨s, h1, _, h3, h4⟩ := sortRows_integer_keys _ hk
    rw [hs] at h1
    simp only [Outcome.returns.injEq, Prod.mk.injEq, and_true] at h1
    subst h1
    exact ⟨h3, h4⟩
  · intro hk
    obtain ⟨s, h1, _, h3, h4⟩ := sortRows_string_keys _ hk
    rw [hs] at h1
    simp only [Outcome.returns.injEq, Prod.mk.injEq, and_true] at h1
    subst h1
    exact ⟨h3, h4⟩
  · intro j r hj
    simpa using hget j r hj
  · simp [evalQueryExpression, EvalResult.ok, hel, hq, hob, hs, hres, Heap.alloc]

end OrderBy

section OrderByWitness

/-- C14, at concrete inputs: ordering the source `[3, 1]` by the element
itself passes the rows to select in a sorted order that is a permutation of
the kept rows. -/
theorem C14_orderby_stable_witness :
    ∃ sorted : List queryRow,
      sortRows (specKeptRows ⟨[], some (fun _ v => EvalResult.ok v), fun _ v => EvalResult.ok v⟩
          0 [Value.Integer 3, Value.Integer 1]) = .returns (sorted, none) ∧
      sorted.Pairwise (fun a b => integerKey a ≤ integerKey b) := by
  have hkeys : ∀ r ∈ specKeptRows
      ⟨[], some (fun _ v => EvalResult.ok v), fun _ v => EvalResult.ok v⟩
      0 [Value.Integer 3, Value.Integer 1], ∃ n, r.key = Value.Integer n := by
    intro r hr
    have hrows : specKeptRows
        ⟨[], some (fun _ v => EvalResult.ok v), fun _ v => EvalResult.ok v⟩
        0 [Value.Integer 3, Value.Integer 1]
        = [⟨Value.Integer 3, Value.Integer 3⟩, ⟨Value.Integer 1, Value.Integer 1⟩] := rfl
    rw [hrows] at hr
    simp only [List.mem_cons, List.mem_singleton, List.not_mem_nil, or_false] at hr
    rcases hr with rfl | rfl
    · exact ⟨3, rfl⟩
    · exact ⟨1, rfl⟩
  obtain ⟨sorted, _, h1, _, h3, _⟩ :=
    C14_orderby_stable ⟨[], some (fun _ v => EvalResult.ok v), fun _ v => EvalResult.ok v⟩
      [Cell.Array [Value.Integer 3, Value.Integer 1]] 0 [Value.Integer 3, Value.Integer 1]
      (fun _ v => EvalResult.ok v) rfl rfl
      (by
        intro j item _
        refine ⟨?_, ?_⟩
        · intro w hw
          simp at hw
        · intro ob hob
          simp only [Option.some.injEq] at hob
          subst hob
          exact ⟨rfl, rfl⟩)
      (fun _ _ => ⟨rfl, rfl⟩) (Or.inl hkeys)
  exact ⟨sorted, h1, (h3 hkeys).1⟩

end OrderByWitness

section Loader

theorem lookup_assocStore {ν : Type} (k : String) (v : ν) :
    ∀ m : List (String × ν), (assocStore k v m).lookup k = some v
  | [] => by simp [assocStore, List.lookup]
  | (k1, v1) :: rest => by
    by_cases hk : k1 = k
    · simp [assocStore, hk, List.lookup]
    · have hne : (k == k1) = false := by simpa using fun h => hk h.symm
      simp [assocStore, hk, List.lookup, hne, lookup_assocStore k v rest]

theorem lookup_assocDelete {ν : Type} (k : String) (m : List (String × ν)) :
    (assocDelete k m).lookup k = none := by
  induction m with
  | nil => rfl
  | cons p rest ih =>
    unfold assocDelete at ih ⊢
    rw [List.filter_cons]
    by_cases hk : p.1 = k
    · simpa [hk] using ih
    · have hne : (k == p.1) = false := by simpa using fun h => hk h.symm
      simp only [ne_eq, hk, not_false_eq_true, decide_True, if_true]
      rw [show p = (p.1, p.2) from rfl, List.lookup_cons, hne]
      exact ih

theorem loadModule_of_unmarked (host : Host) (modules : Option moduleState) (path : String)
    (hnl : (modules.getD newModuleState).loaded.lookup (resolvedPath host path) = none)
    (hl : ((modules.getD newModuleState).loading.lookup (resolvedPath host path)).getD false
      = false) :
    loadModule host modules path
      = loadModuleFinish host
          { modules.getD newModuleState with
            loading := assocStore (resolvedPath host path) true
              (modules.getD newModuleState).loading }
          (resolvedPath host path) := by
  simp [loadModule, loadModuleBegin, hnl, hl]

theorem loadModuleFinish_read_error (host : Host) (st : moduleState) (r e : String)
    (hread : host.ReadFile r = .error e) :
    loadModuleFinish host st r
      = ({ st with loading := assocDelete r st.loading }, none,
          some (Error.RuntimeError ("import read error: " ++ e) none)) := by
  simp [loadModuleFinish, hread]

theorem loadModuleFinish_parse_error (host : Host) (st : moduleState) (r data : String)
    (hread : host.ReadFile r = .ok data) (herrs : (host.ParseProgram data).2 ≠ []) :
    loadModuleFinish host st r
      = ({ st with loading := assocDelete r st.loading }, none,
          some (Error.other (host.FormatParseErrors (host.ParseProgram data).2 data r))) := by
  have hlen : (host.ParseProgram data).2.length > 0 := List.length_pos.mpr herrs
  simp [loadModuleFinish, hread, parseImportProgram, hlen]

theorem loadModuleFinish_success (host : Host) (st : moduleState) (r data : String)
    (hread : host.ReadFile r = .ok data) (herrs : (host.ParseProgram data).2 = []) :
    loadModuleFinish host st r
      = ({ loaded := assocStore r ⟨(host.ParseProgram data).1, data, r⟩ st.loaded,
           loading := assocDelete r st.loading },
          some ⟨(host.ParseProgram data).1, data, r⟩, none) := by
  simp [loadModuleFinish, hread, parseImportProgram, herrs]

/-- Whatever the file system and the parser do, `loadModuleFinish` leaves the
path out of `loading`. -/
theorem loadModuleFinish_unmarks (host : Host) (st : moduleState) (r : String) :
    (loadModuleFinish host st r).1.loading.lookup r = none := by
  cases hread : host.ReadFile r with
  | error e =>
    rw [loadModuleFinish_read_error host st r e hread]
    exact lookup_assocDelete r _
  | ok data =>
    by_cases herrs : (host.ParseProgram data).2 = []
    · rw [loadModuleFinish_success host st r data hread herrs]
      exact lookup_assocDelete r _
    · rw [loadModuleFinish_parse_error host st r data hread herrs]
      exact lookup_assocDelete r _

/-- C20: let `r` be the cleaned absolute path of `path`, not in `loaded`. If `r`
is not in `loading`, the first critical section of `loadModule` marks it as
loading and leaves `loaded` as it is; and when `loadModule` returns, `r` is
no longer in `loading`, whether the file could not be read (a RuntimeError
"import read error", `loaded` unchanged), could not be parsed (the formatted
parse errors, `loaded` unchanged) or was loaded, in which case `loaded` maps
`r` to the definition returned. If `r` is in `loading`, `loadModule` returns
the RuntimeError "circular import: " followed by `r` and the module state is
unchanged. -/
theorem C20_loadModule_sets (host : Host) (modules : Option moduleState) (path : String)
    (hnl : (modules.getD newModuleState).loaded.lookup (resolvedPath host path) = none) :
    (((modules.getD newModuleState).loading.lookup (resolvedPath host path)).getD false
        = false →
      (loadModuleBegin (modules.getD newModuleState) (resolvedPath host path)).2
          = LoadBegin.marked ∧
      (loadModuleBegin (modules.getD newModuleState) (resolvedPath host path)).1.loading.lookup
          (resolvedPath host path) = some true ∧
      (loadModuleBegin (modules.getD newModuleState) (resolvedPath host path)).1.loaded
          = (modules.getD newModuleState).loaded ∧
      (loadModule host modules path).1.loading.lookup (resolvedPath host path) = none ∧
      (∀ e, host.ReadFile (resolvedPath host path) = .error e →
        (loadModule host modules path).2
            = (none, some (Error.RuntimeError ("import read error: " ++ e) none)) ∧
          (loadModule host modules path).1.loaded = (modules.getD newModuleState).loaded) ∧
      (∀ data, host.ReadFile (resolvedPath host path) = .ok data →
        (host.ParseProgram data).2 ≠ [] →
        (loadModule host modules path).2
            = (none, some (Error.other (host.FormatParseErrors (host.ParseProgram data).2
                data (resolvedPath host path)))) ∧
          (loadModule host modules path).1.loaded = (modules.getD newModuleState).loaded) ∧
      (∀ data, host.ReadFile (resolvedPath host path) = .ok data →
        (host.ParseProgram data).2 = [] →
        (loadModule host modules path).2
            = (some ⟨(host.ParseProgram data).1, data, resolvedPath host path⟩, none) ∧
          (loadModule host modules path).1.loaded.lookup (resolvedPath host path)
            = some ⟨(host.ParseProgram data).1, data, resolvedPath host path⟩)) ∧
    (((modules.getD newModuleState).loading.lookup (resolvedPath host path)).getD false
        = true →
      loadModule host modules path
        = (modules.getD newModuleState, none,
            some (Error.RuntimeError ("circular import: " ++ resolvedPath host path) none))) := by
  constructor
  · intro hl
    have hload := loadModule_of_unmarked host modules path hnl hl
    refine ⟨?_, ?_, ?_, ?_, ?_, ?_, ?_⟩
    · simp [loadModuleBegin, hnl, hl]
    · simp [loadModuleBegin, hnl, hl, lookup_assocStore]
    · simp [loadModuleBegin, hnl, hl]
    · rw [hload]
      exact loadModuleFinish_unmarks host _ _
    · intro e hread
      rw [hload, loadModuleFinish_read_error host _ _ e hread]
      exact ⟨rfl, rfl⟩
    · intro data hread herrs
      rw [hload, loadModuleFinish_parse_error host _ _ data hread herrs]
      exact ⟨rfl, rfl⟩
    · intro data hread herrs
      rw [hload, loadModuleFinish_success host _ _ data hread herrs]
      exact ⟨rfl, lookup_assocStore _ _ _⟩
  · intro hl
    simp [loadModule, loadModuleBegin, hnl, hl]

end Loader
section ImportCycles

/-- C20, at concrete inputs: loading `/m.k` into an empty module state leaves
it out of `loading` and stores its definition in `loaded`. -/
theorem C20_loadModule_sets_witness :
    (loadModule (exampleHost []) none "/m.k").1.loading.lookup "/m.k" = none ∧
    (loadModule (exampleHost []) none "/m.k").1.loaded.lookup "/m.k"
      = some ⟨[], "src", "/m.k"⟩ :=
  ⟨((C20_loadModule_sets (exampleHost []) none "/m.k" rfl).1 rfl).2.2.2.1,
    (((C20_loadModule_sets (exampleHost []) none "/m.k" rfl).1 rfl).2.2.2.2.2.2
      "src" rfl rfl).2⟩

/-- A task that starts with nothing in `loading` finds nothing in `loading`
after `loadModule` returns. -/
theorem loadModule_loading_empty (host : Host) (st : moduleState) (path : String)
    (hl : st.loading = []) : (loadModule host (some st) path).1.loading = [] := by
  have hdel : assocDelete (resolvedPath host path)
      (assocStore (resolvedPath host path) true ([] : List (String × Bool))) = [] := by
    simp [assocStore, assocDelete]
  cases hloaded : st.loaded.lookup (resolvedPath host path) with
  | some m => simp [loadModule, loadModuleBegin, hloaded, hl]
  | none =>
    have hload : loadModule host (some st) path
        = loadModuleFinish host
            { st with loading := assocStore (resolvedPath host path) true st.loading }
            (resolvedPath host path) := by
      simp [loadModule, loadModuleBegin, hloaded, hl]
    rw [hload, hl]
    cases hread : host.ReadFile (resolvedPath host path) with
    | error e =>
      rw [loadModuleFinish_read_error host _ _ e hread]
      exact hdel
    | ok data =>
      by_cases herrs : (host.ParseProgram data).2 = []
      · rw [loadModuleFinish_success host _ _ data hread herrs]
        exact hdel
      · rw [loadModuleFinish_parse_error host _ _ data hread herrs]
        exact hdel

/-- Once `/m.k` is loaded, evaluating the program that imports and
instantiates it never returns, whatever the fuel. -/
theorem self_instantiation_diverges (format : Error → String → String → String)
    (base : List (String × Value)) (d : moduleDefinition)
    (hd : d.program = [ModuleStmt.Import "/m.k" true]) :
    ∀ (fuel : Nat) (e : Evaluator) (env : Nat) (h : Heap) (st : moduleState),
      st.loaded.lookup "/m.k" = some d →
      evalProgram (exampleHost [ModuleStmt.Import "/m.k" true]) format base fuel e
        [ModuleStmt.Import "/m.k" true] env ⟨some st, h⟩ = none := by
  intro fuel
  induction fuel with
  | zero => intro e env h st _; rfl
  | succ n ih =>
    intro e env h st hst
    have himp : evalImportExpression (exampleHost [ModuleStmt.Import "/m.k" true]) e (some st)
        (some "/m.k") = (some st, some ⟨d, e⟩, none) := by
      simp [evalImportExpression, resolveImportPath, exampleHost, loadModule, loadModuleBegin,
        resolvedPath, hst]
    rw [evalProgram]
    simp only [himp, if_true]
    have hinner := ih ⟨d.source, d.filename, e.projectRoot⟩
      (NewEnclosedEnvironment (NewBaseEnvironment base h).1 (NewBaseEnvironment base h).2).2
      (NewEnclosedEnvironment (NewBaseEnvironment base h).1 (NewBaseEnvironment base h).2).1
      st hst
    simp [moduleFactoryFn, hd, hinner]

/-- C19: the cycle check cannot fire in a single task. A task that starts with
nothing in `loading` never meets the "circular import" arm of `loadModule`, and
`loading` is empty again whenever `loadModule` has returned, because the mark
is deleted before the program of the module is evaluated. So for the module
`/m.k` whose program imports and instantiates `/m.k`, importing and
instantiating it recurses without bound (no amount of fuel makes the
evaluation return), and when its program only imports `/m.k`, importing and
instantiating it succeeds with no error. -/
theorem C19_cycle_not_detected (format : Error → String → String → String)
    (base : List (String × Value)) :
    (∀ (host : Host) (st : moduleState) (path : String) (err : Error), st.loading = [] →
      (loadModuleBegin st (resolvedPath host path)).2 ≠ LoadBegin.circular err ∧
      (loadModule host (some st) path).1.loading = []) ∧
    (∀ fuel : Nat,
      evalProgram (exampleHost [ModuleStmt.Import "/m.k" true]) format base fuel ⟨"", "", ""⟩
        [ModuleStmt.Import "/m.k" true] 0 ⟨none, []⟩ = none) ∧
    (evalProgram (exampleHost [ModuleStmt.Import "/m.k" false]) format base 3 ⟨"", "", ""⟩
        [ModuleStmt.Import "/m.k" true] 0 ⟨none, []⟩).map (fun r => r.2)
      = some (EvalResult.ok Value.Unit) := by
  refine ⟨?_, ?_, ?_⟩
  · intro host st path err hl
    refine ⟨?_, loadModule_loading_empty host st path hl⟩
    cases hloaded : st.loaded.lookup (resolvedPath host path) <;>
      simp [loadModuleBegin, hloaded, hl]
  · intro fuel
    cases fuel with
    | zero => rfl
    | succ n =>
      have himp : evalImportExpression (exampleHost [ModuleStmt.Import "/m.k" true])
          ⟨"", "", ""⟩ none (some "/m.k")
          = (some ⟨[("/m.k", ⟨[ModuleStmt.Import "/m.k" true], "src", "/m.k"⟩)], []⟩,
              some ⟨⟨[ModuleStmt.Import "/m.k" true], "src", "/m.k"⟩, ⟨"", "", ""⟩⟩, none) := by
        rfl
      rw [evalProgram]
      simp only [himp, if_true]
      have hinner := self_instantiation_diverges format base
        ⟨[ModuleStmt.Import "/m.k" true], "src", "/m.k"⟩ rfl n ⟨"src", "/m.k", ""⟩
        (NewEnclosedEnvironment (NewBaseEnvironment base []).1 (NewBaseEnvironment base []).2).2
        (NewEnclosedEnvironment (NewBaseEnvironment base []).1 (NewBaseEnvironment base []).2).1
        ⟨[("/m.k", ⟨[ModuleStmt.Import "/m.k" true], "src", "/m.k"⟩)], []⟩ rfl
      simp [moduleFactoryFn, hinner]
  · rfl

end ImportCycles

section ErrorTexts

theorem splitNewline_ne_nil (l : List Char) : splitNewline l ≠ [] := by
  induction l with
  | nil => simp [splitNewline]
  | cons c cs ih =>
    unfold splitNewline
    split
    · simp
    · split <;> simp

theorem splitNewline_length (l : List Char) :
    (splitNewline l).length = l.count '\n' + 1 := by
  induction l with
  | nil => simp [splitNewline]
  | cons c cs ih =>
    unfold splitNewline
    by_cases hc : c = '\n'
    · subst hc
      simp [ih]
    · have hne : splitNewline cs ≠ [] := splitNewline_ne_nil cs
      rw [if_neg hc]
      cases hs : splitNewline cs with
      | nil => exact absurd hs hne
      | cons l ls =>
        rw [hs] at ih
        simp only [List.length_cons] at ih ⊢
        rw [List.count_cons_of_ne (Ne.symm hc)]
        exact ih

theorem splitNewline_no_newline (l : List Char) :
    ∀ r ∈ splitNewline l, '\n' ∉ r := by
  induction l with
  | nil => simp [splitNewline]
  | cons c cs ih =>
    unfold splitNewline
    by_cases hc : c = '\n'
    · subst hc
      intro r hr
      simp only [if_true, List.mem_cons] at hr
      rcases hr with rfl | hr
      · simp
      · exact ih r hr
    · rw [if_neg hc]
      cases hs : splitNewline cs with
      | nil => simp [Ne.symm hc]
      | cons l ls =>
        rw [hs] at ih
        intro r hr
        simp only [List.mem_cons] at hr
        rcases hr with rfl | hr
        · have := ih l (by simp)
          simp [Ne.symm hc, this]
        · exact ih r (by simp [hr])

theorem splitNewline_of_no_newline (b : List Char) (hb : '\n' ∉ b) : splitNewline b = [b] := by
  induction b with
  | nil => simp [splitNewline]
  | cons c cs ih =>
    have hc : c ≠ '\n' := fun h => hb (by simp [h])
    have hcs : '\n' ∉ cs := fun h => hb (by simp [h])
    unfold splitNewline
    rw [if_neg hc, ih hcs]

theorem splitNewline_append (a b : List Char) :
    splitNewline (a ++ '\n' :: b) = splitNewline a ++ splitNewline b := by
  induction a with
  | nil => simp [splitNewline]
  | cons c cs ih =>
    by_cases hc : c = '\n'
    · subst hc
      simp [splitNewline, ih]
    · have hne : splitNewline cs ≠ [] := splitNewline_ne_nil cs
      simp only [List.cons_append]
      rw [splitNewline, splitNewline, if_neg hc, if_neg hc, ih]
      cases hs : splitNewline cs with
      | nil => exact absurd hs hne
      | cons l ls => simp

theorem trimRightCR_no_newline (l : List Char) (h : '\n' ∉ l) : '\n' ∉ trimRightCR l := by
  intro hm
  unfold trimRightCR at hm
  rw [List.mem_reverse] at hm
  have := (List.dropWhile_sublist (fun c => decide (c = '\r'))).subset hm
  exact h (List.mem_reverse.mp this)

end ErrorTexts

section Decimal

theorem digitChar_ne_newline (d : Nat) (hd : d < 10) : Nat.digitChar d ≠ '\n' := by
  interval_cases d <;> decide

theorem toDigitsCore_no_newline (fuel n : Nat) (ds : List Char) (h : '\n' ∉ ds) :
    '\n' ∉ Nat.toDigitsCore 10 fuel n ds := by
  induction fuel generalizing n ds with
  | zero => simpa [Nat.toDigitsCore] using h
  | succ f ih =>
    have hd : '\n' ∉ Nat.digitChar (n % 10) :: ds := by
      intro hm
      rcases List.mem_cons.mp hm with hm | hm
      · exact digitChar_ne_newline _ (Nat.mod_lt _ (by decide)) hm.symm
      · exact h hm
    unfold Nat.toDigitsCore
    simp only
    split
    · exact hd
    · exact ih _ _ hd

theorem toDigitsCore_length_le (fuel n : Nat) (ds : List Char) :
    ds.length ≤ (Nat.toDigitsCore 10 fuel n ds).length := by
  induction fuel generalizing n ds with
  | zero => simp [Nat.toDigitsCore]
  | succ f ih =>
    unfold Nat.toDigitsCore
    simp only
    split
    · simp
    · exact le_trans (by simp) (ih _ _)

theorem toDigits_length_eq_one_iff (n : Nat) : (Nat.toDigits 10 n).length = 1 ↔ n ≤ 9 := by
  unfold Nat.toDigits
  unfold Nat.toDigitsCore
  simp only
  by_cases hn : n ≤ 9
  · have : n / 10 = 0 := by omega
    simp [this, hn]
  · have h0 : n / 10 ≠ 0 := by omega
    rw [if_neg h0]
    constructor
    · intro hl
      exfalso
      obtain ⟨m, rfl⟩ : ∃ m, n = m + 1 := ⟨n - 1, by omega⟩
      have hstep : 2 ≤ (Nat.toDigitsCore 10 (m + 1) ((m + 1) / 10)
          [Nat.digitChar ((m + 1) % 10)]).length := by
        unfold Nat.toDigitsCore
        simp only
        split
        · simp
        · exact le_trans (by simp) (toDigitsCore_length_le _ _ _)
      omega
    · intro h; exact absurd h hn

theorem toString_int_of_nat (n : Nat) : toString (n : Int) = String.mk (Nat.toDigits 10 n) := rfl

theorem toString_length_eq_one_iff (L : Int) (hL : 1 ≤ L) : (toString L).length = 1 ↔ L ≤ 9 := by
  obtain ⟨n, rfl⟩ := Int.eq_ofNat_of_zero_le (by omega : 0 ≤ L)
  rw [toString_int_of_nat]
  simp only [String.length]
  rw [toDigits_length_eq_one_iff]
  omega

theorem toString_no_newline (L : Int) (hL : 1 ≤ L) : '\n' ∉ (toString L).toList := by
  obtain ⟨n, rfl⟩ := Int.eq_ofNat_of_zero_le (by omega : 0 ≤ L)
  rw [toString_int_of_nat]
  exact toDigitsCore_no_newline _ _ _ (by simp)

end Decimal

section Pointed

theorem formatRuntimeError_alone (message : String) (tok : Option Token)
    (source filename : String)
    (h : tok = none ∨ source = "" ∨
      ∃ t, tok = some t ∧ (t.Line < 1 ∨ t.Line > (sourceLines source : Int))) :
    formatRuntimeError message tok source filename = "runtime error: " ++ message := by
  unfold formatRuntimeError
  rcases h with rfl | rfl | ⟨t, rfl, ht⟩
  · rfl
  · cases tok <;> simp
  · simp only
    split
    · rfl
    · rw [if_pos]
      simp only [splitNewline_length]
      simpa [sourceLines] using ht

theorem formatRuntimeError_pointed (message : String) (t : Token) (source filename : String)
    (hsrc : source ≠ "") (h1 : 1 ≤ t.Line) (hn : t.Line ≤ (sourceLines source : Int)) :
    formatRuntimeError message (some t) source filename =
      "runtime error: " ++ message ++ "\n  at "
        ++ (if filename ≠ "" then filename ++ ":" ++ (toString t.Line ++ ":" ++ toString t.Column)
            else toString t.Line ++ ":" ++ toString t.Column)
        ++ "\n  " ++ toString t.Line ++ " | " ++ sourceLine source t.Line ++ "\n    | "
        ++ (repeatSpace
            ((if (if t.Column < 1 then 1 else t.Column)
                  > ((sourceLine source t.Line).utf8ByteSize : Int) + 1
              then ((sourceLine source t.Line).utf8ByteSize : Int) + 1
              else (if t.Column < 1 then 1 else t.Column)) - 1).toNat ++ "^") := by
  unfold formatRuntimeError
  simp only
  have h0 : ¬ (t.Line = 0 ∨ source = "") := by
    rintro (h | h)
    · omega
    · exact hsrc h
  rw [if_neg h0]
  have hr : ¬ (t.Line < 1 ∨ t.Line > ((splitNewline source.toList).length : Int)) := by
    rw [splitNewline_length]
    simp only [sourceLines] at hn
    rintro (h | h) <;> omega
  rw [if_neg hr]
  rfl

end Pointed

section Caret

theorem sourceLine_no_newline (source : String) (L : Int) :
    '\n' ∉ (sourceLine source L).toList := by
  unfold sourceLine
  apply trimRightCR_no_newline
  rw [List.getD_eq_getElem?_getD]
  cases hg : (splitNewline source.toList)[(L - 1).toNat]? with
  | none => simp
  | some r => exact splitNewline_no_newline _ r (List.getElem?_mem hg)

theorem indexOf_caret (n : Nat) : (List.replicate n ' ' ++ ['^']).indexOf '^' = n := by
  induction n with
  | zero => simp
  | succ k ih =>
    rw [List.replicate_succ, List.cons_append, List.indexOf_cons_ne _ (by decide), ih]

theorem rows_pointed (A S C : List Char) (hS : '\n' ∉ S) (hC : '\n' ∉ C) :
    splitNewline (A ++ '\n' :: (S ++ '\n' :: C)) = splitNewline A ++ [S, C] := by
  rw [splitNewline_append, splitNewline_append, splitNewline_of_no_newline S hS,
    splitNewline_of_no_newline C hC]
  rfl

theorem repeatSpace_no_newline (n : Nat) : '\n' ∉ (repeatSpace n ++ "^").toList := by
  simp only [repeatSpace, String.toList, String.data_append, List.mem_append, not_or]
  constructor
  · intro h
    have := List.eq_of_mem_replicate h
    exact absurd this (by decide)
  · decide

theorem pointed_rows (A : String) (L : Int) (lineText : String) (n : Nat) (hL : 1 ≤ L)
    (hl : '\n' ∉ lineText.toList) :
    rows (A ++ "\n  " ++ toString L ++ " | " ++ lineText ++ "\n    | " ++ (repeatSpace n ++ "^"))
      = rows A ++ [[' ', ' '] ++ (toString L).toList ++ [' ', '|', ' '] ++ lineText.toList,
          [' ', ' ', ' ', ' ', '|', ' '] ++ (List.replicate n ' ' ++ ['^'])] := by
  have hS : '\n' ∉ [' ', ' '] ++ (toString L).toList ++ [' ', '|', ' '] ++ lineText.toList := by
    simp only [List.mem_append, not_or]
    exact ⟨⟨⟨by decide, toString_no_newline L hL⟩, by decide⟩, hl⟩
  have hC : '\n' ∉ [' ', ' ', ' ', ' ', '|', ' '] ++ (List.replicate n ' ' ++ ['^']) := by
    have := repeatSpace_no_newline n
    simp only [repeatSpace, String.toList, String.data_append] at this
    simp only [List.mem_append, not_or]
    exact ⟨by decide, by simp [List.mem_append, not_or] at this; simp [List.mem_append, not_or, this]⟩
  have := rows_pointed A.toList _ _ hS hC
  unfold rows
  rw [← this]
  congr 1
  simp [String.toList, String.data_append, repeatSpace]

end Caret

section FormatRuntimeError

/-- C24. For a `RuntimeError` or `RecoverableError` with message `m`,
`FormatRuntimeError` gives the message line alone, `runtime error: ` followed by
`m`, when the token is missing, the source is empty, or the token's `Line` is
outside `1..n` for `n` the number of lines of the source; in every other case
it gives the pointed form: the message line, the `at` line with the location,
the source line (free of line feeds) behind its gutter, and the caret line, a
run of blanks that ends in the caret; the pointed form is never the message
line alone. -/
theorem C24_format_forms (err : Error) (m : String) (tok : Option Token)
    (source filename : String)
    (herr : err = Error.RuntimeError m tok ∨ ∃ kind, err = Error.RecoverableError m kind tok) :
    ((tok = none ∨ source = "" ∨
        ∃ t, tok = some t ∧ (t.Line < 1 ∨ t.Line > (sourceLines source : Int))) →
      FormatRuntimeError err source filename = "runtime error: " ++ m) ∧
    (∀ t, tok = some t → source ≠ "" → 1 ≤ t.Line → t.Line ≤ (sourceLines source : Int) →
      (∃ n : Nat,
        FormatRuntimeError err source filename =
          "runtime error: " ++ m ++ "\n  at "
            ++ (if filename ≠ "" then
                  filename ++ ":" ++ (toString t.Line ++ ":" ++ toString t.Column)
                else toString t.Line ++ ":" ++ toString t.Column)
            ++ "\n  " ++ toString t.Line ++ " | " ++ sourceLine source t.Line ++ "\n    | "
            ++ (repeatSpace n ++ "^")) ∧
      '\n' ∉ (sourceLine source t.Line).toList ∧
      FormatRuntimeError err source filename ≠ "runtime error: " ++ m) := by
  have hF : FormatRuntimeError err source filename = formatRuntimeError m tok source filename := by
    rcases herr with rfl | ⟨kind, rfl⟩ <;> rfl
  rw [hF]
  refine ⟨formatRuntimeError_alone m tok source filename, ?_⟩
  intro t ht hsrc h1 hn
  subst ht
  have hp := formatRuntimeError_pointed m t source filename hsrc h1 hn
  refine ⟨⟨_, hp⟩, sourceLine_no_newline _ _, ?_⟩
  rw [hp]
  intro heq
  have hlen := congrArg String.length heq
  simp only [String.length_append] at hlen
  have : ("\n  at " : String).length = 6 := by decide
  omega

/-- C24, at an instance: the error `boom` in a source of three lines in the
file `f.k`, once at line 4 (outside the source) and once at line 2, column 3. -/
theorem C24_format_forms_witness :
    FormatRuntimeError (Error.RuntimeError "boom" (some ⟨4, 3⟩)) "ab\ncdef\r\ng" "f.k"
        = "runtime error: " ++ "boom" ∧
      FormatRuntimeError (Error.RuntimeError "boom" (some ⟨2, 3⟩)) "ab\ncdef\r\ng" "f.k"
        ≠ "runtime error: " ++ "boom" ∧
      FormatRuntimeError (Error.RuntimeError "boom" (some ⟨2, 3⟩)) "ab\ncdef\r\ng" "f.k"
        = "runtime error: boom\n  at f.k:2:3\n  2 | cdef\n    |   ^" :=
  ⟨(C24_format_forms (Error.RuntimeError "boom" (some ⟨4, 3⟩)) "boom" (some ⟨4, 3⟩)
      "ab\ncdef\r\ng" "f.k" (Or.inl rfl)).1
      (Or.inr (Or.inr ⟨⟨4, 3⟩, rfl, Or.inr (by decide)⟩)),
    ((C24_format_forms (Error.RuntimeError "boom" (some ⟨2, 3⟩)) "boom" (some ⟨2, 3⟩)
      "ab\ncdef\r\ng" "f.k" (Or.inl rfl)).2 ⟨2, 3⟩ rfl (by decide) (by decide)
      (by decide)).2.2,
    by decide⟩

end FormatRuntimeError

section CaretColumn

theorem getLast_two {α : Type} (X : List α) (S C d : α) :
    (X ++ [S, C]).getLast?.getD d = C := by
  rw [show X ++ [S, C] = (X ++ [S]) ++ [C] by simp, List.getLast?_append]
  simp

theorem getLast_dropLast_two {α : Type} (X : List α) (S C d : α) :
    (X ++ [S, C]).dropLast.getLast?.getD d = S := by
  rw [show X ++ [S, C] = (X ++ [S]) ++ [C] by simp, List.dropLast_concat, List.getLast?_append]
  simp

/-- C25. In the pointed form, for a line `L` of the source and a column `c`
from 1 to one past the bytes of that line, the caret stands at column
`6 + (c - 1)` of the last row, and the character number `c` of the source line
stands at column `5 + d + (c - 1)` of the row above, where `d` is the number
of digits of `L`: the gutter of the caret row is always 6 wide, that of the
source row `5 + d`. The two columns agree exactly when `L ≤ 9`; from line 10 on
the caret stands `d - 1` columns to the left of the character. -/
theorem C25_caret_misaligned (message source filename : String) (L c : Int)
    (hsrc : source ≠ "") (hL : 1 ≤ L) (hLn : L ≤ (sourceLines source : Int))
    (hc : 1 ≤ c) (hcn : c ≤ ((sourceLine source L).utf8ByteSize : Int) + 1) :
    caretColumn (formatRuntimeError message (some ⟨L, c⟩) source filename)
        = 6 + (c.toNat - 1) ∧
      sourceColumn (formatRuntimeError message (some ⟨L, c⟩) source filename)
          (sourceLine source L) c.toNat
        = 5 + (toString L).length + (c.toNat - 1) ∧
      (caretColumn (formatRuntimeError message (some ⟨L, c⟩) source filename)
          = sourceColumn (formatRuntimeError message (some ⟨L, c⟩) source filename)
              (sourceLine source L) c.toNat
        ↔ L ≤ 9) := by
  have hp := formatRuntimeError_pointed message ⟨L, c⟩ source filename hsrc hL hLn
  simp only at hp
  have hcol : (if (if c < 1 then 1 else c) > ((sourceLine source L).utf8ByteSize : Int) + 1
      then ((sourceLine source L).utf8ByteSize : Int) + 1
      else (if c < 1 then 1 else c)) = c := by
    rw [if_neg (by omega : ¬ c < 1), if_neg (by omega)]
  rw [hcol] at hp
  have hrows := pointed_rows
    ("runtime error: " ++ message ++ "\n  at "
      ++ (if filename ≠ "" then filename ++ ":" ++ (toString L ++ ":" ++ toString c)
          else toString L ++ ":" ++ toString c))
    L (sourceLine source L) (c - 1).toNat hL (sourceLine_no_newline source L)
  rw [← hp] at hrows
  have hcaret : caretColumn (formatRuntimeError message (some ⟨L, c⟩) source filename)
      = 6 + (c.toNat - 1) := by
    unfold caretColumn
    rw [hrows]
    rw [getLast_two]
    rw [show ([' ', ' ', ' ', ' ', '|', ' '] : List Char)
        ++ (List.replicate (c - 1).toNat ' ' ++ ['^'])
      = ' ' :: ' ' :: ' ' :: ' ' :: '|' :: ' ' :: (List.replicate (c - 1).toNat ' ' ++ ['^'])
      from rfl]
    rw [List.indexOf_cons_ne _ (by decide), List.indexOf_cons_ne _ (by decide),
      List.indexOf_cons_ne _ (by decide), List.indexOf_cons_ne _ (by decide),
      List.indexOf_cons_ne _ (by decide), List.indexOf_cons_ne _ (by decide), indexOf_caret]
    omega
  have hsource : sourceColumn (formatRuntimeError message (some ⟨L, c⟩) source filename)
      (sourceLine source L) c.toNat = 5 + (toString L).length + (c.toNat - 1) := by
    unfold sourceColumn
    rw [hrows]
    rw [getLast_dropLast_two]
    have h1 : (sourceLine source L).toList.length = (sourceLine source L).length := rfl
    have h2 : (toString L).toList.length = (toString L).length := rfl
    simp only [List.length_append, List.length_cons, List.length_nil]
    rw [h1, h2]
    omega
  refine ⟨hcaret, hsource, ?_⟩
  rw [hcaret, hsource, ← toString_length_eq_one_iff L hL]
  omega

/-- C25, at the failing input: an error at line 10, column 1 of a source of ten
lines. The source row is `  10 | xy` and the caret row `    | ^`: the caret
stands at column 6, under the blank before `x`, which stands at column 7. -/
theorem C25_caret_misaligned_witness :
    (caretColumn (formatRuntimeError "boom" (some ⟨10, 1⟩) "a\nb\nc\nd\ne\nf\ng\nh\ni\nxy" "")
        = 6 + ((1 : Int).toNat - 1) ∧
      sourceColumn (formatRuntimeError "boom" (some ⟨10, 1⟩) "a\nb\nc\nd\ne\nf\ng\nh\ni\nxy" "")
          (sourceLine "a\nb\nc\nd\ne\nf\ng\nh\ni\nxy" 10) (1 : Int).toNat
        = 5 + (toString (10 : Int)).length + ((1 : Int).toNat - 1) ∧
      (caretColumn (formatRuntimeError "boom" (some ⟨10, 1⟩) "a\nb\nc\nd\ne\nf\ng\nh\ni\nxy" "")
          = sourceColumn
              (formatRuntimeError "boom" (some ⟨10, 1⟩) "a\nb\nc\nd\ne\nf\ng\nh\ni\nxy" "")
              (sourceLine "a\nb\nc\nd\ne\nf\ng\nh\ni\nxy" 10) (1 : Int).toNat
        ↔ (10 : Int) ≤ 9)) ∧
      formatRuntimeError "boom" (some ⟨10, 1⟩) "a\nb\nc\nd\ne\nf\ng\nh\ni\nxy" ""
        = "runtime error: boom\n  at 10:1\n  10 | xy\n    | ^" :=
  ⟨C25_caret_misaligned "boom" "a\nb\nc\nd\ne\nf\ng\nh\ni\nxy" "" 10 1
      (by decide) (by decide) (by decide) (by decide) (by decide),
    by decide⟩

end CaretColumn

section UnhandledTasks

/-- C26, refuted as stated: for the single message `boom` the result is not
`boom` but `unhandled task failures:`, an empty line, and then `boom`: a header
precedes the first message. -/
theorem C26_header_precedes_messages :
    UnhandledTaskError_Error (some ["boom"]) = "unhandled task failures:\n\nboom" ∧
      UnhandledTaskError_Error (some ["boom"]) ≠ String.intercalate "\n\n" ["boom"] := by
  constructor <;> decide

theorem intercalate_go_toList (sep : String) (acc : String) (l : List String) :
    (String.intercalate.go acc sep l).toList
      = acc.toList ++ (l.map (fun m => sep.toList ++ m.toList)).flatten := by
  induction l generalizing acc with
  | nil => simp [String.intercalate.go]
  | cons a as ih =>
    simp only [String.intercalate.go, List.map_cons, List.flatten_cons]
    rw [ih]
    simp [String.toList, List.append_assoc]

/-- C26, amended. For every non-empty list of messages the result is the header
`unhandled task failures:` and an empty line, followed by the first message and
then, for each later message in order, an empty line and the message; every
message appears unchanged. For no messages, and for a nil receiver, the result
is `unhandled task failure`. -/
theorem C26_unhandled_task_error (first : String) (rest : List String) :
    (UnhandledTaskError_Error (some (first :: rest))).toList
        = "unhandled task failures:\n\n".toList ++ first.toList
          ++ (rest.map (fun m => "\n\n".toList ++ m.toList)).flatten ∧
      UnhandledTaskError_Error (some (first :: rest))
        = "unhandled task failures:\n\n" ++ String.intercalate "\n\n" (first :: rest) ∧
      UnhandledTaskError_Error (some []) = "unhandled task failure" ∧
      UnhandledTaskError_Error none = "unhandled task failure" := by
  refine ⟨?_, ?_, rfl, rfl⟩
  · simp only [UnhandledTaskError_Error, List.length_cons, Nat.succ_ne_zero, if_false,
      String.intercalate]
    have := intercalate_go_toList "\n\n" first rest
    simp only [String.toList, String.data_append] at this ⊢
    rw [this, List.append_assoc]
  · simp [UnhandledTaskError_Error]

end UnhandledTasks

section Resolver

theorem HasPrefix_iff (s pre : String) : HasPrefix s pre = true ↔ ∃ t : String, s = pre ++ t := by
  unfold HasPrefix
  rw [List.isPrefixOf_iff_prefix]
  constructor
  · rintro ⟨t, ht⟩
    exact ⟨String.mk t, String.ext (by simpa [String.toList] using ht.symm)⟩
  · rintro ⟨t, rfl⟩
    exact ⟨t.toList, by simp [String.toList]⟩

/-- C22. `resolveImportPath(p)`: an absolute `p` is returned unchanged;
otherwise, when `p` starts with `./` or `../` and the evaluator's filename is
neither empty nor `<stdin>`, the result is `p` joined onto the directory of
that filename; otherwise it is `p` joined onto `projectRoot` when that is set,
else onto the working directory (and the error of `os.Getwd` when there is
none). In the first two cases the result does not depend on `projectRoot`. -/
theorem C22_resolveImportPath (host : Host) (e : Evaluator) (p : String) :
    (host.IsAbs p = true → resolveImportPath host e p = .ok p) ∧
    (host.IsAbs p = false → ((∃ t : String, p = "./" ++ t) ∨ (∃ t : String, p = "../" ++ t)) →
      e.filename ≠ "" → e.filename ≠ "<stdin>" →
      resolveImportPath host e p = .ok (host.Join (host.Dir e.filename) p)) ∧
    (host.IsAbs p = false →
      ¬ (((∃ t : String, p = "./" ++ t) ∨ (∃ t : String, p = "../" ++ t)) ∧
          e.filename ≠ "" ∧ e.filename ≠ "<stdin>") →
      (e.projectRoot ≠ "" → resolveImportPath host e p = .ok (host.Join e.projectRoot p)) ∧
      (e.projectRoot = "" → ∀ cwd, host.Getwd = .ok cwd →
        resolveImportPath host e p = .ok (host.Join cwd p)) ∧
      (e.projectRoot = "" → ∀ err, host.Getwd = .error err →
        resolveImportPath host e p = .error err)) ∧
    ((host.IsAbs p = true ∨
        (((∃ t : String, p = "./" ++ t) ∨ (∃ t : String, p = "../" ++ t)) ∧
          e.filename ≠ "" ∧ e.filename ≠ "<stdin>")) →
      ∀ root : String,
        resolveImportPath host { e with projectRoot := root } p = resolveImportPath host e p) := by
  simp only [← HasPrefix_iff]
  refine ⟨?_, ?_, ?_, ?_⟩
  · intro h
    simp [resolveImportPath, h]
  · intro h hp h1 h2
    simp [resolveImportPath, h, hp, h1, h2]
  · intro h hn
    refine ⟨?_, ?_, ?_⟩
    · intro hr
      simp only [resolveImportPath, h, Bool.false_eq_true, if_false, if_neg hn, if_neg hr]
    · intro hr cwd hcwd
      simp only [resolveImportPath, h, Bool.false_eq_true, if_false, if_neg hn, hr, if_true, hcwd]
    · intro hr err herr
      simp only [resolveImportPath, h, Bool.false_eq_true, if_false, if_neg hn, hr, if_true, herr]
  · rintro (h | h) root
    · simp [resolveImportPath, h]
    · simp only [resolveImportPath, if_pos h]

/-- C22, at instances on a host with relative paths: `./m.k` imported from
`/lib/a.k` resolves into `/lib` whatever `projectRoot` is; imported from
`<stdin>` it resolves into `projectRoot`; and `m.k` with no `projectRoot`
resolves into the working directory. -/
theorem C22_resolveImportPath_witness :
    resolveImportPath relativeHost ⟨"", "/lib/a.k", "/root"⟩ "./m.k"
        = .ok (relativeHost.Join (relativeHost.Dir "/lib/a.k") "./m.k") ∧
      relativeHost.Join (relativeHost.Dir "/lib/a.k") "./m.k" = "/lib/m.k" ∧
      resolveImportPath relativeHost ⟨"", "<stdin>", "/root"⟩ "./m.k"
        = .ok (relativeHost.Join "/root" "./m.k") ∧
      resolveImportPath relativeHost ⟨"", "/lib/a.k", ""⟩ "m.k"
        = .ok (relativeHost.Join "/work" "m.k") ∧
      resolveImportPath relativeHost ⟨"", "/lib/a.k", "/root"⟩ "/m.k" = .ok "/m.k" :=
  ⟨(C22_resolveImportPath relativeHost ⟨"", "/lib/a.k", "/root"⟩ "./m.k").2.1
      (by decide) (Or.inl ⟨"m.k", by decide⟩) (by decide) (by decide),
    by decide,
    ((C22_resolveImportPath relativeHost ⟨"", "<stdin>", "/root"⟩ "./m.k").2.2.1
      (by decide) (by simp)).1 (by decide),
    ((C22_resolveImportPath relativeHost ⟨"", "/lib/a.k", ""⟩ "m.k").2.2.1
      (by decide) (fun h => by
        rw [← HasPrefix_iff, ← HasPrefix_iff] at h
        exact absurd h.1 (by decide))).2.1 rfl "/work" rfl,
    (C22_resolveImportPath relativeHost ⟨"", "/lib/a.k", "/root"⟩ "/m.k").1 (by decide)⟩

end Resolver

section ModuleCache

theorem lookup_assocStore_ne {ν : Type} (k r : String) (v : ν) (hne : r ≠ k) :
    ∀ m : List (String × ν), (assocStore k v m).lookup r = m.lookup r
  | [] => by
    have h : (r == k) = false := by simpa using hne
    simp [assocStore, List.lookup, h]
  | (k1, v1) :: rest => by
    by_cases hk : k1 = k
    · subst hk
      have h : (r == k1) = false := by simpa using hne
      simp [assocStore, List.lookup, h]
    · by_cases hr : r = k1
      · subst hr
        simp [assocStore, hk, List.lookup]
      · have h : (r == k1) = false := by simpa using hr
        simp [assocStore, hk, List.lookup, h, lookup_assocStore_ne k r v hne rest]

/-- A definition that is in `loaded` stays there through every later call of
`loadModule`. -/
theorem loadModule_keeps_loaded (host : Host) (st : moduleState) (path r : String)
    (d : moduleDefinition) (hd : st.loaded.lookup r = some d) :
    (loadModule host (some st) path).1.loaded.lookup r = some d := by
  unfold loadModule loadModuleBegin
  simp only [Option.getD_some]
  cases hl : st.loaded.lookup (resolvedPath host path) with
  | some m => simpa using hd
  | none =>
    have hne : r ≠ resolvedPath host path := by
      intro h
      rw [h, hl] at hd
      exact absurd hd (by simp)
    simp only
    split_ifs with hc
    · simpa using hd
    · simp only
      unfold loadModuleFinish
      cases host.ReadFile (resolvedPath host path) with
      | error e => simpa using hd
      | ok data =>
        simp only
        split
        · simp only
          rw [lookup_assocStore_ne _ _ _ hne]
          exact hd
        · simpa using hd

theorem loadModules_keeps_loaded (later : List (Host × String)) (st : moduleState) (r : String)
    (d : moduleDefinition) (hd : st.loaded.lookup r = some d) :
    (loadModules st later).loaded.lookup r = some d := by
  induction later generalizing st with
  | nil => exact hd
  | cons c rest ih =>
    obtain ⟨host, path⟩ := c
    exact ih _ (loadModule_keeps_loaded host st path r d hd)

theorem loadModule_success_loaded (host : Host) (modules : Option moduleState) (path : String)
    (st : moduleState) (d : moduleDefinition)
    (hload : loadModule host modules path = (st, some d, none)) :
    st.loaded.lookup (resolvedPath host path) = some d := by
  unfold loadModule loadModuleBegin at hload
  cases hl : (modules.getD newModuleState).loaded.lookup (resolvedPath host path) with
  | some m =>
    simp only [hl, Prod.mk.injEq, Option.some.injEq, and_true] at hload
    rw [← hload.1, ← hload.2, hl]
  | none =>
    simp only [hl] at hload
    split_ifs at hload with hc
    · simp at hload
    · simp only at hload
      unfold loadModuleFinish at hload
      cases hr : host.ReadFile (resolvedPath host path) with
      | error e => simp [hr] at hload
      | ok data =>
        simp only [hr] at hload
        split at hload
        · simp only [Prod.mk.injEq, Option.some.injEq, and_true] at hload
          rw [← hload.1, ← hload.2]
          exact lookup_assocStore _ _ _
        · rename_i hcase
          simp only [Prod.mk.injEq] at hload
          exact absurd hload.2.1 (by simp)

/-- C21. Let `p` clean to the absolute path `r` (`filepath.Abs` of
`filepath.Clean(p)` is `r`) and let `loadModule(p)` succeed with the definition
`d`. After any further calls of `loadModule`, a call of `loadModule` on a path
`q` that cleans to the same absolute path `r` - `q` need not be spelled like
`p` - returns `d` itself, with no error, and leaves the module state as it is:
`d` is what `loaded` holds for `r`, and the first critical section ends in the
cached arm, before the file is read or parsed. The file system and the parser
of that later call (`host2`) are arbitrary: the file may have changed, or
disappeared. -/
theorem C21_loadModule_cached (host : Host) (modules : Option moduleState) (p r : String)
    (st : moduleState) (d : moduleDefinition)
    (hp : host.Abs (host.Clean p) = .ok r)
    (hload : loadModule host modules p = (st, some d, none))
    (later : List (Host × String)) (host2 : Host) (q : String)
    (hq : host2.Abs (host2.Clean q) = .ok r) :
    loadModule host2 (some (loadModules st later)) q = (loadModules st later, some d, none) ∧
      (loadModules st later).loaded.lookup r = some d ∧
      loadModuleBegin (loadModules st later) r = (loadModules st later, LoadBegin.cached d) := by
  have hrp : resolvedPath host p = r := by simp [resolvedPath, hp]
  have hrq : resolvedPath host2 q = r := by simp [resolvedPath, hq]
  have hd := loadModules_keeps_loaded later st _ d
    (loadModule_success_loaded host modules p st d hload)
  rw [hrp] at hd
  have hb : loadModuleBegin (loadModules st later) r
      = (loadModules st later, LoadBegin.cached d) := by
    simp [loadModuleBegin, hd]
  refine ⟨?_, hd, hb⟩
  unfold loadModule
  simp only [Option.getD_some]
  rw [hrq, hb]

/-- C21, at an instance on Unix hosts: the file `/m.k` is loaded under the
path `/lib/../m.k`; then `/n.k`, which does not exist, is tried; then the file
`/m.k` is gone and the working directory is `/work`, and `loadModule` of
`../m.k` - another spelling, which cleans to the same absolute path `/m.k` -
returns the definition of the first load. -/
theorem C21_loadModule_cached_witness :
    loadModule (unixHost "/" [("/m.k", "src")] [ModuleStmt.other]) none "/lib/../m.k"
        = (⟨[("/m.k", ⟨[ModuleStmt.other], "src", "/m.k"⟩)], []⟩,
            some ⟨[ModuleStmt.other], "src", "/m.k"⟩, none) ∧
      relativeHost.ReadFile "/m.k" = .error "open /m.k: no such file or directory" ∧
      relativeHost.Abs (relativeHost.Clean "../m.k") = .ok "/m.k" ∧
      loadModule relativeHost
          (some (loadModules ⟨[("/m.k", ⟨[ModuleStmt.other], "src", "/m.k"⟩)], []⟩
            [(unixHost "/" [("/m.k", "src")] [ModuleStmt.other], "/n.k")])) "../m.k"
        = (loadModules ⟨[("/m.k", ⟨[ModuleStmt.other], "src", "/m.k"⟩)], []⟩
            [(unixHost "/" [("/m.k", "src")] [ModuleStmt.other], "/n.k")],
            some ⟨[ModuleStmt.other], "src", "/m.k"⟩, none) :=
  ⟨by decide, rfl, rfl,
    (C21_loadModule_cached (unixHost "/" [("/m.k", "src")] [ModuleStmt.other]) none
      "/lib/../m.k" "/m.k"
      ⟨[("/m.k", ⟨[ModuleStmt.other], "src", "/m.k"⟩)], []⟩
      ⟨[ModuleStmt.other], "src", "/m.k"⟩ rfl (by decide)
      [(unixHost "/" [("/m.k", "src")] [ModuleStmt.other], "/n.k")] relativeHost "../m.k"
      rfl).1⟩

end ModuleCache

section ModuleFactory

theorem Define_length (h : Heap) (env : Nat) (k : String) (v : Value) :
    (Environment.Define h env k v).length = h.length := by
  unfold Environment.Define
  split <;> simp

theorem GetLocal_Define_ne (h : Heap) (env1 env2 : Nat) (k name : String) (v : Value)
    (hne : env1 ≠ env2) :
    Environment.GetLocal (Environment.Define h env1 k v) env2 name
      = Environment.GetLocal h env2 name := by
  unfold Environment.Define
  split
  · unfold Environment.GetLocal
    rw [List.getElem?_set_ne hne]
  · rfl

theorem moduleEnv_Define (h : Heap) (env p : Nat) (e2 : Nat) (k : String) (v : Value)
    (hp : h.moduleEnv p = some e2) :
    (Environment.Define h env k v).moduleEnv p = some e2 := by
  unfold Environment.Define
  split
  · rename_i store outer hcell
    by_cases hpe : env = p
    · subst hpe
      simp [Heap.moduleEnv, hcell] at hp
    · unfold Heap.moduleEnv at hp ⊢
      rw [List.getElem?_set_ne hpe]
      exact hp
  · exact hp

theorem moduleFactoryFn_instance (format : Error → String → String → String)
    (base : List (String × Value))
    (eval : Evaluator → Program → Nat → World → Option (World × EvalResult))
    (f : moduleFactory) (w w1 : World) (r : EvalResult)
    (heval : eval ⟨f.module.source, f.module.filename, f.e.projectRoot⟩ f.module.program
        (w.heap.length + 1)
        { w with heap := w.heap ++ [Cell.Environment base none,
            Cell.Environment [] (some w.heap.length)] } = some (w1, r))
    (herr : r.err = none) (hsig : r.sig = none) :
    moduleFactoryFn format base eval f [] w
      = some ({ w1 with heap := w1.heap ++ [Cell.ModuleObject (some (w.heap.length + 1))] },
          Value.ModuleObject w1.heap.length, none) := by
  unfold moduleFactoryFn
  simp only [List.length_nil, ne_eq, not_true_eq_false, if_false, NewBaseEnvironment,
    NewEnclosedEnvironment, Heap.alloc, List.length_append, List.length_cons,
    List.length_nil, Nat.zero_add, List.append_assoc, List.singleton_append]
  rw [heval]
  simp [herr, hsig]

theorem moduleFactoryFn_inv (format : Error → String → String → String)
    (base : List (String × Value))
    (eval : Evaluator → Program → Nat → World → Option (World × EvalResult))
    (f : moduleFactory) (w wA : World) (v : Value)
    (hcall : moduleFactoryFn format base eval f [] w = some (wA, v, none)) :
    ∃ w1 r,
      eval ⟨f.module.source, f.module.filename, f.e.projectRoot⟩ f.module.program
        (w.heap.length + 1)
        { w with heap := w.heap ++ [Cell.Environment base none,
            Cell.Environment [] (some w.heap.length)] } = some (w1, r) ∧
      wA = { w1 with heap := w1.heap ++ [Cell.ModuleObject (some (w.heap.length + 1))] } ∧
      v = Value.ModuleObject w1.heap.length := by
  unfold moduleFactoryFn at hcall
  simp only [List.length_nil, ne_eq, not_true_eq_false, if_false, NewBaseEnvironment,
    NewEnclosedEnvironment, Heap.alloc, List.length_append, List.length_cons,
    List.length_nil, Nat.zero_add, List.append_assoc, List.singleton_append] at hcall
  cases he : eval ⟨f.module.source, f.module.filename, f.e.projectRoot⟩ f.module.program
      (w.heap.length + 1)
      { w with heap := w.heap ++ [Cell.Environment base none,
          Cell.Environment [] (some w.heap.length)] } with
  | none => simp [he] at hcall
  | some x =>
    obtain ⟨w1, r⟩ := x
    refine ⟨w1, r, rfl, ?_⟩
    simp only [he] at hcall
    cases hre : r.err with
    | some err => simp [hre] at hcall
    | none =>
      simp only [hre] at hcall
      split_ifs at hcall with hs
      · simp at hcall
      · simp only [Option.some.injEq, Prod.mk.injEq, and_true] at hcall
        exact ⟨hcall.1.symm, hcall.2.symm⟩

/-- C23. A call of the module factory with one or more arguments fails with
`module factory expects no arguments`, leaves the state as it is and evaluates
nothing (whatever `Eval` would do, even if it did not return). A call without
arguments allocates a new base environment and a new child of it (at addresses
no cell had before), evaluates the module's program in that child, and, when
that evaluation ends without error or signal, returns a new `ModuleObject`
whose `Env` is that child. Of two calls, the second made on a later heap, the
instances `m1` and `m2` are different objects with different environments, and
on every heap that holds both, the assignment `m1.key = v` defines `key` in the
environment of `m1` and leaves every member access on `m2` as it was. As
`Eval` is outside the evaluator files, it is taken to free no address. -/
theorem C23_module_factory (format : Error → String → String → String)
    (base : List (String × Value))
    (eval : Evaluator → Program → Nat → World → Option (World × EvalResult))
    (hmono : ∀ e program env w0 w1 r, eval e program env w0 = some (w1, r) →
      w0.heap.length ≤ w1.heap.length)
    (f : moduleFactory) (w : World) :
    (∀ args : List Value, args ≠ [] →
      ∀ eval2 : Evaluator → Program → Nat → World → Option (World × EvalResult),
        moduleFactoryFn format base eval2 f args w
          = some (w, Value.nil,
              some (Error.RuntimeError "module factory expects no arguments" none))) ∧
    (∀ w1 r,
      eval ⟨f.module.source, f.module.filename, f.e.projectRoot⟩ f.module.program
        (w.heap.length + 1)
        { w with heap := w.heap ++ [Cell.Environment base none,
            Cell.Environment [] (some w.heap.length)] } = some (w1, r) →
      r.err = none → r.sig = none →
      moduleFactoryFn format base eval f [] w
        = some ({ w1 with heap := w1.heap ++ [Cell.ModuleObject (some (w.heap.length + 1))] },
            Value.ModuleObject w1.heap.length, none)) ∧
    (∀ (wA w2 wB : World) (m1 m2 : Value),
      moduleFactoryFn format base eval f [] w = some (wA, m1, none) →
      wA.heap.length ≤ w2.heap.length →
      moduleFactoryFn format base eval f [] w2 = some (wB, m2, none) →
      ∃ p1 p2 : Nat, m1 = Value.ModuleObject p1 ∧ m2 = Value.ModuleObject p2 ∧ p1 ≠ p2 ∧
        wA.heap.moduleEnv p1 = some (w.heap.length + 1) ∧
        wB.heap.moduleEnv p2 = some (w2.heap.length + 1) ∧
        w.heap.length + 1 ≠ w2.heap.length + 1 ∧
        ∀ h : Heap, h.moduleEnv p1 = some (w.heap.length + 1) →
          h.moduleEnv p2 = some (w2.heap.length + 1) →
          ∀ (oor : F64 → Int) (env : Nat) (key : String) (v : Value)
            (method : Heap → Value → String → Heap × EvalResult) (name : String),
            evalAssignExpression oor h env
                (AssignNode.MemberExpression (EvalResult.ok m1) key) "=" (EvalResult.ok v) h
              = (Environment.Define h (w.heap.length + 1) key v,
                  Outcome.returns (EvalResult.ok v)) ∧
            (evalMemberExpression method (Environment.Define h (w.heap.length + 1) key v)
                (EvalResult.ok m2) name).2
              = (evalMemberExpression method h (EvalResult.ok m2) name).2) := by
  refine ⟨?_, ?_, ?_⟩
  · intro args hargs eval2
    have hlen : args.length ≠ 0 := by
      cases args with
      | nil => exact absurd rfl hargs
      | cons a as => simp
    simp [moduleFactoryFn, hlen]
  · intro w1 r heval herr hsig
    exact moduleFactoryFn_instance format base eval f w w1 r heval herr hsig
  · intro wA w2 wB m1 m2 h1 hlater h2
    obtain ⟨w1, r1, he1, hA, hm1⟩ := moduleFactoryFn_inv format base eval f w wA m1 h1
    obtain ⟨w3, r3, he3, hB, hm3⟩ := moduleFactoryFn_inv format base eval f w2 wB m2 h2
    have hg1 := hmono _ _ _ _ _ _ he1
    have hg3 := hmono _ _ _ _ _ _ he3
    simp only [List.length_append, List.length_cons, List.length_nil] at hg1 hg3
    have hAl : wA.heap.length = w1.heap.length + 1 := by rw [hA]; simp
    have hne : w.heap.length + 1 ≠ w2.heap.length + 1 := by omega
    refine ⟨w1.heap.length, w3.heap.length, hm1, hm3, by omega, ?_, ?_, hne, ?_⟩
    · rw [hA]
      simp [Heap.moduleEnv]
    · rw [hB]
      simp [Heap.moduleEnv]
    · intro h hp1 hp2 oor env key v method name
      subst hm1 hm3
      constructor
      · simp [evalAssignExpression, resolveAssignable, EvalResult.ok, hp1, Setter.call]
      · have hp2d := moduleEnv_Define h (w.heap.length + 1) w3.heap.length
          (w2.heap.length + 1) key v hp2
        simp only [evalMemberExpression, EvalResult.ok, Option.isSome_none, Bool.false_eq_true,
          or_self, if_false, hp2, hp2d]
        rw [GetLocal_Define_ne h _ _ key name v hne]
        cases Environment.GetLocal h (w2.heap.length + 1) name <;> rfl

theorem counterModule_mono (e : Evaluator) (program : Program) (env : Nat) (w0 w1 : World)
    (r : EvalResult) (h : counterModule e program env w0 = some (w1, r)) :
    w0.heap.length ≤ w1.heap.length := by
  simp only [counterModule, Option.some.injEq, Prod.mk.injEq] at h
  rw [← h.1]
  simp [Define_length]

/-- C23, at an instance: the factory of a module that binds `counter` to 0 is
called with an argument (it fails), and then twice without; after
`m1.counter = 5`, `m2.counter` is still 0 and `m1.counter` is 5. -/
theorem C23_module_factory_witness :
    moduleFactoryFn FormatRuntimeError [] counterModule ⟨⟨[], "src", "/m.k"⟩, ⟨"", "", ""⟩⟩
        [Value.Unit] ⟨none, []⟩
      = some (⟨none, []⟩, Value.nil,
          some (Error.RuntimeError "module factory expects no arguments" none)) ∧
    moduleFactoryFn FormatRuntimeError [] counterModule ⟨⟨[], "src", "/m.k"⟩, ⟨"", "", ""⟩⟩
        [] ⟨none, []⟩
      = some (⟨none, [Cell.Environment [] none,
            Cell.Environment [("counter", Value.Integer 0)] (some 0),
            Cell.ModuleObject (some 1)]⟩, Value.ModuleObject 2, none) ∧
    moduleFactoryFn FormatRuntimeError [] counterModule ⟨⟨[], "src", "/m.k"⟩, ⟨"", "", ""⟩⟩
        [] ⟨none, [Cell.Environment [] none,
            Cell.Environment [("counter", Value.Integer 0)] (some 0),
            Cell.ModuleObject (some 1)]⟩
      = some (⟨none, [Cell.Environment [] none,
            Cell.Environment [("counter", Value.Integer 0)] (some 0),
            Cell.ModuleObject (some 1), Cell.Environment [] none,
            Cell.Environment [("counter", Value.Integer 0)] (some 3),
            Cell.ModuleObject (some 4)]⟩, Value.ModuleObject 5, none) ∧
    (evalMemberExpression (fun h _ _ => (h, EvalResult.fail "no method"))
        (evalAssignExpression (fun _ => 0)
          [Cell.Environment [] none,
            Cell.Environment [("counter", Value.Integer 0)] (some 0),
            Cell.ModuleObject (some 1), Cell.Environment [] none,
            Cell.Environment [("counter", Value.Integer 0)] (some 3),
            Cell.ModuleObject (some 4)] 0
          (AssignNode.MemberExpression (EvalResult.ok (Value.ModuleObject 2)) "counter") "="
          (EvalResult.ok (Value.Integer 5))
          [Cell.Environment [] none,
            Cell.Environment [("counter", Value.Integer 0)] (some 0),
            Cell.ModuleObject (some 1), Cell.Environment [] none,
            Cell.Environment [("counter", Value.Integer 0)] (some 3),
            Cell.ModuleObject (some 4)]).1
        (EvalResult.ok (Value.ModuleObject 5)) "counter").2
      = EvalResult.ok (Value.Integer 0) ∧
    (evalMemberExpression (fun h _ _ => (h, EvalResult.fail "no method"))
        (evalAssignExpression (fun _ => 0)
          [Cell.Environment [] none,
            Cell.Environment [("counter", Value.Integer 0)] (some 0),
            Cell.ModuleObject (some 1), Cell.Environment [] none,
            Cell.Environment [("counter", Value.Integer 0)] (some 3),
            Cell.ModuleObject (some 4)] 0
          (AssignNode.MemberExpression (EvalResult.ok (Value.ModuleObject 2)) "counter") "="
          (EvalResult.ok (Value.Integer 5))
          [Cell.Environment [] none,
            Cell.Environment [("counter", Value.Integer 0)] (some 0),
            Cell.ModuleObject (some 1), Cell.Environment [] none,
            Cell.Environment [("counter", Value.Integer 0)] (some 3),
            Cell.ModuleObject (some 4)]).1
        (EvalResult.ok (Value.ModuleObject 2)) "counter").2
      = EvalResult.ok (Value.Integer 5) :=
  ⟨(C23_module_factory FormatRuntimeError [] counterModule counterModule_mono
      ⟨⟨[], "src", "/m.k"⟩, ⟨"", "", ""⟩⟩ ⟨none, []⟩).1 [Value.Unit] (by decide) counterModule,
    (C23_module_factory FormatRuntimeError [] counterModule counterModule_mono
      ⟨⟨[], "src", "/m.k"⟩, ⟨"", "", ""⟩⟩ ⟨none, []⟩).2.1
      ⟨none, [Cell.Environment [] none,
        Cell.Environment [("counter", Value.Integer 0)] (some 0)]⟩
      (EvalResult.ok Value.Unit) (by decide) rfl rfl,
    by decide, by decide, by decide⟩

end ModuleFactory

section Channels

/-- C30. For one Integer argument `n`, `buffered(n)` returns a new open channel
with an empty buffer of capacity `n` when `0 ≤ n ≤ 1000000`, and fails with a
RuntimeError, allocating nothing, when `n` is negative or greater than
1000000: it returns a channel exactly when `0 ≤ n ≤ 1000000`. An argument that
is not an Integer, and a number of arguments other than 1, fail as well. -/
theorem C30_buffered (h : Heap) (n : Int) :
    (0 ≤ n → n ≤ 1000000 →
      builtinBufferedChannel h [Value.Integer n]
        = (h ++ [Cell.Channel ⟨[], n.toNat, false⟩ false], Value.Channel h.length, none) ∧
      (((h ++ [Cell.Channel ⟨[], n.toNat, false⟩ false]).channel h.length).1.cap : Int) = n) ∧
    (n < 0 →
      builtinBufferedChannel h [Value.Integer n]
        = (h, Value.nil,
            some (Error.RuntimeError "buffered expects non-negative buffer size" none))) ∧
    (1000000 < n →
      builtinBufferedChannel h [Value.Integer n]
        = (h, Value.nil,
            some (Error.RuntimeError "buffered buffer size too large (max 1000000)" none))) ∧
    ((∃ p, (builtinBufferedChannel h [Value.Integer n]).2.1 = Value.Channel p)
      ↔ (0 ≤ n ∧ n ≤ 1000000)) ∧
    (∀ v : Value, (∀ i, v ≠ Value.Integer i) →
      builtinBufferedChannel h [v]
        = (h, Value.nil, some (Error.RuntimeError "buffered expects integer buffer size" none))) ∧
    (∀ args : List Value, args.length ≠ 1 →
      builtinBufferedChannel h args
        = (h, Value.nil,
            some (Error.RuntimeError "buffered expects 1 argument (buffer size)" none))) := by
  have hok : 0 ≤ n → n ≤ 1000000 →
      builtinBufferedChannel h [Value.Integer n]
        = (h ++ [Cell.Channel ⟨[], n.toNat, false⟩ false], Value.Channel h.length, none) := by
    intro h0 h1
    simp [builtinBufferedChannel, Heap.alloc, not_lt.mpr h0, not_lt.mpr h1]
  have hneg : n < 0 →
      builtinBufferedChannel h [Value.Integer n]
        = (h, Value.nil,
            some (Error.RuntimeError "buffered expects non-negative buffer size" none)) := by
    intro h0
    simp [builtinBufferedChannel, h0]
  have hbig : 1000000 < n →
      builtinBufferedChannel h [Value.Integer n]
        = (h, Value.nil,
            some (Error.RuntimeError "buffered buffer size too large (max 1000000)" none)) := by
    intro h1
    have h0 : ¬ n < 0 := by omega
    simp [builtinBufferedChannel, h0, h1]
  refine ⟨?_, hneg, hbig, ?_, ?_, ?_⟩
  · intro h0 h1
    refine ⟨hok h0 h1, ?_⟩
    simp [Heap.channel, Int.toNat_of_nonneg h0]
  · constructor
    · rintro ⟨p, hp⟩
      by_contra hcon
      rcases lt_or_le n 0 with h0 | h0
      · rw [hneg h0] at hp
        exact absurd hp (by simp)
      · have h1 : 1000000 < n := by omega
        rw [hbig h1] at hp
        exact absurd hp (by simp)
    · rintro ⟨h0, h1⟩
      exact ⟨h.length, by rw [hok h0 h1]⟩
  · intro v hv
    cases v <;> first | rfl | exact absurd rfl (hv _)
  · intro args hargs
    simp [builtinBufferedChannel, hargs]

/-- C30, at instances: `buffered(3)`, `buffered(1000000)`, `buffered(-1)` and
`buffered(1000001)`. -/
theorem C30_buffered_witness :
    builtinBufferedChannel [] [Value.Integer 3]
        = ([] ++ [Cell.Channel ⟨[], (3 : Int).toNat, false⟩ false], Value.Channel 0, none) ∧
      builtinBufferedChannel [] [Value.Integer (-1)]
        = ([], Value.nil,
            some (Error.RuntimeError "buffered expects non-negative buffer size" none)) ∧
      builtinBufferedChannel [] [Value.Integer 1000001]
        = ([], Value.nil,
            some (Error.RuntimeError "buffered buffer size too large (max 1000000)" none)) ∧
      builtinBufferedChannel [] [Value.String "3"]
        = ([], Value.nil,
            some (Error.RuntimeError "buffered expects integer buffer size" none)) ∧
      builtinBufferedChannel [] []
        = ([], Value.nil,
            some (Error.RuntimeError "buffered expects 1 argument (buffer size)" none)) :=
  ⟨((C30_buffered [] 3).1 (by decide) (by decide)).1,
    (C30_buffered [] (-1)).2.1 (by decide),
    (C30_buffered [] 1000001).2.2.1 (by decide),
    (C30_buffered [] 0).2.2.2.2.1 (Value.String "3") (fun i => by simp),
    (C30_buffered [] 0).2.2.2.2.2 [] (by decide)⟩

/-- C27. On a channel whose `Closed` flag is set, `send(ch, v)` returns the
RuntimeError `send on closed channel` and leaves the heap, and so the buffer of
the channel, as it is, for every value, whatever the evaluator, its runtime and
its current task are (cancelled or not, fatal signal broadcast or not) and
whatever `select` would pick. And with `Close` as the specification describes
it: `done(ch)` sets the flag, a second `done(ch)` changes nothing and returns
Unit without error, and a later `send` fails in this way. -/
theorem C27_send_on_closed (canceledError : Error) (choice : Nat) (e : Option taskEvaluator)
    (h : Heap) (p : Nat) (v : Value) :
    ((h.channel p).2 = true →
      builtinSend canceledError choice e h [Value.Channel p, v]
        = some (.returns (h, Value.nil,
            some (Error.RuntimeError "send on closed channel" none)))) ∧
    (∀ (c : Chan) (Closed : Bool), h[p]? = some (Cell.Channel c Closed) →
      (builtinDone h [Value.Channel p]).2 = (Value.Unit, none) ∧
      ((builtinDone h [Value.Channel p]).1.channel p).2 = true ∧
      builtinDone (builtinDone h [Value.Channel p]).1 [Value.Channel p]
        = ((builtinDone h [Value.Channel p]).1, Value.Unit, none) ∧
      builtinSend canceledError choice e (builtinDone h [Value.Channel p]).1 [Value.Channel p, v]
        = some (.returns ((builtinDone h [Value.Channel p]).1, Value.nil,
            some (Error.RuntimeError "send on closed channel" none)))) := by
  have hsend : ∀ h1 : Heap, (h1.channel p).2 = true →
      builtinSend canceledError choice e h1 [Value.Channel p, v]
        = some (.returns (h1, Value.nil,
            some (Error.RuntimeError "send on closed channel" none))) := by
    intro h1 hc
    simp [builtinSend, hc]
  refine ⟨hsend h, ?_⟩
  intro c Closed hcell
  have hlt : p < h.length := by
    by_contra hge
    rw [List.getElem?_eq_none (by omega)] at hcell
    exact absurd hcell (by simp)
  have hclosed : ((builtinDone h [Value.Channel p]).1.channel p).2 = true := by
    simp only [builtinDone, List.length_singleton, ne_eq, not_true_eq_false, if_false,
      List.getElem?_cons_zero, Channel.Close]
    split_ifs with hc
    · exact hc
    · simp [Heap.channel, List.getElem?_set_self hlt]
  refine ⟨by simp [builtinDone], hclosed, ?_, hsend _ hclosed⟩
  have : builtinDone (builtinDone h [Value.Channel p]).1 [Value.Channel p]
      = (Channel.Close (builtinDone h [Value.Channel p]).1 p, Value.Unit, none) := by
    simp [builtinDone]
  rw [this]
  simp only [Channel.Close, hclosed, if_true]

/-- C27, at an instance: a closed channel with room in its buffer, and a task
that has been cancelled. -/
theorem C27_send_on_closed_witness :
    builtinSend (Error.RecoverableError "canceled" "canceled" none) 1
        (some ⟨some ⟨true, none⟩, some 1⟩)
        [Cell.Channel ⟨[], 2, true⟩ true, Cell.Task ⟨none, false, false, true⟩]
        [Value.Channel 0, Value.Integer 7]
      = some (.returns ([Cell.Channel ⟨[], 2, true⟩ true, Cell.Task ⟨none, false, false, true⟩],
          Value.nil, some (Error.RuntimeError "send on closed channel" none))) :=
  (C27_send_on_closed (Error.RecoverableError "canceled" "canceled" none) 1
    (some ⟨some ⟨true, none⟩, some 1⟩)
    [Cell.Channel ⟨[], 2, true⟩ true, Cell.Task ⟨none, false, false, true⟩] 0
    (Value.Integer 7)).1 (by decide)

end Channels

section Receive

theorem selectCase_quiet (choice : Nat) (comm : Bool) (cancelCh fatalCh : Option Bool)
    (hc : cancelCh ≠ some true) (hf : fatalCh ≠ some true) :
    selectCase choice comm cancelCh fatalCh = if comm = true then some SelectCase.comm else none := by
  unfold selectCase
  cases comm <;> simp [hc, hf, Nat.mod_one]

theorem builtinRecv_quiet (canceledError : Error) (choice : Nat) (e : Option taskEvaluator)
    (h : Heap) (p : Nat) (hq : noSignalPending h e) :
    builtinRecv canceledError choice e h [Value.Channel p]
      = if (h.channel p).1.canRecv = true then
          some
            (if (h.channel p).1.recv.2.2 = false then
              (h.set p (Cell.Channel (h.channel p).1.recv.1 (h.channel p).2)
                  ++ [Cell.Array [Value.Null, Value.Boolean true]],
                Value.Array h.length, none)
            else
              (h.set p (Cell.Channel (h.channel p).1.recv.1 (h.channel p).2)
                  ++ [Cell.Array [(h.channel p).1.recv.2.1, Value.Boolean false]],
                Value.Array h.length, none))
        else none := by
  unfold builtinRecv
  simp only [List.length_singleton, ne_eq, not_true_eq_false, if_false, List.getElem?_cons_zero,
    Heap.alloc, List.length_set]
  by_cases hnil : runtimeCancelSignal h e = none ∧ runtimeFatalSignal e = none
  · rw [if_pos hnil]
  · rw [if_neg hnil, selectCase_quiet choice _ _ _ hq.1 hq.2]
    split_ifs <;> rfl

theorem builtinSend_quiet (canceledError : Error) (choice : Nat) (e : Option taskEvaluator)
    (h : Heap) (p : Nat) (v : Value) (hq : noSignalPending h e)
    (hopen : (h.channel p).2 = false) (hchan : (h.channel p).1.closed = false) :
    builtinSend canceledError choice e h [Value.Channel p, v]
      = if (h.channel p).1.queue.length < (h.channel p).1.cap then
          some (.returns
            (h.set p (Cell.Channel
                { (h.channel p).1 with queue := (h.channel p).1.queue ++ [v] } false),
              Value.Unit, none))
        else none := by
  unfold builtinSend
  simp only [List.length_cons, List.length_singleton, List.length_nil, ne_eq,
    not_true_eq_false, if_false, List.getElem?_cons_zero, hopen, Bool.false_eq_true,
    Chan.send, hchan, Chan.canSend, Bool.false_or, decide_eq_true_eq]
  by_cases hnil : runtimeCancelSignal h e = none ∧ runtimeFatalSignal e = none
  · rw [if_pos hnil]
    split_ifs <;> simp
  · rw [if_neg hnil, selectCase_quiet choice _ _ _ hq.1 hq.2]
    split_ifs <;> simp_all

theorem task_set_channel (h : Heap) (p t : Nat) (c c2 : Chan) (b b2 : Bool)
    (hcell : h[p]? = some (Cell.Channel c b)) :
    Heap.task (h.set p (Cell.Channel c2 b2)) t = h.task t := by
  unfold Heap.task
  by_cases hpt : p = t
  · subst hpt
    have hlt : p < h.length := by
      by_contra hge
      rw [List.getElem?_eq_none (by omega)] at hcell
      exact absurd hcell (by simp)
    rw [List.getElem?_set_self hlt, hcell]
  · rw [List.getElem?_set_ne hpt]

theorem task_append_array (h : Heap) (t : Nat) (es : List Value) :
    Heap.task (h ++ [Cell.Array es]) t = h.task t := by
  unfold Heap.task
  by_cases hlt2 : t < h.length
  · rw [List.getElem?_append_left hlt2]
  · have ht1 : h[t]? = none := List.getElem?_eq_none (by omega)
    rw [ht1]
    by_cases hte : t = h.length
    · subst hte
      simp
    · rw [List.getElem?_eq_none (by simp; omega)]

theorem runtimeCancelSignal_set_channel (h : Heap) (e : Option taskEvaluator) (p : Nat)
    (c c2 : Chan) (b b2 : Bool) (hcell : h[p]? = some (Cell.Channel c b)) :
    runtimeCancelSignal (h.set p (Cell.Channel c2 b2)) e = runtimeCancelSignal h e := by
  simp only [runtimeCancelSignal, task_set_channel h p _ c c2 b b2 hcell]

theorem runtimeCancelSignal_append_array (h : Heap) (e : Option taskEvaluator)
    (es : List Value) :
    runtimeCancelSignal (h ++ [Cell.Array es]) e = runtimeCancelSignal h e := by
  simp only [runtimeCancelSignal, task_append_array]

theorem channel_of_cell (h : Heap) (p : Nat) (c : Chan) (b : Bool)
    (hcell : h[p]? = some (Cell.Channel c b)) : h.channel p = (c, b) := by
  simp [Heap.channel, hcell]

theorem channel_set (h : Heap) (p : Nat) (c0 c : Chan) (b0 b : Bool)
    (hcell : h[p]? = some (Cell.Channel c0 b0)) :
    (h.set p (Cell.Channel c b))[p]? = some (Cell.Channel c b) := by
  have hlt : p < h.length := by
    by_contra hge
    rw [List.getElem?_eq_none (by omega)] at hcell
    exact absurd hcell (by simp)
  exact List.getElem?_set_self hlt

/-- C28, refuted as stated: on an open channel of capacity 2 whose buffer
already holds the Integer 1, `send(ch, 2)` returns Unit and the `recv(ch)` that
follows, by the same task with no signal pending, returns `[1, false]`, the
oldest value of the buffer, and not `[2, false]`. -/
theorem C28_send_then_recv_oldest :
    builtinSend (Error.other "canceled") 0 none
        [Cell.Channel ⟨[Value.Integer 1], 2, false⟩ false] [Value.Channel 0, Value.Integer 2]
      = some (.returns
          ([Cell.Channel ⟨[Value.Integer 1, Value.Integer 2], 2, false⟩ false],
            Value.Unit, none)) ∧
    builtinRecv (Error.other "canceled") 0 none
        [Cell.Channel ⟨[Value.Integer 1, Value.Integer 2], 2, false⟩ false] [Value.Channel 0]
      = some ([Cell.Channel ⟨[Value.Integer 2], 2, false⟩ false,
            Cell.Array [Value.Integer 1, Value.Boolean false]],
          Value.Array 1, none) ∧
    Cell.Array [Value.Integer 1, Value.Boolean false]
      ≠ Cell.Array [Value.Integer 2, Value.Boolean false] := by
  decide

/-- C28 (amended). Let `ch` be a channel and let no cancellation and no fatal
signal be pending for the caller. When the buffer of `ch` holds values,
`recv(ch)` takes the oldest one, `u`, out of the buffer and returns a new array
`[u, false]`. When `ch` is closed and its buffer is empty, `recv(ch)` returns a
new array `[Null, true]` and leaves the channel closed and empty, so that every
later `recv` does the same. When `ch` is open and its buffer, of capacity at
least 1, has room, `send(ch, v)` appends `v` to the buffer and returns Unit,
and the `recv(ch)` that follows returns `[u, false]` for the oldest value `u`
of the buffer with `v` appended: this is `v` itself when the buffer was empty
before the send, and the value that was first in the buffer otherwise. When
the buffer is full, `send(ch, v)` by a task that runs alone does not return. -/
theorem C28_recv (canceledError : Error) (choice : Nat) (e : Option taskEvaluator) (h : Heap)
    (p : Nat) (c : Chan) (Closed : Bool) (hcell : h[p]? = some (Cell.Channel c Closed))
    (hq : noSignalPending h e) :
    (∀ u rest, c.queue = u :: rest →
      builtinRecv canceledError choice e h [Value.Channel p]
        = some (h.set p (Cell.Channel { c with queue := rest } Closed)
              ++ [Cell.Array [u, Value.Boolean false]],
            Value.Array h.length, none)) ∧
    (c.queue = [] → c.closed = true →
      builtinRecv canceledError choice e h [Value.Channel p]
        = some (h ++ [Cell.Array [Value.Null, Value.Boolean true]], Value.Array h.length, none) ∧
      (h ++ [Cell.Array [Value.Null, Value.Boolean true]])[p]? = some (Cell.Channel c Closed) ∧
      noSignalPending (h ++ [Cell.Array [Value.Null, Value.Boolean true]]) e) ∧
    (∀ v : Value, Closed = false → c.closed = false → c.queue.length < c.cap →
      builtinSend canceledError choice e h [Value.Channel p, v]
        = some (.returns
            (h.set p (Cell.Channel { c with queue := c.queue ++ [v] } false),
              Value.Unit, none)) ∧
      builtinRecv canceledError choice e
          (h.set p (Cell.Channel { c with queue := c.queue ++ [v] } false)) [Value.Channel p]
        = some (h.set p (Cell.Channel { c with queue := (c.queue ++ [v]).tail } false)
              ++ [Cell.Array [(c.queue ++ [v]).headD v, Value.Boolean false]],
            Value.Array h.length, none) ∧
      (c.queue = [] → (c.queue ++ [v]).headD v = v) ∧
      (∀ u rest, c.queue = u :: rest → (c.queue ++ [v]).headD v = u)) ∧
    (∀ v : Value, Closed = false → c.closed = false → c.cap ≤ c.queue.length →
      builtinSend canceledError choice e h [Value.Channel p, v] = none) := by
  have hch := channel_of_cell h p c Closed hcell
  have hlt : p < h.length := by
    by_contra hge
    rw [List.getElem?_eq_none (by omega)] at hcell
    exact absurd hcell (by simp)
  refine ⟨?_, ?_, ?_, ?_⟩
  · intro u rest hqueue
    rw [builtinRecv_quiet canceledError choice e h p hq, hch]
    simp [Chan.canRecv, Chan.recv, hqueue]
  · intro hqueue hclosed
    have hset : h.set p (Cell.Channel c Closed) = h := by
      apply List.ext_getElem?
      intro i
      by_cases hi : p = i
      · subst hi
        rw [List.getElem?_set_self hlt, hcell]
      · rw [List.getElem?_set_ne hi]
    refine ⟨?_, ?_, ?_⟩
    · rw [builtinRecv_quiet canceledError choice e h p hq, hch]
      simp [Chan.canRecv, Chan.recv, hqueue, hclosed, hset]
    · rw [List.getElem?_append_left hlt]
      exact hcell
    · have hcs := runtimeCancelSignal_append_array h e [Value.Null, Value.Boolean true]
      exact ⟨by rw [hcs]; exact hq.1, hq.2⟩
  · intro v hopen hchan hroom
    subst hopen
    have hq2 : noSignalPending (h.set p (Cell.Channel { c with queue := c.queue ++ [v] } false)) e :=
      ⟨by rw [runtimeCancelSignal_set_channel h e p c _ false false hcell]; exact hq.1, hq.2⟩
    have hch2 := channel_of_cell _ p _ false
      (channel_set h p c { c with queue := c.queue ++ [v] } false false hcell)
    refine ⟨?_, ?_, ?_, ?_⟩
    · rw [builtinSend_quiet canceledError choice e h p v hq (by rw [hch]) (by rw [hch]; exact hchan),
        hch]
      simp [hroom]
    · rw [builtinRecv_quiet canceledError choice e _ p hq2, hch2]
      cases hcq : c.queue with
      | nil => simp [Chan.canRecv, Chan.recv]
      | cons a as => simp [Chan.canRecv, Chan.recv]
    · intro hqueue
      simp [hqueue]
    · intro u rest hqueue
      simp [hqueue]
  · intro v hopen hchan hfull
    subst hopen
    rw [builtinSend_quiet canceledError choice e h p v hq (by rw [hch]) (by rw [hch]; exact hchan),
      hch]
    simp [Nat.not_lt.mpr hfull]

/-- C28 (amended), at instances: on an empty open channel of capacity 1,
`send(ch, 42)` and then `recv(ch)` yield `[42, false]`; on a closed empty
channel `recv(ch)` yields `[Null, true]`; a buffered value is received. -/
theorem C28_recv_witness :
    (builtinSend (Error.other "canceled") 0 none [Cell.Channel ⟨[], 1, false⟩ false]
          [Value.Channel 0, Value.Integer 42]
        = some (.returns
            ([Cell.Channel ⟨[], 1, false⟩ false].set 0
                (Cell.Channel { (⟨[], 1, false⟩ : Chan) with queue := [] ++ [Value.Integer 42] }
                  false),
              Value.Unit, none)) ∧
      builtinRecv (Error.other "canceled") 0 none
          ([Cell.Channel ⟨[], 1, false⟩ false].set 0
            (Cell.Channel { (⟨[], 1, false⟩ : Chan) with queue := [] ++ [Value.Integer 42] }
              false))
          [Value.Channel 0]
        = some ([Cell.Channel ⟨[], 1, false⟩ false].set 0
              (Cell.Channel
                { (⟨[], 1, false⟩ : Chan) with queue := ([] ++ [Value.Integer 42]).tail } false)
              ++ [Cell.Array [([] ++ [Value.Integer 42]).headD (Value.Integer 42),
                    Value.Boolean false]],
            Value.Array 1, none) ∧
      (([] : List Value) = [] →
        ([] ++ [Value.Integer 42]).headD (Value.Integer 42) = Value.Integer 42) ∧
      (∀ u rest, ([] : List Value) = u :: rest →
        ([] ++ [Value.Integer 42]).headD (Value.Integer 42) = u)) ∧
    builtinRecv (Error.other "canceled") 0 none [Cell.Channel ⟨[], 1, true⟩ true]
        [Value.Channel 0]
      = some ([Cell.Channel ⟨[], 1, true⟩ true, Cell.Array [Value.Null, Value.Boolean true]],
          Value.Array 1, none) ∧
    builtinRecv (Error.other "canceled") 0 none
        [Cell.Channel ⟨[Value.Integer 42], 1, false⟩ false] [Value.Channel 0]
      = some ([Cell.Channel ⟨[], 1, false⟩ false,
            Cell.Array [Value.Integer 42, Value.Boolean false]],
          Value.Array 1, none) :=
  ⟨(C28_recv (Error.other "canceled") 0 none [Cell.Channel ⟨[], 1, false⟩ false] 0
      ⟨[], 1, false⟩ false rfl ⟨by decide, by decide⟩).2.2.1 (Value.Integer 42) rfl rfl
      (by decide),
    ((C28_recv (Error.other "canceled") 0 none [Cell.Channel ⟨[], 1, true⟩ true] 0
      ⟨[], 1, true⟩ true rfl ⟨by decide, by decide⟩).2.1 rfl rfl).1,
    (C28_recv (Error.other "canceled") 0 none
      [Cell.Channel ⟨[Value.Integer 42], 1, false⟩ false] 0
      ⟨[Value.Integer 42], 1, false⟩ false rfl ⟨by decide, by decide⟩).1
      (Value.Integer 42) [] rfl⟩

end Receive

section Then

theorem isObserved_markObserved (h : Heap) (t : Nat) (ts : TaskState)
    (hcell : h[t]? = some (Cell.Task ts)) : isObserved (markObserved h t) t = true := by
  have hlt : t < h.length := by
    by_contra hge
    rw [List.getElem?_eq_none (by omega)] at hcell
    exact absurd hcell (by simp)
  simp [isObserved, markObserved, Heap.task, hcell, List.getElem?_set_self hlt]

theorem isObserved_alloc (h : Heap) (t : Nat) (c : Cell) (hobs : isObserved h t = true) :
    isObserved (h.alloc c).1 t = true := by
  unfold isObserved Heap.task at hobs ⊢
  have hlt : t < h.length := by
    by_contra hge
    rw [List.getElem?_eq_none (by omega)] at hobs
    simp at hobs
  simp only [Heap.alloc]
  rw [List.getElem?_append_left hlt]
  exact hobs

theorem task_isSome_cell (h : Heap) (t : Nat) (ht : (h.task t).isSome = true) :
    ∃ ts, h[t]? = some (Cell.Task ts) := by
  unfold Heap.task at ht
  split at ht
  · rename_i ts hcell
    exact ⟨ts, hcell⟩
  · simp at ht

theorem task_isSome_markObserved (h : Heap) (t : Nat) (ht : (h.task t).isSome = true) :
    ((markObserved h t).task t).isSome = true := by
  obtain ⟨ts, hcell⟩ := task_isSome_cell h t ht
  have hlt : t < h.length := by
    by_contra hge
    rw [List.getElem?_eq_none (by omega)] at hcell
    exact absurd hcell (by simp)
  simp [markObserved, Heap.task, hcell, List.getElem?_set_self hlt]

theorem task_isSome_alloc (h : Heap) (t : Nat) (c : Cell) (ht : (h.task t).isSome = true) :
    (Heap.task (h.alloc c).1 t).isSome = true := by
  obtain ⟨ts, hcell⟩ := task_isSome_cell h t ht
  have hlt : t < h.length := by
    by_contra hge
    rw [List.getElem?_eq_none (by omega)] at hcell
    exact absurd hcell (by simp)
  simp [Heap.task, Heap.alloc, List.getElem?_append_left hlt, hcell]

/-- What holds of every configuration that a call `then(t, fn)` reaches among
other goroutines that leave the task at `t` a task and do not withdraw an
observation: the call holds `t`; the task at `t` is a task; from the mark on
it is observed; and the call returns a task and no error. -/
theorem thenReaches_invariant (other : TaskWorld → TaskWorld → Prop)
    (e : Option taskEvaluator) (w0 : TaskWorld) (t : Nat) (fn : Value)
    (htask0 : (w0.heap.task t).isSome = true)
    (htask : ∀ w1 w2, other w1 w2 → (w1.heap.task t).isSome = true →
      (w2.heap.task t).isSome = true)
    (hkeep : ∀ w1 w2, other w1 w2 → isObserved w1.heap t = true → isObserved w2.heap t = true)
    (c : thenPoint × TaskWorld)
    (hreach : thenReaches other e [Value.Task t, fn] (.entry, w0) c) :
    (∀ t1, c.1.task = some t1 → t1 = t) ∧ (c.2.heap.task t).isSome = true ∧
      (c.1.beforeMark = false → isObserved c.2.heap t = true) ∧
      (∀ v err, c.1 = .returned v err → err = none ∧ ∃ tt, v = Value.Task tt) := by
  generalize hc0 : ((thenPoint.entry, w0) : thenPoint × TaskWorld) = c0 at hreach
  induction hreach with
  | start =>
    subst hc0
    exact ⟨by simp [thenPoint.task], htask0, by simp [thenPoint.beforeMark], by simp⟩
  | call c1 c2 _ hstep ih =>
    obtain ⟨hh, hcell, hobs, _⟩ := ih
    obtain ⟨pt, w⟩ := c1
    cases pt with
    | entry =>
      simp only [builtinThenStep, List.length_cons, List.length_singleton, List.length_nil,
        ne_eq, not_true_eq_false, if_false, List.getElem?_cons_zero, Option.some.injEq] at hstep
      subst hstep
      exact ⟨by simp [thenPoint.task], hcell, by simp [thenPoint.beforeMark], by simp⟩
    | checked t1 =>
      have ht1 := hh t1 rfl
      subst ht1
      simp only [builtinThenStep, Option.some.injEq] at hstep
      subst hstep
      obtain ⟨ts, hts⟩ := task_isSome_cell w.heap t1 hcell
      exact ⟨by simp [thenPoint.task], task_isSome_markObserved w.heap t1 hcell,
        fun _ => isObserved_markObserved w.heap t1 ts hts, by simp⟩
    | marked t1 =>
      have ht1 := hh t1 rfl
      subst ht1
      have ho := hobs rfl
      cases e with
      | none =>
        simp only [builtinThenStep, Option.some.injEq] at hstep
        subst hstep
        exact ⟨by simp [thenPoint.task], hcell, fun _ => ho, by simp⟩
      | some ev =>
        simp only [builtinThenStep, Option.some.injEq] at hstep
        subst hstep
        exact ⟨by simp [thenPoint.task], task_isSome_alloc _ _ _ hcell,
          fun _ => isObserved_alloc _ _ _ ho, by simp⟩
    | created t1 tt =>
      have ht1 := hh t1 rfl
      subst ht1
      have ho := hobs rfl
      cases e with
      | none =>
        simp only [builtinThenStep, Option.some.injEq] at hstep
        subst hstep
        exact ⟨by simp [thenPoint.task], hcell, fun _ => ho, by simp⟩
      | some ev =>
        simp only [builtinThenStep, Option.some.injEq] at hstep
        subst hstep
        exact ⟨by simp [thenPoint.task], hcell, fun _ => ho, by simp⟩
    | cloned t1 tt te =>
      have ht1 := hh t1 rfl
      subst ht1
      have ho := hobs rfl
      simp only [builtinThenStep, Option.some.injEq] at hstep
      subst hstep
      exact ⟨by simp [thenPoint.task], hcell, fun _ => ho, by simp⟩
    | launched t1 tt =>
      have ho := hobs rfl
      simp only [builtinThenStep, Option.some.injEq] at hstep
      subst hstep
      exact ⟨by simp [thenPoint.task], hcell, fun _ => ho,
        by intro v err h; simp only [thenPoint.returned.injEq] at h; exact ⟨h.2.symm, tt, h.1.symm⟩⟩
    | returned v err => simp [builtinThenStep] at hstep
    | panicked msg => simp [builtinThenStep] at hstep
  | others pt w1 w2 _ hother ih =>
    obtain ⟨hh, hcell, hobs, hret⟩ := ih
    exact ⟨hh, htask w1 w2 hother hcell, fun hb => hkeep w1 w2 hother (hobs hb), hret⟩

/-- A call of `then` whose arguments are rejected stands at the entry or has
returned. -/
theorem thenReaches_rejected (other : TaskWorld → TaskWorld → Prop)
    (e : Option taskEvaluator) (args : List Value) (w0 : TaskWorld)
    (hrej : args.length ≠ 2 ∨ ∀ p, args[0]? ≠ some (Value.Task p))
    (c : thenPoint × TaskWorld)
    (hreach : thenReaches other e args (.entry, w0) c) :
    c.1 = .entry ∨ ∃ v err, c.1 = .returned v (some err) := by
  generalize hc0 : ((thenPoint.entry, w0) : thenPoint × TaskWorld) = c0 at hreach
  induction hreach with
  | start => subst hc0; exact Or.inl rfl
  | call c1 c2 _ hstep ih =>
    obtain ⟨pt, w⟩ := c1
    rcases ih with h | ⟨v, err, h⟩
    · simp only at h
      subst h
      simp only [builtinThenStep] at hstep
      split_ifs at hstep with hlen
      · simp only [Option.some.injEq] at hstep
        subst hstep
        exact Or.inr ⟨_, _, rfl⟩
      · split at hstep
        · rename_i task htask
          rcases hrej with hr | hr
          · exact absurd hr hlen
          · exact absurd htask (hr task)
        · simp only [Option.some.injEq] at hstep
          subst hstep
          exact Or.inr ⟨_, _, rfl⟩
    · simp only at h
      subst h
      simp [builtinThenStep] at hstep
  | others pt w1 w2 _ _ ih => exact ih

/-- C29, refuted as stated: a scan made after the call has begun can see `t`
unobserved. The call `then(t, fn)` on the unobserved task at address 0 first
checks its arguments; when that is done the call has begun, nothing is marked
yet, and a scan finds the task unobserved. Only the next step,
`task.markObserved()`, marks it. -/
theorem C29_scan_before_mark :
    thenReaches (fun _ _ => False) (some ⟨none, none⟩) [Value.Task 0, Value.Function 7]
        (.entry, ⟨[Cell.Task ⟨none, false, false, false⟩], []⟩)
        (.checked 0, ⟨[Cell.Task ⟨none, false, false, false⟩], []⟩) ∧
    isObserved [Cell.Task ⟨none, false, false, false⟩] 0 = false ∧
    builtinThenStep (some ⟨none, none⟩) [Value.Task 0, Value.Function 7]
        (.checked 0, ⟨[Cell.Task ⟨none, false, false, false⟩], []⟩)
      = some (.marked 0, ⟨[Cell.Task ⟨none, false, true, false⟩], []⟩) ∧
    isObserved [Cell.Task ⟨none, false, true, false⟩] 0 = true :=
  ⟨thenReaches.call _ _ _ (thenReaches.start _) rfl, by decide, by decide, by decide⟩

/-- C29 (amended). Let `t` be a task, and let the other goroutines leave the
task at `t` a task and never withdraw an observation. In every run of the call
`then(t, fn)` among them, from the state `w0` in which it is called: (1) in
every configuration in which the call has passed `task.markObserved()` - so
when the task is created, when the worker is started, when the call has
returned - a scan sees `t` observed; (2) the step that starts the continuation
worker (the only step that changes the list of workers) is taken in a state in
which `t` is observed, and it starts one worker, for `t` and `fn`; (3) a call
that has returned has returned a task and no error; (4) before the mark the
call has done nothing: its first step, the checks of the arguments, leaves the
state as it is, and its second step is the mark - a scan made between them
sees `t` as it was before the call; (5) run with no other goroutine in
between, the call marks `t`, allocates the unobserved continuation task at the
end of the heap, starts the worker and returns that task. When the arguments
are rejected (their number is not 2, or the first is not a task): (6) no step
of the call changes the state - no task is marked, none is created and no
worker is started - and (7) the call returns the error of the check that
failed. -/
theorem C29_then_marks_observed (other : TaskWorld → TaskWorld → Prop)
    (e : Option taskEvaluator) (w0 : TaskWorld) (t : Nat) (fn : Value)
    (htask0 : (w0.heap.task t).isSome = true)
    (htask : ∀ w1 w2, other w1 w2 → (w1.heap.task t).isSome = true →
      (w2.heap.task t).isSome = true)
    (hkeep : ∀ w1 w2, other w1 w2 → isObserved w1.heap t = true →
      isObserved w2.heap t = true) :
    (∀ pt w, thenReaches other e [Value.Task t, fn] (.entry, w0) (pt, w) →
      pt.beforeMark = false → isObserved w.heap t = true) ∧
    (∀ c1 c2, thenReaches other e [Value.Task t, fn] (.entry, w0) c1 →
      builtinThenStep e [Value.Task t, fn] c1 = some c2 → c2.2.workers ≠ c1.2.workers →
      isObserved c1.2.heap t = true ∧ c2.2.heap = c1.2.heap ∧
        ∃ thenTask thenEval, c2.2.workers = c1.2.workers ++ [⟨t, thenTask, thenEval, fn⟩]) ∧
    (∀ v err w, thenReaches other e [Value.Task t, fn] (.entry, w0) (.returned v err, w) →
      err = none ∧ (∃ thenTask, v = Value.Task thenTask) ∧ isObserved w.heap t = true) ∧
    (builtinThenStep e [Value.Task t, fn] (.entry, w0) = some (.checked t, w0) ∧
      ∀ w, builtinThenStep e [Value.Task t, fn] (.checked t, w)
        = some (.marked t, ⟨markObserved w.heap t, w.workers⟩)) ∧
    (∀ ev, e = some ev →
      builtinThen e w0 [Value.Task t, fn]
        = some (⟨markObserved w0.heap t ++ [Cell.Task ⟨ev.currentTask, false, false, false⟩],
              w0.workers ++ [⟨t, w0.heap.length, ⟨ev.runtime, some w0.heap.length⟩, fn⟩]⟩,
            .returns (Value.Task w0.heap.length, none)) ∧
      isObserved (markObserved w0.heap t ++ [Cell.Task ⟨ev.currentTask, false, false, false⟩])
        w0.heap.length = false) ∧
    (∀ (other2 : TaskWorld → TaskWorld → Prop) (e2 : Option taskEvaluator) (args : List Value)
        (w : TaskWorld) (c1 c2 : thenPoint × TaskWorld),
      (args.length ≠ 2 ∨ ∀ p, args[0]? ≠ some (Value.Task p)) →
      thenReaches other2 e2 args (.entry, w) c1 → builtinThenStep e2 args c1 = some c2 →
      c2.2 = c1.2) ∧
    (∀ (e2 : Option taskEvaluator) (args : List Value) (w : TaskWorld), args.length ≠ 2 →
      builtinThen e2 w args
        = some (w, .returns (Value.nil,
            some (Error.RuntimeError "then expects task and function" none)))) ∧
    (∀ (e2 : Option taskEvaluator) (v : Value) (w : TaskWorld), (∀ p, v ≠ Value.Task p) →
      builtinThen e2 w [v, fn]
        = some (w, .returns (Value.nil,
            some (Error.RuntimeError "then expects task as receiver" none)))) := by
  have hinv := thenReaches_invariant other e w0 t fn htask0 htask hkeep
  have hlen : (markObserved w0.heap t).length = w0.heap.length := by
    unfold markObserved
    split <;> simp
  refine ⟨?_, ?_, ?_, ⟨rfl, fun w => rfl⟩, ?_, ?_, ?_, ?_⟩
  · intro pt w hreach hb
    exact (hinv (pt, w) hreach).2.2.1 hb
  · intro c1 c2 hreach hstep hw
    obtain ⟨hh, _, hobs, _⟩ := hinv c1 hreach
    obtain ⟨pt, w⟩ := c1
    cases pt with
    | entry =>
      simp only [builtinThenStep, List.length_cons, List.length_singleton, List.length_nil,
        ne_eq, not_true_eq_false, if_false, List.getElem?_cons_zero, Option.some.injEq] at hstep
      subst hstep
      exact absurd rfl hw
    | checked t1 =>
      simp only [builtinThenStep, Option.some.injEq] at hstep
      subst hstep
      exact absurd rfl hw
    | marked t1 =>
      cases e <;> simp only [builtinThenStep, Option.some.injEq] at hstep <;> subst hstep <;>
        exact absurd rfl hw
    | created t1 tt =>
      cases e <;> simp only [builtinThenStep, Option.some.injEq] at hstep <;> subst hstep <;>
        exact absurd rfl hw
    | cloned t1 tt te =>
      have ht1 := hh t1 rfl
      subst ht1
      simp only [builtinThenStep, Option.some.injEq] at hstep
      subst hstep
      exact ⟨hobs rfl, rfl, tt, te, rfl⟩
    | launched t1 tt =>
      simp only [builtinThenStep, Option.some.injEq] at hstep
      subst hstep
      exact absurd rfl hw
    | returned v err => simp [builtinThenStep] at hstep
    | panicked msg => simp [builtinThenStep] at hstep
  · intro v err w hreach
    obtain ⟨_, _, hobs, hret⟩ := hinv _ hreach
    obtain ⟨h1, h2⟩ := hret v err rfl
    exact ⟨h1, h2, hobs rfl⟩
  · intro ev he
    subst he
    refine ⟨?_, ?_⟩
    · simp [builtinThen, builtinThenRun, builtinThenStep, newTask, Heap.alloc, cloneForTask, hlen]
    · unfold isObserved Heap.task
      rw [← hlen]
      simp
  · intro other2 e2 args w c1 c2 hrej hreach hstep
    obtain ⟨pt, w1⟩ := c1
    rcases thenReaches_rejected other2 e2 args w hrej _ hreach with h | ⟨v, err, h⟩
    · simp only at h
      subst h
      simp only [builtinThenStep] at hstep
      split_ifs at hstep with hl
      · simp only [Option.some.injEq] at hstep
        subst hstep
        rfl
      · split at hstep <;> simp only [Option.some.injEq] at hstep <;> subst hstep <;> rfl
    · simp only at h
      subst h
      simp [builtinThenStep] at hstep
  · intro e2 args w hargs
    simp [builtinThen, builtinThenRun, builtinThenStep, hargs]
  · intro e2 v w hv
    cases v <;> first | rfl | exact absurd rfl (hv _)

/-- C29 (amended), at an instance: the main task chains a function to the
unobserved task at address 0 while another goroutine allocates an empty array
now and then. In the run in which that goroutine steps after the checks of the
arguments and again after the mark, the call returns the task at address 3 and
the task at address 0 is observed. -/
theorem C29_then_marks_observed_witness :
    thenReaches (fun w1 w2 => w2 = ⟨w1.heap ++ [Cell.Array []], w1.workers⟩)
        (some ⟨none, none⟩) [Value.Task 0, Value.Function 7]
        (.entry, ⟨[Cell.Task ⟨none, false, false, false⟩], []⟩)
        (.returned (Value.Task 3) none,
          ⟨[Cell.Task ⟨none, false, true, false⟩, Cell.Array [], Cell.Array [],
              Cell.Task ⟨none, false, false, false⟩],
            [⟨0, 3, ⟨none, some 3⟩, Value.Function 7⟩]⟩) ∧
    isObserved [Cell.Task ⟨none, false, true, false⟩, Cell.Array [], Cell.Array [],
        Cell.Task ⟨none, false, false, false⟩] 0 = true :=
  have hrun : thenReaches (fun w1 w2 => w2 = ⟨w1.heap ++ [Cell.Array []], w1.workers⟩)
      (some ⟨none, none⟩) [Value.Task 0, Value.Function 7]
      (.entry, ⟨[Cell.Task ⟨none, false, false, false⟩], []⟩)
      (.returned (Value.Task 3) none,
        ⟨[Cell.Task ⟨none, false, true, false⟩, Cell.Array [], Cell.Array [],
            Cell.Task ⟨none, false, false, false⟩],
          [⟨0, 3, ⟨none, some 3⟩, Value.Function 7⟩]⟩) :=
    thenReaches.call _ _ _
      (thenReaches.call _ _ _
        (thenReaches.call _ _ _
          (thenReaches.call _ _ _
            (thenReaches.others _ _ _ _
              (thenReaches.call _ _ _
                (thenReaches.others _ _ _ _
                  (thenReaches.call _ _ _ (thenReaches.start _) rfl)
                  rfl)
                rfl)
              rfl)
            rfl)
          rfl)
        rfl)
      rfl
  ⟨hrun,
    (C29_then_marks_observed (fun w1 w2 => w2 = ⟨w1.heap ++ [Cell.Array []], w1.workers⟩)
      (some ⟨none, none⟩) ⟨[Cell.Task ⟨none, false, false, false⟩], []⟩ 0 (Value.Function 7)
      (by decide)
      (by
        intro w1 w2 h hs
        subst h
        exact task_isSome_alloc w1.heap 0 (Cell.Array []) hs)
      (by
        intro w1 w2 h hs
        subst h
        exact isObserved_alloc w1.heap 0 (Cell.Array []) hs)).1 _ _ hrun rfl⟩

end Then

section IntegerOperators

theorem toInt64_ofInt_zero (oor : F64 → Int) : toInt64 oor (F64.ofInt 0) = 0 := by
  have h0 : F64.ofInt 0 = F64.fin false 0 0 := by decide
  have ht : F64.trunc false 0 0 = 0 := by decide
  rw [h0, toInt64_of_inRange oor _ _ _ (by rw [ht]; decide), ht]

set_option maxRecDepth 8000 in
/-- C36: for every Integer `a`, `a % 0` does not return: the operands are
converted to `int64` and Go's `%` panics on the zero divisor (`integer divide
by zero`), in the infix expression, in `applyBinary` and in the assignment
`x %= 0`, which stores nothing. And for a non-zero divisor the result is the
remainder of the operands as rounded to `float64`, not of the operands
themselves: `(2^53 + 1) % 2` is 0, whereas the truncated remainder is 1. -/
theorem C36_modulo_by_zero_panics (oor : F64 → Int)
    (equivalent : Heap → Value → Value → Bool) (h : Heap) (a : Int) :
    evalInfixExpression oor equivalent h "%" (EvalResult.ok (Value.Integer a))
        (EvalResult.ok (Value.Integer 0))
      = (h, .panics "runtime error: integer divide by zero") ∧
    applyBinary oor h "%" (Value.Integer a) (Value.Integer 0)
      = (h, .panics "runtime error: integer divide by zero") ∧
    evalAssignExpression oor [Cell.Environment [("x", Value.Integer a)] none] 0
        (AssignNode.Identifier "x") "%=" (EvalResult.ok (Value.Integer 0))
        [Cell.Environment [("x", Value.Integer a)] none]
      = ([Cell.Environment [("x", Value.Integer a)] none],
          .panics "runtime error: integer divide by zero") ∧
    evalIntegerInfix oor "%" 9007199254740993 (Value.Integer 2)
      = .returns (EvalResult.ok (Value.Integer 0)) ∧
    Int.tmod 9007199254740993 2 = 1 := by
  have hz := toInt64_ofInt_zero oor
  have hmod : evalIntegerInfix oor "%" a (Value.Integer 0)
      = .panics "runtime error: integer divide by zero" := by
    have h1 : ¬ ("%" = "+") := by decide
    have h2 : ¬ ("%" = "-") := by decide
    have h3 : ¬ ("%" = "*") := by decide
    have h4 : ¬ ("%" = "/") := by decide
    simp only [evalIntegerInfix, evalNumericInfix, h1, h2, h3, h4, if_false, if_true, hz]
  refine ⟨?_, ?_, ?_, ?_, by decide⟩
  · simp [evalInfixExpression, EvalResult.ok, hmod]
  · simp [applyBinary, hmod]
  · have hres : resolveAssignable [Cell.Environment [("x", Value.Integer a)] none] 0
        (AssignNode.Identifier "x")
        = (Value.Integer a, some (Setter.envSet 0 "x"), none) := by
      simp [resolveAssignable, Environment.Get, Environment.getAux, List.lookup]
    unfold evalAssignExpression
    rw [hres]
    simp [EvalResult.ok, applyBinary, hmod]
  · have hl : F64.ofInt 9007199254740993 = F64.fin false 4503599627370496 1 := by decide
    have hr : F64.ofInt 2 = F64.fin false 4503599627370496 (-51) := by decide
    have htl : F64.trunc false 4503599627370496 1 = 9007199254740992 := by decide
    have htr : F64.trunc false 4503599627370496 (-51) = 2 := by decide
    have h1 : ¬ ("%" = "+") := by decide
    have h2 : ¬ ("%" = "-") := by decide
    have h3 : ¬ ("%" = "*") := by decide
    have h4 : ¬ ("%" = "/") := by decide
    simp only [evalIntegerInfix, evalNumericInfix, h1, h2, h3, h4, if_false, if_true, hl, hr]
    rw [toInt64_of_inRange oor _ _ _ (by rw [htr]; decide),
      toInt64_of_inRange oor _ _ _ (by rw [htl]; decide), htl, htr]
    decide

set_option maxRecDepth 8000 in
/-- C37: the Integers `2^53` and `2^53 + 1` are converted to the same `float64`
before they are compared, so `2^53 < 2^53 + 1` evaluates to false and
`2^53 >= 2^53 + 1` to true, although `2^53 + 1` is below the `int64` maximum;
`compareForSort`, which compares the `int64` payloads, orders the same two
Integers the other way. -/
theorem C37_comparison_through_float (oor : F64 → Int)
    (equivalent : Heap → Value → Value → Bool) (h : Heap) :
    isInt64 9007199254740992 ∧ isInt64 9007199254740993 ∧
    evalInfixExpression oor equivalent h "<" (EvalResult.ok (Value.Integer 9007199254740992))
        (EvalResult.ok (Value.Integer 9007199254740993))
      = (h, .returns (EvalResult.ok (Value.Boolean false))) ∧
    evalInfixExpression oor equivalent h ">=" (EvalResult.ok (Value.Integer 9007199254740992))
        (EvalResult.ok (Value.Integer 9007199254740993))
      = (h, .returns (EvalResult.ok (Value.Boolean true))) ∧
    evalInfixExpression oor equivalent h ">" (EvalResult.ok (Value.Integer 9007199254740993))
        (EvalResult.ok (Value.Integer 9007199254740992))
      = (h, .returns (EvalResult.ok (Value.Boolean false))) ∧
    evalInfixExpression oor equivalent h "<=" (EvalResult.ok (Value.Integer 9007199254740993))
        (EvalResult.ok (Value.Integer 9007199254740992))
      = (h, .returns (EvalResult.ok (Value.Boolean true))) ∧
    compareForSort (Value.Integer 9007199254740992) (Value.Integer 9007199254740993)
      = .returns true ∧
    compareForSort (Value.Integer 9007199254740993) (Value.Integer 9007199254740992)
      = .returns false := by
  have hl : F64.ofInt 9007199254740992 = F64.fin false 4503599627370496 1 := by decide
  have hr : F64.ofInt 9007199254740993 = F64.fin false 4503599627370496 1 := by decide
  have hlt : F64.lt (F64.fin false 4503599627370496 1) (F64.fin false 4503599627370496 1)
      = false := by decide
  have hle : F64.le (F64.fin false 4503599627370496 1) (F64.fin false 4503599627370496 1)
      = true := by decide
  refine ⟨by decide, by decide, ?_, ?_, ?_, ?_, by decide, by decide⟩ <;>
    simp [evalInfixExpression, evalIntegerInfix, evalNumericInfix, EvalResult.ok, hl, hr, hlt, hle]

end IntegerOperators

section NilSetter

/-- C38: when the object of a member target, or the left side or the index of
an index target, evaluates to a signal (with no error), `resolveAssignable`
returns a nil value and a nil setter with no error; the assignment `=` then
evaluates its right side and calls the nil setter, which panics, and the
postfix `++` answers `increment/decrement requires number`: in neither case
does the signal reach the enclosing loop. -/
theorem C38_nil_setter_on_signal (oor : F64 → Int) (h hr : Heap) (env : Nat) (v0 v : Value)
    (s : Signal) (property : String) (index : EvalResult) :
    resolveAssignable h env (AssignNode.MemberExpression ⟨v0, some s, none⟩ property)
      = (Value.nil, none, none) ∧
    resolveAssignable h env (AssignNode.IndexExpression ⟨v0, some s, none⟩ index)
      = (Value.nil, none, none) ∧
    resolveAssignable h env
        (AssignNode.IndexExpression (EvalResult.ok v) ⟨v0, some s, none⟩)
      = (Value.nil, none, none) ∧
    evalAssignExpression oor h env (AssignNode.MemberExpression ⟨v0, some s, none⟩ property)
        "=" (EvalResult.ok v) hr
      = (hr, .panics "runtime error: invalid memory address or nil pointer dereference") ∧
    evalPostfixExpression oor h env (AssignNode.MemberExpression ⟨v0, some s, none⟩ property)
        "++"
      = (h, .returns (EvalResult.fail "increment/decrement requires number")) := by
  have h1 : resolveAssignable h env (AssignNode.MemberExpression ⟨v0, some s, none⟩ property)
      = (Value.nil, none, none) := by
    simp [resolveAssignable]
  refine ⟨h1, by simp [resolveAssignable], by simp [resolveAssignable, EvalResult.ok], ?_, ?_⟩
  · unfold evalAssignExpression
    rw [h1]
    simp [EvalResult.ok]
  · unfold evalPostfixExpression
    rw [h1]
    simp

end NilSetter

section Truthiness

theorem F64.eq_zero_iff (s : Bool) (m : Nat) (e : Int) :
    F64.eq (F64.fin s m e) F64.zero = true ↔ m = 0 := by
  simp only [F64.eq, F64.zero, F64.signed, F64.scale, beq_iff_eq]
  constructor
  · intro h
    by_contra hm
    have hpos : 0 < m * 2 ^ (e - min e 0).toNat := Nat.mul_pos (Nat.pos_of_ne_zero hm) (Nat.pow_pos (by decide))
    cases s <;> simp at h <;> omega
  · intro hm
    subst hm
    cases s <;> simp

/-- C34. `isTruthy` on the kinds other than Null and Unit: a Boolean is truthy
exactly when it is true; an Integer is falsy exactly when it is 0 and a Float
exactly when it is a zero (`+0` or `-0`; a NaN is truthy); a String is falsy
exactly when it is empty, and an Array, Object, Map or Set exactly when it has
no element; a Char (even an empty one), a function, builtin, task, channel,
partial and module object are truthy. -/
theorem C34_isTruthy_table (h : Heap) :
    (∀ b, isTruthy h (Value.Boolean b) = b) ∧
    (∀ n, isTruthy h (Value.Integer n) = false ↔ n = 0) ∧
    (∀ s m e, isTruthy h (Value.Float (F64.fin s m e)) = false ↔ m = 0) ∧
    isTruthy h (Value.Float F64.nan) = true ∧
    (∀ s, isTruthy h (Value.Float (F64.inf s)) = true) ∧
    (∀ s, isTruthy h (Value.String s) = false ↔ s = "") ∧
    (∀ p, isTruthy h (Value.Array p) = false ↔ h.elements p = []) ∧
    (∀ p, isTruthy h (Value.Object p) = false ↔ h.objectPairs p = []) ∧
    (∀ p, isTruthy h (Value.Map p) = false ↔ h.mapPairs p = []) ∧
    (∀ p, isTruthy h (Value.Set p) = false ↔ h.setElements p = []) ∧
    (∀ c, isTruthy h (Value.Char c) = true) ∧
    (∀ p, isTruthy h (Value.Function p) = true) ∧
    (∀ p, isTruthy h (Value.Builtin p) = true) ∧
    (∀ p, isTruthy h (Value.Task p) = true) ∧
    (∀ p, isTruthy h (Value.Channel p) = true) ∧
    (∀ p, isTruthy h (Value.Partial p) = true) ∧
    (∀ p, isTruthy h (Value.ModuleObject p) = true) := by
  refine ⟨fun b => rfl, ?_, ?_, rfl, fun s => rfl, ?_, ?_, ?_, ?_, ?_, fun _ => rfl,
    fun _ => rfl, fun _ => rfl, fun _ => rfl, fun _ => rfl, fun _ => rfl, fun _ => rfl⟩
  · intro n
    simp [isTruthy]
  · intro s m e
    simp only [isTruthy, Bool.not_eq_false']
    exact F64.eq_zero_iff s m e
  · intro s
    simp [isTruthy]
  · intro p
    simp [isTruthy, List.length_eq_zero]
  · intro p
    simp [isTruthy, List.length_eq_zero]
  · intro p
    simp [isTruthy, List.length_eq_zero]
  · intro p
    simp [isTruthy, List.length_eq_zero]

end Truthiness

section ModuleErrors

/-- C39. When the evaluation of the module's program in the factory fails with
an error `err`, the factory returns a plain error whose text is
`FormatRuntimeError(err, source, filename)` (for a RuntimeError or a
RecoverableError: the text of `formatRuntimeError` for its message and token),
not `err` itself. `evalRecoverExpression` returns a plain error unchanged,
without evaluating the fallback, whereas on a RuntimeError it evaluates the
fallback. A parse error of `loadModule` is such a plain error too, and a file
read error is a RuntimeError. -/
theorem C39_module_errors_not_recoverable (base : List (String × Value))
    (eval : Evaluator → Program → Nat → World → Option (World × EvalResult))
    (f : moduleFactory) (w w1 : World) (r : EvalResult) (err : Error)
    (heval : eval ⟨f.module.source, f.module.filename, f.e.projectRoot⟩ f.module.program
        (w.heap.length + 1)
        { w with heap := w.heap ++ [Cell.Environment base none,
            Cell.Environment [] (some w.heap.length)] } = some (w1, r))
    (herr : r.err = some err) :
    moduleFactoryFn FormatRuntimeError base eval f [] w
        = some (w1, Value.nil,
            some (Error.other (FormatRuntimeError err f.module.source f.module.filename))) ∧
      (∀ m tok, err = Error.RuntimeError m tok →
        FormatRuntimeError err f.module.source f.module.filename
          = formatRuntimeError m tok f.module.source f.module.filename) ∧
      (∀ m kind tok, err = Error.RecoverableError m kind tok →
        FormatRuntimeError err f.module.source f.module.filename
          = formatRuntimeError m tok f.module.source f.module.filename) ∧
      (∀ (errorValue : Heap → Error → Heap × Value)
          (fallback : Heap → Nat → Heap × EvalResult) (h : Heap) (env : Nat) (text : String),
        evalRecoverExpression errorValue fallback h env
            ⟨Value.nil, none, some (Error.other text)⟩
          = (h, ⟨Value.nil, none, some (Error.other text)⟩)) ∧
      (∀ (errorValue : Heap → Error → Heap × Value)
          (fallback : Heap → Nat → Heap × EvalResult) (h : Heap) (env : Nat) (m : String)
          (tok : Option Token),
        evalRecoverExpression errorValue fallback h env
            ⟨Value.nil, none, some (Error.RuntimeError m tok)⟩
          = fallback
              (Environment.Define
                (NewEnclosedEnvironment (errorValue h (Error.RuntimeError m tok)).1 env).1
                (NewEnclosedEnvironment (errorValue h (Error.RuntimeError m tok)).1 env).2
                "error" (errorValue h (Error.RuntimeError m tok)).2)
              (NewEnclosedEnvironment (errorValue h (Error.RuntimeError m tok)).1 env).2) ∧
      (∀ (host : Host) (modules : Option moduleState) (path data : String),
        (modules.getD newModuleState).loaded.lookup (resolvedPath host path) = none →
        ((modules.getD newModuleState).loading.lookup (resolvedPath host path)).getD false
          = false →
        host.ReadFile (resolvedPath host path) = .ok data →
        (host.ParseProgram data).2 ≠ [] →
        (loadModule host modules path).2.2
          = some (Error.other (host.FormatParseErrors (host.ParseProgram data).2 data
              (resolvedPath host path)))) ∧
      (∀ (host : Host) (modules : Option moduleState) (path e : String),
        (modules.getD newModuleState).loaded.lookup (resolvedPath host path) = none →
        ((modules.getD newModuleState).loading.lookup (resolvedPath host path)).getD false
          = false →
        host.ReadFile (resolvedPath host path) = .error e →
        (loadModule host modules path).2.2
          = some (Error.RuntimeError ("import read error: " ++ e) none)) := by
  refine ⟨?_, ?_, ?_, ?_, ?_, ?_, ?_⟩
  · unfold moduleFactoryFn
    simp only [List.length_nil, ne_eq, not_true_eq_false, if_false, NewBaseEnvironment,
      NewEnclosedEnvironment, Heap.alloc, List.length_append, List.length_cons,
      List.length_nil, Nat.zero_add, List.append_assoc, List.singleton_append]
    rw [heval]
    simp [herr]
  · rintro m tok rfl
    rfl
  · rintro m kind tok rfl
    rfl
  · intro errorValue fallback h env text
    simp [evalRecoverExpression]
  · intro errorValue fallback h env m tok
    simp [evalRecoverExpression]
  · intro host modules path data hnl hl hread herrs
    rw [loadModule_of_unmarked host modules path hnl hl,
      loadModuleFinish_parse_error host _ _ data hread herrs]
  · intro host modules path e hnl hl hread
    rw [loadModule_of_unmarked host modules path hnl hl,
      loadModuleFinish_read_error host _ _ e hread]

/-- C39, at an instance: the program of the module `/m.k` fails with the
RuntimeError `boom` at line 1, column 1; the factory returns the plain error
with the pointed text. -/
theorem C39_module_errors_not_recoverable_witness :
    moduleFactoryFn FormatRuntimeError []
        (fun _ _ _ w => some (w, ⟨Value.nil, none, some (Error.RuntimeError "boom" (some ⟨1, 1⟩))⟩))
        ⟨⟨[], "fail()", "/m.k"⟩, ⟨"", "", ""⟩⟩ [] ⟨none, []⟩
      = some (⟨none, [] ++ [Cell.Environment [] none, Cell.Environment [] (some 0)]⟩, Value.nil,
          some (Error.other
            (FormatRuntimeError (Error.RuntimeError "boom" (some ⟨1, 1⟩)) "fail()" "/m.k"))) ∧
    FormatRuntimeError (Error.RuntimeError "boom" (some ⟨1, 1⟩)) "fail()" "/m.k"
      = "runtime error: boom\n  at /m.k:1:1\n  1 | fail()\n    | ^" :=
  ⟨(C39_module_errors_not_recoverable []
      (fun _ _ _ w => some (w, ⟨Value.nil, none, some (Error.RuntimeError "boom" (some ⟨1, 1⟩))⟩))
      ⟨⟨[], "fail()", "/m.k"⟩, ⟨"", "", ""⟩⟩ ⟨none, []⟩
      ⟨none, [] ++ [Cell.Environment [] none, Cell.Environment [] (some 0)]⟩
      ⟨Value.nil, none, some (Error.RuntimeError "boom" (some ⟨1, 1⟩))⟩
      (Error.RuntimeError "boom" (some ⟨1, 1⟩)) rfl rfl).1,
    by decide⟩

end ModuleErrors

section RandInt

/-- C31. For Integers `lo` and `hi` (in the `int64` range), `randInt(lo, hi)`
returns a RuntimeError exactly when `lo > hi` or `hi - lo ≥ 2^63 - 1`;
otherwise, whatever the random source yields, it returns an Integer `n` with
`lo ≤ n ≤ hi`; and `randInt(lo, lo)` is `lo`. It never panics. -/
theorem C31_randInt (random : Nat) (lo hi : Int) (hlo : isInt64 lo) (hhi : isInt64 hi) :
    ((∃ msg, builtinRandInt random [Value.Integer lo, Value.Integer hi]
          = .returns (Value.nil, some (Error.RuntimeError msg none)))
        ↔ (lo > hi ∨ hi - lo ≥ 2 ^ 63 - 1)) ∧
      (¬ (lo > hi ∨ hi - lo ≥ 2 ^ 63 - 1) →
        ∃ n, builtinRandInt random [Value.Integer lo, Value.Integer hi]
            = .returns (Value.Integer n, none) ∧ lo ≤ n ∧ n ≤ hi) ∧
      builtinRandInt random [Value.Integer lo, Value.Integer lo]
        = .returns (Value.Integer lo, none) := by
  unfold isInt64 at hlo hhi
  have hgood : ¬ (lo > hi ∨ hi - lo ≥ 2 ^ 63 - 1) →
      ∃ n, builtinRandInt random [Value.Integer lo, Value.Integer hi]
          = .returns (Value.Integer n, none) ∧ lo ≤ n ∧ n ≤ hi := by
    intro hn
    have h1 : ¬ hi < lo := by omega
    by_cases heq : hi = lo
    · subst heq
      exact ⟨hi, by simp [builtinRandInt], le_refl _, le_refl _⟩
    · have hd : wrap64 (hi - lo) = hi - lo := by unfold wrap64; omega
      have hd1 : wrap64 (hi - lo + 1) = hi - lo + 1 := by unfold wrap64; omega
      have hr0 : 0 ≤ (random : Int) % (hi - lo + 1) := Int.emod_nonneg _ (by omega)
      have hr1 : (random : Int) % (hi - lo + 1) < hi - lo + 1 := Int.emod_lt_of_pos _ (by omega)
      have hw : wrap64 ((random : Int) % (hi - lo + 1) + lo)
          = (random : Int) % (hi - lo + 1) + lo := by unfold wrap64; omega
      refine ⟨(random : Int) % (hi - lo + 1) + lo, ?_, by omega, by omega⟩
      have hc1 : ¬ (hi - lo < 0 ∨ hi - lo = 2 ^ 63 - 1) := by omega
      have hc2 : ¬ (hi - lo + 1 ≤ 0) := by omega
      simp only [builtinRandInt, List.length_cons, List.length_singleton, List.length_nil,
        ne_eq, not_true_eq_false, if_false, List.getElem?_cons_zero, List.getElem?_cons_succ,
        h1, heq, hd, hc1, hd1, Int63n, hc2, hw]
  refine ⟨⟨?_, ?_⟩, hgood, by simp [builtinRandInt]⟩
  · rintro ⟨msg, hmsg⟩
    by_contra hn
    obtain ⟨n, hn1, _, _⟩ := hgood hn
    rw [hn1] at hmsg
    simp at hmsg
  · intro hbad
    by_cases h1 : hi < lo
    · exact ⟨"randInt expects min <= max", by simp [builtinRandInt, h1]⟩
    · have h2 : hi - lo ≥ 2 ^ 63 - 1 := by omega
      have heq : ¬ hi = lo := by omega
      have hc1 : wrap64 (hi - lo) < 0 ∨ wrap64 (hi - lo) = 2 ^ 63 - 1 := by
        unfold wrap64; omega
      refine ⟨"randInt range too large", ?_⟩
      simp only [builtinRandInt, List.length_cons, List.length_singleton, List.length_nil,
        ne_eq, not_true_eq_false, if_false, List.getElem?_cons_zero, List.getElem?_cons_succ,
        h1, heq, if_pos hc1]

/-- C31, at instances: a range of five numbers, the widest range accepted and
the narrowest one refused. -/
theorem C31_randInt_witness :
    (∃ n, builtinRandInt 12345 [Value.Integer 3, Value.Integer 7]
        = .returns (Value.Integer n, none) ∧ 3 ≤ n ∧ n ≤ 7) ∧
      builtinRandInt 12345 [Value.Integer 3, Value.Integer 7] = .returns (Value.Integer 3, none) ∧
      builtinRandInt 12345 [Value.Integer (-1), Value.Integer 9223372036854775806]
        = .returns (Value.nil, some (Error.RuntimeError "randInt range too large" none)) ∧
      builtinRandInt 12345 [Value.Integer 0, Value.Integer 9223372036854775806]
        = .returns (Value.Integer 12345, none) :=
  ⟨(C31_randInt 12345 3 7 (by decide) (by decide)).2.1 (by decide), by decide, by decide,
    by decide⟩

end RandInt

section IntegralMath

set_option maxRecDepth 8000 in
/-- C32: the bound `float64(math.MaxInt64)` is `2^63`, not `2^63 - 1`, and the
test is `result > 2^63`: a result equal to `2^63` is let through, and so is a
NaN, for which both comparisons are false. So `floor(9223372036854775807)`
(the Integer is converted to the `float64` `2^63`), `floor(9223372036854775808.0)`
and `floor` of a NaN return an Integer, the implementation-dependent
`int64(result)`, with no error, although `2^63` is not an `int64`; the next
`float64` above `2^63` is refused with `floor overflow`. -/
theorem C32_overflow_not_detected (oor : F64 → Int) :
    F64.ofInt (2 ^ 63 - 1) = F64.fin false 4503599627370496 11 ∧
    F64.signed false 4503599627370496 11 = 2 ^ 63 ∧
    ¬ isInt64 (2 ^ 63) ∧
    integralMath oor [Value.Integer 9223372036854775807] "floor" F64.floor
      = (Value.Integer (wrap64 (oor (F64.fin false 4503599627370496 11))), none) ∧
    integralMath oor [Value.Float (F64.fin false 4503599627370496 11)] "floor" F64.floor
      = (Value.Integer (wrap64 (oor (F64.fin false 4503599627370496 11))), none) ∧
    integralMath oor [Value.Float F64.nan] "floor" F64.floor
      = (Value.Integer (wrap64 (oor F64.nan)), none) ∧
    integralMath oor [Value.Float (F64.fin false 4503599627370497 11)] "floor" F64.floor
      = (Value.nil, some (Error.RuntimeError "floor overflow" none)) ∧
    integralMath oor [Value.Float (F64.inf false)] "floor" F64.floor
      = (Value.nil, some (Error.RuntimeError "floor overflow" none)) := by
  have hmax : F64.ofInt (2 ^ 63 - 1) = F64.fin false 4503599627370496 11 := by decide
  have hmin : F64.ofInt (-(2 ^ 63)) = F64.fin true 4503599627370496 11 := by decide
  have hnum : numberArg (Value.Integer 9223372036854775807)
      = (F64.fin false 4503599627370496 11, true, true) := by
    simp only [numberArg]
    rw [show (9223372036854775807 : Int) = 2 ^ 63 - 1 by decide, hmax]
  have hfl : F64.floor (F64.fin false 4503599627370496 11)
      = F64.fin false 4503599627370496 11 := by decide
  have hfl2 : F64.floor (F64.fin false 4503599627370497 11)
      = F64.fin false 4503599627370497 11 := by decide
  have hlt1 : F64.lt (F64.fin false 4503599627370496 11) (F64.fin false 4503599627370496 11)
      = false := by decide
  have hlt2 : F64.lt (F64.fin false 4503599627370496 11) (F64.fin true 4503599627370496 11)
      = false := by decide
  have hlt3 : F64.lt (F64.fin false 4503599627370496 11) (F64.fin false 4503599627370497 11)
      = true := by decide
  have htr : F64.trunc false 4503599627370496 11 = 2 ^ 63 := by decide
  have hto : toInt64 oor (F64.fin false 4503599627370496 11)
      = wrap64 (oor (F64.fin false 4503599627370496 11)) := by
    simp only [toInt64, htr]
    rw [if_neg (by decide)]
  refine ⟨hmax, by decide, by decide, ?_, ?_, ?_, ?_, ?_⟩
  · simp only [integralMath, List.length_singleton, ne_eq, not_true_eq_false, if_false,
      List.getD_cons_zero, hnum, hfl, hmax, hmin, hlt1, hlt2, Bool.false_eq_true, or_self, hto, Bool.true_eq_false]
  · simp only [integralMath, List.length_singleton, ne_eq, not_true_eq_false, if_false,
      List.getD_cons_zero, numberArg, hfl, hmax, hmin, hlt1, hlt2, Bool.false_eq_true, or_self,
      hto, Bool.true_eq_false]
  · simp only [integralMath, List.length_singleton, ne_eq, not_true_eq_false, if_false,
      List.getD_cons_zero, numberArg, F64.floor, hmax, hmin, F64.lt, Bool.false_eq_true, or_self,
      toInt64, Bool.true_eq_false]
  · simp only [integralMath, List.length_singleton, ne_eq, not_true_eq_false, if_false,
      List.getD_cons_zero, numberArg, hfl2, hmax, hmin, hlt3, true_or, if_true]
    rfl
  · simp only [integralMath, List.length_singleton, ne_eq, not_true_eq_false, if_false,
      List.getD_cons_zero, numberArg, F64.floor, hmax, hmin, F64.lt]
    simp

end IntegralMath

section ParseInt

/-- The step of `parseDecimal`. -/
theorem parseDecimal_eq_foldl (c : Char) (cs : List Char) :
    parseDecimal (c :: cs)
      = (c :: cs).foldl
          (fun acc d =>
            match acc with
            | none => none
            | some n =>
              if '0' ≤ d ∧ d ≤ '9' then some (n * 10 + (d.toNat - '0'.toNat)) else none)
          (some 0) := rfl

theorem digitChar_step (a k : Nat) (hk : k < 10) :
    (if '0' ≤ Nat.digitChar k ∧ Nat.digitChar k ≤ '9'
      then some (a * 10 + ((Nat.digitChar k).toNat - '0'.toNat)) else none)
      = some (a * 10 + k) := by
  interval_cases k <;> simp [Nat.digitChar]

theorem digitChar_not_sign (k : Nat) (hk : k < 10) :
    Nat.digitChar k ≠ '+' ∧ Nat.digitChar k ≠ '-' := by
  interval_cases k <;> decide

theorem toDigitsCore_foldl (fuel : Nat) :
    ∀ (n : Nat) (ds : List Char), n < fuel →
      (Nat.toDigitsCore 10 fuel n ds).foldl
          (fun acc d =>
            match acc with
            | none => none
            | some n =>
              if '0' ≤ d ∧ d ≤ '9' then some (n * 10 + (d.toNat - '0'.toNat)) else none)
          (some 0)
        = ds.foldl
          (fun acc d =>
            match acc with
            | none => none
            | some n =>
              if '0' ≤ d ∧ d ≤ '9' then some (n * 10 + (d.toNat - '0'.toNat)) else none)
          (some n) := by
  induction fuel with
  | zero => intro n ds hn; omega
  | succ f ih =>
    intro n ds hn
    unfold Nat.toDigitsCore
    simp only
    split
    · rename_i h0
      rw [List.foldl_cons]
      simp only
      rw [digitChar_step 0 (n % 10) (Nat.mod_lt _ (by decide))]
      have : 0 * 10 + n % 10 = n := by omega
      rw [this]
    · rename_i h0
      rw [ih (n / 10) _ (by omega), List.foldl_cons]
      simp only
      rw [digitChar_step (n / 10) (n % 10) (Nat.mod_lt _ (by decide))]
      have : n / 10 * 10 + n % 10 = n := by omega
      rw [this]

theorem toDigits_head (n : Nat) :
    ∃ c cs, Nat.toDigits 10 n = c :: cs ∧ c ≠ '+' ∧ c ≠ '-' := by
  have hall : ∀ (fuel m : Nat) (ds : List Char),
      (∀ c ∈ ds, c ≠ '+' ∧ c ≠ '-') → ∀ c ∈ Nat.toDigitsCore 10 fuel m ds, c ≠ '+' ∧ c ≠ '-' := by
    intro fuel
    induction fuel with
    | zero => intro m ds hds; simpa [Nat.toDigitsCore] using hds
    | succ f ih =>
      intro m ds hds
      have hd : ∀ c ∈ Nat.digitChar (m % 10) :: ds, c ≠ '+' ∧ c ≠ '-' := by
        intro c hc
        rcases List.mem_cons.mp hc with rfl | hc
        · exact digitChar_not_sign _ (Nat.mod_lt _ (by decide))
        · exact hds c hc
      unfold Nat.toDigitsCore
      simp only
      split
      · exact hd
      · exact ih _ _ hd
  cases hd : Nat.toDigits 10 n with
  | nil =>
    have h2 : (Nat.toDigits 10 n).length = 0 := by rw [hd]; rfl
    exfalso
    unfold Nat.toDigits at h2
    unfold Nat.toDigitsCore at h2
    simp only at h2
    split at h2
    · simp at h2
    · have := toDigitsCore_length_le n (n / 10) [Nat.digitChar (n % 10)]
      simp only [List.length_singleton] at this
      omega
  | cons c cs =>
    refine ⟨c, cs, rfl, ?_⟩
    have := hall (n + 1) n [] (by simp) c
    unfold Nat.toDigits at hd
    rw [hd] at this
    exact this (by simp)

theorem parseDecimal_toDigits (n : Nat) : parseDecimal (Nat.toDigits 10 n) = some n := by
  obtain ⟨c, cs, hcs, _, _⟩ := toDigits_head n
  have h := toDigitsCore_foldl (n + 1) n [] (by omega)
  rw [hcs, parseDecimal_eq_foldl, ← hcs]
  exact h

theorem ParseInt_toString (n : Int) (hn : isInt64 n) : ParseInt (toString n) = some n := by
  unfold isInt64 at hn
  cases n with
  | ofNat k =>
    obtain ⟨c, cs, hcs, hp, hm⟩ := toDigits_head k
    have hs : (toString (Int.ofNat k)).toList = c :: cs := by
      rw [← hcs]; rfl
    have hpd : parseDecimal (c :: cs) = some k := by rw [← hcs]; exact parseDecimal_toDigits k
    have hk : (k : Int) < 2 ^ 63 := hn.2
    have hk2 : k < 2 ^ 63 := by exact_mod_cast hk
    unfold ParseInt
    rw [hs]
    simp only [hp, hm, or_self, if_false, hpd, decide_False]
    rw [if_neg (by omega), if_neg (by simp; omega), if_neg (by simp)]
    rfl
  | negSucc k =>
    have hs : (toString (Int.negSucc k)).toList = '-' :: Nat.toDigits 10 (k + 1) := rfl
    have hpd := parseDecimal_toDigits (k + 1)
    have hk : -(2 ^ 63 : Int) ≤ Int.negSucc k := hn.1
    have hk2 : k + 1 ≤ 2 ^ 63 := by
      have : Int.negSucc k = -((k : Int) + 1) := rfl
      rw [this] at hk
      have h3 : ((k : Int) + 1) ≤ 2 ^ 63 := by omega
      exact_mod_cast h3
    unfold ParseInt
    rw [hs]
    simp only [or_true, if_true, hpd, decide_True]
    rw [if_neg (by omega), if_neg (by simp), if_neg (by simp; omega)]
    rfl

/-- C33. For every Integer `n` in the `int64` range, `str(n)` is the String of
the decimal digits of `n`, with a minus sign when `n` is negative, and
`parseInt` of that String is the Integer `n`, with no error. -/
theorem C33_parseInt_str (pr : Printer) (h : Heap) (fuel : Nat) (n : Int) (hn : isInt64 n) :
    builtinStr pr h (fuel + 1) [Value.Integer n] = .ok (Value.String (toString n), none) ∧
      builtinParseInt [Value.String (toString n)] = (Value.Integer n, none) := by
  refine ⟨by simp [builtinStr, formatLogValue, Inspect], ?_⟩
  simp [builtinParseInt, ParseInt_toString n hn]

/-- C33, at the two ends of the `int64` range. -/
theorem C33_parseInt_str_witness :
    (builtinStr examplePrinter [] 1 [Value.Integer (-9223372036854775808)]
        = .ok (Value.String (toString (-9223372036854775808 : Int)), none) ∧
      builtinParseInt [Value.String (toString (-9223372036854775808 : Int))]
        = (Value.Integer (-9223372036854775808), none)) ∧
    toString (-9223372036854775808 : Int) = "-9223372036854775808" ∧
    builtinParseInt [Value.String "9223372036854775807"]
      = (Value.Integer 9223372036854775807, none) ∧
    builtinParseInt [Value.String "9223372036854775808"]
      = (Value.nil, some (Error.RuntimeError "invalid integer: 9223372036854775808" none)) :=
  ⟨C33_parseInt_str examplePrinter [] 0 (-9223372036854775808) (by decide), by decide,
    by decide, by decide⟩

end ParseInt

section Notebook

theorem splitAfterNewline_ne_nil (l : GoString) : splitAfterNewline l ≠ [] := by
  induction l with
  | nil => simp [splitAfterNewline]
  | cons c cs ih =>
    unfold splitAfterNewline
    split
    · simp
    · split <;> simp

theorem splitAfterNewline_flatten (l : GoString) : (splitAfterNewline l).flatten = l := by
  induction l with
  | nil => simp [splitAfterNewline]
  | cons c cs ih =>
    unfold splitAfterNewline
    by_cases hc : c = 10
    · simp [hc, ih]
    · rw [if_neg hc]
      cases hs : splitAfterNewline cs with
      | nil => exact absurd hs (splitAfterNewline_ne_nil cs)
      | cons p ps =>
        rw [hs] at ih
        simp only [List.flatten_cons, List.cons_append]
        rw [← ih]
        simp

/-- Every piece but the last ends with a line feed. -/
theorem splitAfterNewline_dropLast (l : GoString) :
    ∀ p ∈ (splitAfterNewline l).dropLast, p.getLast? = some 10 := by
  induction l with
  | nil => simp [splitAfterNewline]
  | cons c cs ih =>
    unfold splitAfterNewline
    by_cases hc : c = 10
    · subst hc
      simp only [if_true]
      cases hs : splitAfterNewline cs with
      | nil => exact absurd hs (splitAfterNewline_ne_nil cs)
      | cons p ps =>
        rw [hs] at ih
        intro q hq
        rw [List.dropLast_cons₂] at hq
        rcases List.mem_cons.mp hq with rfl | hq
        · rfl
        · exact ih q hq
    · rw [if_neg hc]
      cases hs : splitAfterNewline cs with
      | nil => exact absurd hs (splitAfterNewline_ne_nil cs)
      | cons p ps =>
        rw [hs] at ih
        simp only
        cases ps with
        | nil => simp
        | cons p2 ps2 =>
          intro q hq
          rw [List.dropLast_cons₂] at hq
          rw [List.dropLast_cons₂] at ih
          rcases List.mem_cons.mp hq with rfl | hq
          · have hp := ih p (List.mem_cons_self _ _)
            cases p with
            | nil => simp at hp
            | cons a as => simpa [List.getLast?_cons_cons] using hp
          · exact ih q (List.mem_cons_of_mem _ hq)

/-- The pieces that `splitLinesForJupyter` returns for a string that is not
empty. -/
theorem splitLinesForJupyter_eq (s : GoString) (hs : s ≠ []) :
    splitLinesForJupyter s
      = if (splitAfterNewline s).getLast? = some []
          then (splitAfterNewline s).dropLast
          else splitAfterNewline s := by
  unfold splitLinesForJupyter
  rw [if_neg hs]
  simp only
  have hlen : (splitAfterNewline s).length > 0 :=
    List.length_pos.mpr (splitAfterNewline_ne_nil _)
  by_cases hl : (splitAfterNewline s).getLast? = some []
  · rw [if_pos ⟨hlen, hl⟩, if_pos hl]
  · rw [if_neg (fun h => hl h.2), if_neg hl]

theorem splitLinesForJupyter_join (s : GoString) : (splitLinesForJupyter s).flatten = s := by
  by_cases hs : s = []
  · subst hs; rfl
  · rw [splitLinesForJupyter_eq s hs]
    have hfl := splitAfterNewline_flatten s
    split_ifs with hl
    · have hd := List.dropLast_append_getLast? [] (by rw [hl]; rfl :
        ([] : GoString) ∈ (splitAfterNewline s).getLast?)
      rw [← hd] at hfl
      simpa using hfl
    · exact hfl

theorem splitLinesForJupyter_nonempty (s : GoString) : ∀ l ∈ splitLinesForJupyter s, l ≠ [] := by
  by_cases hs : s = []
  · subst hs; intro l hl; simp [splitLinesForJupyter] at hl
  · rw [splitLinesForJupyter_eq s hs]
    intro p hp
    split_ifs at hp with hlast
    · have := splitAfterNewline_dropLast s p hp
      intro h; rw [h] at this; simp at this
    · intro h
      subst h
      by_cases hd : [] ∈ (splitAfterNewline s).dropLast
      · have := splitAfterNewline_dropLast s [] hd
        simp at this
      · cases hg : (splitAfterNewline s).getLast? with
        | none =>
          rw [List.getLast?_eq_none_iff] at hg
          exact splitAfterNewline_ne_nil _ hg
        | some q =>
          have hq := List.dropLast_append_getLast? q (by rw [hg]; rfl :
            q ∈ (splitAfterNewline s).getLast?)
          rw [← hq] at hp
          rcases List.mem_append.mp hp with hp | hp
          · exact hd hp
          · simp only [List.mem_singleton] at hp
            rw [← hp] at hg
            exact hlast hg

theorem splitLinesForJupyter_ends (s : GoString) :
    ∀ l ∈ (splitLinesForJupyter s).dropLast, l.getLast? = some 10 := by
  by_cases hs : s = []
  · subst hs; intro l hl; simp [splitLinesForJupyter] at hl
  · rw [splitLinesForJupyter_eq s hs]
    intro p hp
    have hmem : p ∈ (splitAfterNewline s).dropLast := by
      split_ifs at hp
      · exact List.dropLast_subset _ hp
      · exact hp
    exact splitAfterNewline_dropLast s p hmem

/-- The bytes of a tail are not line feeds when its first byte is above 10. -/
theorem utf8Tail_head (n lo hi : Nat) (hlo : 10 < lo) (b : Nat) (rest : GoString)
    (h : utf8Tail (n + 1) lo hi (b :: rest) = true) :
    b ≠ 10 ∧ utf8Tail n 0x80 0xBF rest = true := by
  simp only [utf8Tail, Bool.and_eq_true, decide_eq_true_eq] at h
  exact ⟨by omega, h.2⟩

/-- The tail of an encoding is looked for in the first line only. -/
theorem utf8Tail_firstLine : ∀ (n lo hi : Nat), 10 < lo → ∀ s : GoString,
    utf8Tail n lo hi ((splitAfterNewline s).headD []) = utf8Tail n lo hi s
  | 0, _, _, _, _ => by simp [utf8Tail]
  | n + 1, lo, hi, _, [] => by simp [splitAfterNewline, utf8Tail]
  | n + 1, lo, hi, hlo, b :: rest => by
    unfold splitAfterNewline
    by_cases hb : b = 10
    · subst hb
      have : ¬ (lo ≤ 10) := by omega
      simp [utf8Tail, this]
    · rw [if_neg hb]
      have ih := utf8Tail_firstLine n 0x80 0xBF (by decide) rest
      cases hs : splitAfterNewline rest with
      | nil => exact absurd hs (splitAfterNewline_ne_nil rest)
      | cons p ps =>
        rw [hs] at ih
        simp only [List.headD_cons] at ih ⊢
        simp only [utf8Tail, ih]

theorem utf8First_range (b0 n lo hi : Nat) (h : utf8First b0 = some (n, lo, hi)) : 10 < lo := by
  unfold utf8First at h
  split_ifs at h <;> simp only [Option.some.injEq, Prod.mk.injEq] at h <;> omega

theorem utf8Size_firstLine (b : Nat) (s : GoString) :
    utf8Size (b :: (splitAfterNewline s).headD []) = utf8Size (b :: s) := by
  simp only [utf8Size]
  cases hf : utf8First b with
  | none => rfl
  | some r =>
    obtain ⟨n, lo, hi⟩ := r
    simp only
    rw [utf8Tail_firstLine (n - 1) lo hi (utf8First_range b n lo hi hf)]

theorem utf8Size_tail (b : Nat) (rest : GoString) (n : Nat)
    (h : utf8Size (b :: rest) = n + 1) :
    ∃ lo hi, 10 < lo ∧ utf8Tail n lo hi rest = true := by
  unfold utf8Size at h
  cases hf : utf8First b with
  | none => simp [hf] at h
  | some r =>
    obtain ⟨m, lo, hi⟩ := r
    simp only [hf] at h
    split_ifs at h with ht
    subst h
    exact ⟨lo, hi, utf8First_range b _ lo hi hf, by simpa using ht⟩

theorem jsonString_nil (k : Nat) : jsonString k [] = [] := by
  cases k <;> rfl

/-- Encoding and decoding line by line gives what encoding and decoding the
whole string gives: no line ends inside a UTF-8 encoding. -/
theorem jsonString_lines : ∀ (s : GoString) (k lo hi : Nat), 10 < lo →
    utf8Tail k lo hi s = true →
    jsonString k ((splitAfterNewline s).headD [])
        ++ (((splitAfterNewline s).tail).map (jsonString 0)).flatten
      = jsonString k s
  | [], k, _, _, _, _ => by simp [splitAfterNewline, jsonString_nil]
  | b :: rest, k + 1, lo, hi, hlo, ht => by
    obtain ⟨hb, ht2⟩ := utf8Tail_head k lo hi hlo b rest ht
    have ih := jsonString_lines rest k 0x80 0xBF (by decide) ht2
    unfold splitAfterNewline
    rw [if_neg hb]
    cases hs : splitAfterNewline rest with
    | nil => exact absurd hs (splitAfterNewline_ne_nil rest)
    | cons p ps =>
      rw [hs] at ih
      simp only [List.headD_cons, List.tail_cons] at ih ⊢
      simp only [jsonString, List.cons_append, ih]
  | b :: rest, 0, _, _, _, _ => by
    have ih0 := jsonString_lines rest 0 0x80 0xBF (by decide) (by simp [utf8Tail])
    unfold splitAfterNewline
    cases hs : splitAfterNewline rest with
    | nil => exact absurd hs (splitAfterNewline_ne_nil rest)
    | cons p ps =>
      rw [hs] at ih0
      simp only [List.headD_cons, List.tail_cons] at ih0
      by_cases hb : b = 10
      · subst hb
        rw [if_pos rfl]
        have h1 : jsonString 0 [10] = [10] := by decide
        have h2 : utf8Size (10 :: rest) = 1 := by
          simp [utf8Size, utf8First, utf8Tail]
        simp only [List.headD_cons, List.tail_cons, List.map_cons, List.flatten_cons, h1]
        rw [ih0]
        simp only [jsonString, h2]
        rfl
      · rw [if_neg hb]
        simp only [List.headD_cons, List.tail_cons]
        have hsz := utf8Size_firstLine b rest
        rw [hs] at hsz
        simp only [List.headD_cons] at hsz
        cases hn : utf8Size (b :: rest) with
        | zero =>
          rw [hn] at hsz
          simp only [jsonString, hsz, hn, List.cons_append, ih0]
        | succ n =>
          rw [hn] at hsz
          obtain ⟨lo, hi, hlo, ht⟩ := utf8Size_tail b rest n hn
          have ihn := jsonString_lines rest n lo hi hlo ht
          rw [hs] at ihn
          simp only [List.headD_cons, List.tail_cons] at ihn
          simp only [jsonString, hsz, hn, List.cons_append, ihn]

theorem flatten_map_dropLast (f : GoString → GoString) (hf : f [] = []) (l : List GoString)
    (hl : l.getLast? = some []) : ((l.dropLast).map f).flatten = (l.map f).flatten := by
  have hd := List.dropLast_append_getLast? [] (by rw [hl]; rfl : ([] : GoString) ∈ l.getLast?)
  conv_rhs => rw [← hd]
  simp [hf]

/-- The lines of a source, encoded and decoded one by one and joined, are the
source encoded and decoded. -/
theorem jsonString_splitLines (s : GoString) :
    ((splitLinesForJupyter s).map (jsonString 0)).flatten = jsonString 0 s := by
  by_cases hs : s = []
  · subst hs; rfl
  · have hmain := jsonString_lines s 0 0x80 0xBF (by decide) (by simp [utf8Tail])
    have hall : ((splitAfterNewline s).map (jsonString 0)).flatten = jsonString 0 s := by
      cases hsp : splitAfterNewline s with
      | nil => exact absurd hsp (splitAfterNewline_ne_nil s)
      | cons p ps =>
        rw [hsp] at hmain
        simpa using hmain
    rw [splitLinesForJupyter_eq s hs]
    split_ifs with hl
    · rw [flatten_map_dropLast _ (jsonString_nil 0) _ hl, hall]
    · exact hall

theorem jsonString_length (s : GoString) : ∀ k, s.length ≤ (jsonString k s).length := by
  induction s with
  | nil => intro k; simp
  | cons b rest ih =>
    intro k
    cases k with
    | succ k =>
      have := ih k
      simp only [jsonString, List.length_cons]
      omega
    | zero =>
      simp only [jsonString]
      cases hn : utf8Size (b :: rest) with
      | zero =>
        have := ih 0
        simp only [List.length_cons]
        omega
      | succ n =>
        have := ih n
        simp only [List.length_cons]
        omega

/-- Encoding and decoding gives the string back exactly when it is valid
UTF-8. -/
theorem jsonString_eq_iff (s : GoString) : ∀ k, jsonString k s = s ↔ ValidString k s = true := by
  induction s with
  | nil => intro k; simp [jsonString_nil, ValidString]
  | cons b rest ih =>
    intro k
    cases k with
    | succ k =>
      simp only [jsonString, ValidString, List.cons.injEq, true_and]
      exact ih k
    | zero =>
      simp only [jsonString, ValidString]
      cases hn : utf8Size (b :: rest) with
      | zero =>
        simp only [List.cons.injEq, Bool.false_eq_true, iff_false]
        rintro ⟨_, h⟩
        have hlen := congrArg List.length h
        have := jsonString_length rest 0
        simp only [List.length_cons] at hlen
        omega
      | succ n =>
        simp only [List.cons.injEq, true_and]
        exact ih n

theorem jupyterSourceToString_strings (f : GoString → GoString) (lines : List GoString) :
    jupyterSourceToString (JSONValue.array (lines.map (fun l => JSONValue.string (f l))))
      = ((lines.map f).flatten, true) := by
  simp only [jupyterSourceToString, List.filterMap_map]
  congr 2
  induction lines with
  | nil => rfl
  | cons a as ih => simp [List.filterMap_cons, ih]

/-- Saving and loading the cells: the code and markdown cells come back in
their order, each source encoded and decoded. -/
theorem loadCells_saveCells (cells : List NotebookCell) :
    loadCells (jsonCells (saveCells cells))
      = (cells.filter (fun c => decide (c.Typ ≠ CellType.other))).map
          (fun c => ⟨c.Typ, jsonString 0 c.Source⟩) := by
  induction cells with
  | nil => rfl
  | cons c rest ih =>
    obtain ⟨typ, src⟩ := c
    have hj := jupyterSourceToString_strings (jsonString 0) (splitLinesForJupyter src)
    unfold jsonCells at ih ⊢
    cases typ
    · simp [saveCells, loadCells, ih, List.filter_cons, hj, jsonString_splitLines]
    · simp [saveCells, loadCells, ih, List.filter_cons, hj, jsonString_splitLines]
    · simp [saveCells, loadCells, ih, List.filter_cons]

/-- C40, refuted as stated: the source with the bytes `78 ff 79 0a` (the byte
`ff` is part of no UTF-8 encoding) is one line for `splitLinesForJupyter`;
what `loadIPYNB` decodes from the file that `saveIPYNB` wrote holds U+FFFD
(`ef bf bd`) in the place of `ff`, so `jupyterSourceToString` returns
`78 ef bf bd 79 0a` and the code cell that is loaded has another source than
the cell that was saved. -/
theorem C40_invalid_utf8_replaced :
    splitLinesForJupyter [0x78, 0xFF, 0x79, 0x0A] = [[0x78, 0xFF, 0x79, 0x0A]] ∧
    jupyterSourceToString
        (JSONValue.array ((splitLinesForJupyter [0x78, 0xFF, 0x79, 0x0A]).map
          (fun l => JSONValue.string (jsonString 0 l))))
      = ([0x78, 0xEF, 0xBF, 0xBD, 0x79, 0x0A], true) ∧
    loadCells (jsonCells (saveCells [⟨CellType.CodeCell, [0x78, 0xFF, 0x79, 0x0A]⟩]))
      = [⟨CellType.CodeCell, [0x78, 0xEF, 0xBF, 0xBD, 0x79, 0x0A]⟩] ∧
    loadCells (jsonCells (saveCells [⟨CellType.CodeCell, [0x78, 0xFF, 0x79, 0x0A]⟩]))
      ≠ [⟨CellType.CodeCell, [0x78, 0xFF, 0x79, 0x0A]⟩] := by
  decide

/-- C40 (amended). For every string `s`, a sequence of bytes: the strings of
`splitLinesForJupyter(s)` joined give `s`; none of them is empty; every one
but the last ends with a line feed; there are none exactly when `s` is empty;
and `jupyterSourceToString` of an array of these very strings is `s`. As the
strings come back from the `.ipynb` file, however, `jupyterSourceToString`
returns `s` with every byte that belongs to no valid UTF-8 encoding replaced
by U+FFFD, which is `s` exactly when `s` is valid UTF-8. So the cells loaded
by `loadIPYNB` from what `saveIPYNB` wrote are the code and markdown cells
that were saved, in their order, each source with these replacements: the
cells themselves when every source is valid UTF-8. -/
theorem C40_splitLines_roundtrip (s : GoString) :
    (splitLinesForJupyter s).flatten = s ∧
      (∀ l ∈ splitLinesForJupyter s, l ≠ []) ∧
      (∀ l ∈ (splitLinesForJupyter s).dropLast, l.getLast? = some 10) ∧
      (splitLinesForJupyter s = [] ↔ s = []) ∧
      jupyterSourceToString (JSONValue.array ((splitLinesForJupyter s).map JSONValue.string))
        = (s, true) ∧
      jupyterSourceToString
          (JSONValue.array ((splitLinesForJupyter s).map
            (fun l => JSONValue.string (jsonString 0 l))))
        = (jsonString 0 s, true) ∧
      (jsonString 0 s = s ↔ ValidString 0 s = true) ∧
      (∀ cells : List NotebookCell,
        loadCells (jsonCells (saveCells cells))
          = (cells.filter (fun c => decide (c.Typ ≠ CellType.other))).map
              (fun c => ⟨c.Typ, jsonString 0 c.Source⟩)) ∧
      (∀ cells : List NotebookCell, (∀ c ∈ cells, ValidString 0 c.Source = true) →
        loadCells (jsonCells (saveCells cells))
          = cells.filter (fun c => decide (c.Typ ≠ CellType.other))) := by
  have hjoin := splitLinesForJupyter_join s
  have hempty : splitLinesForJupyter s = [] ↔ s = [] := by
    constructor
    · intro h
      rw [← hjoin, h]
      rfl
    · rintro rfl; rfl
  have h1 : jupyterSourceToString
      (JSONValue.array ((splitLinesForJupyter s).map JSONValue.string))
      = ((splitLinesForJupyter s).flatten, true) := by
    have := jupyterSourceToString_strings id (splitLinesForJupyter s)
    simpa using this
  refine ⟨hjoin, splitLinesForJupyter_nonempty s, splitLinesForJupyter_ends s, hempty, ?_, ?_,
    jsonString_eq_iff s 0, loadCells_saveCells, ?_⟩
  · rw [h1, hjoin]
  · rw [jupyterSourceToString_strings (jsonString 0), jsonString_splitLines]
  · intro cells hvalid
    rw [loadCells_saveCells]
    have hid : ∀ c ∈ cells.filter (fun c => decide (c.Typ ≠ CellType.other)),
        (⟨c.Typ, jsonString 0 c.Source⟩ : NotebookCell) = c := by
      intro c hc
      have hv := hvalid c (List.mem_of_mem_filter hc)
      rw [(jsonString_eq_iff c.Source 0).mpr hv]
    calc (cells.filter (fun c => decide (c.Typ ≠ CellType.other))).map
            (fun c => (⟨c.Typ, jsonString 0 c.Source⟩ : NotebookCell))
        = (cells.filter (fun c => decide (c.Typ ≠ CellType.other))).map id :=
          List.map_congr_left hid
      _ = cells.filter (fun c => decide (c.Typ ≠ CellType.other)) := List.map_id _

end Notebook

section Pretty

theorem printAll_ok {α : Type} (f : α → Printed) (g : α → String) :
    ∀ xs : List α, (∀ x ∈ xs, f x = .ok (g x)) → printAll f xs = .ok (xs.map g)
  | [], _ => rfl
  | x :: xs, h => by
    have hx := h x (List.mem_cons_self _ _)
    have hxs := printAll_ok f g xs (fun y hy => h y (List.mem_cons_of_mem _ hy))
    simp [printAll, hx, hxs]

theorem lookup_of_mem_keys (pairs : List (String × Value)) (k : String)
    (hk : k ∈ pairs.map Prod.fst) : ∃ v, pairs.lookup k = some v ∧ (k, v) ∈ pairs := by
  induction pairs with
  | nil => simp at hk
  | cons p rest ih =>
    obtain ⟨k1, v1⟩ := p
    by_cases h1 : k = k1
    · subst h1
      exact ⟨v1, by simp [List.lookup], List.mem_cons_self _ _⟩
    · have hne : (k == k1) = false := by simpa using h1
      have hk2 : k ∈ rest.map Prod.fst := by
        simp only [List.map_cons, List.mem_cons] at hk
        rcases hk with hk | hk
        · exact absurd hk h1
        · exact hk
      obtain ⟨v, hv, hmem⟩ := ih hk2
      exact ⟨v, by simp [List.lookup, hne, hv], List.mem_cons_of_mem _ hmem⟩

theorem prettyEntries_toList (ind : String) :
    ∀ (e : String) (es : List String),
      (prettyEntries ind (e :: es)).toList
        = (String.intercalate ",\n" ((e :: es).map (fun x => ind ++ x))).toList ++ ['\n']
  | e, [] => by
    simp [prettyEntries, String.intercalate, String.intercalate.go, String.toList]
  | e, e2 :: es => by
    have ih := prettyEntries_toList ind e2 es
    have h1 := intercalate_go_toList ",\n" (ind ++ e) ((e2 :: es).map (fun x => ind ++ x))
    have h2 := intercalate_go_toList ",\n" (ind ++ e2) (es.map (fun x => ind ++ x))
    simp only [List.map_cons, String.intercalate] at ih h1 h2 ⊢
    simp only [prettyEntries, String.toList, String.data_append] at ih h1 h2 ⊢
    rw [ih, h1, h2]
    simp [List.append_assoc]

theorem prettyEntries_eq (ind : String) (e : String) (es : List String) :
    prettyEntries ind (e :: es)
      = String.intercalate ",\n" ((e :: es).map (fun x => ind ++ x)) ++ "\n" := by
  apply String.ext
  have := prettyEntries_toList ind e es
  simpa [String.toList, String.data_append] using this

theorem sortStrings_perm (keys : List String) : (sortStrings keys).Perm keys :=
  List.perm_insertionSort _ keys

theorem sortStrings_sorted (keys : List String) :
    (sortStrings keys).Sorted (fun a b => a ≤ b) :=
  List.sorted_insertionSort _ keys

/-- Two lists of the same distinct keys, sorted, are sorted alike. -/
theorem sortStrings_of_perm (xs ys : List String) (h : xs.Perm ys) :
    sortStrings xs = sortStrings ys :=
  List.eq_of_perm_of_sorted
    ((sortStrings_perm xs).trans (h.trans (sortStrings_perm ys).symm))
    (sortStrings_sorted xs) (sortStrings_sorted ys)

theorem prettyObject_layout (pr : Printer) (render : Value → Printed)
    (pairs : List (String × Value)) (d : Nat) (t : String → String)
    (hne : pairs ≠ []) (hperm : (pr.rangePairs pairs).Perm pairs)
    (hrender : ∀ kv ∈ pairs, render kv.2 = .ok (t kv.1)) :
    prettyObject pr render pairs d
      = .ok ("\x7b\n"
          ++ String.intercalate ",\n"
              ((sortStrings (pairs.map Prod.fst)).map
                (fun k => repeatSpace (2 * (d + 1)) ++ (k ++ ": " ++ t k)))
          ++ "\n" ++ repeatSpace (2 * d) ++ "\x7d") := by
  have hkeys : sortStrings ((pr.rangePairs pairs).map Prod.fst) = sortStrings (pairs.map Prod.fst) :=
    sortStrings_of_perm _ _ (hperm.map Prod.fst)
  have hlen : ¬ pairs.length = 0 := fun h => hne (List.length_eq_zero.mp h)
  have hall : ∀ k ∈ sortStrings (pairs.map Prod.fst),
      (match render ((pairs.lookup k).getD Value.nil) with
        | .error e => Run.error e
        | .ok s => Run.ok (k ++ ": " ++ s)) = .ok (k ++ ": " ++ t k) := by
    intro k hk
    have hk2 : k ∈ pairs.map Prod.fst := (sortStrings_perm _).subset hk
    obtain ⟨v, hv, hmem⟩ := lookup_of_mem_keys pairs k hk2
    have := hrender (k, v) hmem
    simp only at this
    simp [hv, this]
  have hpa := printAll_ok
    (fun k : String =>
      match render ((pairs.lookup k).getD Value.nil) with
      | .error e => Run.error e
      | .ok s => Run.ok (k ++ ": " ++ s))
    (fun k => k ++ ": " ++ t k) _ hall
  unfold prettyObject
  rw [if_neg hlen, hkeys, hpa]
  simp only
  have hnil : (sortStrings (pairs.map Prod.fst)).map (fun k => k ++ ": " ++ t k) ≠ [] := by
    intro h
    have h1 := List.map_eq_nil_iff.mp h
    have h2 := (sortStrings_perm (pairs.map Prod.fst)).length_eq
    rw [h1] at h2
    simp only [List.length_nil, List.length_map] at h2
    exact hlen h2.symm
  cases hes : (sortStrings (pairs.map Prod.fst)).map (fun k => k ++ ": " ++ t k) with
  | nil => exact absurd hes hnil
  | cons e es =>
    rw [prettyEntries_eq]
    have hmap : (sortStrings (pairs.map Prod.fst)).map
        (fun k => repeatSpace (2 * (d + 1)) ++ (k ++ ": " ++ t k))
        = (e :: es).map (fun x => repeatIndent (d + 1) ++ x) := by
      rw [← hes, List.map_map]
      rfl
    rw [hmap]
    rfl

/-- C35. The output of `Object.Pretty` depends on map iteration order: an
object whose one value is a module object with the bindings `a` and `b`. The
module object is no `PrettyPrinter`, so `Pretty` prints it with `Inspect`,
which visits the bindings in the order of `range` without sorting them: the
same object on the same heap is printed as `m: {a: 1, b: 2}` under one
iteration order and as `m: {b: 2, a: 1}` under the opposite one, the two
printers differing in nothing but that order. -/
theorem C35_nested_module_order :
    prettyValue examplePrinter
        [Cell.Object [("m", Value.ModuleObject 1)], Cell.ModuleObject (some 2),
          Cell.Environment [("a", Value.Integer 1), ("b", Value.Integer 2)] none]
        3 (Value.Object 0) 0
      = .ok "\x7b\n  m: \x7ba: 1, b: 2\x7d\n\x7d" ∧
    prettyValue reversePrinter
        [Cell.Object [("m", Value.ModuleObject 1)], Cell.ModuleObject (some 2),
          Cell.Environment [("a", Value.Integer 1), ("b", Value.Integer 2)] none]
        3 (Value.Object 0) 0
      = .ok "\x7b\n  m: \x7bb: 2, a: 1\x7d\n\x7d" ∧
    reversePrinter.g = examplePrinter.g ∧ reversePrinter.q = examplePrinter.q ∧
    reversePrinter.formatMapKey = examplePrinter.formatMapKey ∧
    reversePrinter.inspectOther = examplePrinter.inspectOther ∧
    (∀ l, (reversePrinter.rangePairs l).Perm (examplePrinter.rangePairs l)) := by
  refine ⟨by decide, by decide, rfl, rfl, rfl, rfl, ?_⟩
  intro l
  exact List.reverse_perm l

/-- The layout of `Pretty` where the values are containers or printed alike
under every iteration order. `Pretty` of an empty Array, Object, Map or Set is
`[]`, `{}`, `map{}` or `set{}`. For a non-empty Object (with distinct keys,
whose values are printed at depth `d + 1` as the texts `t`), `Pretty(d)` is
`{`, a line feed, the entries `key: text` in strictly ascending order of the
keys, each after `2 * (d + 1)` blanks, separated by a comma and a line feed,
then a line feed, `2 * d` blanks and `}`; and this text is the same for every
order in which `range` visits the object's own map, as long as the values are
printed as the same texts. -/
theorem Object_Pretty_layout (pr : Printer) (h : Heap) (fuel p d : Nat) (t : String → String)
    (hne : h.objectPairs p ≠ [])
    (hnodup : ((h.objectPairs p).map Prod.fst).Nodup)
    (hperm : (pr.rangePairs (h.objectPairs p)).Perm (h.objectPairs p))
    (hrender : ∀ kv ∈ h.objectPairs p, prettyValue pr h fuel kv.2 (d + 1) = .ok (t kv.1)) :
    ((∀ q, h.elements q = [] → prettyValue pr h (fuel + 1) (Value.Array q) d = .ok "[]") ∧
      (∀ q, h.objectPairs q = [] → prettyValue pr h (fuel + 1) (Value.Object q) d = .ok "\x7b\x7d") ∧
      (∀ q, h.mapPairs q = [] → prettyValue pr h (fuel + 1) (Value.Map q) d = .ok "map\x7b\x7d") ∧
      (∀ q, h.setElements q = [] →
        prettyValue pr h (fuel + 1) (Value.Set q) d = .ok "set\x7b\x7d")) ∧
    (∃ keys : List String,
      keys.Perm ((h.objectPairs p).map Prod.fst) ∧ keys.Sorted (fun a b => a < b) ∧
      prettyValue pr h (fuel + 1) (Value.Object p) d
        = .ok ("\x7b\n"
            ++ String.intercalate ",\n"
                (keys.map (fun k => repeatSpace (2 * (d + 1)) ++ (k ++ ": " ++ t k)))
            ++ "\n" ++ repeatSpace (2 * d) ++ "\x7d")) ∧
    (∀ pr2 : Printer, (pr2.rangePairs (h.objectPairs p)).Perm (h.objectPairs p) →
      (∀ kv ∈ h.objectPairs p, prettyValue pr2 h fuel kv.2 (d + 1) = .ok (t kv.1)) →
      prettyValue pr2 h (fuel + 1) (Value.Object p) d
        = prettyValue pr h (fuel + 1) (Value.Object p) d) := by
  have hlay : ∀ pr1 : Printer, (pr1.rangePairs (h.objectPairs p)).Perm (h.objectPairs p) →
      (∀ kv ∈ h.objectPairs p, prettyValue pr1 h fuel kv.2 (d + 1) = .ok (t kv.1)) →
      prettyValue pr1 h (fuel + 1) (Value.Object p) d
        = .ok ("\x7b\n"
            ++ String.intercalate ",\n"
                ((sortStrings ((h.objectPairs p).map Prod.fst)).map
                  (fun k => repeatSpace (2 * (d + 1)) ++ (k ++ ": " ++ t k)))
            ++ "\n" ++ repeatSpace (2 * d) ++ "\x7d") := by
    intro pr1 hp1 hr1
    simp only [prettyValue]
    exact prettyObject_layout pr1 _ _ d t hne hp1 hr1
  refine ⟨⟨?_, ?_, ?_, ?_⟩, ?_, ?_⟩
  · intro q hq
    simp [prettyValue, prettyArray, hq]
  · intro q hq
    simp [prettyValue, prettyObject, hq]
  · intro q hq
    simp [prettyValue, prettyMap, hq]
  · intro q hq
    simp [prettyValue, prettySet, hq]
  · refine ⟨sortStrings ((h.objectPairs p).map Prod.fst), sortStrings_perm _, ?_,
      hlay pr hperm hrender⟩
    exact (sortStrings_sorted _).lt_of_le ((sortStrings_perm _).nodup_iff.mpr hnodup)
  · intro pr2 hp2 hr2
    rw [hlay pr2 hp2 hr2, hlay pr hperm hrender]

/-- The layout at an instance: the object with the entries `b: 2` and `a: 1`
is printed with `a` first, whether `range` visits `b` or `a` first. -/
theorem Object_Pretty_layout_example :
    prettyValue examplePrinter [Cell.Object [("b", Value.Integer 2), ("a", Value.Integer 1)]] 2
        (Value.Object 0) 0
      = .ok "\x7b\n  a: 1,\n  b: 2\n\x7d" ∧
    prettyValue reversePrinter [Cell.Object [("b", Value.Integer 2), ("a", Value.Integer 1)]] 2
        (Value.Object 0) 0
      = prettyValue examplePrinter
          [Cell.Object [("b", Value.Integer 2), ("a", Value.Integer 1)]] 2 (Value.Object 0) 0 := by
  have hthm := Object_Pretty_layout examplePrinter
    [Cell.Object [("b", Value.Integer 2), ("a", Value.Integer 1)]] 1 0 0
    (fun k => if k = "a" then "1" else "2") (by decide) (by decide) (List.Perm.refl _)
    (by decide)
  obtain ⟨keys, hperm, hsorted, hout⟩ := hthm.2.1
  have hab : List.Sorted (fun a b : String => a < b) ["a", "b"] := by
    simp only [List.sorted_cons, List.mem_singleton, forall_eq, List.not_mem_nil,
      false_implies, implies_true, List.sorted_nil, and_true]
    exact String.lt_iff_toList_lt.mpr (by decide)
  have hkeys : keys = ["a", "b"] :=
    List.eq_of_perm_of_sorted (hperm.trans (List.Perm.swap "a" "b" [])) hsorted hab
  refine ⟨?_, hthm.2.2 reversePrinter (List.reverse_perm _) (by decide)⟩
  rw [hout, hkeys]
  decide

end Pretty

end Karl
